import Mathlib

/-!
LibBi dense linear algebra layer.

A shallow embedding of `bi/math/operation.hpp`, followed by the comparison
operators of `bi/program/Loop.hpp`.

* Element type `real` is modelled by exact rationals; rounding is not
  modelled, with one exception: the product `factor *= smallest` of `chol`
  decides whether the retry loop can exit (it may underflow to zero), so it is
  computed by the collaborator `Ext.fl_mul`.
* A vector or matrix view is a value: its location flag (`on_device`), its
  shape, its stride data and its logical elements.
* A call returns a `Run`: the log of staging, synchronisation and vendor
  calls it issued, the state of its output operand on exit, and the abnormal
  condition (if any) that ended it.
* Vendor routines whose result is a status code or a non-trivial numerical
  object are parameters (`Ext`, `Blas`); `axpy`, `scal`, `gemv` and the
  diagonal `gbmv` are given their BLAS meaning.
-/

namespace bi

/-- The element type `real` of the library. -/
abbrev real := ℚ

/-- Strategies for handling singular matrices in `chol` (lines 21-31). -/
inductive CholeskyStrategy
  | ADJUST_DIAGONAL
  | FAIL
  deriving DecidableEq, Repr

/-- Where a buffer lives: the static `on_device` flag of a type, as a value. -/
inductive Loc
  | host
  | device
  deriving DecidableEq, Repr

/-- Location named by an `on_device` flag. -/
def Loc.of (on_device : Bool) : Loc :=
  if on_device then Loc.device else Loc.host

/-- Abnormal ends of a call. -/
inductive Err
  | assert
  | BI_ASSERT
  | CholeskyException (info : Int)
  | CholeskyDowndateException (info : Int)
  deriving DecidableEq, Repr

/-- Vendor entry points called from `operation.hpp`. -/
inductive Routine
  | scal | axpy | gemv | symv | trmv | gbmv | gemm | symm | trmm
  | ger | syr | syr2 | syrk | potrf | potrs | trsv | trsm | ch1up | ch1dn | dot
  deriving DecidableEq, Repr

/-- Formal parameter names of the primitives, used to tag staging events. -/
inductive Operand
  | A | B | C | L | U | X | Y | a | b | x | y
  deriving DecidableEq, Repr

/-- Vector view: location, element count, increment and logical elements. -/
structure Vec where
  on_device : Bool
  size : Nat
  inc : Nat
  elem : Nat → real

/-- Matrix view: location, shape, leading dimension and logical elements. -/
structure Mat where
  on_device : Bool
  size1 : Nat
  size2 : Nat
  lead : Nat
  elem : Nat → Nat → real

/-- What a call does to the outside world, in program order. -/
inductive Event
  | map (target : Loc) (arg : Operand)
  | release (arg : Operand)
  | synchronize
  | vendor (backend : Loc) (r : Routine) (dims : List Nat)
  | potrf (backend : Loc) (uplo : Char) (N : Nat) (buf : Mat)

/-- Outcome of a call: event log, output operand on exit, abnormal end. -/
structure Run (α : Type) where
  trace : List Event
  out : α
  err : Option Err

/-- Collaborators that are not part of `operation.hpp`: the status-reporting
vendor routines (first argument: the backend whose entry point is called),
`amin`/`amax` of `primitive.hpp` over an iterator range,
`std::numeric_limits<real>::digits`, and the product of two `real` values as
the machine computes it (`fl_mul`: it may round, and it underflows to zero on
operands that are small enough). -/
structure Ext where
  digits : Nat
  fl_mul : real → real → real
  amin : List real → real
  amax : List real → real
  potrf : Loc → Char → Nat → Mat → (Nat → Nat → real) × Int
  potrs : Loc → Char → Nat → Nat → Mat → Nat → Mat → Nat → (Nat → Nat → real) × Int
  ch1dn : Nat → Mat → Nat → Vec → Vec →
    (Nat → Nat → real) × (Nat → real) × (Nat → real) × Int

/-- Elements of a vector as an iterator range `begin() .. end()`. -/
def Vec.range (v : Vec) : List real :=
  (List.range v.size).map v.elem

/-- The call `y.clear()`: zero every element. -/
def Vec.clear (y : Vec) : Vec :=
  { y with elem := fun _ => 0 }

/-- The call `A.clear()`: zero every element. -/
def Mat.clear (A : Mat) : Mat :=
  { A with elem := fun _ _ => 0 }

/-- The assignment `L = A` on matrix views: copy the elements, keep the view. -/
def Mat.assign (L A : Mat) : Mat :=
  { L with elem := A.elem }

/-- The view `diagonal(L)`. -/
def diagonal (L : Mat) : Vec :=
  { on_device := L.on_device, size := min L.size1 L.size2, inc := L.lead + 1,
    elem := fun i => L.elem i i }

/-- Writing through the view `diagonal(L)`. -/
def Mat.set_diagonal (L : Mat) (d : Vec) : Mat :=
  { L with elem := fun i j => if i = j ∧ i < d.size then d.elem i else L.elem i j }

/-- Modelled from the spec: `temp_vector<M2>(n)` of `temp_vector.hpp`, a fresh
contiguous vector at the location of `M2`. -/
def temp_vector (on_device : Bool) (n : Nat) : Vec :=
  { on_device := on_device, size := n, inc := 1, elem := fun _ => 0 }

/-- The call `bi::fill(v.begin(), v.end(), c)`. -/
def fill (v : Vec) (c : real) : Vec :=
  { v with elem := fun i => if i < v.size then c else v.elem i }

/-- Modelled from the spec: `gpu_map_vector` of `temp_vector.hpp` (section 4.1):
an operand already on the device is referenced, otherwise it is copied into a
contiguous device temporary. -/
def gpu_map_vector (x : Vec) : Vec :=
  if x.on_device then x else { x with on_device := true, inc := 1 }

/-- Modelled from the spec: `host_map_vector` of `temp_vector.hpp` (section 4.1). -/
def host_map_vector (x : Vec) : Vec :=
  if x.on_device then { x with on_device := false, inc := 1 } else x

/-- Modelled from the spec: `gpu_map_matrix` of `temp_matrix.hpp` (section 4.1). -/
def gpu_map_matrix (A : Mat) : Mat :=
  if A.on_device then A else { A with on_device := true, lead := A.size1 }

/-- Modelled from the spec: `host_map_matrix` of `temp_matrix.hpp` (section 4.1). -/
def host_map_matrix (A : Mat) : Mat :=
  if A.on_device then { A with on_device := false, lead := A.size1 } else A

/-- Modelled from the spec: `cblas_axpy` and `cublas_axpy` (wrappers in
`cblas.hpp`, `cublas.hpp`), `y ← a·x + y` on the first `n` elements. -/
def blas_axpy (n : Nat) (a : real) (x y : Nat → real) : Nat → real :=
  fun i => if i < n then a * x i + y i else y i

/-- Translation of `bi::axpy` (lines 749-777). -/
def axpy (a : real) (x y : Vec) (clear : Bool) : Run Vec :=
  if x.size = y.size then
    let y0 := if clear then y.clear else y
    if y.on_device then
      let x1 := gpu_map_vector x
      { trace := [Event.map Loc.device Operand.x,
                  Event.vendor Loc.device Routine.axpy [y0.size, x1.inc, y0.inc],
                  Event.synchronize,
                  Event.release Operand.x],
        out := { y0 with elem := blas_axpy y0.size a x1.elem y0.elem },
        err := none }
    else
      let x1 := host_map_vector x
      { trace := [Event.map Loc.host Operand.x]
                  ++ (if x.on_device then [Event.synchronize] else [])
                  ++ [Event.vendor Loc.host Routine.axpy [y0.size, x1.inc, y0.inc],
                      Event.release Operand.x],
        out := { y0 with elem := blas_axpy y0.size a x1.elem y0.elem },
        err := none }
  else
    { trace := [], out := y, err := some Err.assert }

/-- Loop state of `chol`: contents of the buffer of `L`, `info`, `factor`,
and the events issued so far. -/
structure CholState where
  buf : Nat → Nat → real
  info : Int
  factor : real
  trace : List Event

/-- Body of the retry loop of `chol` (lines 517-527). The assertion of the
inner `axpy` holds by construction (`eps` has `d.size()` elements). -/
def chol_body (E : Ext) (A L : Mat) (uplo : Char) (N : Nat) (eps : Vec)
    (s : CholState) : CholState :=
  let L1 := ({ L with elem := s.buf } : Mat).assign A
  let r := axpy s.factor eps (diagonal L1) false
  let L2 := L1.set_diagonal r.out
  if L.on_device then
    let p := E.potrf Loc.device uplo N L2
    { buf := p.1, info := p.2, factor := s.factor * 2,
      trace := s.trace ++ r.trace ++ [Event.potrf Loc.device uplo N L2, Event.synchronize] }
  else
    let p := E.potrf Loc.host uplo N L2
    { buf := p.1, info := p.2, factor := s.factor * 2,
      trace := s.trace ++ r.trace ++ [Event.potrf Loc.host uplo N L2] }

/-- The loop `while (info != 0 && factor < largest)` (line 516), run for at
most `fuel` iterations. The doubling `factor *= 2.0` is exact in binary
floating point; where it overflows it yields infinity, which, like the exact
product, is not below `largest`. -/
def chol_loop (E : Ext) (A L : Mat) (uplo : Char) (N : Nat) (eps : Vec)
    (largest : real) : Nat → CholState → CholState
  | 0, s => s
  | fuel + 1, s =>
    if s.info ≠ 0 ∧ s.factor < largest then
      chol_loop E A L uplo N eps largest fuel (chol_body E A L uplo N eps s)
    else s

/-- A number of iterations after which a positive `factor`, doubled each
time, is no longer below `largest`. -/
def chol_fuel (factor largest : real) : Nat :=
  Nat.ceil (largest / factor)

/-- First decomposition of `chol` (lines 492-503). -/
def chol_first (E : Ext) (A L : Mat) (uplo : Char) (N : Nat) : CholState :=
  let L1 := L.assign A
  if L.on_device then
    let p := E.potrf Loc.device uplo N L1
    { buf := p.1, info := p.2, factor := 0,
      trace := [Event.potrf Loc.device uplo N L1, Event.synchronize] }
  else
    let p := E.potrf Loc.host uplo N L1
    { buf := p.1, info := p.2, factor := 0,
      trace := (if A.on_device then [Event.synchronize] else [])
                ++ [Event.potrf Loc.host uplo N L1] }

/-- Initial `factor` of the retry loop (lines 509-514), from the diagonal `d`
of the failed factor. The power of two `pow(2.0, -digits)` is exact; the
product `factor *= smallest` is the machine product. -/
def chol_factor (E : Ext) (d : Vec) : real :=
  let smallest := E.amin d.range
  let factor := (2 : real) ^ (-(E.digits : Int))
  if smallest > 0 then E.fl_mul factor smallest else factor

/-- Diagonal loading of `chol` (lines 504-530). The `while` loop of the source
has no bound of its own; it is followed here for `chol_fuel factor largest`
iterations, which `chol_loop_done` shows to be enough for the loop to meet its
exit condition whenever `factor` is positive. With `factor = 0` (the product
has underflowed) and a decomposition that keeps failing the loop of the source
does not exit at all (`chol_loop_stuck`): the statements on the outcome of the
retries therefore carry the hypothesis `0 < eps0`. -/
def chol_adjust (E : Ext) (A L : Mat) (uplo : Char) (N : Nat) (s : CholState) : CholState :=
  let d := diagonal { L with elem := s.buf }
  let eps := fill (temp_vector L.on_device d.size) 1
  let largest := E.amax d.range
  let factor := chol_factor E d
  chol_loop E A L uplo N eps largest (chol_fuel factor largest)
    { buf := s.buf, info := s.info, factor := factor, trace := s.trace }

/-- The pre-conditions asserted by `chol` (lines 483-486). -/
def chol_pre (A L : Mat) (uplo : Char) : Prop :=
  (uplo = 'U' ∨ uplo = 'L') ∧ A.size1 = L.size1 ∧ A.size2 = L.size2
    ∧ L.size1 = L.size2

instance (A L : Mat) (uplo : Char) : Decidable (chol_pre A L uplo) := by
  unfold chol_pre; infer_instance

/-- Translation of `bi::chol` (lines 476-535). -/
def chol (E : Ext) (A L : Mat) (uplo : Char) (strat : CholeskyStrategy) : Run Mat :=
  if chol_pre A L uplo then
    let N := A.size1
    let s0 := chol_first E A L uplo N
    let s1 :=
      if s0.info ≠ 0 ∧ strat = CholeskyStrategy.ADJUST_DIAGONAL then
        chol_adjust E A L uplo N s0
      else s0
    { trace := s1.trace, out := { L with elem := s1.buf },
      err := if s1.info ≠ 0 then some (Err.CholeskyException s1.info) else none }
  else
    { trace := [], out := L, err := some Err.assert }

/-- Translation of `bi::ch1dn` (lines 557-580). The element types of the three
operands are all `real`, so the two `equals` assertions hold. -/
def ch1dn (E : Ext) (U : Mat) (a b : Vec) : Run (Mat × Vec × Vec) :=
  if U.size1 = U.size2 ∧ U.size1 = a.size ∧ U.size1 = b.size then
    if U.on_device = false ∧ a.on_device = false ∧ b.on_device = false then
      let n := a.size
      let ld := U.lead
      let r := E.ch1dn n U ld a b
      { trace := [Event.vendor Loc.host Routine.ch1dn [n, ld]],
        out := ({ U with elem := r.1 }, { a with elem := r.2.1 }, { b with elem := r.2.2.1 }),
        err := if r.2.2.2 ≠ 0 then some (Err.CholeskyDowndateException r.2.2.2) else none }
    else
      { trace := [], out := (U, a, b), err := some Err.BI_ASSERT }
  else
    { trace := [], out := (U, a, b), err := some Err.assert }

/-- Translation of `bi::potrs` (lines 1361-1394). -/
def potrs (E : Ext) (L X : Mat) (uplo : Char) : Run Mat :=
  if (uplo = 'U' ∨ uplo = 'L') ∧ L.size2 = X.size1 then
    let N := L.size1
    let M := X.size2
    let ldL := L.lead
    let ldX := X.lead
    if X.on_device then
      let L1 := gpu_map_matrix L
      let r := E.potrs Loc.device uplo N M L1 ldL X ldX
      { trace := [Event.map Loc.device Operand.L,
                  Event.vendor Loc.device Routine.potrs [N, M, ldL, ldX],
                  Event.synchronize,
                  Event.release Operand.L],
        out := { X with elem := r.1 },
        err := if r.2 = 0 then none else some Err.BI_ASSERT }
    else
      let L1 := host_map_matrix L
      let r := E.potrs Loc.host uplo N M L1 ldL X ldX
      { trace := [Event.map Loc.host Operand.L]
                  ++ (if L.on_device then [Event.synchronize] else [])
                  ++ [Event.vendor Loc.host Routine.potrs [N, M, ldL, ldX],
                      Event.release Operand.L],
        out := { X with elem := r.1 },
        err := if r.2 = 0 then none else some Err.BI_ASSERT }
  else
    { trace := [], out := X, err := some Err.assert }

/-- Vendor routines of level 2 and 3 whose numerical result is left open: each
takes the backend whose entry point is called, the flags and dimensions passed,
the operands, and returns the new elements of the output operand. -/
structure Blas where
  symv : Loc → Char → Nat → real → Mat → Vec → real → Vec → (Nat → real)
  trmv : Loc → Char → Char → Nat → Mat → Vec → (Nat → real)
  gemm : Loc → Char → Char → Nat → Nat → Nat → real → Mat → Mat → real → Mat →
    (Nat → Nat → real)
  symm : Loc → Char → Char → Nat → Nat → real → Mat → Mat → real → Mat → (Nat → Nat → real)
  trmm : Loc → Char → Char → Char → Nat → Nat → real → Mat → Mat → (Nat → Nat → real)
  ger : Loc → Nat → Nat → real → Vec → Vec → Mat → (Nat → Nat → real)
  syr : Loc → Char → Nat → real → Vec → Mat → (Nat → Nat → real)
  syr2 : Loc → Char → Nat → real → Vec → Vec → Mat → (Nat → Nat → real)
  syrk : Loc → Char → Char → Nat → Nat → real → Mat → real → Mat → (Nat → Nat → real)
  trsv : Loc → Char → Char → Char → Nat → Mat → Vec → (Nat → real)
  trsm : Loc → Char → Char → Char → Char → Nat → Nat → real → Mat → Mat →
    (Nat → Nat → real)

/-- The view `column(X, j)`. -/
def column (X : Mat) (j : Nat) : Vec :=
  { on_device := X.on_device, size := X.size1, inc := 1, elem := fun i => X.elem i j }

/-- Writing through the view `column(Y, j)`. -/
def Mat.set_column (Y : Mat) (j : Nat) (v : Vec) : Mat :=
  { Y with elem := fun i k => if k = j ∧ i < v.size then v.elem i else Y.elem i k }

/-- The view `vec(X)` of a matrix without padding: its columns one after the other. -/
def vec (X : Mat) : Vec :=
  { on_device := X.on_device, size := X.size1 * X.size2, inc := 1,
    elem := fun k => X.elem (k % X.size1) (k / X.size1) }

/-- Writing through the view `vec(X)`. -/
def Mat.set_vec (X : Mat) (v : Vec) : Mat :=
  { X with elem := fun i j =>
      if i < X.size1 ∧ j < X.size2 then v.elem (j * X.size1 + i) else X.elem i j }

/-- Sequencing: continue with `f` on the output of `r` unless `r` ended abnormally. -/
def Run.next {α : Type} (r : Run α) (f : α → Run α) : Run α :=
  match r.err with
  | some _ => r
  | none =>
    { trace := r.trace ++ (f r.out).trace, out := (f r.out).out, err := (f r.out).err }

/-- The loop `for (j = 0; j < n; ++j) body(j)` over an output operand. -/
def for_loop {α : Type} (n : Nat) (body : Nat → α → Run α) (init : Run α) : Run α :=
  (List.range n).foldl (fun r j => r.next (body j)) init

/-- A call on the view `column(Y, j)` seen as a call on `Y`. -/
def on_column (Y : Mat) (j : Nat) (r : Run Vec) : Run Mat :=
  { trace := r.trace, out := Y.set_column j r.out, err := r.err }

/-- Modelled from the spec: `cblas_scal` and `cublas_scal`, `x ← alpha·x` on
the first `n` elements. -/
def blas_scal (n : Nat) (alpha : real) (x : Nat → real) : Nat → real :=
  fun i => if i < n then alpha * x i else x i

/-- Modelled from the spec: `cblas_gbmv` and `cublas_gbmv` with no sub- or
super-diagonal, `y ← alpha·diag(A)·x + beta·y` on the first `n` elements. -/
def blas_gbmv (n : Nat) (alpha : real) (A x : Nat → real) (beta : real) (y : Nat → real) :
    Nat → real :=
  fun i => if i < n then alpha * (A i * x i) + beta * y i else y i

/-- Modelled from the spec: `cblas_gemv` and `cublas_gemv` on an `m×n` matrix,
`y ← alpha·op(A)·x + beta·y`. -/
def blas_gemv (trans : Char) (m n : Nat) (alpha : real) (A : Nat → Nat → real)
    (x : Nat → real) (beta : real) (y : Nat → real) : Nat → real :=
  if trans = 'N' then
    fun i => if i < m then alpha * (∑ j ∈ Finset.range n, A i j * x j) + beta * y i else y i
  else
    fun j => if j < n then alpha * (∑ i ∈ Finset.range m, A i j * x i) + beta * y j else y j

/-- Translation of `bi::scal` (lines 671-681). -/
def scal (alpha : real) (x : Vec) : Run Vec :=
  if x.on_device then
    { trace := [Event.vendor Loc.device Routine.scal [x.size, x.inc]],
      out := { x with elem := blas_scal x.size alpha x.elem }, err := none }
  else
    { trace := [Event.vendor Loc.host Routine.scal [x.size, x.inc]],
      out := { x with elem := blas_scal x.size alpha x.elem }, err := none }

/-- Translation of `bi::matrix_scal` (lines 970-982). -/
def matrix_scal (alpha : real) (X : Mat) : Run Mat :=
  if X.size1 = X.lead then
    let r := scal alpha (vec X)
    { trace := r.trace, out := X.set_vec r.out, err := r.err }
  else
    for_loop X.size2 (fun j Y => on_column Y j (scal alpha (column Y j)))
      { trace := [], out := X, err := none }

/-- Translation of `bi::gemv` (lines 779-814). -/
def gemv (alpha : real) (A : Mat) (x : Vec) (beta : real) (y : Vec) (transA : Char) :
    Run Vec :=
  if (transA = 'N' ∨ transA = 'T')
      ∧ (transA ≠ 'N' ∨ (A.size2 = x.size ∧ A.size1 = y.size))
      ∧ (transA ≠ 'T' ∨ (A.size1 = x.size ∧ A.size2 = y.size)) then
    if y.on_device then
      let A1 := gpu_map_matrix A
      let x1 := gpu_map_vector x
      { trace := [Event.map Loc.device Operand.A, Event.map Loc.device Operand.x,
                  Event.vendor Loc.device Routine.gemv
                    [A1.size1, A1.size2, A1.lead, x1.inc, y.inc],
                  Event.synchronize, Event.release Operand.A, Event.release Operand.x],
        out := { y with
          elem := blas_gemv transA A1.size1 A1.size2 alpha A1.elem x1.elem beta y.elem },
        err := none }
    else
      let A1 := host_map_matrix A
      let x1 := host_map_vector x
      { trace := [Event.map Loc.host Operand.A, Event.map Loc.host Operand.x]
                  ++ (if A.on_device ∨ x.on_device then [Event.synchronize] else [])
                  ++ [Event.vendor Loc.host Routine.gemv
                        [A1.size1, A1.size2, A1.lead, x1.inc, y.inc],
                      Event.release Operand.A, Event.release Operand.x],
        out := { y with
          elem := blas_gemv transA A1.size1 A1.size2 alpha A1.elem x1.elem beta y.elem },
        err := none }
  else
    { trace := [], out := y, err := some Err.assert }

/-- Translation of `bi::symv` (lines 816-850). -/
def symv (B : Blas) (alpha : real) (A : Mat) (x : Vec) (beta : real) (y : Vec)
    (uplo : Char) : Run Vec :=
  if (uplo = 'U' ∨ uplo = 'L') ∧ (A.size2 = x.size ∧ A.size1 = y.size) then
    if y.on_device then
      let A1 := gpu_map_matrix A
      let x1 := gpu_map_vector x
      { trace := [Event.map Loc.device Operand.A, Event.map Loc.device Operand.x,
                  Event.vendor Loc.device Routine.symv [A1.size1, A1.lead, x1.inc, y.inc],
                  Event.synchronize, Event.release Operand.A, Event.release Operand.x],
        out := { y with elem := B.symv Loc.device uplo A1.size1 alpha A1 x1 beta y },
        err := none }
    else
      let A1 := host_map_matrix A
      let x1 := host_map_vector x
      { trace := [Event.map Loc.host Operand.A, Event.map Loc.host Operand.x]
                  ++ (if A.on_device ∨ x.on_device then [Event.synchronize] else [])
                  ++ [Event.vendor Loc.host Routine.symv [A1.size1, A1.lead, x1.inc, y.inc],
                      Event.release Operand.A, Event.release Operand.x],
        out := { y with elem := B.symv Loc.host uplo A1.size1 alpha A1 x1 beta y },
        err := none }
  else
    { trace := [], out := y, err := some Err.assert }

/-- Translation of `bi::trmv` (lines 852-880). -/
def trmv (B : Blas) (A : Mat) (x : Vec) (uplo transA : Char) : Run Vec :=
  if (uplo = 'U' ∨ uplo = 'L') ∧ (transA = 'N' ∨ transA = 'T')
      ∧ (transA ≠ 'N' ∨ A.size2 = x.size) ∧ (transA ≠ 'T' ∨ A.size1 = x.size) then
    if x.on_device then
      let A1 := gpu_map_matrix A
      { trace := [Event.map Loc.device Operand.A,
                  Event.vendor Loc.device Routine.trmv [x.size, A1.lead, x.inc],
                  Event.synchronize, Event.release Operand.A],
        out := { x with elem := B.trmv Loc.device uplo transA x.size A1 x },
        err := none }
    else
      let A1 := host_map_matrix A
      { trace := [Event.map Loc.host Operand.A]
                  ++ (if A.on_device then [Event.synchronize] else [])
                  ++ [Event.vendor Loc.host Routine.trmv [x.size, A1.lead, x.inc],
                      Event.release Operand.A],
        out := { x with elem := B.trmv Loc.host uplo transA x.size A1 x },
        err := none }
  else
    { trace := [], out := x, err := some Err.assert }

/-- Translation of `bi::gdmv` (lines 1113-1144). -/
def gdmv (alpha : real) (A x : Vec) (beta : real) (y : Vec) : Run Vec :=
  if A.size = x.size ∧ x.size = y.size then
    if y.on_device then
      let A1 := gpu_map_vector A
      let x1 := gpu_map_vector x
      { trace := [Event.map Loc.device Operand.A, Event.map Loc.device Operand.x,
                  Event.vendor Loc.device Routine.gbmv
                    [A1.size, A1.size, 0, 0, A1.inc, x1.inc, y.inc],
                  Event.synchronize, Event.release Operand.A, Event.release Operand.x],
        out := { y with elem := blas_gbmv A1.size alpha A1.elem x1.elem beta y.elem },
        err := none }
    else
      let A1 := host_map_vector A
      let x1 := host_map_vector x
      { trace := [Event.map Loc.host Operand.A, Event.map Loc.host Operand.x]
                  ++ (if A.on_device ∨ x.on_device then [Event.synchronize] else [])
                  ++ [Event.vendor Loc.host Routine.gbmv
                        [A1.size, A1.size, 0, 0, A1.inc, x1.inc, y.inc],
                      Event.release Operand.A, Event.release Operand.x],
        out := { y with elem := blas_gbmv A1.size alpha A1.elem x1.elem beta y.elem },
        err := none }
  else
    { trace := [], out := y, err := some Err.assert }

/-- The pre-conditions asserted by `gemm` (lines 993-1007). -/
def gemm_pre (A X Y : Mat) (transA transX : Char) : Prop :=
  (transA = 'N' ∨ transA = 'T') ∧ (transX = 'N' ∨ transX = 'T')
  ∧ (¬ (transA = 'N' ∧ transX = 'N')
      ∨ (A.size2 = X.size1 ∧ A.size1 = Y.size1 ∧ X.size2 = Y.size2))
  ∧ (¬ (transA = 'T' ∧ transX = 'T')
      ∨ (A.size1 = X.size2 ∧ A.size2 = Y.size1 ∧ X.size1 = Y.size2))
  ∧ (¬ (transA = 'N' ∧ transX = 'T')
      ∨ (A.size2 = X.size2 ∧ A.size1 = Y.size1 ∧ X.size1 = Y.size2))
  ∧ (¬ (transA = 'T' ∧ transX = 'N')
      ∨ (A.size1 = X.size1 ∧ A.size2 = Y.size1 ∧ X.size2 = Y.size2))
  ∧ (if transA = 'T' then A.size2 else A.size1) = Y.size1
  ∧ (if transX = 'T' then X.size1 else X.size2) = Y.size2

instance (A X Y : Mat) (transA transX : Char) : Decidable (gemm_pre A X Y transA transX) := by
  unfold gemm_pre; infer_instance

/-- Translation of `bi::gemm` (lines 984-1032). -/
def gemm (B : Blas) (alpha : real) (A X : Mat) (beta : real) (Y : Mat)
    (transA transX : Char) : Run Mat :=
  if gemm_pre A X Y transA transX then
    let m := if transA = 'T' then A.size2 else A.size1
    let n := if transX = 'T' then X.size1 else X.size2
    let k := if transA = 'T' then A.size1 else A.size2
    if Y.on_device then
      let A1 := gpu_map_matrix A
      let X1 := gpu_map_matrix X
      { trace := [Event.map Loc.device Operand.A, Event.map Loc.device Operand.X,
                  Event.vendor Loc.device Routine.gemm [m, n, k, A1.lead, X1.lead, Y.lead],
                  Event.synchronize, Event.release Operand.A, Event.release Operand.X],
        out := { Y with
          elem := B.gemm Loc.device transA transX m n k alpha A1 X1 beta Y },
        err := none }
    else
      let A1 := host_map_matrix A
      let X1 := host_map_matrix X
      { trace := [Event.map Loc.host Operand.A, Event.map Loc.host Operand.X]
                  ++ (if A.on_device ∨ X.on_device then [Event.synchronize] else [])
                  ++ [Event.vendor Loc.host Routine.gemm [m, n, k, A1.lead, X1.lead, Y.lead],
                      Event.release Operand.A, Event.release Operand.X],
        out := { Y with
          elem := B.gemm Loc.host transA transX m n k alpha A1 X1 beta Y },
        err := none }
  else
    { trace := [], out := Y, err := some Err.assert }

/-- Translation of `bi::symm` (lines 1034-1074). -/
def symm (B : Blas) (alpha : real) (A X : Mat) (beta : real) (Y : Mat)
    (side uplo : Char) : Run Mat :=
  if (side = 'L' ∨ side = 'R') ∧ (uplo = 'U' ∨ uplo = 'L')
      ∧ (¬ side = 'L' ∨ (A.size2 = X.size1 ∧ A.size1 = Y.size1 ∧ X.size2 = Y.size2))
      ∧ (¬ side = 'R' ∨ (X.size2 = A.size1 ∧ X.size1 = Y.size1 ∧ A.size2 = Y.size2)) then
    if Y.on_device then
      let A1 := gpu_map_matrix A
      let X1 := gpu_map_matrix X
      { trace := [Event.map Loc.device Operand.A, Event.map Loc.device Operand.X,
                  Event.vendor Loc.device Routine.symm
                    [Y.size1, Y.size2, A1.lead, X1.lead, Y.lead],
                  Event.synchronize, Event.release Operand.A, Event.release Operand.X],
        out := { Y with
          elem := B.symm Loc.device side uplo Y.size1 Y.size2 alpha A1 X1 beta Y },
        err := none }
    else
      let A1 := host_map_matrix A
      let X1 := host_map_matrix X
      { trace := [Event.map Loc.host Operand.A, Event.map Loc.host Operand.X]
                  ++ (if A.on_device ∨ X.on_device then [Event.synchronize] else [])
                  ++ [Event.vendor Loc.host Routine.symm
                        [Y.size1, Y.size2, A1.lead, X1.lead, Y.lead],
                      Event.release Operand.A, Event.release Operand.X],
        out := { Y with
          elem := B.symm Loc.host side uplo Y.size1 Y.size2 alpha A1 X1 beta Y },
        err := none }
  else
    { trace := [], out := Y, err := some Err.assert }

/-- Translation of `bi::trmm` (lines 1076-1111); the output operand is `B`,
here `Bm`. -/
def trmm (B : Blas) (alpha : real) (A Bm : Mat) (side uplo transA : Char) : Run Mat :=
  if (side = 'L' ∨ side = 'R') ∧ (uplo = 'U' ∨ uplo = 'L') ∧ (transA = 'T' ∨ transA = 'N')
      ∧ (¬ (transA = 'N' ∧ side = 'L') ∨ A.size2 = Bm.size1)
      ∧ (¬ (transA = 'T' ∧ side = 'L') ∨ A.size1 = Bm.size1)
      ∧ (¬ (transA = 'N' ∧ side = 'R') ∨ Bm.size2 = A.size1)
      ∧ (¬ (transA = 'T' ∧ side = 'R') ∨ Bm.size2 = A.size2) then
    if Bm.on_device then
      let A1 := gpu_map_matrix A
      { trace := [Event.map Loc.device Operand.A,
                  Event.vendor Loc.device Routine.trmm
                    [Bm.size1, Bm.size2, A1.lead, Bm.lead, Bm.lead],
                  Event.synchronize, Event.release Operand.A],
        out := { Bm with
          elem := B.trmm Loc.device side uplo transA Bm.size1 Bm.size2 alpha A1 Bm },
        err := none }
    else
      let A1 := host_map_matrix A
      { trace := [Event.map Loc.host Operand.A]
                  ++ (if A.on_device then [Event.synchronize] else [])
                  ++ [Event.vendor Loc.host Routine.trmm [Bm.size1, Bm.size2, A1.lead, Bm.lead],
                      Event.release Operand.A],
        out := { Bm with
          elem := B.trmm Loc.host side uplo transA Bm.size1 Bm.size2 alpha A1 Bm },
        err := none }
  else
    { trace := [], out := Bm, err := some Err.assert }

/-- Append the closing events of a call unless it already ended abnormally. -/
def Run.finish {α : Type} (r : Run α) (tail : List Event) : Run α :=
  match r.err with
  | some _ => r
  | none => { trace := r.trace ++ tail, out := r.out, err := none }

/-- The step `if (beta == 0.0) Y.clear(); else matrix_scal(beta, Y);` of `gdmm`,
after the events `pre`. -/
def gdmm_scale (pre : List Event) (beta : real) (Y : Mat) : Run Mat :=
  if beta = 0 then
    { trace := pre, out := Y.clear, err := none }
  else
    { trace := pre ++ (matrix_scal beta Y).trace, out := (matrix_scal beta Y).out,
      err := (matrix_scal beta Y).err }

/-- Translation of `bi::gdmm` (lines 1146-1214). -/
def gdmm (alpha : real) (A : Vec) (X : Mat) (beta : real) (Y : Mat) (side : Char) :
    Run Mat :=
  if (side = 'L' ∨ side = 'R')
      ∧ (side ≠ 'L' ∨ (A.size = Y.size1 ∧ Y.size1 = A.size ∧ Y.size2 = X.size2))
      ∧ (side ≠ 'R' ∨ (X.size2 = A.size ∧ Y.size1 = X.size1 ∧ Y.size2 = A.size)) then
    if Y.on_device then
      let X1 := gpu_map_matrix X
      if side = 'L' then
        let A1 := gpu_map_vector A
        (for_loop X1.size2
          (fun j Y => on_column Y j (gdmv alpha A1 (column X1 j) beta (column Y j)))
          { trace := [Event.map Loc.device Operand.X, Event.map Loc.device Operand.A],
            out := Y, err := none }).finish
          [Event.synchronize, Event.release Operand.A, Event.release Operand.X]
      else
        let A1 := host_map_vector A
        (for_loop X1.size2
          (fun j Y => on_column Y j
            (axpy (alpha * A1.elem j) (column X1 j) (column Y j) false))
          (gdmm_scale
            ([Event.map Loc.device Operand.X, Event.map Loc.host Operand.A]
              ++ (if A.on_device then [Event.synchronize] else []))
            beta Y)).finish
          [Event.synchronize, Event.release Operand.A, Event.release Operand.X]
    else
      let A1 := host_map_vector A
      let X1 := host_map_matrix X
      let pre := [Event.map Loc.host Operand.A, Event.map Loc.host Operand.X]
        ++ (if A.on_device ∨ X.on_device then [Event.synchronize] else [])
      if side = 'L' then
        (for_loop X1.size2
          (fun j Y => on_column Y j (gdmv alpha A1 (column X1 j) beta (column Y j)))
          { trace := pre, out := Y, err := none }).finish
          [Event.release Operand.A, Event.release Operand.X]
      else
        (for_loop X1.size2
          (fun j Y => on_column Y j
            (axpy (alpha * A1.elem j) (column X1 j) (column Y j) false))
          (gdmm_scale pre beta Y)).finish
          [Event.release Operand.A, Event.release Operand.X]
  else
    { trace := [], out := Y, err := some Err.assert }

/-! ## Vocabulary of the statements -/

/-- Backend of a vendor call; `none` for staging and synchronisation events. -/
def Event.backend : Event → Option Loc
  | Event.vendor b _ _ => some b
  | Event.potrf b _ _ _ => some b
  | _ => none

/-- The matrices handed to the decomposition routine, in call order. -/
def attempts : List Event → List Mat
  | [] => []
  | Event.potrf _ _ _ buf :: t => buf :: attempts t
  | Event.map _ _ :: t => attempts t
  | Event.release _ :: t => attempts t
  | Event.synchronize :: t => attempts t
  | Event.vendor _ _ _ :: t => attempts t

/-- The vendor calls of level 1 to 3 in a log (everything but decompositions). -/
def blas_calls : List Event → List Routine
  | [] => []
  | Event.vendor _ r _ :: t => r :: blas_calls t
  | Event.potrf _ _ _ _ :: t => blas_calls t
  | Event.map _ _ :: t => blas_calls t
  | Event.release _ :: t => blas_calls t
  | Event.synchronize :: t => blas_calls t

/-- The matrix `A + eps·I` seen through the view `L`: `eps` added to every
diagonal entry of `A`, every other entry that of `A`. -/
def loaded (A L : Mat) (eps : real) : Mat :=
  { L with elem := fun i j =>
      if i = j ∧ i < min L.size1 L.size2 then A.elem i j + eps else A.elem i j }

/-- Result of the unloaded decomposition of `chol`: new buffer and status. -/
def first_attempt (E : Ext) (A L : Mat) (uplo : Char) : (Nat → Nat → real) × Int :=
  E.potrf (Loc.of L.on_device) uplo A.size1 (L.assign A)

/-- Diagonal of the factor left behind by the unloaded decomposition. -/
def failed_diag (E : Ext) (A L : Mat) (uplo : Char) : Vec :=
  diagonal { L with elem := (first_attempt E A L uplo).1 }

/-- The machine-epsilon constant `2^-digits`. -/
def machine_eps (E : Ext) : real :=
  1 / 2 ^ E.digits

/-- The first loading: the machine product `c·s` for a positive smallest
diagonal value `s` of the failed factor, `c·1` otherwise. -/
def eps0 (E : Ext) (A L : Mat) (uplo : Char) : real :=
  if 0 < E.amin (failed_diag E A L uplo).range
  then E.fl_mul (machine_eps E) (E.amin (failed_diag E A L uplo).range)
  else machine_eps E * 1

/-- The largest diagonal value of the failed factor. -/
def largest (E : Ext) (A L : Mat) (uplo : Char) : real :=
  E.amax (failed_diag E A L uplo).range

/-- Result of the decomposition of `A + eps·I`. -/
def attempt (E : Ext) (A L : Mat) (uplo : Char) (eps : real) : (Nat → Nat → real) × Int :=
  E.potrf (Loc.of L.on_device) uplo A.size1 (loaded A L eps)

/-- The vector of ones created by `chol` (lines 506-507). -/
def chol_eps (L : Mat) : Vec :=
  fill (temp_vector L.on_device (min L.size1 L.size2)) 1

/-- Number of iterations the retry loop makes from state `s` within `fuel`. -/
def chol_iters (E : Ext) (A L : Mat) (uplo : Char) (N : Nat) (eps : Vec)
    (largest : real) : Nat → CholState → Nat
  | 0, _ => 0
  | fuel + 1, s =>
    if s.info ≠ 0 ∧ s.factor < largest then
      chol_iters E A L uplo N eps largest fuel (chol_body E A L uplo N eps s) + 1
    else 0

/-- The state in which the retry loop of `chol` starts. -/
def chol_start (E : Ext) (A L : Mat) (uplo : Char) : CholState :=
  { buf := (chol_first E A L uplo A.size1).buf,
    info := (chol_first E A L uplo A.size1).info,
    factor := eps0 E A L uplo,
    trace := (chol_first E A L uplo A.size1).trace }

/-- The state in which the retry loop of `chol` ends. -/
def chol_final (E : Ext) (A L : Mat) (uplo : Char) : CholState :=
  chol_loop E A L uplo A.size1 (chol_eps L) (largest E A L uplo)
    (chol_fuel (eps0 E A L uplo) (largest E A L uplo)) (chol_start E A L uplo)

/-- Number of retries of `chol` under `ADJUST_DIAGONAL` after a failed first attempt. -/
def chol_retries (E : Ext) (A L : Mat) (uplo : Char) : Nat :=
  chol_iters E A L uplo A.size1 (chol_eps L) (largest E A L uplo)
    (chol_fuel (eps0 E A L uplo) (largest E A L uplo)) (chol_start E A L uplo)

/-- Translation of `bi::ger` (lines 1216-1253). -/
def ger (B : Blas) (alpha : real) (x y : Vec) (A : Mat) (clear : Bool) : Run Mat :=
  if x.size = A.size1 ∧ y.size = A.size2 then
    let A0 := if clear then A.clear else A
    if A.on_device then
      let x1 := gpu_map_vector x
      let y1 := gpu_map_vector y
      { trace := [Event.map Loc.device Operand.x, Event.map Loc.device Operand.y,
                  Event.vendor Loc.device Routine.ger
                    [A0.size1, A0.size2, x1.inc, y1.inc, A0.lead],
                  Event.synchronize, Event.release Operand.x, Event.release Operand.y],
        out := { A0 with elem := B.ger Loc.device A0.size1 A0.size2 alpha x1 y1 A0 },
        err := none }
    else
      let x1 := host_map_vector x
      let y1 := host_map_vector y
      { trace := [Event.map Loc.host Operand.x, Event.map Loc.host Operand.y]
                  ++ (if x.on_device ∨ y.on_device then [Event.synchronize] else [])
                  ++ [Event.vendor Loc.host Routine.ger
                        [A0.size1, A0.size2, x1.inc, y1.inc, A0.lead],
                      Event.release Operand.x, Event.release Operand.y],
        out := { A0 with elem := B.ger Loc.host A0.size1 A0.size2 alpha x1 y1 A0 },
        err := none }
  else
    { trace := [], out := A, err := some Err.assert }

/-- Translation of `bi::syr` (lines 1255-1287). -/
def syr (B : Blas) (alpha : real) (x : Vec) (A : Mat) (uplo : Char) (clear : Bool) :
    Run Mat :=
  if (uplo = 'U' ∨ uplo = 'L') ∧ A.size1 = A.size2 ∧ x.size = A.size1 then
    let A0 := if clear then A.clear else A
    if A.on_device then
      let x1 := gpu_map_vector x
      { trace := [Event.map Loc.device Operand.x,
                  Event.vendor Loc.device Routine.syr [A0.size1, x1.inc, A0.lead],
                  Event.synchronize, Event.release Operand.x],
        out := { A0 with elem := B.syr Loc.device uplo A0.size1 alpha x1 A0 },
        err := none }
    else
      let x1 := host_map_vector x
      { trace := [Event.map Loc.host Operand.x]
                  ++ (if x.on_device then [Event.synchronize] else [])
                  ++ [Event.vendor Loc.host Routine.syr [A0.size1, x1.inc, A0.lead],
                      Event.release Operand.x],
        out := { A0 with elem := B.syr Loc.host uplo A0.size1 alpha x1 A0 },
        err := none }
  else
    { trace := [], out := A, err := some Err.assert }

/-- Translation of `bi::syr2` (lines 1289-1324). Its only assertions are the
one on `uplo` and the two on element types, which hold. -/
def syr2 (B : Blas) (alpha : real) (x y : Vec) (A : Mat) (uplo : Char) (clear : Bool) :
    Run Mat :=
  if uplo = 'U' ∨ uplo = 'L' then
    let A0 := if clear then A.clear else A
    if A.on_device then
      let x1 := gpu_map_vector x
      let y1 := gpu_map_vector y
      { trace := [Event.map Loc.device Operand.x, Event.map Loc.device Operand.y,
                  Event.vendor Loc.device Routine.syr2 [A0.size1, x1.inc, y1.inc, A0.lead],
                  Event.synchronize, Event.release Operand.x, Event.release Operand.y],
        out := { A0 with elem := B.syr2 Loc.device uplo A0.size1 alpha x1 y1 A0 },
        err := none }
    else
      let x1 := host_map_vector x
      let y1 := host_map_vector y
      { trace := [Event.map Loc.host Operand.x, Event.map Loc.host Operand.y]
                  ++ (if x.on_device ∨ y.on_device then [Event.synchronize] else [])
                  ++ [Event.vendor Loc.host Routine.syr2 [A0.size1, x1.inc, y1.inc, A0.lead],
                      Event.release Operand.x, Event.release Operand.y],
        out := { A0 with elem := B.syr2 Loc.host uplo A0.size1 alpha x1 y1 A0 },
        err := none }
  else
    { trace := [], out := A, err := some Err.assert }

/-- Translation of `bi::syrk` (lines 1326-1359). -/
def syrk (B : Blas) (alpha : real) (A : Mat) (beta : real) (C : Mat) (uplo trans : Char) :
    Run Mat :=
  if (trans = 'N' ∨ trans = 'T') ∧ (uplo = 'U' ∨ uplo = 'L') ∧ C.size1 = C.size2
      ∧ (trans ≠ 'N' ∨ A.size1 = C.size1) ∧ (trans ≠ 'T' ∨ A.size2 = C.size1) then
    let k := if trans = 'T' then A.size1 else A.size2
    if C.on_device then
      let A1 := gpu_map_matrix A
      { trace := [Event.map Loc.device Operand.A,
                  Event.vendor Loc.device Routine.syrk [C.size1, k, A1.lead, C.lead],
                  Event.synchronize, Event.release Operand.A],
        out := { C with elem := B.syrk Loc.device uplo trans C.size1 k alpha A1 beta C },
        err := none }
    else
      let A1 := host_map_matrix A
      { trace := [Event.map Loc.host Operand.A]
                  ++ (if A.on_device then [Event.synchronize] else [])
                  ++ [Event.vendor Loc.host Routine.syrk [C.size1, k, A1.lead, C.lead],
                      Event.release Operand.A],
        out := { C with elem := B.syrk Loc.host uplo trans C.size1 k alpha A1 beta C },
        err := none }
  else
    { trace := [], out := C, err := some Err.assert }

/-- Translation of `bi::trsv` (lines 1396-1426). -/
def trsv (B : Blas) (A : Mat) (x : Vec) (uplo trans diag : Char) : Run Vec :=
  if (uplo = 'U' ∨ uplo = 'L') ∧ (trans = 'N' ∨ trans = 'T') ∧ (diag = 'U' ∨ diag = 'N')
      ∧ (¬ trans = 'T' ∨ A.size1 = x.size) ∧ (¬ trans = 'N' ∨ A.size2 = x.size) then
    if x.on_device then
      let A1 := gpu_map_matrix A
      { trace := [Event.map Loc.device Operand.A,
                  Event.vendor Loc.device Routine.trsv [x.size, A1.lead, x.inc],
                  Event.synchronize, Event.release Operand.A],
        out := { x with elem := B.trsv Loc.device uplo trans diag x.size A1 x },
        err := none }
    else
      let A1 := host_map_matrix A
      { trace := [Event.map Loc.host Operand.A]
                  ++ (if A.on_device then [Event.synchronize] else [])
                  ++ [Event.vendor Loc.host Routine.trsv [x.size, A1.lead, x.inc],
                      Event.release Operand.A],
        out := { x with elem := B.trsv Loc.host uplo trans diag x.size A1 x },
        err := none }
  else
    { trace := [], out := x, err := some Err.assert }

/-- Translation of `bi::trsm` (lines 1428-1464); the output operand is `B`,
here `Bm`. -/
def trsm (B : Blas) (alpha : real) (A Bm : Mat) (side uplo trans diag : Char) : Run Mat :=
  if (side = 'L' ∨ side = 'R') ∧ (uplo = 'U' ∨ uplo = 'L') ∧ (trans = 'N' ∨ trans = 'T')
      ∧ (diag = 'U' ∨ diag = 'N')
      ∧ (¬ (trans = 'T' ∧ side = 'L') ∨ A.size1 = Bm.size1)
      ∧ (¬ (trans = 'N' ∧ side = 'L') ∨ A.size2 = Bm.size1)
      ∧ (¬ (trans = 'T' ∧ side = 'R') ∨ Bm.size2 = A.size2)
      ∧ (¬ (trans = 'N' ∧ side = 'R') ∨ Bm.size2 = A.size1) then
    if Bm.on_device then
      let A1 := gpu_map_matrix A
      { trace := [Event.map Loc.device Operand.A,
                  Event.vendor Loc.device Routine.trsm [Bm.size1, Bm.size2, A1.lead, Bm.lead],
                  Event.synchronize, Event.release Operand.A],
        out := { Bm with
          elem := B.trsm Loc.device side uplo trans diag Bm.size1 Bm.size2 alpha A1 Bm },
        err := none }
    else
      let A1 := host_map_matrix A
      { trace := [Event.map Loc.host Operand.A]
                  ++ (if A.on_device then [Event.synchronize] else [])
                  ++ [Event.vendor Loc.host Routine.trsm [Bm.size1, Bm.size2, A1.lead, Bm.lead],
                      Event.release Operand.A],
        out := { Bm with
          elem := B.trsm Loc.host side uplo trans diag Bm.size1 Bm.size2 alpha A1 Bm },
        err := none }
  else
    { trace := [], out := Bm, err := some Err.assert }

/-- A call of one of the primitives that have an output operand. -/
inductive Call
  | axpy (a : real) (x y : Vec) (clear : Bool)
  | gemv (alpha : real) (A : Mat) (x : Vec) (beta : real) (y : Vec) (transA : Char)
  | symv (alpha : real) (A : Mat) (x : Vec) (beta : real) (y : Vec) (uplo : Char)
  | trmv (A : Mat) (x : Vec) (uplo transA : Char)
  | gdmv (alpha : real) (A x : Vec) (beta : real) (y : Vec)
  | gemm (alpha : real) (A X : Mat) (beta : real) (Y : Mat) (transA transX : Char)
  | symm (alpha : real) (A X : Mat) (beta : real) (Y : Mat) (side uplo : Char)
  | trmm (alpha : real) (A Bm : Mat) (side uplo transA : Char)
  | gdmm (alpha : real) (A : Vec) (X : Mat) (beta : real) (Y : Mat) (side : Char)
  | ger (alpha : real) (x y : Vec) (A : Mat) (clear : Bool)
  | syr (alpha : real) (x : Vec) (A : Mat) (uplo : Char) (clear : Bool)
  | syr2 (alpha : real) (x y : Vec) (A : Mat) (uplo : Char) (clear : Bool)
  | syrk (alpha : real) (A : Mat) (beta : real) (C : Mat) (uplo trans : Char)
  | potrs (L X : Mat) (uplo : Char)
  | trsv (A : Mat) (x : Vec) (uplo trans diag : Char)
  | trsm (alpha : real) (A Bm : Mat) (side uplo trans diag : Char)
  | chol (A L : Mat) (uplo : Char) (strat : CholeskyStrategy)

/-- Event log of a call. -/
def Call.trace (E : Ext) (B : Blas) : Call → List Event
  | Call.axpy a x y clear => (bi.axpy a x y clear).trace
  | Call.gemv alpha A x beta y transA => (bi.gemv alpha A x beta y transA).trace
  | Call.symv alpha A x beta y uplo => (bi.symv B alpha A x beta y uplo).trace
  | Call.trmv A x uplo transA => (bi.trmv B A x uplo transA).trace
  | Call.gdmv alpha A x beta y => (bi.gdmv alpha A x beta y).trace
  | Call.gemm alpha A X beta Y transA transX => (bi.gemm B alpha A X beta Y transA transX).trace
  | Call.symm alpha A X beta Y side uplo => (bi.symm B alpha A X beta Y side uplo).trace
  | Call.trmm alpha A Bm side uplo transA => (bi.trmm B alpha A Bm side uplo transA).trace
  | Call.gdmm alpha A X beta Y side => (bi.gdmm alpha A X beta Y side).trace
  | Call.ger alpha x y A clear => (bi.ger B alpha x y A clear).trace
  | Call.syr alpha x A uplo clear => (bi.syr B alpha x A uplo clear).trace
  | Call.syr2 alpha x y A uplo clear => (bi.syr2 B alpha x y A uplo clear).trace
  | Call.syrk alpha A beta C uplo tr => (bi.syrk B alpha A beta C uplo tr).trace
  | Call.potrs L X uplo => (bi.potrs E L X uplo).trace
  | Call.trsv A x uplo tr diag => (bi.trsv B A x uplo tr diag).trace
  | Call.trsm alpha A Bm side uplo tr diag =>
    (bi.trsm B alpha A Bm side uplo tr diag).trace
  | Call.chol A L uplo strat => (bi.chol E A L uplo strat).trace

/-- Abnormal end of a call. -/
def Call.err (E : Ext) (B : Blas) : Call → Option Err
  | Call.axpy a x y clear => (bi.axpy a x y clear).err
  | Call.gemv alpha A x beta y transA => (bi.gemv alpha A x beta y transA).err
  | Call.symv alpha A x beta y uplo => (bi.symv B alpha A x beta y uplo).err
  | Call.trmv A x uplo transA => (bi.trmv B A x uplo transA).err
  | Call.gdmv alpha A x beta y => (bi.gdmv alpha A x beta y).err
  | Call.gemm alpha A X beta Y transA transX => (bi.gemm B alpha A X beta Y transA transX).err
  | Call.symm alpha A X beta Y side uplo => (bi.symm B alpha A X beta Y side uplo).err
  | Call.trmm alpha A Bm side uplo transA => (bi.trmm B alpha A Bm side uplo transA).err
  | Call.gdmm alpha A X beta Y side => (bi.gdmm alpha A X beta Y side).err
  | Call.ger alpha x y A clear => (bi.ger B alpha x y A clear).err
  | Call.syr alpha x A uplo clear => (bi.syr B alpha x A uplo clear).err
  | Call.syr2 alpha x y A uplo clear => (bi.syr2 B alpha x y A uplo clear).err
  | Call.syrk alpha A beta C uplo tr => (bi.syrk B alpha A beta C uplo tr).err
  | Call.potrs L X uplo => (bi.potrs E L X uplo).err
  | Call.trsv A x uplo tr diag => (bi.trsv B A x uplo tr diag).err
  | Call.trsm alpha A Bm side uplo tr diag =>
    (bi.trsm B alpha A Bm side uplo tr diag).err
  | Call.chol A L uplo strat => (bi.chol E A L uplo strat).err

/-- Location flag of the output operand of a call. -/
def Call.output_on_device : Call → Bool
  | Call.axpy _ _ y _ => y.on_device
  | Call.gemv _ _ _ _ y _ => y.on_device
  | Call.symv _ _ _ _ y _ => y.on_device
  | Call.trmv _ x _ _ => x.on_device
  | Call.gdmv _ _ _ _ y => y.on_device
  | Call.gemm _ _ _ _ Y _ _ => Y.on_device
  | Call.symm _ _ _ _ Y _ _ => Y.on_device
  | Call.trmm _ _ Bm _ _ _ => Bm.on_device
  | Call.gdmm _ _ _ _ Y _ => Y.on_device
  | Call.ger _ _ _ A _ => A.on_device
  | Call.syr _ _ A _ _ => A.on_device
  | Call.syr2 _ _ _ A _ _ => A.on_device
  | Call.syrk _ _ _ C _ _ => C.on_device
  | Call.potrs _ X _ => X.on_device
  | Call.trsv _ x _ _ _ => x.on_device
  | Call.trsm _ _ Bm _ _ _ _ => Bm.on_device
  | Call.chol _ L _ _ => L.on_device

/-- The vector `x` placed at another location. -/
def Vec.at_loc (x : Vec) (d : Bool) : Vec :=
  { x with on_device := d }

/-- The matrix `A` placed at another location. -/
def Mat.at_loc (A : Mat) (d : Bool) : Mat :=
  { A with on_device := d }

/-- The same call with its input operands placed as `f` says; the output
operand stays where it is. -/
def Call.place_inputs (f : Operand → Bool) : Call → Call
  | Call.axpy a x y clear => Call.axpy a (x.at_loc (f Operand.x)) y clear
  | Call.gemv alpha A x beta y transA =>
    Call.gemv alpha (A.at_loc (f Operand.A)) (x.at_loc (f Operand.x)) beta y transA
  | Call.symv alpha A x beta y uplo =>
    Call.symv alpha (A.at_loc (f Operand.A)) (x.at_loc (f Operand.x)) beta y uplo
  | Call.trmv A x uplo transA => Call.trmv (A.at_loc (f Operand.A)) x uplo transA
  | Call.gdmv alpha A x beta y =>
    Call.gdmv alpha (A.at_loc (f Operand.A)) (x.at_loc (f Operand.x)) beta y
  | Call.gemm alpha A X beta Y transA transX =>
    Call.gemm alpha (A.at_loc (f Operand.A)) (X.at_loc (f Operand.X)) beta Y transA transX
  | Call.symm alpha A X beta Y side uplo =>
    Call.symm alpha (A.at_loc (f Operand.A)) (X.at_loc (f Operand.X)) beta Y side uplo
  | Call.trmm alpha A Bm side uplo transA =>
    Call.trmm alpha (A.at_loc (f Operand.A)) Bm side uplo transA
  | Call.gdmm alpha A X beta Y side =>
    Call.gdmm alpha (A.at_loc (f Operand.A)) (X.at_loc (f Operand.X)) beta Y side
  | Call.ger alpha x y A clear =>
    Call.ger alpha (x.at_loc (f Operand.x)) (y.at_loc (f Operand.y)) A clear
  | Call.syr alpha x A uplo clear => Call.syr alpha (x.at_loc (f Operand.x)) A uplo clear
  | Call.syr2 alpha x y A uplo clear =>
    Call.syr2 alpha (x.at_loc (f Operand.x)) (y.at_loc (f Operand.y)) A uplo clear
  | Call.syrk alpha A beta C uplo tr =>
    Call.syrk alpha (A.at_loc (f Operand.A)) beta C uplo tr
  | Call.potrs L X uplo => Call.potrs (L.at_loc (f Operand.L)) X uplo
  | Call.trsv A x uplo tr diag => Call.trsv (A.at_loc (f Operand.A)) x uplo tr diag
  | Call.trsm alpha A Bm side uplo tr diag =>
    Call.trsm alpha (A.at_loc (f Operand.A)) Bm side uplo tr diag
  | Call.chol A L uplo strat => Call.chol (A.at_loc (f Operand.A)) L uplo strat

/-- Whether the call has work for a vendor routine: `gdmm` loops over the
columns of `X`; every other primitive makes its call unconditionally. -/
def Call.has_work : Call → Prop
  | Call.gdmm _ _ X _ _ _ => 0 < X.size2
  | _ => True

/-- Every vendor call in the log went to backend `b`. -/
def all_on (b : Loc) (tr : List Event) : Prop :=
  ∀ e ∈ tr, ∀ b', e.backend = some b' → b' = b

/-- Some vendor call in the log went to backend `b`. -/
def some_on (b : Loc) (tr : List Event) : Prop :=
  ∃ e ∈ tr, e.backend = some b

/-- The factor as it is handed to the solver by `potrs`. -/
def potrs_staged (L X : Mat) : Mat :=
  if X.on_device then gpu_map_matrix L else host_map_matrix L

/-! ## Broadcast, reduction and transposition -/

/-- An iterator range `first .. last`: its length and the element at each
position. -/
structure IterRange (α : Type) where
  len : Nat
  get : Nat → α

/-- The range `x.begin() .. x.end()` over the elements of a vector. -/
def Vec.iter (x : Vec) : IterRange real :=
  { len := x.size, get := x.elem }

/-- The range `x.fast_begin() .. x.fast_end()`, which steps through the buffer
with stride one: position `k` is element `k / inc` when `inc` divides `k`, and
padding (read as 0) otherwise. For `inc = 1` it is `x.iter`. -/
def Vec.fast_iter (x : Vec) : IterRange real :=
  { len := x.size, get := fun k => if k % x.inc = 0 then x.elem (k / x.inc) else 0 }

/-- The range `A.begin() .. A.end()`: the elements of a matrix column after
column. -/
def Mat.iter (A : Mat) : IterRange real :=
  { len := A.size1 * A.size2, get := fun k => A.elem (k % A.size1) (k / A.size1) }

/-- The range starting at `A.row_begin()`: the elements of a matrix row after row. -/
def Mat.row_iter (A : Mat) : IterRange real :=
  { len := A.size1 * A.size2, get := fun k => A.elem (k / A.size2) (k % A.size2) }

/-- The range `counter .. counter + n` of `make_counting_iterator(0)`. -/
def counting (n : Nat) : IterRange Nat :=
  { len := n, get := fun k => k }

/-- Modelled from the spec: `make_repeated_range(first, last, reps)` of
`misc/repeated_range.hpp`, the base range gone through `reps` times. -/
def make_repeated_range {α : Type} (base : IterRange α) (reps : Nat) : IterRange α :=
  { len := base.len * reps, get := fun k => base.get (k % base.len) }

/-- Modelled from the spec: `make_stuttered_range(first, last, reps)` of
`misc/stuttered_range.hpp`, each element of the base range `reps` times before
the next. -/
def make_stuttered_range {α : Type} (base : IterRange α) (reps : Nat) : IterRange α :=
  { len := base.len * reps, get := fun k => base.get (k / reps) }

/-- The call `make_transform_iterator(first, f)`. -/
def make_transform_iterator {α β : Type} (r : IterRange α) (f : α → β) : IterRange β :=
  { len := r.len, get := fun k => f (r.get k) }

/-- Modelled from the spec: `square_functor` of `functor.hpp`. -/
def square_functor (x : real) : real :=
  x * x

/-- Writing the range `s` through `A.begin()`, as `bi::copy(first, last,
A.begin())` does: position `k` of `s` goes to row `k % size1` of column
`k / size1`. -/
def Mat.put (A : Mat) (s : IterRange real) : Mat :=
  { A with elem := fun i j =>
      if i < A.size1 ∧ j < A.size2 ∧ j * A.size1 + i < s.len then s.get (j * A.size1 + i)
      else A.elem i j }

/-- The call `thrust::transform(A.begin(), A.end(), s.begin(), A.begin(), op)`. -/
def Mat.transform (A : Mat) (s : IterRange real) (op : real → real → real) : Mat :=
  A.put { len := A.iter.len, get := fun k => op (A.iter.get k) (s.get k) }

/-- Modelled from the spec: `map_vector(A, x)` of `temp_vector.hpp`, the vector
`x` staged at the location of `A` (section 4.1). -/
def map_vector (A : Mat) (x : Vec) : Vec :=
  if A.on_device then gpu_map_vector x else host_map_vector x

/-- The events around the body of a broadcast: staging of `x`, the barrier, the
release. -/
def broadcast_trace (A : Mat) : List Event :=
  [Event.map (Loc.of A.on_device) Operand.x, Event.synchronize, Event.release Operand.x]

/-- Translation of `bi::set_columns` (lines 582-597). -/
def set_columns (A : Mat) (x : Vec) : Run Mat :=
  if A.size1 = x.size then
    let x1 := map_vector A x
    if x1.inc = 1 then
      { trace := broadcast_trace A,
        out := A.put (make_repeated_range x1.fast_iter A.size2), err := none }
    else
      { trace := broadcast_trace A,
        out := A.put (make_repeated_range x1.iter A.size2), err := none }
  else
    { trace := [], out := A, err := some Err.assert }

/-- The call `std::fill(column(A,j).fast_begin(), column(A,j).fast_end(), c)`. -/
def Mat.fill_column (A : Mat) (j : Nat) (c : real) : Mat :=
  { A with elem := fun i k => if k = j ∧ i < A.size1 then c else A.elem i k }

/-- Translation of `bi::set_rows` (lines 599-615). -/
def set_rows (A : Mat) (x : Vec) : Run Mat :=
  if A.size2 = x.size then
    let x1 := map_vector A x
    if A.on_device then
      { trace := broadcast_trace A,
        out := A.put (make_stuttered_range x1.iter A.size1), err := none }
    else
      { trace := broadcast_trace A,
        out := (for_loop A.size2
          (fun j Y => { trace := [], out := Y.fill_column j (x1.elem j), err := none })
          { trace := [], out := A, err := none }).out,
        err := none }
  else
    { trace := [], out := A, err := some Err.assert }

/-- Translation of `bi::add_columns` (lines 617-627). -/
def add_columns (A : Mat) (x : Vec) : Run Mat :=
  if A.size1 = x.size then
    let x1 := map_vector A x
    { trace := broadcast_trace A,
      out := A.transform (make_repeated_range x1.iter A.size2) (fun a b => a + b),
      err := none }
  else
    { trace := [], out := A, err := some Err.assert }

/-- Translation of `bi::add_rows` (lines 629-639). -/
def add_rows (A : Mat) (x : Vec) : Run Mat :=
  if A.size2 = x.size then
    let x1 := map_vector A x
    { trace := broadcast_trace A,
      out := A.transform (make_stuttered_range x1.iter A.size1) (fun a b => a + b),
      err := none }
  else
    { trace := [], out := A, err := some Err.assert }

/-- Translation of `bi::sub_columns` (lines 641-652). -/
def sub_columns (A : Mat) (x : Vec) : Run Mat :=
  if A.size1 = x.size then
    let x1 := map_vector A x
    { trace := broadcast_trace A,
      out := A.transform (make_repeated_range x1.iter A.size2) (fun a b => a - b),
      err := none }
  else
    { trace := [], out := A, err := some Err.assert }

/-- Translation of `bi::sub_rows` (lines 654-669). -/
def sub_rows (A : Mat) (x : Vec) : Run Mat :=
  if A.size2 = x.size then
    let x1 := map_vector A x
    if x1.inc = 1 then
      { trace := broadcast_trace A,
        out := A.transform (make_stuttered_range x1.fast_iter A.size1) (fun a b => a - b),
        err := none }
    else
      { trace := broadcast_trace A,
        out := A.transform (make_stuttered_range x1.iter A.size1) (fun a b => a - b),
        err := none }
  else
    { trace := [], out := A, err := some Err.assert }

/-- Running sum of `reduce_by_key`: `k` and `acc` are the key and the sum of
the run in progress. -/
def reduce_runs : Nat → real → List (Nat × real) → List real
  | _, acc, [] => [acc]
  | k, acc, (k', v) :: t =>
    if k' = k then reduce_runs k (acc + v) t else acc :: reduce_runs k' v t

/-- The keys and values handed to `reduce_by_key`, paired position by position. -/
def keyed (keys : IterRange Nat) (vals : IterRange real) : List (Nat × real) :=
  (List.range keys.len).map (fun p => (keys.get p, vals.get p))

/-- Modelled from the spec: the values `thrust::reduce_by_key(keys.begin(),
keys.end(), vals, discard, out)` writes, one sum for each maximal run of equal
consecutive keys, in order. -/
def reduce_by_key (keys : IterRange Nat) (vals : IterRange real) : List real :=
  match keyed keys vals with
  | [] => []
  | (k, v) :: t => reduce_runs k v t

/-- Writing a list of results through `y.begin()`. -/
def Vec.put (y : Vec) (l : List real) : Vec :=
  { y with elem := fun i => l.getD i (y.elem i) }

/-- Writing a list of results through `y.fast_begin()`: element `i` of `y`
lives at position `i * inc` of the buffer. -/
def Vec.fast_put (y : Vec) (l : List real) : Vec :=
  { y with elem := fun i => l.getD (i * y.inc) (y.elem i) }

/-- Translation of `bi::dot_columns` (lines 882-897). -/
def dot_columns (X : Mat) (y : Vec) : Run Vec :=
  if X.size2 = y.size then
    let keys := make_stuttered_range (counting X.size2) X.size1
    let transform := make_transform_iterator X.iter square_functor
    { trace := [], out := y.put (reduce_by_key keys transform), err := none }
  else
    { trace := [], out := y, err := some Err.assert }

/-- Translation of `bi::dot_rows` (lines 899-918). -/
def dot_rows (X : Mat) (y : Vec) : Run Vec :=
  if X.size1 = y.size then
    let keys := make_stuttered_range (counting X.size1) X.size2
    let transform := make_transform_iterator X.row_iter square_functor
    if y.inc = 1 then
      { trace := [], out := y.fast_put (reduce_by_key keys transform), err := none }
    else
      { trace := [], out := y.put (reduce_by_key keys transform), err := none }
  else
    { trace := [], out := y, err := some Err.assert }

/-- Translation of `bi::sum_columns` (lines 920-934). -/
def sum_columns (X : Mat) (y : Vec) : Run Vec :=
  if X.size1 = y.size then
    let keys := make_stuttered_range (counting X.size1) X.size2
    { trace := [], out := y.put (reduce_by_key keys X.row_iter), err := none }
  else
    { trace := [], out := y, err := some Err.assert }

/-- Translation of `bi::sum_rows` (lines 936-950). -/
def sum_rows (X : Mat) (y : Vec) : Run Vec :=
  if X.size2 = y.size then
    let keys := make_stuttered_range (counting X.size2) X.size1
    { trace := [], out := y.put (reduce_by_key keys X.iter), err := none }
  else
    { trace := [], out := y, err := some Err.assert }

/-- The view `row(A, i)`. -/
def row (A : Mat) (i : Nat) : Vec :=
  { on_device := A.on_device, size := A.size2, inc := A.lead, elem := fun j => A.elem i j }

/-- Translation of `bi::transpose` (lines 465-474). -/
def transpose (A B : Mat) : Run Mat :=
  if A.size1 = B.size2 ∧ A.size2 = B.size1 then
    for_loop A.size1
      (fun i Y => { trace := [], out := Y.set_column i (row A i), err := none })
      { trace := [], out := B, err := none }
  else
    { trace := [], out := B, err := some Err.assert }

/-- The matrix `Y` held at the given location: on the device for `true`, on
the host for `false`; shape, leading dimension and elements are those of `Y`. -/
def Mat.resident (Y : Mat) (d : Bool) : Mat :=
  { on_device := d, size1 := Y.size1, size2 := Y.size2, lead := Y.lead, elem := Y.elem }

/-! ## Matrix `axpy`, `dot` and the vocabulary of staging -/

/-- Translation of `bi::matrix_axpy` (lines 952-968). -/
def matrix_axpy (a : real) (X Y : Mat) (clear : Bool) : Run Mat :=
  if X.size1 = Y.size1 ∧ X.size2 = Y.size2 then
    if X.size1 = X.lead ∧ Y.size1 = Y.lead then
      let r := axpy a (vec X) (vec Y) clear
      { trace := r.trace, out := Y.set_vec r.out, err := r.err }
    else
      for_loop X.size2
        (fun j Y => on_column Y j (axpy a (column X j) (column Y j) clear))
        { trace := [], out := Y, err := none }
  else
    { trace := [], out := Y, err := some Err.assert }

/-- Modelled from the spec: `cblas_dot` and `cublas_dot`, the inner product of
the first `n` elements. -/
def blas_dot (n : Nat) (a b : Nat → real) : real :=
  ∑ i ∈ Finset.range n, a i * b i

/-- Translation of `bi::dot` (lines 683-713); the operands are named `a` and
`b`. On a failed assertion no value is produced; the log records 0. -/
def dot (a b : Vec) : Run real :=
  if a.size = b.size then
    if a.on_device then
      let a1 := gpu_map_vector a
      let b1 := gpu_map_vector b
      { trace := [Event.map Loc.device Operand.a, Event.map Loc.device Operand.b,
                  Event.vendor Loc.device Routine.dot [a1.size, a1.inc, b1.inc],
                  Event.synchronize, Event.release Operand.a, Event.release Operand.b],
        out := blas_dot a1.size a1.elem b1.elem, err := none }
    else
      let a1 := host_map_vector a
      let b1 := host_map_vector b
      { trace := [Event.map Loc.host Operand.a, Event.map Loc.host Operand.b]
                  ++ (if a.on_device ∨ b.on_device then [Event.synchronize] else [])
                  ++ [Event.vendor Loc.host Routine.dot [a1.size, a1.inc, b1.inc],
                      Event.release Operand.a, Event.release Operand.b],
        out := blas_dot a1.size a1.elem b1.elem, err := none }
  else
    { trace := [], out := 0, err := some Err.assert }

/-- The non-output operands of a call, by formal parameter name. -/
def Call.inputs : Call → List Operand
  | Call.axpy _ _ _ _ => [Operand.x]
  | Call.gemv _ _ _ _ _ _ => [Operand.A, Operand.x]
  | Call.symv _ _ _ _ _ _ => [Operand.A, Operand.x]
  | Call.trmv _ _ _ _ => [Operand.A]
  | Call.gdmv _ _ _ _ _ => [Operand.A, Operand.x]
  | Call.gemm _ _ _ _ _ _ _ => [Operand.A, Operand.X]
  | Call.symm _ _ _ _ _ _ _ => [Operand.A, Operand.X]
  | Call.trmm _ _ _ _ _ _ => [Operand.A]
  | Call.gdmm _ _ _ _ _ _ => [Operand.A, Operand.X]
  | Call.ger _ _ _ _ _ => [Operand.x, Operand.y]
  | Call.syr _ _ _ _ _ => [Operand.x]
  | Call.syr2 _ _ _ _ _ _ => [Operand.x, Operand.y]
  | Call.syrk _ _ _ _ _ _ => [Operand.A]
  | Call.potrs _ _ _ => [Operand.L]
  | Call.trsv _ _ _ _ _ => [Operand.A]
  | Call.trsm _ _ _ _ _ _ _ => [Operand.A]
  | Call.chol _ _ _ _ => [Operand.A]

/-- The event stages operand `o` at location `l`. -/
def Event.is_map (l : Loc) (o : Operand) : Event → Bool
  | Event.map l' o' => decide (l' = l) && decide (o' = o)
  | _ => false

/-- The event releases the staged operand `o`. -/
def Event.is_release (o : Operand) : Event → Bool
  | Event.release o' => decide (o' = o)
  | _ => false

/-- Some event satisfying `p` occurs in the log before its first vendor call. -/
def before_calls (p : Event → Bool) : List Event → Bool
  | [] => false
  | e :: t =>
    match e.backend with
    | some _ => false
    | none => p e || before_calls p t

/-- Operand `o` is staged at location `l` before the first vendor call of the log. -/
def mapped_before_call (l : Loc) (o : Operand) (tr : List Event) : Bool :=
  before_calls (Event.is_map l o) tr

/-- Operand `o` is released after the last vendor call of the log. -/
def released_after_calls (o : Operand) (tr : List Event) : Bool :=
  before_calls (Event.is_release o) tr.reverse

/-- The locations at which operand `o` is staged in the log, in order. -/
def stagings (o : Operand) : List Event → List Loc
  | [] => []
  | Event.map l o' :: t => if o' = o then l :: stagings o t else stagings o t
  | Event.release _ :: t => stagings o t
  | Event.synchronize :: t => stagings o t
  | Event.vendor _ _ _ :: t => stagings o t
  | Event.potrf _ _ _ _ :: t => stagings o t

/-- For each decomposition in the log, the number of barriers issued since the
previous decomposition (since the start, for the first), `n` of them being
already counted. -/
def barriers_from (n : Nat) : List Event → List Nat
  | [] => []
  | Event.synchronize :: t => barriers_from (n + 1) t
  | Event.potrf _ _ _ _ :: t => n :: barriers_from 0 t
  | Event.map _ _ :: t => barriers_from n t
  | Event.release _ :: t => barriers_from n t
  | Event.vendor _ _ _ :: t => barriers_from n t

/-- For each decomposition in the log, in order, the number of barriers issued
since the previous decomposition (since the start of the log, for the first). -/
def barriers_before_attempts (tr : List Event) : List Nat :=
  barriers_from 0 tr

/-! ## Comparison of `Loop` expressions (`bi/program/Loop.hpp`) -/

/-- The virtual comparison operators of `Expression`, as they act on the
condition and on the braces of a loop. `Expression.hpp` is not part of the
sources, so the six operators are parameters. -/
structure ExprOps (ε : Type) where
  lt : ε → ε → Bool
  le : ε → ε → Bool
  gt : ε → ε → Bool
  ge : ε → ε → Bool
  eq : ε → ε → Bool
  ne : ε → ε → Bool

/-- A `Loop` (lines 21-47): the condition held by `Conditioned` and the braces
held by `Braced`; the scope plays no part in the comparisons. -/
structure Loop (ε : Type) where
  cond : ε
  braces : ε

/-- An `Expression` as `dynamic_cast<const Loop&>` sees it: a `Loop`, for which
the cast succeeds, or an expression of another class, for which it throws
`std::bad_cast`. -/
inductive Expression (ε : Type)
  | loop (expr : Loop ε)
  | other (e : ε)

/-- Translation of `Loop::operator<` (lines 59-66). -/
def Loop.lt {ε : Type} (V : ExprOps ε) (l : Loop ε) : Expression ε → Bool
  | Expression.loop expr => V.lt l.cond expr.cond && V.lt l.braces expr.braces
  | Expression.other _ => false

/-- Translation of `Loop::operator<=` (lines 68-75). -/
def Loop.le {ε : Type} (V : ExprOps ε) (l : Loop ε) : Expression ε → Bool
  | Expression.loop expr => V.le l.cond expr.cond && V.le l.braces expr.braces
  | Expression.other _ => false

/-- Translation of `Loop::operator>` (lines 77-84). -/
def Loop.gt {ε : Type} (V : ExprOps ε) (l : Loop ε) : Expression ε → Bool
  | Expression.loop expr => V.gt l.cond expr.cond && V.gt l.braces expr.braces
  | Expression.other _ => false

/-- Translation of `Loop::operator>=` (lines 86-93). -/
def Loop.ge {ε : Type} (V : ExprOps ε) (l : Loop ε) : Expression ε → Bool
  | Expression.loop expr => V.ge l.cond expr.cond && V.ge l.braces expr.braces
  | Expression.other _ => false

/-- Translation of `Loop::operator==` (lines 95-102). -/
def Loop.eq {ε : Type} (V : ExprOps ε) (l : Loop ε) : Expression ε → Bool
  | Expression.loop expr => V.eq l.cond expr.cond && V.eq l.braces expr.braces
  | Expression.other _ => false

/-- Translation of `Loop::operator!=` (lines 104-111). -/
def Loop.ne {ε : Type} (V : ExprOps ε) (l : Loop ε) : Expression ε → Bool
  | Expression.loop expr => V.ne l.cond expr.cond || V.ne l.braces expr.braces
  | Expression.other _ => true

/-! ## Concrete collaborators and operands used by the examples -/

/-- Smallest element of a range (first element when the range is a singleton). -/
def list_min (l : List real) : real :=
  l.foldl min (l.headD 0)

/-- Largest element of a range. -/
def list_max (l : List real) : real :=
  l.foldl max (l.headD 0)

/-- Status of LAPACK `potrf` on a diagonal matrix: the 1-based index of the
first diagonal entry that is not positive, 0 when all are positive. -/
def diag_status (N : Nat) (M : Mat) : Int :=
  match (List.range N).find? (fun i => decide (M.elem i i ≤ 0)) with
  | some i => (i : Int) + 1
  | none => 0

/-- Collaborators for diagonal inputs: `potrf` reports `diag_status` and hands
the buffer back as it is (the failed pivot keeps its value, as in LAPACK);
53 digits, as for `double`. -/
def diag_ext : Ext :=
  { digits := 53,
    fl_mul := fun a b => a * b,
    amin := list_min,
    amax := list_max,
    potrf := fun _ _ N M => (M.elem, diag_status N M),
    potrs := fun _ _ _ _ _ _ X _ => (X.elem, 0),
    ch1dn := fun _ U _ a b => (U.elem, a.elem, b.elem, 0) }

/-- A host 2×2 diagonal matrix with diagonal `(p, q)`. -/
def diag2 (p q : real) : Mat :=
  { on_device := false, size1 := 2, size2 := 2, lead := 2,
    elem := fun i j => if i = j then (if i = 0 then p else if i = 1 then q else 0) else 0 }

/-- A host 2×2 matrix of zeros, used as the output view. -/
def zeros2 : Mat :=
  { on_device := false, size1 := 2, size2 := 2, lead := 2, elem := fun _ _ => 0 }

/-- The symmetric positive-definite host matrix `[[4,2],[2,5]]`. -/
def spd2 : Mat :=
  { on_device := false, size1 := 2, size2 := 2, lead := 2,
    elem := fun i j => if i = 0 ∧ j = 0 then 4 else if i = 1 ∧ j = 1 then 5 else 2 }

/-- Collaborators for `spd2`: `potrf` writes the exact factor `[[2,·],[1,2]]` of
`[[4,2],[2,5]]` over the lower triangle, leaves every entry above the diagonal
as it found it (as LAPACK does for `uplo = 'L'`) and reports status 0. -/
def spd_ext : Ext :=
  { digits := 53,
    fl_mul := fun a b => a * b,
    amin := list_min,
    amax := list_max,
    potrf := fun _ _ _ M =>
      (fun i j => if j ≤ i then (if i = 0 then 2 else if j = 0 then 1 else 2) else M.elem i j, 0),
    potrs := fun _ _ _ _ _ _ X _ => (X.elem, 0),
    ch1dn := fun _ U _ a b => (U.elem, a.elem, b.elem, 0) }

/-- Entry `(i, j)` of `G·Gᵗ` for the leading `n×n` block of `G`. -/
def gram (G : Nat → Nat → real) (n i j : Nat) : real :=
  ∑ k ∈ Finset.range n, G i k * G j k

/-- Entry `(i, j)` of `T·Tᵗ`, where `T` is the lower triangle of the leading
`n×n` block of `G` (entries above the diagonal read as zero). -/
def lower_gram (G : Nat → Nat → real) (n i j : Nat) : real :=
  ∑ k ∈ Finset.range n, (if k ≤ i then G i k else 0) * (if k ≤ j then G j k else 0)

/-- A host vector with the given size and elements. -/
def host_vec (n : Nat) (f : Nat → real) : Vec :=
  { on_device := false, size := n, inc := 1, elem := f }

/-- Collaborators whose downdate and solve routines report status 3. -/
def failing_ext : Ext :=
  { digits := 53,
    fl_mul := fun a b => a * b,
    amin := list_min,
    amax := list_max,
    potrf := fun _ _ N M => (M.elem, diag_status N M),
    potrs := fun _ _ _ _ _ _ X _ => (X.elem, 3),
    ch1dn := fun _ U _ a b => (U.elem, a.elem, b.elem, 3) }

/-- Level 2 and 3 vendor routines that write zeros, for the examples. -/
def zero_blas : Blas :=
  { symv := fun _ _ _ _ _ _ _ _ => fun _ => 0,
    trmv := fun _ _ _ _ _ _ => fun _ => 0,
    gemm := fun _ _ _ _ _ _ _ _ _ _ _ => fun _ _ => 0,
    symm := fun _ _ _ _ _ _ _ _ _ _ => fun _ _ => 0,
    trmm := fun _ _ _ _ _ _ _ _ _ => fun _ _ => 0,
    ger := fun _ _ _ _ _ _ _ => fun _ _ => 0,
    syr := fun _ _ _ _ _ _ => fun _ _ => 0,
    syr2 := fun _ _ _ _ _ _ _ => fun _ _ => 0,
    syrk := fun _ _ _ _ _ _ _ _ _ => fun _ _ => 0,
    trsv := fun _ _ _ _ _ _ _ => fun _ => 0,
    trsm := fun _ _ _ _ _ _ _ _ _ _ => fun _ _ => 0 }

/-- The host matrix `[[4,2],[2,3]]` of the concrete scenario. -/
def m4223 : Mat :=
  { on_device := false, size1 := 2, size2 := 2, lead := 2,
    elem := fun i j => if i = 0 ∧ j = 0 then 4 else if i = 1 ∧ j = 1 then 3 else 2 }

/-- A host matrix of zeros with the given shape. -/
def host_zeros (m n : Nat) : Mat :=
  { on_device := false, size1 := m, size2 := n, lead := m, elem := fun _ _ => 0 }

/-- Number of rows of `op(M)`: `M` transposed for flag `'T'`. -/
def op_rows (M : Mat) (t : Char) : Nat :=
  if t = 'T' then M.size2 else M.size1

/-- Number of columns of `op(M)`. -/
def op_cols (M : Mat) (t : Char) : Nat :=
  if t = 'T' then M.size1 else M.size2

/-- The host matrix `[[0,1,2],[10,11,12]]` of shape 2×3: entry `(i,j)` is
`10·i + j`. -/
def m23 : Mat :=
  { on_device := false, size1 := 2, size2 := 3, lead := 2, elem := fun i j => 10 * i + j }

/-- The host vector `[100, 200]` stored with increment 2. -/
def strided2 : Vec :=
  { on_device := false, size := 2, inc := 2, elem := fun i => 100 * (i + 1) }

/-- The host vector `[1, 2]`. -/
def v12 : Vec :=
  { on_device := false, size := 2, inc := 1, elem := fun i => i + 1 }

/-- The matrix `[[4,2],[2,3]]` held with one row of padding: leading dimension 3. -/
def m4223_padded : Mat :=
  { on_device := false, size1 := 2, size2 := 2, lead := 3, elem := m4223.elem }

/-- The matrix `[[4,2],[2,5]]` as a device-resident view with leading
dimension 3 (a 2×2 block of a buffer with 3 rows). -/
def spd2_dev_padded : Mat :=
  { on_device := true, size1 := 2, size2 := 2, lead := 3, elem := spd2.elem }

/-- The device-resident diagonal matrix `diag(1, -2^-54)`. -/
def diag_dev : Mat :=
  { on_device := true, size1 := 2, size2 := 2, lead := 2,
    elem := (diag2 1 (-1 / 2 ^ 54)).elem }

/-- Comparison operators on natural numbers, standing for those of the
sub-expressions in the examples. -/
def nat_ops : ExprOps Nat :=
  { lt := fun a b => decide (a < b), le := fun a b => decide (a ≤ b),
    gt := fun a b => decide (a > b), ge := fun a b => decide (a ≥ b),
    eq := fun a b => decide (a = b), ne := fun a b => decide (a ≠ b) }

/-- Element of smallest magnitude of a range. -/
def list_amin (l : List real) : real :=
  l.foldl (fun m x => if |x| < |m| then x else m) (l.headD 0)

/-- Element of largest magnitude of a range. -/
def list_amax (l : List real) : real :=
  l.foldl (fun m x => if |m| < |x| then x else m) (l.headD 0)

/-- The product of two `double` values as far as underflow goes: a product
smaller in magnitude than `2^-1075`, half the least positive `double`, rounds
to zero; any other product is taken exactly. -/
def flush_mul (a b : real) : real :=
  if |a * b| < 1 / 2 ^ 1075 then 0 else a * b

/-- Collaborators in double precision for diagonal inputs: 53 digits, products
that underflow to zero, `amin` and `amax` by magnitude, and a `potrf` that
reports `diag_status` and hands the buffer back as it is. -/
def underflow_ext : Ext :=
  { digits := 53,
    fl_mul := flush_mul,
    amin := list_amin,
    amax := list_amax,
    potrf := fun _ _ N M => (M.elem, diag_status N M),
    potrs := fun _ _ _ _ _ _ X _ => (X.elem, 0),
    ch1dn := fun _ U _ a b => (U.elem, a.elem, b.elem, 0) }

/-- A host 3×3 diagonal matrix with diagonal `(p, q, r)`. -/
def diag3 (p q r : real) : Mat :=
  { on_device := false, size1 := 3, size2 := 3, lead := 3,
    elem := fun i j =>
      if i = j then (if i = 0 then p else if i = 1 then q else if i = 2 then r else 0) else 0 }

/-- A host 3×3 matrix of zeros, used as the output view. -/
def zeros3 : Mat :=
  { on_device := false, size1 := 3, size2 := 3, lead := 3, elem := fun _ _ => 0 }

/-- Square root of a non-negative rational, rounded down to four decimals. -/
def sqrt4 (x : real) : real :=
  (Nat.sqrt (Nat.floor (x * 10 ^ 8)) : real) / 10 ^ 4

/-- The unblocked decomposition of LAPACK (`potf2`, `uplo = 'L'`) on a 2×2
matrix, with square roots to four decimals: it reads and writes the lower
triangle only, and reports the 1-based index of the first pivot that is not
positive (leaving that pivot in place of the diagonal entry). -/
def potf2_lower (M : Mat) : (Nat → Nat → real) × Int :=
  if M.elem 0 0 ≤ 0 then (M.elem, 1)
  else
    let l11 := sqrt4 (M.elem 0 0)
    let l21 := M.elem 1 0 / l11
    let d := M.elem 1 1 - l21 * l21
    if d ≤ 0 then
      (fun i j => if i = 0 ∧ j = 0 then l11 else if i = 1 ∧ j = 0 then l21
        else if i = 1 ∧ j = 1 then d else M.elem i j, 2)
    else
      (fun i j => if i = 0 ∧ j = 0 then l11 else if i = 1 ∧ j = 0 then l21
        else if i = 1 ∧ j = 1 then sqrt4 d else M.elem i j, 0)

/-- Collaborators whose `potrf` is `potf2_lower` (order 2, lower triangle);
any other order or triangle is reported as an illegal argument. -/
def potf2_ext : Ext :=
  { digits := 53,
    fl_mul := fun a b => a * b,
    amin := list_min,
    amax := list_max,
    potrf := fun _ uplo N M => if uplo = 'L' ∧ N = 2 then potf2_lower M else (M.elem, -1),
    potrs := fun _ _ _ _ _ _ X _ => (X.elem, 0),
    ch1dn := fun _ U _ a b => (U.elem, a.elem, b.elem, 0) }

/-! ## Lemmas on the retry loop -/

theorem attempts_append (s t : List Event) : attempts (s ++ t) = attempts s ++ attempts t := by
  induction s with
  | nil => rfl
  | cons e s ih => cases e <;> simp [attempts, ih]

theorem blas_calls_append (s t : List Event) :
    blas_calls (s ++ t) = blas_calls s ++ blas_calls t := by
  induction s with
  | nil => rfl
  | cons e s ih => cases e <;> simp [blas_calls, ih]

theorem gpu_map_vector_elem (x : Vec) : (gpu_map_vector x).elem = x.elem := by
  unfold gpu_map_vector; split <;> rfl

theorem host_map_vector_elem (x : Vec) : (host_map_vector x).elem = x.elem := by
  unfold host_map_vector; split <;> rfl

theorem Vec.clear_size (y : Vec) : y.clear.size = y.size := rfl

/-- Output of `axpy` when the size assertion holds. -/
theorem axpy_out (a : real) (x y : Vec) (clear : Bool) (h : x.size = y.size) :
    (axpy a x y clear).out =
      { (if clear then y.clear else y) with
        elem := blas_axpy y.size a x.elem (if clear then y.clear else y).elem } := by
  unfold axpy
  rw [if_pos h]
  cases clear <;> cases hd : y.on_device <;>
    simp [gpu_map_vector_elem, host_map_vector_elem, Vec.clear_size]

theorem axpy_err (a : real) (x y : Vec) (clear : Bool) (h : x.size = y.size) :
    (axpy a x y clear).err = none := by
  unfold axpy
  rw [if_pos h]
  cases hd : y.on_device <;> simp

theorem chol_body_matrix (A L : Mat) (buf : Nat → Nat → real) (factor : real) :
    (({ L with elem := buf } : Mat).assign A).set_diagonal
        (axpy factor (chol_eps L) (diagonal (({ L with elem := buf } : Mat).assign A)) false).out
      = loaded A L factor := by
  rw [axpy_out factor (chol_eps L)
    (diagonal (({ L with elem := buf } : Mat).assign A)) false rfl]
  simp only [loaded, Mat.set_diagonal, Mat.assign, Mat.mk.injEq, true_and, diagonal,
    chol_eps, fill, temp_vector, blas_axpy, Bool.false_eq_true, if_false]
  funext i j
  by_cases h : i = j ∧ i < min L.size1 L.size2
  · obtain ⟨rfl, hi⟩ := h
    simp only [hi, and_self, if_true, mul_one, add_comm]
  · simp only [h, if_false]

theorem axpy_attempts (a : real) (x y : Vec) (clear : Bool) :
    attempts (axpy a x y clear).trace = [] := by
  unfold axpy
  by_cases h : x.size = y.size
  · rw [if_pos h]
    cases hd : y.on_device <;> cases hx : x.on_device <;> simp [attempts]
  · rw [if_neg h]; rfl

theorem chol_body_factor (E : Ext) (A L : Mat) (uplo : Char) (N : Nat) (eps : Vec)
    (s : CholState) : (chol_body E A L uplo N eps s).factor = s.factor * 2 := by
  unfold chol_body
  cases hd : L.on_device <;> simp

theorem chol_body_result (E : Ext) (A L : Mat) (uplo : Char) (N : Nat) (s : CholState) :
    (chol_body E A L uplo N (chol_eps L) s).buf
        = (E.potrf (Loc.of L.on_device) uplo N (loaded A L s.factor)).1
    ∧ (chol_body E A L uplo N (chol_eps L) s).info
        = (E.potrf (Loc.of L.on_device) uplo N (loaded A L s.factor)).2 := by
  simp only [chol_body]
  rw [chol_body_matrix]
  cases hd : L.on_device <;> simp [Loc.of]

theorem chol_body_attempts (E : Ext) (A L : Mat) (uplo : Char) (N : Nat) (s : CholState) :
    attempts (chol_body E A L uplo N (chol_eps L) s).trace
      = attempts s.trace ++ [loaded A L s.factor] := by
  simp only [chol_body]
  rw [chol_body_matrix]
  cases hd : L.on_device <;> simp [attempts_append, axpy_attempts, attempts]

/-- The attempts made by the loop: one per iteration, the `k`-th on
`A + (factor·2^k)·I`. -/
theorem chol_loop_attempts (E : Ext) (A L : Mat) (uplo : Char) (N : Nat) (largest : real)
    (fuel : Nat) : ∀ s : CholState,
    attempts (chol_loop E A L uplo N (chol_eps L) largest fuel s).trace
      = attempts s.trace ++
        (List.range (chol_iters E A L uplo N (chol_eps L) largest fuel s)).map
          (fun k => loaded A L (s.factor * 2 ^ k)) := by
  induction fuel with
  | zero => intro s; simp [chol_loop, chol_iters]
  | succ fuel ih =>
    intro s
    by_cases h : s.info ≠ 0 ∧ s.factor < largest
    · simp only [chol_loop, chol_iters, if_pos h]
      rw [ih, chol_body_attempts, chol_body_factor, List.range_succ_eq_map]
      simp only [List.map_cons, List.map_map, pow_zero, mul_one, List.append_assoc,
        List.singleton_append]
      congr 2
      apply List.map_congr_left
      intro k _
      simp only [Function.comp, pow_succ]
      congr 1
      ring
    · simp [chol_loop, chol_iters, if_neg h]

/-- Every iteration of the loop was entered with `factor` below `largest`. -/
theorem chol_iters_below (E : Ext) (A L : Mat) (uplo : Char) (N : Nat) (largest : real)
    (fuel : Nat) : ∀ s : CholState, ∀ k,
    k < chol_iters E A L uplo N (chol_eps L) largest fuel s →
      s.factor * 2 ^ k < largest := by
  induction fuel with
  | zero => intro s k hk; simp [chol_iters] at hk
  | succ fuel ih =>
    intro s k hk
    by_cases h : s.info ≠ 0 ∧ s.factor < largest
    · simp only [chol_iters, if_pos h] at hk
      cases k with
      | zero => simpa using h.2
      | succ k =>
        have := ih (chol_body E A L uplo N (chol_eps L) s) k (Nat.lt_of_succ_lt_succ hk)
        rw [chol_body_factor] at this
        rw [pow_succ]
        calc s.factor * (2 ^ k * 2) = s.factor * 2 * 2 ^ k := by ring
          _ < largest := this
    · simp [chol_iters, if_neg h] at hk

/-- The fuel handed to the loop is enough for `factor` to reach `largest`. -/
theorem chol_fuel_enough (factor largest : real) (hpos : 0 < factor) :
    largest ≤ factor * 2 ^ chol_fuel factor largest := by
  have h1 : largest / factor ≤ (chol_fuel factor largest : real) := Nat.le_ceil _
  have h2 : (chol_fuel factor largest : real) ≤ 2 ^ chol_fuel factor largest := by
    exact_mod_cast (Nat.lt_two_pow (chol_fuel factor largest)).le
  have h3 : largest / factor ≤ 2 ^ chol_fuel factor largest := le_trans h1 h2
  rw [div_le_iff₀ hpos] at h3
  linarith

/-- With enough fuel the loop stops because its condition is false, as the
`while` of the source does. -/
theorem chol_loop_done (E : Ext) (A L : Mat) (uplo : Char) (N : Nat) (eps : Vec)
    (largest : real) (fuel : Nat) : ∀ s : CholState, 0 < s.factor →
    largest ≤ s.factor * 2 ^ fuel →
    ¬ ((chol_loop E A L uplo N eps largest fuel s).info ≠ 0
        ∧ (chol_loop E A L uplo N eps largest fuel s).factor < largest) := by
  induction fuel with
  | zero =>
    intro s _ hle
    simp only [chol_loop, pow_zero, mul_one] at *
    intro h
    exact absurd h.2 (not_lt.mpr hle)
  | succ fuel ih =>
    intro s hpos hle
    by_cases h : s.info ≠ 0 ∧ s.factor < largest
    · simp only [chol_loop, if_pos h]
      apply ih
      · rw [chol_body_factor]; linarith
      · rw [chol_body_factor]
        calc largest ≤ s.factor * 2 ^ (fuel + 1) := hle
          _ = s.factor * 2 * 2 ^ fuel := by rw [pow_succ]; ring
    · simpa only [chol_loop, if_neg h] using h

theorem mul_two_pow_mono (f : real) (hf : 0 < f) (k : Nat) : f ≤ f * 2 ^ k := by
  have h1 : (1 : real) ≤ 2 ^ k := one_le_pow₀ (by norm_num)
  nlinarith

/-- The loop ends with a nonzero status exactly when it started with one and
every loading below `largest` fails. -/
theorem chol_loop_info_iff (E : Ext) (A L : Mat) (uplo : Char) (N : Nat)
    (largest : real) (fuel : Nat) : ∀ s : CholState, 0 < s.factor →
    largest ≤ s.factor * 2 ^ fuel →
    ((chol_loop E A L uplo N (chol_eps L) largest fuel s).info ≠ 0 ↔
      s.info ≠ 0 ∧ ∀ k : Nat, s.factor * 2 ^ k < largest →
        (E.potrf (Loc.of L.on_device) uplo N (loaded A L (s.factor * 2 ^ k))).2 ≠ 0) := by
  induction fuel with
  | zero =>
    intro s hpos hle
    simp only [chol_loop, pow_zero, mul_one] at *
    constructor
    · intro h
      refine ⟨h, fun k hk => ?_⟩
      exact absurd (lt_of_le_of_lt (mul_two_pow_mono _ hpos k) hk) (not_lt.mpr hle)
    · exact fun h => h.1
  | succ fuel ih =>
    intro s hpos hle
    by_cases h : s.info ≠ 0 ∧ s.factor < largest
    · simp only [chol_loop, if_pos h]
      have hf : (chol_body E A L uplo N (chol_eps L) s).factor = s.factor * 2 :=
        chol_body_factor _ _ _ _ _ _ _
      rw [ih (chol_body E A L uplo N (chol_eps L) s) (by rw [hf]; linarith)
        (by rw [hf]; calc largest ≤ s.factor * 2 ^ (fuel + 1) := hle
              _ = s.factor * 2 * 2 ^ fuel := by rw [pow_succ]; ring)]
      rw [hf, (chol_body_result E A L uplo N s).2]
      constructor
      · rintro ⟨h0, hk⟩
        refine ⟨h.1, fun k hlt => ?_⟩
        cases k with
        | zero => simpa using h0
        | succ k =>
          have e : s.factor * 2 ^ (k + 1) = s.factor * 2 * 2 ^ k := by rw [pow_succ]; ring
          rw [e] at hlt ⊢
          exact hk k hlt
      · rintro ⟨_, hk⟩
        refine ⟨by simpa using hk 0 (by simpa using h.2), fun k hlt => ?_⟩
        have e : s.factor * 2 * 2 ^ k = s.factor * 2 ^ (k + 1) := by rw [pow_succ]; ring
        rw [e] at hlt ⊢
        exact hk (k + 1) hlt
    · simp only [chol_loop, if_neg h]
      constructor
      · intro h0
        refine ⟨h0, fun k hk => ?_⟩
        have hge : largest ≤ s.factor := not_lt.mp (fun hlt => h ⟨h0, hlt⟩)
        exact absurd (lt_of_le_of_lt (mul_two_pow_mono _ hpos k) hk) (not_lt.mpr hge)
      · exact fun h0 => h0.1

/-- Buffer and status at the end of the loop are those of the last attempt. -/
theorem chol_loop_last (E : Ext) (A L : Mat) (uplo : Char) (N : Nat)
    (largest : real) (fuel : Nat) : ∀ s : CholState,
    (chol_iters E A L uplo N (chol_eps L) largest fuel s = 0
        ∧ (chol_loop E A L uplo N (chol_eps L) largest fuel s).buf = s.buf
        ∧ (chol_loop E A L uplo N (chol_eps L) largest fuel s).info = s.info)
    ∨ (∃ n, chol_iters E A L uplo N (chol_eps L) largest fuel s = n + 1
        ∧ (chol_loop E A L uplo N (chol_eps L) largest fuel s).buf
            = (E.potrf (Loc.of L.on_device) uplo N (loaded A L (s.factor * 2 ^ n))).1
        ∧ (chol_loop E A L uplo N (chol_eps L) largest fuel s).info
            = (E.potrf (Loc.of L.on_device) uplo N (loaded A L (s.factor * 2 ^ n))).2) := by
  induction fuel with
  | zero => intro s; left; simp [chol_loop, chol_iters]
  | succ fuel ih =>
    intro s
    by_cases h : s.info ≠ 0 ∧ s.factor < largest
    · right
      simp only [chol_loop, chol_iters, if_pos h]
      rcases ih (chol_body E A L uplo N (chol_eps L) s) with ⟨h0, hb, hi⟩ | ⟨n, hn, hb, hi⟩
      · refine ⟨0, by rw [h0], ?_, ?_⟩
        · rw [hb, (chol_body_result E A L uplo N s).1]; simp
        · rw [hi, (chol_body_result E A L uplo N s).2]; simp
      · have e : s.factor * 2 * 2 ^ n = s.factor * 2 ^ (n + 1) := by rw [pow_succ]; ring
        rw [chol_body_factor, e] at hb hi
        exact ⟨n + 1, by rw [hn], hb, hi⟩
    · left
      simp [chol_loop, chol_iters, if_neg h]

/-! ## `chol` as a whole -/

theorem chol_first_result (E : Ext) (A L : Mat) (uplo : Char) :
    (chol_first E A L uplo A.size1).buf = (first_attempt E A L uplo).1
    ∧ (chol_first E A L uplo A.size1).info = (first_attempt E A L uplo).2
    ∧ attempts (chol_first E A L uplo A.size1).trace = [L.assign A]
    ∧ blas_calls (chol_first E A L uplo A.size1).trace = [] := by
  unfold chol_first first_attempt
  cases hd : L.on_device <;> cases ha : A.on_device <;>
    simp [Loc.of, attempts, blas_calls]

/-- The initial `factor` computed by the source is the `eps0` of the statements. -/
theorem chol_factor_eq (E : Ext) (A L : Mat) (uplo : Char) :
    chol_factor E (failed_diag E A L uplo) = eps0 E A L uplo := by
  unfold chol_factor eps0 machine_eps
  simp only [gt_iff_lt, zpow_neg, zpow_natCast, one_div, mul_one]

/-- The first loading is positive unless the machine product `c·s` is not:
when the smallest diagonal value is not positive the loading is `c` itself. -/
theorem eps0_pos_of_unscaled (E : Ext) (A L : Mat) (uplo : Char)
    (h : ¬ 0 < E.amin (failed_diag E A L uplo).range) : 0 < eps0 E A L uplo := by
  unfold eps0 machine_eps
  rw [if_neg h]
  positivity

/-- A loading of zero changes nothing: the matrix handed to the decomposition
is the unloaded copy of `A` again. -/
theorem loaded_zero (A L : Mat) : loaded A L 0 = L.assign A := by
  simp only [loaded, Mat.assign, Mat.mk.injEq, true_and]
  funext i j
  simp

theorem chol_adjust_eq (E : Ext) (A L : Mat) (uplo : Char) :
    chol_adjust E A L uplo A.size1 (chol_first E A L uplo A.size1) = chol_final E A L uplo := by
  unfold chol_adjust chol_final
  have hb := (chol_first_result E A L uplo).1
  have hd : diagonal { L with elem := (chol_first E A L uplo A.size1).buf }
      = failed_diag E A L uplo := by rw [hb]; rfl
  simp only [hd, chol_factor_eq]
  rfl

/-- Under `FAIL`, and after a first success, `chol` ends in the state of the
first attempt. -/
theorem chol_no_retry (E : Ext) (A L : Mat) (uplo : Char) (strat : CholeskyStrategy)
    (hpre : chol_pre A L uplo)
    (h : (first_attempt E A L uplo).2 = 0 ∨ strat = CholeskyStrategy.FAIL) :
    (chol E A L uplo strat).trace = (chol_first E A L uplo A.size1).trace
    ∧ (chol E A L uplo strat).out = { L with elem := (first_attempt E A L uplo).1 }
    ∧ (chol E A L uplo strat).err =
        if (first_attempt E A L uplo).2 ≠ 0
        then some (Err.CholeskyException (first_attempt E A L uplo).2) else none := by
  obtain ⟨hb, hi, -, -⟩ := chol_first_result E A L uplo
  have hc : ¬ ((chol_first E A L uplo A.size1).info ≠ 0
      ∧ strat = CholeskyStrategy.ADJUST_DIAGONAL) := by
    rw [hi]
    rcases h with h | h
    · simp [h]
    · simp [h]
  unfold chol
  rw [if_pos hpre]
  dsimp only
  rw [if_neg hc, hb, hi]
  exact ⟨rfl, rfl, rfl⟩

/-- Under `ADJUST_DIAGONAL`, after a failed first attempt, `chol` ends in the
final state of the retry loop. -/
theorem chol_retry_run (E : Ext) (A L : Mat) (uplo : Char)
    (hpre : chol_pre A L uplo) (h : (first_attempt E A L uplo).2 ≠ 0) :
    (chol E A L uplo CholeskyStrategy.ADJUST_DIAGONAL).trace = (chol_final E A L uplo).trace
    ∧ (chol E A L uplo CholeskyStrategy.ADJUST_DIAGONAL).out
        = { L with elem := (chol_final E A L uplo).buf }
    ∧ (chol E A L uplo CholeskyStrategy.ADJUST_DIAGONAL).err =
        if (chol_final E A L uplo).info ≠ 0
        then some (Err.CholeskyException (chol_final E A L uplo).info) else none := by
  obtain ⟨-, hi, -, -⟩ := chol_first_result E A L uplo
  have hc : (chol_first E A L uplo A.size1).info ≠ 0
      ∧ CholeskyStrategy.ADJUST_DIAGONAL = CholeskyStrategy.ADJUST_DIAGONAL := by
    rw [hi]; exact ⟨h, rfl⟩
  unfold chol
  rw [if_pos hpre]
  dsimp only
  rw [if_pos hc, chol_adjust_eq]
  exact ⟨rfl, rfl, rfl⟩

theorem chol_final_attempts (E : Ext) (A L : Mat) (uplo : Char) :
    attempts (chol_final E A L uplo).trace
      = L.assign A :: (List.range (chol_retries E A L uplo)).map
          (fun k => loaded A L (eps0 E A L uplo * 2 ^ k)) := by
  unfold chol_final
  rw [chol_loop_attempts]
  have h : attempts (chol_start E A L uplo).trace = [L.assign A] :=
    (chol_first_result E A L uplo).2.2.1
  rw [h]
  rfl

/-- The attempts of `chol` after a failed first one: the unloaded matrix, then
`A + (eps0·2^k)·I` for each retry `k`, every loading below `largest`. -/
theorem chol_retry_attempts (E : Ext) (A L : Mat) (uplo : Char)
    (hpre : chol_pre A L uplo) (h : (first_attempt E A L uplo).2 ≠ 0) :
    attempts (chol E A L uplo CholeskyStrategy.ADJUST_DIAGONAL).trace
      = L.assign A :: (List.range (chol_retries E A L uplo)).map
          (fun k => loaded A L (eps0 E A L uplo * 2 ^ k))
    ∧ ∀ k, k < chol_retries E A L uplo → eps0 E A L uplo * 2 ^ k < largest E A L uplo := by
  constructor
  · rw [(chol_retry_run E A L uplo hpre h).1]
    exact chol_final_attempts E A L uplo
  · intro k hk
    exact chol_iters_below E A L uplo A.size1 (largest E A L uplo) _ _ k hk

/-! ## Evaluation of the example collaborators -/

theorem diag_status_two (M : Mat) :
    diag_status 2 M = if M.elem 0 0 ≤ 0 then 1 else if M.elem 1 1 ≤ 0 then 2 else 0 := by
  unfold diag_status
  by_cases h0 : M.elem 0 0 ≤ 0
  · simp [List.range_succ, List.find?, h0]
  · by_cases h1 : M.elem 1 1 ≤ 0
    · simp [List.range_succ, List.find?, h0, h1]
    · simp [List.range_succ, List.find?, h0, h1]

theorem diag_first_attempt (p q : real) :
    first_attempt diag_ext (diag2 p q) zeros2 'L'
      = ((diag2 p q).elem, if p ≤ 0 then 1 else if q ≤ 0 then 2 else 0) := by
  simp [first_attempt, diag_ext, diag_status_two, Mat.assign, diag2, zeros2]

theorem diag_attempt (p q eps : real) :
    (attempt diag_ext (diag2 p q) zeros2 'L' eps).2
      = if p + eps ≤ 0 then 1 else if q + eps ≤ 0 then 2 else 0 := by
  simp [attempt, diag_ext, diag_status_two, loaded, diag2, zeros2]

theorem diag_failed_range (p q : real) :
    (failed_diag diag_ext (diag2 p q) zeros2 'L').range = [p, q] := by
  unfold failed_diag
  rw [diag_first_attempt]
  simp [diagonal, Vec.range, zeros2, diag2, List.range_succ]

theorem diag_eps0 (p q : real) :
    eps0 diag_ext (diag2 p q) zeros2 'L'
      = if 0 < min p q then 1 / 2 ^ 53 * min p q else 1 / 2 ^ 53 := by
  unfold eps0
  rw [diag_failed_range]
  simp [machine_eps, diag_ext, list_min]

theorem diag_eps0_pos (p q : real) : 0 < eps0 diag_ext (diag2 p q) zeros2 'L' := by
  rw [diag_eps0]
  split
  · exact mul_pos (by positivity) (by assumption)
  · positivity

theorem diag_largest (p q : real) :
    largest diag_ext (diag2 p q) zeros2 'L' = max p q := by
  unfold largest
  rw [diag_failed_range]
  simp [diag_ext, list_max]

theorem diag_status_three (M : Mat) :
    diag_status 3 M = if M.elem 0 0 ≤ 0 then 1 else if M.elem 1 1 ≤ 0 then 2
      else if M.elem 2 2 ≤ 0 then 3 else 0 := by
  unfold diag_status
  by_cases h0 : M.elem 0 0 ≤ 0
  · simp [List.range_succ, List.find?, h0]
  · by_cases h1 : M.elem 1 1 ≤ 0
    · simp [List.range_succ, List.find?, h0, h1]
    · by_cases h2 : M.elem 2 2 ≤ 0
      · simp [List.range_succ, List.find?, h0, h1, h2]
      · simp [List.range_succ, List.find?, h0, h1, h2]

theorem underflow_first_attempt (p q r : real) :
    first_attempt underflow_ext (diag3 p q r) zeros3 'L'
      = ((diag3 p q r).elem,
          if p ≤ 0 then 1 else if q ≤ 0 then 2 else if r ≤ 0 then 3 else 0) := by
  simp [first_attempt, underflow_ext, diag_status_three, Mat.assign, diag3, zeros3]

theorem underflow_failed_range (p q r : real) :
    (failed_diag underflow_ext (diag3 p q r) zeros3 'L').range = [p, q, r] := by
  unfold failed_diag
  rw [underflow_first_attempt]
  simp [diagonal, Vec.range, zeros3, diag3, List.range_succ]

/-- Smallest and largest element by magnitude of `[1, -1/2, t]` for a small
positive `t`. -/
theorem amin_three (t : real) (h0 : 0 < t) (h1 : t < 1 / 2) :
    list_amin [1, -1 / 2, t] = t ∧ list_amax [1, -1 / 2, t] = 1 := by
  have a2 : |(-1 / 2 : real)| = 1 / 2 := by
    rw [abs_of_neg (by norm_num)]; norm_num
  have a3 : |t| = t := abs_of_pos h0
  constructor
  · simp only [list_amin, List.foldl, List.headD, abs_one, lt_irrefl, if_false, a2]
    rw [if_pos (by rw [a3]; norm_num [abs_of_pos]; exact h1)]
  · have h12 : ¬ (1 : real) < 1 / 2 := by norm_num
    simp only [list_amax, List.foldl, List.headD, abs_one, lt_irrefl, if_false, a2, h12, a3]
    rw [if_neg (by linarith)]

theorem tiny_lt_half : (1 / 2 ^ 1040 : real) < 1 / 2 := by
  have h : (2 : real) ^ 1 < 2 ^ 1040 := pow_lt_pow_right₀ (by norm_num) (by norm_num)
  rw [pow_one] at h
  exact one_div_lt_one_div_of_lt (by norm_num) h

/-- The product `2^-53 · 2^-1040` underflows to zero. -/
theorem flush_tiny : flush_mul (1 / 2 ^ 53) (1 / 2 ^ 1040) = 0 := by
  unfold flush_mul
  have e : (1 / 2 ^ 53 : real) * (1 / 2 ^ 1040) = 1 / 2 ^ 1093 := by
    rw [one_div_mul_one_div, ← pow_add]
  have h : (2 : real) ^ 1075 < 2 ^ 1093 := pow_lt_pow_right₀ (by norm_num) (by norm_num)
  rw [e, abs_of_pos (by positivity), if_pos (one_div_lt_one_div_of_lt (by positivity) h)]

/-- For `diag(1, -1/2, 2^-1040)` in double precision: the decomposition fails at
the second pivot, the smallest diagonal value by magnitude is `2^-1040`, the
first loading `2^-53·2^-1040` underflows to zero, and `largest` is 1. -/
theorem underflow_values :
    (first_attempt underflow_ext (diag3 1 (-1 / 2) (1 / 2 ^ 1040)) zeros3 'L').2 = 2
    ∧ eps0 underflow_ext (diag3 1 (-1 / 2) (1 / 2 ^ 1040)) zeros3 'L' = 0
    ∧ largest underflow_ext (diag3 1 (-1 / 2) (1 / 2 ^ 1040)) zeros3 'L' = 1 := by
  obtain ⟨hmin, hmax⟩ := amin_three (1 / 2 ^ 1040) (by positivity) tiny_lt_half
  refine ⟨?_, ?_, ?_⟩
  · rw [underflow_first_attempt]; norm_num
  · unfold eps0
    rw [underflow_failed_range]
    show (if 0 < list_amin [1, -1 / 2, 1 / 2 ^ 1040]
      then flush_mul (machine_eps underflow_ext) (list_amin [1, -1 / 2, 1 / 2 ^ 1040])
      else machine_eps underflow_ext * 1) = 0
    rw [hmin, if_pos (by positivity)]
    exact flush_tiny
  · unfold largest
    rw [underflow_failed_range]
    exact hmax

/-! ## Which retries the loop makes -/


/-- Retry `k` is made within `fuel` iterations exactly when `k < fuel`, the
state entering the loop has a nonzero status, every loading up to the `k`-th is
below `largest`, and every loading before the `k`-th was rejected. -/
theorem chol_iters_iff (E : Ext) (A L : Mat) (uplo : Char) (N : Nat) (largest : real)
    (fuel : Nat) : ∀ (s : CholState) (k : Nat),
    k < chol_iters E A L uplo N (chol_eps L) largest fuel s ↔
      k < fuel ∧ s.info ≠ 0 ∧ (∀ j, j ≤ k → s.factor * 2 ^ j < largest)
      ∧ ∀ j, j < k →
          (E.potrf (Loc.of L.on_device) uplo N (loaded A L (s.factor * 2 ^ j))).2 ≠ 0 := by
  induction fuel with
  | zero =>
    intro s k
    simp [chol_iters]
  | succ fuel ih =>
    intro s k
    have e : ∀ j : Nat, s.factor * 2 * 2 ^ j = s.factor * 2 ^ (j + 1) := by
      intro j; rw [pow_succ]; ring
    by_cases hc : s.info ≠ 0 ∧ s.factor < largest
    · simp only [chol_iters, if_pos hc]
      cases k with
      | zero =>
        constructor
        · intro _
          refine ⟨Nat.succ_pos fuel, hc.1, fun j hj => ?_, fun j hj => absurd hj (Nat.not_lt_zero j)⟩
          have hj0 : j = 0 := Nat.le_zero.mp hj
          subst hj0
          simpa using hc.2
        · intro _; exact Nat.succ_pos _
      | succ k =>
        rw [Nat.succ_lt_succ_iff, ih (chol_body E A L uplo N (chol_eps L) s) k,
          chol_body_factor, (chol_body_result E A L uplo N s).2]
        constructor
        · rintro ⟨hk, hi, hb, hf⟩
          refine ⟨Nat.succ_lt_succ hk, hc.1, fun j hj => ?_, fun j hj => ?_⟩
          · cases j with
            | zero => simpa using hc.2
            | succ j => rw [← e]; exact hb j (Nat.le_of_succ_le_succ hj)
          · cases j with
            | zero => simpa using hi
            | succ j => rw [← e]; exact hf j (Nat.lt_of_succ_lt_succ hj)
        · rintro ⟨hk, _, hb, hf⟩
          refine ⟨Nat.lt_of_succ_lt_succ hk, ?_, fun j hj => ?_, fun j hj => ?_⟩
          · simpa using hf 0 (Nat.succ_pos k)
          · rw [e]; exact hb (j + 1) (Nat.succ_le_succ hj)
          · rw [e]; exact hf (j + 1) (Nat.succ_lt_succ hj)
    · simp only [chol_iters, if_neg hc]
      constructor
      · intro h; exact absurd h (Nat.not_lt_zero k)
      · rintro ⟨_, hi, hb, _⟩
        exact absurd ⟨hi, by simpa using hb 0 (Nat.zero_le k)⟩ hc

/-- The retries of the loop of `chol`, followed for `fuel` iterations. -/
theorem chol_start_iters_iff (E : Ext) (A L : Mat) (uplo : Char)
    (hfail : (first_attempt E A L uplo).2 ≠ 0) (fuel k : Nat) :
    k < chol_iters E A L uplo A.size1 (chol_eps L) (largest E A L uplo) fuel
          (chol_start E A L uplo) ↔
      k < fuel ∧ (∀ j, j ≤ k → eps0 E A L uplo * 2 ^ j < largest E A L uplo)
      ∧ ∀ j, j < k → (attempt E A L uplo (eps0 E A L uplo * 2 ^ j)).2 ≠ 0 := by
  have hi : (chol_start E A L uplo).info = (first_attempt E A L uplo).2 :=
    (chol_first_result E A L uplo).2.1
  rw [chol_iters_iff, hi]
  exact ⟨fun h => ⟨h.1, h.2.2.1, h.2.2.2⟩, fun h => ⟨h.1, hfail, h.2.1, h.2.2⟩⟩

/-- The attempts of the loop of `chol`, followed for `fuel` iterations. -/
theorem chol_start_attempts (E : Ext) (A L : Mat) (uplo : Char) (fuel : Nat) :
    attempts (chol_loop E A L uplo A.size1 (chol_eps L) (largest E A L uplo) fuel
        (chol_start E A L uplo)).trace
      = L.assign A :: (List.range (chol_iters E A L uplo A.size1 (chol_eps L)
          (largest E A L uplo) fuel (chol_start E A L uplo))).map
          (fun k => loaded A L (eps0 E A L uplo * 2 ^ k)) := by
  rw [chol_loop_attempts]
  have h : attempts (chol_start E A L uplo).trace = [L.assign A] :=
    (chol_first_result E A L uplo).2.2.1
  rw [h]
  rfl

/-- With a positive first loading the fuel of `chol` covers every retry the
loop makes: retry `k` is made exactly when its loading is below `largest` and
every loading before it was rejected. -/
theorem chol_retries_iff (E : Ext) (A L : Mat) (uplo : Char)
    (hfail : (first_attempt E A L uplo).2 ≠ 0) (hpos : 0 < eps0 E A L uplo) (k : Nat) :
    k < chol_retries E A L uplo ↔
      eps0 E A L uplo * 2 ^ k < largest E A L uplo
      ∧ ∀ j, j < k → (attempt E A L uplo (eps0 E A L uplo * 2 ^ j)).2 ≠ 0 := by
  unfold chol_retries
  rw [chol_start_iters_iff E A L uplo hfail]
  constructor
  · rintro ⟨-, hb, hf⟩
    exact ⟨hb k (Nat.le_refl k), hf⟩
  · rintro ⟨hb, hf⟩
    refine ⟨?_, fun j hj => ?_, hf⟩
    · have hfuel := chol_fuel_enough (eps0 E A L uplo) (largest E A L uplo) hpos
      have h1 : eps0 E A L uplo * 2 ^ k
          < eps0 E A L uplo * 2 ^ chol_fuel (eps0 E A L uplo) (largest E A L uplo) :=
        lt_of_lt_of_le hb hfuel
      have h2 : (2 : real) ^ k < 2 ^ chol_fuel (eps0 E A L uplo) (largest E A L uplo) :=
        lt_of_mul_lt_mul_left h1 (le_of_lt hpos)
      exact (pow_lt_pow_iff_right₀ (by norm_num)).mp h2
    · have h1 : (2 : real) ^ j ≤ 2 ^ k := pow_le_pow_right₀ (by norm_num) hj
      exact lt_of_le_of_lt (mul_le_mul_of_nonneg_left h1 (le_of_lt hpos)) hb

/-- With a first loading of zero, a positive `largest` and a decomposition that
rejects the unloaded matrix, the loop never meets its exit condition: however
many iterations are followed, every one of them is made, each decomposes the
unloaded matrix again, and the condition `info != 0 && factor < largest` still
holds afterwards. -/
theorem chol_loop_stuck (E : Ext) (A L : Mat) (uplo : Char) (N : Nat) (largest : real)
    (hl : 0 < largest)
    (hfail : (E.potrf (Loc.of L.on_device) uplo N (L.assign A)).2 ≠ 0) (fuel : Nat) :
    ∀ s : CholState, s.factor = 0 → s.info ≠ 0 →
      (chol_loop E A L uplo N (chol_eps L) largest fuel s).info ≠ 0
      ∧ (chol_loop E A L uplo N (chol_eps L) largest fuel s).factor = 0
      ∧ chol_iters E A L uplo N (chol_eps L) largest fuel s = fuel := by
  induction fuel with
  | zero =>
    intro s hf hi
    exact ⟨hi, hf, rfl⟩
  | succ fuel ih =>
    intro s hf hi
    have hc : s.info ≠ 0 ∧ s.factor < largest := ⟨hi, by rw [hf]; exact hl⟩
    simp only [chol_loop, chol_iters, if_pos hc]
    have hb := ih (chol_body E A L uplo N (chol_eps L) s)
      (by rw [chol_body_factor, hf, zero_mul])
      (by rw [(chol_body_result E A L uplo N s).2, hf, loaded_zero]; exact hfail)
    exact ⟨hb.1, hb.2.1, by rw [hb.2.2]⟩

/-- The loop of `chol` with a first loading of zero: see `chol_loop_stuck`. -/
theorem chol_never_exits (E : Ext) (A L : Mat) (uplo : Char)
    (hfail : (first_attempt E A L uplo).2 ≠ 0) (hzero : eps0 E A L uplo = 0)
    (hl : 0 < largest E A L uplo) (fuel : Nat) :
    ((chol_loop E A L uplo A.size1 (chol_eps L) (largest E A L uplo) fuel
          (chol_start E A L uplo)).info ≠ 0
      ∧ (chol_loop E A L uplo A.size1 (chol_eps L) (largest E A L uplo) fuel
          (chol_start E A L uplo)).factor < largest E A L uplo)
    ∧ chol_iters E A L uplo A.size1 (chol_eps L) (largest E A L uplo) fuel
        (chol_start E A L uplo) = fuel
    ∧ attempts (chol_loop E A L uplo A.size1 (chol_eps L) (largest E A L uplo) fuel
        (chol_start E A L uplo)).trace = List.replicate (fuel + 1) (L.assign A) := by
  have hi : (chol_start E A L uplo).info = (first_attempt E A L uplo).2 :=
    (chol_first_result E A L uplo).2.1
  obtain ⟨h1, h2, h3⟩ := chol_loop_stuck E A L uplo A.size1 (largest E A L uplo) hl hfail fuel
    (chol_start E A L uplo) hzero (by rw [hi]; exact hfail)
  refine ⟨⟨h1, by rw [h2]; exact hl⟩, h3, ?_⟩
  rw [chol_start_attempts, h3, hzero, List.replicate_succ]
  congr 1
  rw [List.eq_replicate_iff]
  refine ⟨by simp, fun M hM => ?_⟩
  obtain ⟨k, -, rfl⟩ := List.mem_map.mp hM
  rw [zero_mul, loaded_zero]

/-- In double precision the retry loop of `chol` on `diag(1, -1/2, 2^-1040)`
never exits: after any number of iterations its condition still holds, every
iteration has been made, and each has decomposed the unloaded matrix again. -/
theorem underflow_never_exits (fuel : Nat) :
    ((chol_loop underflow_ext (diag3 1 (-1 / 2) (1 / 2 ^ 1040)) zeros3 'L' 3 (chol_eps zeros3)
          (largest underflow_ext (diag3 1 (-1 / 2) (1 / 2 ^ 1040)) zeros3 'L') fuel
          (chol_start underflow_ext (diag3 1 (-1 / 2) (1 / 2 ^ 1040)) zeros3 'L')).info ≠ 0
      ∧ (chol_loop underflow_ext (diag3 1 (-1 / 2) (1 / 2 ^ 1040)) zeros3 'L' 3 (chol_eps zeros3)
          (largest underflow_ext (diag3 1 (-1 / 2) (1 / 2 ^ 1040)) zeros3 'L') fuel
          (chol_start underflow_ext (diag3 1 (-1 / 2) (1 / 2 ^ 1040)) zeros3 'L')).factor
          < largest underflow_ext (diag3 1 (-1 / 2) (1 / 2 ^ 1040)) zeros3 'L')
    ∧ chol_iters underflow_ext (diag3 1 (-1 / 2) (1 / 2 ^ 1040)) zeros3 'L' 3 (chol_eps zeros3)
        (largest underflow_ext (diag3 1 (-1 / 2) (1 / 2 ^ 1040)) zeros3 'L') fuel
        (chol_start underflow_ext (diag3 1 (-1 / 2) (1 / 2 ^ 1040)) zeros3 'L') = fuel
    ∧ attempts (chol_loop underflow_ext (diag3 1 (-1 / 2) (1 / 2 ^ 1040)) zeros3 'L' 3
        (chol_eps zeros3)
        (largest underflow_ext (diag3 1 (-1 / 2) (1 / 2 ^ 1040)) zeros3 'L') fuel
        (chol_start underflow_ext (diag3 1 (-1 / 2) (1 / 2 ^ 1040)) zeros3 'L')).trace
        = List.replicate (fuel + 1) (zeros3.assign (diag3 1 (-1 / 2) (1 / 2 ^ 1040))) := by
  obtain ⟨hf, he, hl⟩ := underflow_values
  exact chol_never_exits underflow_ext (diag3 1 (-1 / 2) (1 / 2 ^ 1040)) zeros3 'L'
    (by rw [hf]; norm_num) he (by rw [hl]; norm_num) fuel

/-- Every loading `eps0·2^k` of that run is zero and is rejected. -/
theorem underflow_all_fail (k : Nat) :
    (attempt underflow_ext (diag3 1 (-1 / 2) (1 / 2 ^ 1040)) zeros3 'L'
      (eps0 underflow_ext (diag3 1 (-1 / 2) (1 / 2 ^ 1040)) zeros3 'L' * 2 ^ k)).2 = 2 := by
  obtain ⟨hf, he, -⟩ := underflow_values
  rw [he, zero_mul]
  unfold attempt
  rw [loaded_zero]
  exact hf

/-! ## Claims on `chol` -/

/-- C1: with the pre-conditions of `chol` met, `chol(A, L, uplo, FAIL)` calls the
decomposition exactly once, on the unloaded copy of `A`, makes no diagonal
loading call, and throws `CholeskyException` carrying the status of that call
exactly when the status is nonzero; with status zero it returns normally with
the buffer the decomposition wrote. -/
theorem chol_FAIL_single_attempt (E : Ext) (A L : Mat) (uplo : Char)
    (hpre : chol_pre A L uplo) :
    attempts (chol E A L uplo CholeskyStrategy.FAIL).trace = [L.assign A]
    ∧ blas_calls (chol E A L uplo CholeskyStrategy.FAIL).trace = []
    ∧ ((chol E A L uplo CholeskyStrategy.FAIL).err
          = some (Err.CholeskyException (first_attempt E A L uplo).2)
        ↔ (first_attempt E A L uplo).2 ≠ 0)
    ∧ ((first_attempt E A L uplo).2 = 0 →
        (chol E A L uplo CholeskyStrategy.FAIL).err = none)
    ∧ (chol E A L uplo CholeskyStrategy.FAIL).out
        = { L with elem := (first_attempt E A L uplo).1 } := by
  obtain ⟨ht, ho, he⟩ := chol_no_retry E A L uplo CholeskyStrategy.FAIL hpre (Or.inr rfl)
  obtain ⟨-, -, ha, hb⟩ := chol_first_result E A L uplo
  refine ⟨by rw [ht, ha], by rw [ht, hb], ?_, ?_, ho⟩
  · rw [he]
    by_cases h : (first_attempt E A L uplo).2 = 0
    · simp [h]
    · simp [h]
  · intro h
    rw [he]
    simp [h]

/-- Witness of C1: `diag(1, -1/2)` fails at its second pivot, so `FAIL` throws
status 2 after the single attempt. -/
theorem chol_FAIL_single_attempt_witness :
    chol_pre (diag2 1 (-1 / 2)) zeros2 'L'
    ∧ attempts (chol diag_ext (diag2 1 (-1 / 2)) zeros2 'L' CholeskyStrategy.FAIL).trace
        = [zeros2.assign (diag2 1 (-1 / 2))]
    ∧ (chol diag_ext (diag2 1 (-1 / 2)) zeros2 'L' CholeskyStrategy.FAIL).err
        = some (Err.CholeskyException 2) := by
  have h := chol_FAIL_single_attempt diag_ext (diag2 1 (-1 / 2)) zeros2 'L' (by decide)
  refine ⟨by decide, h.1, ?_⟩
  have h2 : (first_attempt diag_ext (diag2 1 (-1 / 2)) zeros2 'L').2 = 2 := by
    rw [diag_first_attempt]; norm_num
  have h3 := h.2.2.1
  rw [h2] at h3
  exact h3.mpr (by norm_num)

/-- C2: every retry of `chol` restarts from the original input. Whatever the
loop state `s` holds in the buffer of `L` and whatever loadings came before,
the loop body hands the decomposition exactly one matrix, whose diagonal
entries are those of `A` plus the current loading and whose other entries are
those of `A`; and in a whole run of `chol` every matrix after the first is of
that form for a loading `eps0·2^k`. -/
theorem chol_retry_restarts (E : Ext) (A L : Mat) (uplo : Char) (strat : CholeskyStrategy) :
    (∀ s : CholState, ∃ M : Mat,
        attempts (chol_body E A L uplo A.size1 (chol_eps L) s).trace
          = attempts s.trace ++ [M]
        ∧ ∀ i j, M.elem i j =
            if i = j ∧ i < min L.size1 L.size2 then A.elem i j + s.factor else A.elem i j)
    ∧ ∀ M ∈ (attempts (chol E A L uplo strat).trace).tail, ∃ k : Nat, ∀ i j,
        M.elem i j =
          if i = j ∧ i < min L.size1 L.size2 then A.elem i j + eps0 E A L uplo * 2 ^ k
          else A.elem i j := by
  constructor
  · intro s
    exact ⟨loaded A L s.factor, chol_body_attempts E A L uplo A.size1 s, fun i j => rfl⟩
  · intro M hM
    by_cases hpre : chol_pre A L uplo
    · by_cases h : (first_attempt E A L uplo).2 = 0 ∨ strat = CholeskyStrategy.FAIL
      · rw [(chol_no_retry E A L uplo strat hpre h).1,
          (chol_first_result E A L uplo).2.2.1] at hM
        simp at hM
      · have h1 : (first_attempt E A L uplo).2 ≠ 0 := fun h0 => h (Or.inl h0)
        have h2 : strat = CholeskyStrategy.ADJUST_DIAGONAL := by
          cases strat
          · rfl
          · exact absurd (Or.inr rfl) h
        subst h2
        rw [(chol_retry_attempts E A L uplo hpre h1).1] at hM
        simp only [List.tail_cons, List.mem_map, List.mem_range] at hM
        obtain ⟨k, -, rfl⟩ := hM
        exact ⟨k, fun i j => rfl⟩
    · have ht : (chol E A L uplo strat).trace = [] := by
        unfold chol; rw [if_neg hpre]
      rw [ht] at hM
      simp [attempts] at hM

/-- C3: after a failed first decomposition under `ADJUST_DIAGONAL`, the loading
used at retry `k = 0, 1, 2, ...` is `eps0·2^k`. However long the retry loop is
followed, the matrices it hands to the decomposition are the unloaded copy of
`A` and then `A + (eps0·2^k)·I` for each retry `k` it makes, and retry `k` is
made exactly when every loading up to the `k`-th is below `largest` and every
loading before the `k`-th was rejected. With a positive `eps0` the loop ends,
and the matrices handed to the decomposition in the run of `chol` are the
unloaded copy and those of the retries `k` whose loading is below `largest`
and whose predecessors were all rejected. Here `eps0` is the machine product
`c·s` if the smallest diagonal value `s` of the failed factor is positive and
`c·1` otherwise, with `c = 2^-digits`; it is the initial `factor` of the
source; `s` and `largest` are taken from the diagonal of the failed factor,
once. -/
theorem chol_loading_sequence (E : Ext) (A L : Mat) (uplo : Char)
    (hpre : chol_pre A L uplo) (hfail : (first_attempt E A L uplo).2 ≠ 0) :
    (∀ fuel : Nat,
      attempts (chol_loop E A L uplo A.size1 (chol_eps L) (largest E A L uplo) fuel
          (chol_start E A L uplo)).trace
        = L.assign A :: (List.range (chol_iters E A L uplo A.size1 (chol_eps L)
            (largest E A L uplo) fuel (chol_start E A L uplo))).map
            (fun k => loaded A L (eps0 E A L uplo * 2 ^ k))
      ∧ ∀ k, k < chol_iters E A L uplo A.size1 (chol_eps L) (largest E A L uplo) fuel
              (chol_start E A L uplo) ↔
          k < fuel ∧ (∀ j, j ≤ k → eps0 E A L uplo * 2 ^ j < largest E A L uplo)
          ∧ ∀ j, j < k → (attempt E A L uplo (eps0 E A L uplo * 2 ^ j)).2 ≠ 0)
    ∧ (0 < eps0 E A L uplo →
        attempts (chol E A L uplo CholeskyStrategy.ADJUST_DIAGONAL).trace
          = L.assign A :: (List.range (chol_retries E A L uplo)).map
              (fun k => loaded A L (eps0 E A L uplo * 2 ^ k))
        ∧ ∀ k, k < chol_retries E A L uplo ↔
          eps0 E A L uplo * 2 ^ k < largest E A L uplo
          ∧ ∀ j, j < k → (attempt E A L uplo (eps0 E A L uplo * 2 ^ j)).2 ≠ 0)
    ∧ eps0 E A L uplo
        = (if 0 < E.amin (failed_diag E A L uplo).range
           then E.fl_mul (1 / 2 ^ E.digits) (E.amin (failed_diag E A L uplo).range)
           else 1 / 2 ^ E.digits * 1)
    ∧ chol_factor E (diagonal { L with elem := (first_attempt E A L uplo).1 })
        = eps0 E A L uplo
    ∧ largest E A L uplo
        = E.amax (diagonal { L with elem := (first_attempt E A L uplo).1 }).range :=
  ⟨fun fuel => ⟨chol_start_attempts E A L uplo fuel,
      fun k => chol_start_iters_iff E A L uplo hfail fuel k⟩,
    fun hpos => ⟨(chol_retry_attempts E A L uplo hpre hfail).1,
      fun k => chol_retries_iff E A L uplo hfail hpos k⟩,
    rfl, chol_factor_eq E A L uplo, rfl⟩

/-- Witness of C3: `diag(1, -2^-53)` fails at its second pivot; the loading
`2^-53` is rejected and `2^-52` accepted, so exactly two retries are made, on
`A + 2^-53·I` and `A + 2^-52·I`. -/
theorem chol_loading_sequence_witness :
    chol_pre (diag2 1 (-1 / 2 ^ 53)) zeros2 'L'
    ∧ (first_attempt diag_ext (diag2 1 (-1 / 2 ^ 53)) zeros2 'L').2 ≠ 0
    ∧ chol_retries diag_ext (diag2 1 (-1 / 2 ^ 53)) zeros2 'L' = 2
    ∧ attempts (chol diag_ext (diag2 1 (-1 / 2 ^ 53)) zeros2 'L'
          CholeskyStrategy.ADJUST_DIAGONAL).trace
        = [zeros2.assign (diag2 1 (-1 / 2 ^ 53)),
           loaded (diag2 1 (-1 / 2 ^ 53)) zeros2 (1 / 2 ^ 53),
           loaded (diag2 1 (-1 / 2 ^ 53)) zeros2 (1 / 2 ^ 52)] := by
  have hf : (first_attempt diag_ext (diag2 1 (-1 / 2 ^ 53)) zeros2 'L').2 ≠ 0 := by
    rw [diag_first_attempt]; norm_num
  have he : eps0 diag_ext (diag2 1 (-1 / 2 ^ 53)) zeros2 'L' = 1 / 2 ^ 53 := by
    rw [diag_eps0]; norm_num
  have hl : largest diag_ext (diag2 1 (-1 / 2 ^ 53)) zeros2 'L' = 1 := by
    rw [diag_largest]; norm_num
  obtain ⟨-, hrun, -⟩ :=
    chol_loading_sequence diag_ext (diag2 1 (-1 / 2 ^ 53)) zeros2 'L' (by decide) hf
  obtain ⟨ha, hiff⟩ := hrun (diag_eps0_pos _ _)
  have h1 : 1 < chol_retries diag_ext (diag2 1 (-1 / 2 ^ 53)) zeros2 'L' := by
    rw [hiff 1]
    refine ⟨by rw [he, hl]; norm_num, fun j hj => ?_⟩
    have hj0 : j = 0 := by omega
    subst hj0
    rw [he, diag_attempt]; norm_num
  have h2 : ¬ 2 < chol_retries diag_ext (diag2 1 (-1 / 2 ^ 53)) zeros2 'L' := by
    intro h
    have h3 := ((hiff 2).mp h).2 1 (by norm_num)
    rw [he, diag_attempt] at h3
    norm_num at h3
  have hr : chol_retries diag_ext (diag2 1 (-1 / 2 ^ 53)) zeros2 'L' = 2 := by omega
  refine ⟨by decide, hf, hr, ?_⟩
  rw [ha, hr, he]
  norm_num [List.range_succ]

theorem chol_loop_factor (E : Ext) (A L : Mat) (uplo : Char) (N : Nat) (eps : Vec)
    (largest : real) (fuel : Nat) : ∀ s : CholState,
    (chol_loop E A L uplo N eps largest fuel s).factor
      = s.factor * 2 ^ chol_iters E A L uplo N eps largest fuel s := by
  induction fuel with
  | zero => intro s; simp [chol_loop, chol_iters]
  | succ fuel ih =>
    intro s
    by_cases h : s.info ≠ 0 ∧ s.factor < largest
    · simp only [chol_loop, chol_iters, if_pos h]
      rw [ih, chol_body_factor, pow_succ]
      ring
    · simp [chol_loop, chol_iters, if_neg h]

/-- When `chol` throws under `ADJUST_DIAGONAL`: the first attempt and every
loading `eps0·2^k` below `largest` fail. -/
theorem chol_final_info_iff (E : Ext) (A L : Mat) (uplo : Char)
    (h : (first_attempt E A L uplo).2 ≠ 0) (hpos : 0 < eps0 E A L uplo) :
    (chol_final E A L uplo).info ≠ 0 ↔
      ∀ k : Nat, eps0 E A L uplo * 2 ^ k < largest E A L uplo →
        (attempt E A L uplo (eps0 E A L uplo * 2 ^ k)).2 ≠ 0 := by
  have hi : (chol_start E A L uplo).info = (first_attempt E A L uplo).2 :=
    (chol_first_result E A L uplo).2.1
  have hiff := chol_loop_info_iff E A L uplo A.size1 (largest E A L uplo)
    (chol_fuel (eps0 E A L uplo) (largest E A L uplo)) (chol_start E A L uplo)
    hpos (chol_fuel_enough _ _ hpos)
  rw [hi] at hiff
  exact hiff.trans ⟨fun hk => hk.2, fun hk => ⟨h, hk⟩⟩

/-- The retry loop of `chol` stops on a zero status or on a loading that has
reached `largest`. -/
theorem chol_final_done (E : Ext) (A L : Mat) (uplo : Char) (hpos : 0 < eps0 E A L uplo) :
    (chol_final E A L uplo).info = 0
      ∨ largest E A L uplo ≤ eps0 E A L uplo * 2 ^ chol_retries E A L uplo := by
  have hd := chol_loop_done E A L uplo A.size1 (chol_eps L) (largest E A L uplo)
    (chol_fuel (eps0 E A L uplo) (largest E A L uplo)) (chol_start E A L uplo)
    hpos (chol_fuel_enough _ _ hpos)
  rw [chol_loop_factor] at hd
  by_cases h0 : (chol_final E A L uplo).info = 0
  · exact Or.inl h0
  · right
    by_contra hlt
    exact hd ⟨h0, not_le.mp hlt⟩

/-- The status with which the retry loop ends is the status of the last
matrix handed to the decomposition. -/
theorem chol_final_last (E : Ext) (A L : Mat) (uplo : Char) :
    ∃ M : Mat,
      (attempts (chol_final E A L uplo).trace).getLast? = some M
      ∧ (chol_final E A L uplo).info = (E.potrf (Loc.of L.on_device) uplo A.size1 M).2
      ∧ (chol_final E A L uplo).buf = (E.potrf (Loc.of L.on_device) uplo A.size1 M).1 := by
  have ha := chol_final_attempts E A L uplo
  rcases chol_loop_last E A L uplo A.size1 (largest E A L uplo)
    (chol_fuel (eps0 E A L uplo) (largest E A L uplo)) (chol_start E A L uplo) with
    ⟨h0, hb, hi⟩ | ⟨n, hn, hb, hi⟩
  · refine ⟨L.assign A, ?_, ?_, ?_⟩
    · rw [ha]
      have : chol_retries E A L uplo = 0 := h0
      rw [this]; rfl
    · exact hi.trans (chol_first_result E A L uplo).2.1
    · exact hb.trans (chol_first_result E A L uplo).1
  · refine ⟨loaded A L (eps0 E A L uplo * 2 ^ n), ?_, hi, hb⟩
    rw [ha]
    have : chol_retries E A L uplo = n + 1 := hn
    rw [this, List.range_succ, List.map_append, ← List.cons_append]
    exact List.getLast?_concat _

/-- C4 (amended): under `ADJUST_DIAGONAL` and with a positive first loading
`eps0`, `chol` either returns normally or throws `CholeskyException` with a
nonzero status; it throws exactly when the first attempt and every retry whose
loading `eps0·2^k` is strictly below `largest` fail; the status thrown is the
one the decomposition reported for the last matrix it was handed; and the
retries made are those for `k < n`, each with a loading strictly below
`largest`, the loop having ended, when `chol` throws, on a loading `eps0·2^n`
that has reached `largest` and is not tried. -/
theorem chol_adjust_throws_iff (E : Ext) (A L : Mat) (uplo : Char)
    (hpre : chol_pre A L uplo) (hpos : 0 < eps0 E A L uplo) :
    ((∃ info, (chol E A L uplo CholeskyStrategy.ADJUST_DIAGONAL).err
          = some (Err.CholeskyException info)) ↔
        (first_attempt E A L uplo).2 ≠ 0
        ∧ ∀ k : Nat, eps0 E A L uplo * 2 ^ k < largest E A L uplo →
            (attempt E A L uplo (eps0 E A L uplo * 2 ^ k)).2 ≠ 0)
    ∧ (∀ e, (chol E A L uplo CholeskyStrategy.ADJUST_DIAGONAL).err = some e →
        ∃ M : Mat,
          (attempts (chol E A L uplo CholeskyStrategy.ADJUST_DIAGONAL).trace).getLast? = some M
          ∧ (E.potrf (Loc.of L.on_device) uplo A.size1 M).2 ≠ 0
          ∧ e = Err.CholeskyException (E.potrf (Loc.of L.on_device) uplo A.size1 M).2)
    ∧ ∃ n : Nat,
        attempts (chol E A L uplo CholeskyStrategy.ADJUST_DIAGONAL).trace
          = L.assign A :: (List.range n).map (fun k => loaded A L (eps0 E A L uplo * 2 ^ k))
        ∧ (∀ k, k < n → eps0 E A L uplo * 2 ^ k < largest E A L uplo)
        ∧ ((chol E A L uplo CholeskyStrategy.ADJUST_DIAGONAL).err ≠ none →
            largest E A L uplo ≤ eps0 E A L uplo * 2 ^ n) := by
  by_cases h0 : (first_attempt E A L uplo).2 = 0
  · obtain ⟨ht, -, he⟩ :=
      chol_no_retry E A L uplo CholeskyStrategy.ADJUST_DIAGONAL hpre (Or.inl h0)
    have hnone : (chol E A L uplo CholeskyStrategy.ADJUST_DIAGONAL).err = none := by
      rw [he]; simp [h0]
    refine ⟨?_, ?_, 0, ?_, ?_, ?_⟩
    · rw [hnone]
      exact ⟨fun ⟨_, h⟩ => (by cases h), fun h => absurd h0 h.1⟩
    · intro e h; rw [hnone] at h; cases h
    · rw [ht, (chol_first_result E A L uplo).2.2.1]; rfl
    · intro k hk; exact absurd hk (Nat.not_lt_zero k)
    · intro h; exact absurd hnone h
  · obtain ⟨ht, -, he⟩ := chol_retry_run E A L uplo hpre h0
    refine ⟨?_, ?_, chol_retries E A L uplo, ?_, ?_, ?_⟩
    · rw [he, ← chol_final_info_iff E A L uplo h0 hpos]
      by_cases hf : (chol_final E A L uplo).info = 0
      · simp [hf, h0]
      · simp [hf, h0]
    · intro e h
      obtain ⟨M, hM, hi, -⟩ := chol_final_last E A L uplo
      rw [he] at h
      by_cases hf : (chol_final E A L uplo).info = 0
      · simp [hf] at h
      · rw [if_pos hf] at h
        refine ⟨M, by rw [ht]; exact hM, by rw [← hi]; exact hf, ?_⟩
        rw [← hi]
        exact (Option.some.inj h).symm
    · rw [ht]; exact chol_final_attempts E A L uplo
    · exact (chol_retry_attempts E A L uplo hpre h0).2
    · intro h
      rcases chol_final_done E A L uplo hpos with hz | hge
      · rw [he] at h; simp [hz] at h
      · exact hge

/-- Witness of C4 (amended), at `diag(1, -2^-53)`: the first loading `2^-53` is
positive, the loading `2^-52 < 1` is accepted, and `chol` does not throw. -/
theorem chol_adjust_throws_iff_witness :
    chol_pre (diag2 1 (-1 / 2 ^ 53)) zeros2 'L'
    ∧ 0 < eps0 diag_ext (diag2 1 (-1 / 2 ^ 53)) zeros2 'L'
    ∧ eps0 diag_ext (diag2 1 (-1 / 2 ^ 53)) zeros2 'L' * 2 ^ 1
        < largest diag_ext (diag2 1 (-1 / 2 ^ 53)) zeros2 'L'
    ∧ (attempt diag_ext (diag2 1 (-1 / 2 ^ 53)) zeros2 'L'
        (eps0 diag_ext (diag2 1 (-1 / 2 ^ 53)) zeros2 'L' * 2 ^ 1)).2 = 0
    ∧ ¬ ∃ info, (chol diag_ext (diag2 1 (-1 / 2 ^ 53)) zeros2 'L'
          CholeskyStrategy.ADJUST_DIAGONAL).err = some (Err.CholeskyException info) := by
  have he : eps0 diag_ext (diag2 1 (-1 / 2 ^ 53)) zeros2 'L' = 1 / 2 ^ 53 := by
    rw [diag_eps0]; norm_num
  have hl : largest diag_ext (diag2 1 (-1 / 2 ^ 53)) zeros2 'L' = 1 := by
    rw [diag_largest]; norm_num
  have hlt : eps0 diag_ext (diag2 1 (-1 / 2 ^ 53)) zeros2 'L' * 2 ^ 1
      < largest diag_ext (diag2 1 (-1 / 2 ^ 53)) zeros2 'L' := by
    rw [he, hl]; norm_num
  have hok : (attempt diag_ext (diag2 1 (-1 / 2 ^ 53)) zeros2 'L'
      (eps0 diag_ext (diag2 1 (-1 / 2 ^ 53)) zeros2 'L' * 2 ^ 1)).2 = 0 := by
    rw [he, diag_attempt]; norm_num
  refine ⟨by decide, diag_eps0_pos _ _, hlt, hok, fun h => ?_⟩
  exact ((chol_adjust_throws_iff diag_ext (diag2 1 (-1 / 2 ^ 53)) zeros2 'L' (by decide)
    (diag_eps0_pos _ _)).1.mp h).2 1 hlt hok

theorem half_gap (k : Nat) (h : (1 / 2 ^ 53 : real) * 2 ^ k < 1) :
    (1 / 2 ^ 53 : real) * 2 ^ k ≤ 1 / 2 := by
  rcases le_or_lt k 52 with hk | hk
  · have h1 : (2 : real) ^ k ≤ 2 ^ 52 := pow_le_pow_right₀ (by norm_num) hk
    calc (1 / 2 ^ 53 : real) * 2 ^ k ≤ 1 / 2 ^ 53 * 2 ^ 52 := by
          apply mul_le_mul_of_nonneg_left h1; positivity
      _ = 1 / 2 := by norm_num
  · have h1 : (2 : real) ^ 53 ≤ 2 ^ k := pow_le_pow_right₀ (by norm_num) hk
    have h2 : (1 : real) ≤ 1 / 2 ^ 53 * 2 ^ k := by
      calc (1 : real) = 1 / 2 ^ 53 * 2 ^ 53 := by norm_num
        _ ≤ 1 / 2 ^ 53 * 2 ^ k := by apply mul_le_mul_of_nonneg_left h1; positivity
    exact absurd h (not_lt.mpr h2)

/-- C4, counterexample: for `A = diag(1, -1/2)` the failed factor has largest
diagonal value 1 and the 53rd doubling of `eps0 = 2^-53` gives a loading equal
to it. The decomposition of `A + 1·I` would succeed, yet `chol` throws: the
loading equal to the largest value is never tried. And for
`A = diag(1, -1/2, 2^-1040)` in double precision the first attempt and every
loading fail (the first loading has underflowed to zero), yet `chol` does not
throw: the retry loop never meets its exit condition. -/
theorem chol_adjust_skips_largest :
    largest diag_ext (diag2 1 (-1 / 2)) zeros2 'L' = 1
    ∧ eps0 diag_ext (diag2 1 (-1 / 2)) zeros2 'L' * 2 ^ 53 = 1
    ∧ (attempt diag_ext (diag2 1 (-1 / 2)) zeros2 'L' 1).2 = 0
    ∧ (∃ info, (chol diag_ext (diag2 1 (-1 / 2)) zeros2 'L'
          CholeskyStrategy.ADJUST_DIAGONAL).err = some (Err.CholeskyException info))
    ∧ loaded (diag2 1 (-1 / 2)) zeros2 1
        ∉ attempts (chol diag_ext (diag2 1 (-1 / 2)) zeros2 'L'
            CholeskyStrategy.ADJUST_DIAGONAL).trace
    ∧ (first_attempt underflow_ext (diag3 1 (-1 / 2) (1 / 2 ^ 1040)) zeros3 'L').2 ≠ 0
    ∧ (∀ k : Nat, (attempt underflow_ext (diag3 1 (-1 / 2) (1 / 2 ^ 1040)) zeros3 'L'
        (eps0 underflow_ext (diag3 1 (-1 / 2) (1 / 2 ^ 1040)) zeros3 'L' * 2 ^ k)).2 ≠ 0)
    ∧ ∀ fuel : Nat,
        (chol_loop underflow_ext (diag3 1 (-1 / 2) (1 / 2 ^ 1040)) zeros3 'L' 3
          (chol_eps zeros3) (largest underflow_ext (diag3 1 (-1 / 2) (1 / 2 ^ 1040)) zeros3 'L')
          fuel (chol_start underflow_ext (diag3 1 (-1 / 2) (1 / 2 ^ 1040)) zeros3 'L')).info ≠ 0
        ∧ (chol_loop underflow_ext (diag3 1 (-1 / 2) (1 / 2 ^ 1040)) zeros3 'L' 3
          (chol_eps zeros3) (largest underflow_ext (diag3 1 (-1 / 2) (1 / 2 ^ 1040)) zeros3 'L')
          fuel (chol_start underflow_ext (diag3 1 (-1 / 2) (1 / 2 ^ 1040)) zeros3 'L')).factor
          < largest underflow_ext (diag3 1 (-1 / 2) (1 / 2 ^ 1040)) zeros3 'L' := by
  have hpre : chol_pre (diag2 1 (-1 / 2)) zeros2 'L' := by decide
  have hl : largest diag_ext (diag2 1 (-1 / 2)) zeros2 'L' = 1 := by
    rw [diag_largest]; norm_num
  have he : eps0 diag_ext (diag2 1 (-1 / 2)) zeros2 'L' = 1 / 2 ^ 53 := by
    rw [diag_eps0]; norm_num
  have hf : (first_attempt diag_ext (diag2 1 (-1 / 2)) zeros2 'L').2 ≠ 0 := by
    rw [diag_first_attempt]; norm_num
  obtain ⟨ht, -, herr⟩ := chol_retry_run diag_ext (diag2 1 (-1 / 2)) zeros2 'L' hpre hf
  have hfin : (chol_final diag_ext (diag2 1 (-1 / 2)) zeros2 'L').info ≠ 0 := by
    rw [chol_final_info_iff _ _ _ _ hf (diag_eps0_pos _ _)]
    intro k hk
    rw [he, hl] at hk
    rw [he, diag_attempt]
    have hg := half_gap k hk
    have hp : (0 : real) < 1 / 2 ^ 53 * 2 ^ k := by positivity
    rw [if_neg (by linarith), if_pos (by linarith)]
    norm_num
  refine ⟨hl, by rw [he]; norm_num, by rw [diag_attempt]; norm_num, ?_, ?_,
    by rw [underflow_values.1]; norm_num,
    fun k => by rw [underflow_all_fail]; norm_num,
    fun fuel => (underflow_never_exits fuel).1⟩
  · exact ⟨_, by rw [herr, if_pos hfin]⟩
  · obtain ⟨ha, hlt⟩ := chol_retry_attempts diag_ext (diag2 1 (-1 / 2)) zeros2 'L' hpre hf
    rw [ha]
    intro hmem
    rcases List.mem_cons.mp hmem with h | h
    · have := congrArg (fun M : Mat => M.elem 0 0) h
      norm_num [loaded, Mat.assign, diag2, zeros2] at this
    · obtain ⟨k, hk, hk2⟩ := List.mem_map.mp h
      have hk' := hlt k (List.mem_range.mp hk)
      rw [he, hl] at hk'
      have := congrArg (fun M : Mat => M.elem 0 0) hk2
      rw [he] at this
      norm_num [loaded, diag2, zeros2] at this
      linarith

theorem chol_iters_of_zero (E : Ext) (A L : Mat) (uplo : Char) (N : Nat) (eps : Vec)
    (largest : real) (fuel : Nat) (s : CholState) (h : s.info = 0) :
    chol_iters E A L uplo N eps largest fuel s = 0 := by
  cases fuel with
  | zero => rfl
  | succ fuel => simp [chol_iters, h]

/-- If the loading `factor·2^k` is the first to be accepted and lies below
`largest`, the loop makes exactly `k + 1` iterations. -/
theorem chol_iters_first_success (E : Ext) (A L : Mat) (uplo : Char) (N : Nat)
    (largest : real) (fuel : Nat) : ∀ (s : CholState) (k : Nat), 0 < s.factor →
    largest ≤ s.factor * 2 ^ fuel → s.info ≠ 0 → s.factor * 2 ^ k < largest →
    (E.potrf (Loc.of L.on_device) uplo N (loaded A L (s.factor * 2 ^ k))).2 = 0 →
    (∀ j, j < k →
      (E.potrf (Loc.of L.on_device) uplo N (loaded A L (s.factor * 2 ^ j))).2 ≠ 0) →
    chol_iters E A L uplo N (chol_eps L) largest fuel s = k + 1 := by
  induction fuel with
  | zero =>
    intro s k hpos hle _ hlt _ _
    simp only [pow_zero, mul_one] at hle
    exact absurd (lt_of_le_of_lt (mul_two_pow_mono _ hpos k) hlt) (not_lt.mpr hle)
  | succ fuel ih =>
    intro s k hpos hle hinfo hlt hok hprev
    have hc : s.info ≠ 0 ∧ s.factor < largest :=
      ⟨hinfo, lt_of_le_of_lt (mul_two_pow_mono _ hpos k) hlt⟩
    have hf : (chol_body E A L uplo N (chol_eps L) s).factor = s.factor * 2 :=
      chol_body_factor _ _ _ _ _ _ _
    have hi := (chol_body_result E A L uplo N s).2
    simp only [chol_iters, if_pos hc]
    cases k with
    | zero =>
      rw [chol_iters_of_zero]
      rw [hi]
      simpa using hok
    | succ k =>
      have e : ∀ j : Nat, s.factor * 2 * 2 ^ j = s.factor * 2 ^ (j + 1) := by
        intro j; rw [pow_succ]; ring
      rw [ih (chol_body E A L uplo N (chol_eps L) s) k]
      · rw [hf]; linarith
      · rw [hf, e]; exact hle
      · rw [hi]; simpa using hprev 0 (Nat.succ_pos k)
      · rw [hf, e]; exact hlt
      · rw [hf, e]; exact hok
      · intro j hj
        rw [hf, e]
        exact hprev (j + 1) (Nat.succ_lt_succ hj)

/-- The outcome of `chol` under `ADJUST_DIAGONAL` when `eps0·2^k` is the first
loading that the decomposition accepts and lies below `largest`. -/
theorem chol_first_success (E : Ext) (A L : Mat) (uplo : Char)
    (hpre : chol_pre A L uplo) (hfail : (first_attempt E A L uplo).2 ≠ 0)
    (hpos : 0 < eps0 E A L uplo) (k : Nat)
    (hlt : eps0 E A L uplo * 2 ^ k < largest E A L uplo)
    (hok : (attempt E A L uplo (eps0 E A L uplo * 2 ^ k)).2 = 0)
    (hprev : ∀ j, j < k → (attempt E A L uplo (eps0 E A L uplo * 2 ^ j)).2 ≠ 0) :
    (chol E A L uplo CholeskyStrategy.ADJUST_DIAGONAL).err = none
    ∧ (chol E A L uplo CholeskyStrategy.ADJUST_DIAGONAL).out
        = { L with elem := (attempt E A L uplo (eps0 E A L uplo * 2 ^ k)).1 }
    ∧ (attempts (chol E A L uplo CholeskyStrategy.ADJUST_DIAGONAL).trace).getLast?
        = some (loaded A L (eps0 E A L uplo * 2 ^ k)) := by
  obtain ⟨ht, ho, he⟩ := chol_retry_run E A L uplo hpre hfail
  have hn : chol_retries E A L uplo = k + 1 :=
    chol_iters_first_success E A L uplo A.size1 (largest E A L uplo)
      (chol_fuel (eps0 E A L uplo) (largest E A L uplo)) (chol_start E A L uplo) k
      hpos (chol_fuel_enough _ _ hpos)
      (by rw [show (chol_start E A L uplo).info = (first_attempt E A L uplo).2 from
            (chol_first_result E A L uplo).2.1]; exact hfail)
      hlt hok hprev
  have hlast : ∀ M : Mat, (attempts (chol_final E A L uplo).trace).getLast? = some M →
      M = loaded A L (eps0 E A L uplo * 2 ^ k) := by
    intro M hM
    rw [chol_final_attempts, hn, List.range_succ, List.map_append, ← List.cons_append] at hM
    have h2 := List.getLast?_concat (a := loaded A L (eps0 E A L uplo * 2 ^ k))
      (L.assign A :: (List.range k).map (fun k => loaded A L (eps0 E A L uplo * 2 ^ k)))
    simp only [List.map_cons, List.map_nil] at hM
    rw [h2] at hM
    exact (Option.some.inj hM).symm
  obtain ⟨M, hM, hi, hb⟩ := chol_final_last E A L uplo
  have hMe := hlast M hM
  subst hMe
  have hz : (chol_final E A L uplo).info = 0 := by rw [hi]; exact hok
  refine ⟨by rw [he]; simp [hz], ?_, by rw [ht]; exact hM⟩
  rw [ho, hb]; rfl

/-- The outcome of `chol` under `ADJUST_DIAGONAL` when no loading below
`largest` is accepted: `CholeskyException` with the status of the last attempt. -/
theorem chol_no_success (E : Ext) (A L : Mat) (uplo : Char)
    (hpre : chol_pre A L uplo) (hfail : (first_attempt E A L uplo).2 ≠ 0)
    (hpos : 0 < eps0 E A L uplo)
    (hall : ∀ k : Nat, eps0 E A L uplo * 2 ^ k < largest E A L uplo →
      (attempt E A L uplo (eps0 E A L uplo * 2 ^ k)).2 ≠ 0) :
    ∃ info, info ≠ 0 ∧ (chol E A L uplo CholeskyStrategy.ADJUST_DIAGONAL).err
      = some (Err.CholeskyException info) := by
  have hinfo : (chol_final E A L uplo).info ≠ 0 :=
    (chol_final_info_iff E A L uplo hfail hpos).mpr hall
  obtain ⟨-, -, he⟩ := chol_retry_run E A L uplo hpre hfail
  exact ⟨_, hinfo, by rw [he, if_pos hinfo]⟩

/-- C6 (amended): let the unloaded decomposition of `A` fail and the first
loading `eps0` be positive. If `eps0·2^k` is the first loading that the
decomposition accepts, and it lies below `largest`, then `chol` with
`ADJUST_DIAGONAL` returns without exception, the last matrix it decomposed is
`A + (eps0·2^k)·I`, and the returned `L` holds exactly what the decomposition
wrote for that matrix. If no loading below `largest` is accepted, `chol` with
`ADJUST_DIAGONAL` throws `CholeskyException` with a nonzero status. `chol`
with `FAIL` on the same input throws `CholeskyException` with the status of the
unloaded attempt. -/
theorem chol_adjust_first_success (E : Ext) (A L : Mat) (uplo : Char)
    (hpre : chol_pre A L uplo) (hfail : (first_attempt E A L uplo).2 ≠ 0)
    (hpos : 0 < eps0 E A L uplo) :
    (∀ k : Nat, eps0 E A L uplo * 2 ^ k < largest E A L uplo →
      (attempt E A L uplo (eps0 E A L uplo * 2 ^ k)).2 = 0 →
      (∀ j, j < k → (attempt E A L uplo (eps0 E A L uplo * 2 ^ j)).2 ≠ 0) →
        (chol E A L uplo CholeskyStrategy.ADJUST_DIAGONAL).err = none
        ∧ (chol E A L uplo CholeskyStrategy.ADJUST_DIAGONAL).out
            = { L with elem := (attempt E A L uplo (eps0 E A L uplo * 2 ^ k)).1 }
        ∧ (attempts (chol E A L uplo CholeskyStrategy.ADJUST_DIAGONAL).trace).getLast?
            = some (loaded A L (eps0 E A L uplo * 2 ^ k)))
    ∧ ((∀ k : Nat, eps0 E A L uplo * 2 ^ k < largest E A L uplo →
          (attempt E A L uplo (eps0 E A L uplo * 2 ^ k)).2 ≠ 0) →
        ∃ info, info ≠ 0 ∧ (chol E A L uplo CholeskyStrategy.ADJUST_DIAGONAL).err
          = some (Err.CholeskyException info))
    ∧ (chol E A L uplo CholeskyStrategy.FAIL).err
        = some (Err.CholeskyException (first_attempt E A L uplo).2) := by
  refine ⟨fun k hlt hok hprev => chol_first_success E A L uplo hpre hfail hpos k hlt hok hprev,
    fun hall => chol_no_success E A L uplo hpre hfail hpos hall, ?_⟩
  have h := (chol_no_retry E A L uplo CholeskyStrategy.FAIL hpre (Or.inr rfl)).2.2
  rw [h, if_pos hfail]

/-- Witness of C6 (amended): for `A = diag(1, -2^-53)` the loading `2^-53` is
rejected and `2^-52` is accepted. -/
theorem chol_adjust_first_success_witness :
    chol_pre (diag2 1 (-1 / 2 ^ 53)) zeros2 'L'
    ∧ (first_attempt diag_ext (diag2 1 (-1 / 2 ^ 53)) zeros2 'L').2 ≠ 0
    ∧ 0 < eps0 diag_ext (diag2 1 (-1 / 2 ^ 53)) zeros2 'L'
    ∧ (chol diag_ext (diag2 1 (-1 / 2 ^ 53)) zeros2 'L'
        CholeskyStrategy.ADJUST_DIAGONAL).err = none
    ∧ (attempts (chol diag_ext (diag2 1 (-1 / 2 ^ 53)) zeros2 'L'
          CholeskyStrategy.ADJUST_DIAGONAL).trace).getLast?
        = some (loaded (diag2 1 (-1 / 2 ^ 53)) zeros2 (1 / 2 ^ 52))
    ∧ (chol diag_ext (diag2 1 (-1 / 2 ^ 53)) zeros2 'L' CholeskyStrategy.FAIL).err
        = some (Err.CholeskyException 2) := by
  have hf : (first_attempt diag_ext (diag2 1 (-1 / 2 ^ 53)) zeros2 'L').2 = 2 := by
    rw [diag_first_attempt]; norm_num
  have he : eps0 diag_ext (diag2 1 (-1 / 2 ^ 53)) zeros2 'L' = 1 / 2 ^ 53 := by
    rw [diag_eps0]; norm_num
  have hl : largest diag_ext (diag2 1 (-1 / 2 ^ 53)) zeros2 'L' = 1 := by
    rw [diag_largest]; norm_num
  have h := chol_adjust_first_success diag_ext (diag2 1 (-1 / 2 ^ 53)) zeros2 'L'
    (by decide) (by rw [hf]; norm_num) (diag_eps0_pos _ _)
  have h1 := h.1 1
    (by rw [he, hl]; norm_num)
    (by rw [he, diag_attempt]; norm_num)
    (by
      intro j hj
      have hj0 : j = 0 := by omega
      subst hj0
      rw [he, diag_attempt]; norm_num)
  have h3 := h.2.2
  rw [he] at h1
  rw [hf] at h3
  have e : (1 / 2 ^ 53 : real) * 2 ^ 1 = 1 / 2 ^ 52 := by norm_num
  rw [e] at h1
  exact ⟨by decide, by rw [hf]; norm_num, diag_eps0_pos _ _, h1.1, h1.2.2, h3⟩

/-- C6, counterexample: `A = -(1/1000)·I` is symmetric with smallest eigenvalue
`-1/1000`. Its unloaded decomposition fails at the first pivot; the failed
factor has no positive diagonal value, so no loading is tried and `chol` with
`ADJUST_DIAGONAL` throws. And for the symmetric `A = diag(1, -1/2, 2^-1040)` in
double precision, whose first loading underflows to zero, `chol` with
`ADJUST_DIAGONAL` does not return: however many iterations of the retry loop
are followed, all of them are made. -/
theorem chol_adjust_fails_on_negative :
    (first_attempt diag_ext (diag2 (-1 / 1000) (-1 / 1000)) zeros2 'L').2 = 1
    ∧ attempts (chol diag_ext (diag2 (-1 / 1000) (-1 / 1000)) zeros2 'L'
        CholeskyStrategy.ADJUST_DIAGONAL).trace
        = [zeros2.assign (diag2 (-1 / 1000) (-1 / 1000))]
    ∧ (∃ info, (chol diag_ext (diag2 (-1 / 1000) (-1 / 1000)) zeros2 'L'
        CholeskyStrategy.ADJUST_DIAGONAL).err = some (Err.CholeskyException info))
    ∧ eps0 underflow_ext (diag3 1 (-1 / 2) (1 / 2 ^ 1040)) zeros3 'L' = 0
    ∧ ∀ fuel : Nat,
        chol_iters underflow_ext (diag3 1 (-1 / 2) (1 / 2 ^ 1040)) zeros3 'L' 3
          (chol_eps zeros3) (largest underflow_ext (diag3 1 (-1 / 2) (1 / 2 ^ 1040)) zeros3 'L')
          fuel (chol_start underflow_ext (diag3 1 (-1 / 2) (1 / 2 ^ 1040)) zeros3 'L')
          = fuel := by
  have hpre : chol_pre (diag2 (-1 / 1000) (-1 / 1000)) zeros2 'L' := by decide
  have hf : (first_attempt diag_ext (diag2 (-1 / 1000) (-1 / 1000)) zeros2 'L').2 = 1 := by
    rw [diag_first_attempt]; norm_num
  have hf0 : (first_attempt diag_ext (diag2 (-1 / 1000) (-1 / 1000)) zeros2 'L').2 ≠ 0 := by
    rw [hf]; norm_num
  have he : eps0 diag_ext (diag2 (-1 / 1000) (-1 / 1000)) zeros2 'L' = 1 / 2 ^ 53 := by
    rw [diag_eps0]; norm_num
  have hl : largest diag_ext (diag2 (-1 / 1000) (-1 / 1000)) zeros2 'L' = -1 / 1000 := by
    rw [diag_largest]; norm_num
  have hno : ∀ k : Nat, ¬ (eps0 diag_ext (diag2 (-1 / 1000) (-1 / 1000)) zeros2 'L' * 2 ^ k
      < largest diag_ext (diag2 (-1 / 1000) (-1 / 1000)) zeros2 'L') := by
    intro k hk
    rw [he, hl] at hk
    have hp : (0 : real) < 1 / 2 ^ 53 * 2 ^ k := by positivity
    linarith
  obtain ⟨ha, hlt⟩ :=
    chol_retry_attempts diag_ext (diag2 (-1 / 1000) (-1 / 1000)) zeros2 'L' hpre hf0
  obtain ⟨-, -, herr⟩ :=
    chol_retry_run diag_ext (diag2 (-1 / 1000) (-1 / 1000)) zeros2 'L' hpre hf0
  have hn : chol_retries diag_ext (diag2 (-1 / 1000) (-1 / 1000)) zeros2 'L' = 0 := by
    by_contra hne
    exact hno 0 (hlt 0 (Nat.pos_of_ne_zero hne))
  have hfin : (chol_final diag_ext (diag2 (-1 / 1000) (-1 / 1000)) zeros2 'L').info ≠ 0 := by
    rw [chol_final_info_iff _ _ _ _ hf0 (diag_eps0_pos _ _)]
    intro k hk
    exact absurd hk (hno k)
  refine ⟨hf, ?_, ⟨_, by rw [herr, if_pos hfin]⟩, underflow_values.2.1,
    fun fuel => (underflow_never_exits fuel).2.1⟩
  rw [ha, hn]
  rfl

/-- C5 (amended): when the decomposition of the copy of `A` reports status 0
(as it does for a symmetric positive-definite `A`), `chol(A, L, 'L')` returns
without exception under either strategy, after that single decomposition and
without any diagonal loading, and `L` holds exactly what the decomposition
wrote. Hence the lower triangle `T` of the returned `L` satisfies `T·Tᵗ = A`
within whatever tolerance the decomposition achieved, and if the decomposition
left the entries above the diagonal as it found them, every entry of `L` above
the diagonal equals the entry of `A` there; it is not zeroed. -/
theorem chol_spd_factor (E : Ext) (A L : Mat) (strat : CholeskyStrategy)
    (hpre : chol_pre A L 'L')
    (hok : (E.potrf (Loc.of L.on_device) 'L' A.size1 (L.assign A)).2 = 0) :
    (chol E A L 'L' strat).err = none
    ∧ attempts (chol E A L 'L' strat).trace = [L.assign A]
    ∧ blas_calls (chol E A L 'L' strat).trace = []
    ∧ (chol E A L 'L' strat).out
        = { L with elem := (E.potrf (Loc.of L.on_device) 'L' A.size1 (L.assign A)).1 }
    ∧ (∀ tol : real,
        (∀ i j, i < A.size1 → j < A.size1 →
          |lower_gram (E.potrf (Loc.of L.on_device) 'L' A.size1 (L.assign A)).1 A.size1 i j
            - A.elem i j| ≤ tol) →
        ∀ i j, i < A.size1 → j < A.size1 →
          |lower_gram (chol E A L 'L' strat).out.elem A.size1 i j - A.elem i j| ≤ tol)
    ∧ ((∀ i j, i < j →
          (E.potrf (Loc.of L.on_device) 'L' A.size1 (L.assign A)).1 i j
            = (L.assign A).elem i j) →
        ∀ i j, i < j → (chol E A L 'L' strat).out.elem i j = A.elem i j) := by
  have hok' : (first_attempt E A L 'L').2 = 0 := hok
  obtain ⟨ht, ho, he⟩ := chol_no_retry E A L 'L' strat hpre (Or.inl hok')
  obtain ⟨-, -, ha, hb⟩ := chol_first_result E A L 'L'
  refine ⟨by rw [he]; simp [hok'], by rw [ht, ha], by rw [ht, hb], ho, ?_, ?_⟩
  · intro tol h i j hi hj
    rw [ho]
    exact h i j hi hj
  · intro h i j hij
    rw [ho]
    exact h i j hij

theorem spd_first_attempt :
    first_attempt spd_ext spd2 zeros2 'L'
      = (fun i j => if j ≤ i then (if i = 0 then 2 else if j = 0 then 1 else 2)
          else spd2.elem i j, 0) := by
  simp [first_attempt, spd_ext, Mat.assign]

/-- The decomposition of `[[4,2],[2,3]]` with square roots to four decimals:
status 0 and the factor `[[2,·],[1,1.4142]]` over the lower triangle. -/
theorem potf2_m4223 (M : Mat) (h00 : M.elem 0 0 = 4) (h10 : M.elem 1 0 = 2)
    (h11 : M.elem 1 1 = 3) :
    potf2_lower M
      = (fun i j => if i = 0 ∧ j = 0 then 2 else if i = 1 ∧ j = 0 then 1
          else if i = 1 ∧ j = 1 then 14142 / 10000 else M.elem i j, 0) := by
  have s4 : sqrt4 4 = 2 := by
    unfold sqrt4
    have h : Nat.floor ((4 : real) * 10 ^ 8) = 20000 * 20000 := by
      have : ((4 : real) * 10 ^ 8) = ((400000000 : ℕ) : real) := by norm_num
      rw [this, Nat.floor_natCast]
    rw [h, Nat.sqrt_eq]
    norm_num
  have s2 : sqrt4 2 = 14142 / 10000 := by
    unfold sqrt4
    have h : Nat.floor ((2 : real) * 10 ^ 8) = 200000000 := by
      have : ((2 : real) * 10 ^ 8) = ((200000000 : ℕ) : real) := by norm_num
      rw [this, Nat.floor_natCast]
    have h2 : Nat.sqrt 200000000 = 14142 := by
      symm
      rw [Nat.eq_sqrt]
      norm_num
    rw [h, h2]
    norm_num
  have hd : (3 : real) - 2 / 2 * (2 / 2) = 2 := by norm_num
  unfold potf2_lower
  simp only [h00, h10, h11, s4, hd, s2]
  norm_num

/-- What `potf2_ext` writes for the copy of `[[4,2],[2,3]]` handed to it by
`chol`. -/
theorem potf2_first_attempt :
    potf2_ext.potrf (Loc.of zeros2.on_device) 'L' m4223.size1 (zeros2.assign m4223)
      = (fun i j => if i = 0 ∧ j = 0 then 2 else if i = 1 ∧ j = 0 then 1
          else if i = 1 ∧ j = 1 then 14142 / 10000 else m4223.elem i j, 0) := by
  show (if 'L' = 'L' ∧ m4223.size1 = 2 then potf2_lower (zeros2.assign m4223)
    else ((zeros2.assign m4223).elem, -1)) = _
  rw [if_pos ⟨rfl, rfl⟩]
  exact potf2_m4223 (zeros2.assign m4223) (by simp [Mat.assign, m4223])
    (by simp [Mat.assign, m4223]) (by simp [Mat.assign, m4223])

/-- Witness of C5 (amended): the `A = [[4,2],[2,3]]` of the concrete scenario
with a decomposition that computes square roots to four decimals. `chol`
returns `L = [[2,2],[1,1.4142]]`: the lower triangle is the factor, within
`10^-4` of `A`, and the entry above the diagonal is the 2 of `A`. -/
theorem chol_spd_factor_witness :
    chol_pre m4223 zeros2 'L'
    ∧ (potf2_ext.potrf (Loc.of zeros2.on_device) 'L' m4223.size1 (zeros2.assign m4223)).2 = 0
    ∧ (chol potf2_ext m4223 zeros2 'L' CholeskyStrategy.ADJUST_DIAGONAL).err = none
    ∧ (chol potf2_ext m4223 zeros2 'L' CholeskyStrategy.ADJUST_DIAGONAL).out.elem 0 0 = 2
    ∧ (chol potf2_ext m4223 zeros2 'L' CholeskyStrategy.ADJUST_DIAGONAL).out.elem 0 1 = 2
    ∧ (chol potf2_ext m4223 zeros2 'L' CholeskyStrategy.ADJUST_DIAGONAL).out.elem 1 0 = 1
    ∧ (chol potf2_ext m4223 zeros2 'L' CholeskyStrategy.ADJUST_DIAGONAL).out.elem 1 1
        = 14142 / 10000
    ∧ ∀ i j, i < 2 → j < 2 →
        |lower_gram (chol potf2_ext m4223 zeros2 'L' CholeskyStrategy.ADJUST_DIAGONAL).out.elem
          2 i j - m4223.elem i j| ≤ 1 / 10 ^ 4 := by
  have hp := potf2_first_attempt
  have hok : (potf2_ext.potrf (Loc.of zeros2.on_device) 'L' m4223.size1
      (zeros2.assign m4223)).2 = 0 := by rw [hp]
  have h := chol_spd_factor potf2_ext m4223 zeros2 CholeskyStrategy.ADJUST_DIAGONAL
    (by decide) hok
  obtain ⟨h1, -, -, h4, h5, -⟩ := h
  have hgram : ∀ i j, i < 2 → j < 2 →
      |lower_gram (potf2_ext.potrf (Loc.of zeros2.on_device) 'L' m4223.size1
          (zeros2.assign m4223)).1 2 i j - m4223.elem i j| ≤ 1 / 10 ^ 4 := by
    intro i j hi hj
    rw [hp]
    interval_cases i <;> interval_cases j <;>
      norm_num [lower_gram, Finset.sum_range_succ, m4223, abs_le]
  refine ⟨by decide, hok, h1, ?_, ?_, ?_, ?_, h5 (1 / 10 ^ 4) hgram⟩
  · rw [h4, hp]; norm_num
  · rw [h4, hp]; norm_num [m4223]
  · rw [h4, hp]; norm_num
  · rw [h4, hp]; norm_num

/-- C5, counterexample: for the symmetric positive-definite `A = [[4,2],[2,5]]`
and a decomposition that writes the exact factor into the lower triangle,
`chol(A, L, 'L')` returns `L = [[2,2],[1,2]]`: the entry above the diagonal is
2, not 0, and `L·Lᵗ` has 8 where `A` has 4. Likewise for the `A = [[4,2],[2,3]]`
of the claim, decomposed with square roots to four decimals: `chol` returns
without exception and the entry of `L` above the diagonal is 2. -/
theorem chol_upper_not_zeroed :
    (chol spd_ext spd2 zeros2 'L' CholeskyStrategy.ADJUST_DIAGONAL).err = none
    ∧ (chol spd_ext spd2 zeros2 'L' CholeskyStrategy.ADJUST_DIAGONAL).out.elem 0 0 = 2
    ∧ (chol spd_ext spd2 zeros2 'L' CholeskyStrategy.ADJUST_DIAGONAL).out.elem 0 1 = 2
    ∧ (chol spd_ext spd2 zeros2 'L' CholeskyStrategy.ADJUST_DIAGONAL).out.elem 1 0 = 1
    ∧ (chol spd_ext spd2 zeros2 'L' CholeskyStrategy.ADJUST_DIAGONAL).out.elem 1 1 = 2
    ∧ gram (chol spd_ext spd2 zeros2 'L' CholeskyStrategy.ADJUST_DIAGONAL).out.elem 2 0 0 = 8
    ∧ spd2.elem 0 0 = 4
    ∧ (chol potf2_ext m4223 zeros2 'L' CholeskyStrategy.ADJUST_DIAGONAL).err = none
    ∧ (chol potf2_ext m4223 zeros2 'L' CholeskyStrategy.ADJUST_DIAGONAL).out.elem 0 1 = 2 := by
  have hok : (first_attempt spd_ext spd2 zeros2 'L').2 = 0 := by rw [spd_first_attempt]
  obtain ⟨-, ho, he⟩ := chol_no_retry spd_ext spd2 zeros2 'L'
    CholeskyStrategy.ADJUST_DIAGONAL (by decide) (Or.inl hok)
  have hp : first_attempt potf2_ext m4223 zeros2 'L' = _ := potf2_first_attempt
  have hok2 : (first_attempt potf2_ext m4223 zeros2 'L').2 = 0 := by rw [hp]
  obtain ⟨-, ho2, he2⟩ := chol_no_retry potf2_ext m4223 zeros2 'L'
    CholeskyStrategy.ADJUST_DIAGONAL (by decide) (Or.inl hok2)
  rw [he, ho, spd_first_attempt, he2, ho2, hp]
  norm_num [gram, Finset.sum_range_succ, spd2, m4223]

/-! ## Lemmas on event logs -/

theorem all_on_nil (b : Loc) : all_on b [] := by
  intro e he; cases he

theorem all_on_cons (b : Loc) (e : Event) (t : List Event) :
    all_on b (e :: t) ↔ (∀ b', e.backend = some b' → b' = b) ∧ all_on b t := by
  unfold all_on
  simp only [List.mem_cons, forall_eq_or_imp]

theorem all_on_append (b : Loc) (s t : List Event) :
    all_on b (s ++ t) ↔ all_on b s ∧ all_on b t := by
  unfold all_on
  simp only [List.mem_append]
  constructor
  · intro h
    exact ⟨fun e he => h e (Or.inl he), fun e he => h e (Or.inr he)⟩
  · rintro ⟨h1, h2⟩ e (he | he)
    · exact h1 e he
    · exact h2 e he

theorem some_on_append_left (b : Loc) (s t : List Event) (h : some_on b s) :
    some_on b (s ++ t) := by
  obtain ⟨e, he, hb⟩ := h
  exact ⟨e, List.mem_append_left t he, hb⟩

theorem some_on_append_right (b : Loc) (s t : List Event) (h : some_on b t) :
    some_on b (s ++ t) := by
  obtain ⟨e, he, hb⟩ := h
  exact ⟨e, List.mem_append_right s he, hb⟩

theorem backend_map (l : Loc) (o : Operand) : (Event.map l o).backend = none := rfl

theorem backend_release (o : Operand) : (Event.release o).backend = none := rfl

theorem backend_synchronize : Event.synchronize.backend = none := rfl

theorem backend_vendor (l : Loc) (r : Routine) (d : List Nat) :
    (Event.vendor l r d).backend = some l := rfl

theorem backend_potrf (l : Loc) (u : Char) (n : Nat) (M : Mat) :
    (Event.potrf l u n M).backend = some l := rfl

/-! ## Claims on `ch1dn`, `potrs` and `axpy` -/

/-- C7: for a host-resident square factor `U` and host vectors `a`, `b` of its
dimension, `ch1dn(U, a, b)` calls the downdate routine once and throws
`CholeskyDowndateException` carrying the status exactly when the status is
nonzero; with status zero it returns normally. The shape and leading
dimension of `U` are the same on exit, whichever way the call ends. -/
theorem ch1dn_throws_iff (E : Ext) (U : Mat) (a b : Vec)
    (hsq : U.size1 = U.size2) (ha : U.size1 = a.size) (hb : U.size1 = b.size)
    (hhost : U.on_device = false ∧ a.on_device = false ∧ b.on_device = false) :
    ((ch1dn E U a b).err
        = some (Err.CholeskyDowndateException (E.ch1dn a.size U U.lead a b).2.2.2)
      ↔ (E.ch1dn a.size U U.lead a b).2.2.2 ≠ 0)
    ∧ ((E.ch1dn a.size U U.lead a b).2.2.2 = 0 → (ch1dn E U a b).err = none)
    ∧ (ch1dn E U a b).trace = [Event.vendor Loc.host Routine.ch1dn [a.size, U.lead]]
    ∧ (ch1dn E U a b).out.1.size1 = U.size1
    ∧ (ch1dn E U a b).out.1.size2 = U.size2
    ∧ (ch1dn E U a b).out.1.lead = U.lead := by
  unfold ch1dn
  rw [if_pos ⟨hsq, ha, hb⟩, if_pos hhost]
  by_cases h : (E.ch1dn a.size U U.lead a b).2.2.2 = 0
  · simp [h]
  · simp [h]

/-- Witness of C7: a downdate routine that reports status 3. -/
theorem ch1dn_throws_iff_witness :
    (ch1dn failing_ext spd2 (host_vec 2 (fun _ => 1)) (host_vec 2 (fun _ => 0))).err
        = some (Err.CholeskyDowndateException 3)
    ∧ (ch1dn failing_ext spd2 (host_vec 2 (fun _ => 1)) (host_vec 2 (fun _ => 0))).out.1.size1
        = 2 :=
  have h := ch1dn_throws_iff failing_ext spd2 (host_vec 2 (fun _ => 1))
    (host_vec 2 (fun _ => 0)) rfl rfl rfl ⟨rfl, rfl, rfl⟩
  ⟨h.1.mpr (by decide), h.2.2.2.1⟩

/-- The shape of `U` after `ch1dn`, also when an assertion fails. -/
theorem ch1dn_shape (E : Ext) (U : Mat) (a b : Vec) :
    (ch1dn E U a b).out.1.size1 = U.size1 ∧ (ch1dn E U a b).out.1.size2 = U.size2 := by
  unfold ch1dn
  split
  · split <;> exact ⟨rfl, rfl⟩
  · exact ⟨rfl, rfl⟩

/-- C8: with its pre-conditions met, `potrs(L, X, uplo)` ends in the fatal
`BI_ASSERT` exactly when the solver reports a nonzero status, on the host and
on the device path alike (the backend is the location of `X`); with status
zero it returns normally. On either path the log ends with the release of the
staged factor, which follows the single solver call; the status is examined
after that. -/
theorem potrs_fatal_iff (E : Ext) (L X : Mat) (uplo : Char)
    (hpre : (uplo = 'U' ∨ uplo = 'L') ∧ L.size2 = X.size1) :
    ((potrs E L X uplo).err = some Err.BI_ASSERT
      ↔ (E.potrs (Loc.of X.on_device) uplo L.size1 X.size2 (potrs_staged L X) L.lead X
            X.lead).2 ≠ 0)
    ∧ ((E.potrs (Loc.of X.on_device) uplo L.size1 X.size2 (potrs_staged L X) L.lead X
            X.lead).2 = 0 → (potrs E L X uplo).err = none)
    ∧ ∃ pre : List Event,
        (potrs E L X uplo).trace = pre ++ [Event.release Operand.L]
        ∧ blas_calls pre = [Routine.potrs]
        ∧ all_on (Loc.of X.on_device) pre := by
  unfold potrs
  rw [if_pos hpre]
  cases hX : X.on_device
  · refine ⟨?_, ?_, [Event.map Loc.host Operand.L]
        ++ (if L.on_device then [Event.synchronize] else [])
        ++ [Event.vendor Loc.host Routine.potrs [L.size1, X.size2, L.lead, X.lead]], ?_, ?_, ?_⟩
    · by_cases h : (E.potrs Loc.host uplo L.size1 X.size2 (host_map_matrix L) L.lead X
          X.lead).2 = 0 <;> simp [potrs_staged, Loc.of, hX, h]
    · intro h
      simp [potrs_staged, Loc.of, hX] at h
      simp [h]
    · simp
    · cases L.on_device <;> simp [blas_calls]
    · cases L.on_device <;>
        simp [all_on_cons, all_on_nil, backend_map, backend_vendor, backend_synchronize,
          Loc.of]
  · refine ⟨?_, ?_, [Event.map Loc.device Operand.L,
        Event.vendor Loc.device Routine.potrs [L.size1, X.size2, L.lead, X.lead],
        Event.synchronize], ?_, ?_, ?_⟩
    · by_cases h : (E.potrs Loc.device uplo L.size1 X.size2 (gpu_map_matrix L) L.lead X
          X.lead).2 = 0 <;> simp [potrs_staged, Loc.of, hX, h]
    · intro h
      simp [potrs_staged, Loc.of, hX] at h
      simp [h]
    · simp
    · simp [blas_calls]
    · simp [all_on_cons, all_on_nil, backend_map, backend_vendor, backend_synchronize,
        Loc.of]

/-- Witness of C8: a solver that reports status 3. -/
theorem potrs_fatal_iff_witness :
    ((('L' : Char) = 'U' ∨ ('L' : Char) = 'L') ∧ spd2.size2 = zeros2.size1)
    ∧ (potrs failing_ext spd2 zeros2 'L').err = some Err.BI_ASSERT :=
  ⟨by decide, (potrs_fatal_iff failing_ext spd2 zeros2 'L' (by decide)).1.mpr (by decide)⟩

/-- C10: for vectors of equal size, `axpy(a, x, y, false)` leaves
`y[i] = a·x[i] + y_old[i]` and `axpy(a, x, y, true)` leaves `y[i] = a·x[i]`
for every `i`, whatever `y` held, and the size of `y` is kept; for vectors of
different size the call fails its assertion with `y` as it was and with no
event logged. The operand `x` is an input value of the call and is not part
of its output. -/
theorem axpy_spec (a : real) (x y : Vec) :
    (x.size = y.size →
      (axpy a x y false).err = none
      ∧ (axpy a x y true).err = none
      ∧ (axpy a x y false).out.size = y.size
      ∧ (axpy a x y true).out.size = y.size
      ∧ (∀ i, i < y.size → (axpy a x y false).out.elem i = a * x.elem i + y.elem i)
      ∧ ∀ i, i < y.size → (axpy a x y true).out.elem i = a * x.elem i)
    ∧ (x.size ≠ y.size → ∀ clear : Bool,
        (axpy a x y clear).err = some Err.assert
        ∧ (axpy a x y clear).out = y
        ∧ (axpy a x y clear).trace = []) := by
  constructor
  · intro h
    refine ⟨axpy_err a x y false h, axpy_err a x y true h, ?_, ?_, ?_, ?_⟩
    · rw [axpy_out a x y false h]; rfl
    · rw [axpy_out a x y true h]; rfl
    · intro i hi
      rw [axpy_out a x y false h]
      simp [blas_axpy, hi]
    · intro i hi
      rw [axpy_out a x y true h]
      simp [blas_axpy, hi, Vec.clear]
  · intro h clear
    unfold axpy
    rw [if_neg h]
    exact ⟨rfl, rfl, rfl⟩

/-- Witness of C10: `2·[1,2,3] + [10,20,30]` at index 1, with and without
`clear`, and a call with sizes 3 and 2. -/
theorem axpy_spec_witness :
    (axpy 2 (host_vec 3 (fun i => i + 1)) (host_vec 3 (fun i => 10 * (i + 1))) false).out.elem 1
        = 24
    ∧ (axpy 2 (host_vec 3 (fun i => i + 1)) (host_vec 3 (fun i => 10 * (i + 1))) true).out.elem 1
        = 4
    ∧ (axpy 2 (host_vec 3 (fun i => i + 1)) (host_vec 2 (fun _ => 7)) true).err
        = some Err.assert := by
  have h1 := (axpy_spec 2 (host_vec 3 (fun i => i + 1))
    (host_vec 3 (fun i => 10 * (i + 1)))).1 rfl
  have h2 := (axpy_spec 2 (host_vec 3 (fun i => i + 1)) (host_vec 2 (fun _ => 7))).2
    (by decide) true
  refine ⟨?_, ?_, h2.1⟩
  · rw [h1.2.2.2.2.1 1 (by decide)]; norm_num [host_vec]
  · rw [h1.2.2.2.2.2 1 (by decide)]; norm_num [host_vec]

/-! ## Backend selection -/

theorem some_on_cons_self (b : Loc) (e : Event) (t : List Event) (h : e.backend = some b) :
    some_on b (e :: t) :=
  ⟨e, List.mem_cons_self e t, h⟩

theorem some_on_cons_tail (b : Loc) (e : Event) (t : List Event) (h : some_on b t) :
    some_on b (e :: t) := by
  obtain ⟨e', he, hb⟩ := h
  exact ⟨e', List.mem_cons_of_mem e he, hb⟩

/-- Backend selection of `axpy`: the location of `y`. -/
theorem axpy_backend (a : real) (x y : Vec) (clear : Bool) :
    all_on (Loc.of y.on_device) (axpy a x y clear).trace
    ∧ ((axpy a x y clear).err = none ∨ (axpy a x y clear).err = some Err.assert)
    ∧ ((axpy a x y clear).err ≠ some Err.assert →
        some_on (Loc.of y.on_device) (axpy a x y clear).trace)
    ∧ (axpy a x y clear).out.on_device = y.on_device := by
  unfold axpy
  split
  · cases hy : y.on_device <;> cases hx : x.on_device <;> cases clear <;>
      simp [all_on_cons, all_on_nil, backend_map, backend_vendor, backend_synchronize,
        backend_release, Loc.of, some_on, Vec.clear, hy]
  · simp [all_on_nil]

/-- Backend selection of `scal`: the location of `x`. -/
theorem scal_backend (alpha : real) (x : Vec) :
    all_on (Loc.of x.on_device) (scal alpha x).trace
    ∧ (scal alpha x).err = none
    ∧ some_on (Loc.of x.on_device) (scal alpha x).trace
    ∧ (scal alpha x).out.on_device = x.on_device := by
  unfold scal
  cases hx : x.on_device <;>
    simp [all_on_cons, all_on_nil, backend_vendor, Loc.of, some_on]

/-- Backend selection of `gdmv`: the location of `y`. -/
theorem gdmv_backend (alpha : real) (A x : Vec) (beta : real) (y : Vec) :
    all_on (Loc.of y.on_device) (gdmv alpha A x beta y).trace
    ∧ ((gdmv alpha A x beta y).err = none ∨ (gdmv alpha A x beta y).err = some Err.assert)
    ∧ ((gdmv alpha A x beta y).err ≠ some Err.assert →
        some_on (Loc.of y.on_device) (gdmv alpha A x beta y).trace)
    ∧ (gdmv alpha A x beta y).out.on_device = y.on_device := by
  unfold gdmv
  split
  · cases hy : y.on_device <;> cases hx : x.on_device <;> cases hA : A.on_device <;>
      simp [all_on_cons, all_on_nil, backend_map, backend_vendor, backend_synchronize,
        backend_release, Loc.of, some_on]
  · simp [all_on_nil]

/-- Backend selection of `gemv`: the location of `y`. -/
theorem gemv_backend (alpha : real) (A : Mat) (x : Vec) (beta : real) (y : Vec)
    (transA : Char) :
    all_on (Loc.of y.on_device) (gemv alpha A x beta y transA).trace
    ∧ ((gemv alpha A x beta y transA).err ≠ some Err.assert →
        some_on (Loc.of y.on_device) (gemv alpha A x beta y transA).trace) := by
  unfold gemv
  split
  · cases hy : y.on_device <;> cases hx : x.on_device <;> cases hA : A.on_device <;>
      simp [all_on_cons, all_on_nil, backend_map, backend_vendor, backend_synchronize,
        backend_release, Loc.of, some_on]
  · simp [all_on_nil]

/-- Backend selection of `symv`: the location of `y`. -/
theorem symv_backend (B : Blas) (alpha : real) (A : Mat) (x : Vec) (beta : real) (y : Vec)
    (uplo : Char) :
    all_on (Loc.of y.on_device) (symv B alpha A x beta y uplo).trace
    ∧ ((symv B alpha A x beta y uplo).err ≠ some Err.assert →
        some_on (Loc.of y.on_device) (symv B alpha A x beta y uplo).trace) := by
  unfold symv
  split
  · cases hy : y.on_device <;> cases hx : x.on_device <;> cases hA : A.on_device <;>
      simp [all_on_cons, all_on_nil, backend_map, backend_vendor, backend_synchronize,
        backend_release, Loc.of, some_on]
  · simp [all_on_nil]

/-- Backend selection of `trmv`: the location of `x`. -/
theorem trmv_backend (B : Blas) (A : Mat) (x : Vec) (uplo transA : Char) :
    all_on (Loc.of x.on_device) (trmv B A x uplo transA).trace
    ∧ ((trmv B A x uplo transA).err ≠ some Err.assert →
        some_on (Loc.of x.on_device) (trmv B A x uplo transA).trace) := by
  unfold trmv
  split
  · cases hx : x.on_device <;> cases hA : A.on_device <;>
      simp [all_on_cons, all_on_nil, backend_map, backend_vendor, backend_synchronize,
        backend_release, Loc.of, some_on]
  · simp [all_on_nil]

/-- Backend selection of `gemm`: the location of `Y`. -/
theorem gemm_backend (B : Blas) (alpha : real) (A X : Mat) (beta : real) (Y : Mat)
    (transA transX : Char) :
    all_on (Loc.of Y.on_device) (gemm B alpha A X beta Y transA transX).trace
    ∧ ((gemm B alpha A X beta Y transA transX).err ≠ some Err.assert →
        some_on (Loc.of Y.on_device) (gemm B alpha A X beta Y transA transX).trace) := by
  unfold gemm
  split
  · cases hy : Y.on_device <;> cases hx : X.on_device <;> cases hA : A.on_device <;>
      simp [all_on_cons, all_on_nil, backend_map, backend_vendor, backend_synchronize,
        backend_release, Loc.of, some_on]
  · simp [all_on_nil]

/-- Backend selection of `symm`: the location of `Y`. -/
theorem symm_backend (B : Blas) (alpha : real) (A X : Mat) (beta : real) (Y : Mat)
    (side uplo : Char) :
    all_on (Loc.of Y.on_device) (symm B alpha A X beta Y side uplo).trace
    ∧ ((symm B alpha A X beta Y side uplo).err ≠ some Err.assert →
        some_on (Loc.of Y.on_device) (symm B alpha A X beta Y side uplo).trace) := by
  unfold symm
  split
  · cases hy : Y.on_device <;> cases hx : X.on_device <;> cases hA : A.on_device <;>
      simp [all_on_cons, all_on_nil, backend_map, backend_vendor, backend_synchronize,
        backend_release, Loc.of, some_on]
  · simp [all_on_nil]

/-- Backend selection of `trmm`: the location of `B`. -/
theorem trmm_backend (B : Blas) (alpha : real) (A Bm : Mat) (side uplo transA : Char) :
    all_on (Loc.of Bm.on_device) (trmm B alpha A Bm side uplo transA).trace
    ∧ ((trmm B alpha A Bm side uplo transA).err ≠ some Err.assert →
        some_on (Loc.of Bm.on_device) (trmm B alpha A Bm side uplo transA).trace) := by
  unfold trmm
  split
  · cases hy : Bm.on_device <;> cases hA : A.on_device <;>
      simp [all_on_cons, all_on_nil, backend_map, backend_vendor, backend_synchronize,
        backend_release, Loc.of, some_on]
  · simp [all_on_nil]

/-- Backend selection of `ger`: the location of `A`. -/
theorem ger_backend (B : Blas) (alpha : real) (x y : Vec) (A : Mat) (clear : Bool) :
    all_on (Loc.of A.on_device) (ger B alpha x y A clear).trace
    ∧ ((ger B alpha x y A clear).err ≠ some Err.assert →
        some_on (Loc.of A.on_device) (ger B alpha x y A clear).trace) := by
  unfold ger
  split
  · cases hA : A.on_device <;> cases hx : x.on_device <;> cases hy : y.on_device <;>
      simp [all_on_cons, all_on_nil, backend_map, backend_vendor, backend_synchronize,
        backend_release, Loc.of, some_on]
  · simp [all_on_nil]

/-- Backend selection of `syr`: the location of `A`. -/
theorem syr_backend (B : Blas) (alpha : real) (x : Vec) (A : Mat) (uplo : Char)
    (clear : Bool) :
    all_on (Loc.of A.on_device) (syr B alpha x A uplo clear).trace
    ∧ ((syr B alpha x A uplo clear).err ≠ some Err.assert →
        some_on (Loc.of A.on_device) (syr B alpha x A uplo clear).trace) := by
  unfold syr
  split
  · cases hA : A.on_device <;> cases hx : x.on_device <;>
      simp [all_on_cons, all_on_nil, backend_map, backend_vendor, backend_synchronize,
        backend_release, Loc.of, some_on]
  · simp [all_on_nil]

/-- Backend selection of `syr2`: the location of `A`. -/
theorem syr2_backend (B : Blas) (alpha : real) (x y : Vec) (A : Mat) (uplo : Char)
    (clear : Bool) :
    all_on (Loc.of A.on_device) (syr2 B alpha x y A uplo clear).trace
    ∧ ((syr2 B alpha x y A uplo clear).err ≠ some Err.assert →
        some_on (Loc.of A.on_device) (syr2 B alpha x y A uplo clear).trace) := by
  unfold syr2
  split
  · cases hA : A.on_device <;> cases hx : x.on_device <;> cases hy : y.on_device <;>
      simp [all_on_cons, all_on_nil, backend_map, backend_vendor, backend_synchronize,
        backend_release, Loc.of, some_on]
  · simp [all_on_nil]

/-- Backend selection of `syrk`: the location of `C`. -/
theorem syrk_backend (B : Blas) (alpha : real) (A : Mat) (beta : real) (C : Mat)
    (uplo trans : Char) :
    all_on (Loc.of C.on_device) (syrk B alpha A beta C uplo trans).trace
    ∧ ((syrk B alpha A beta C uplo trans).err ≠ some Err.assert →
        some_on (Loc.of C.on_device) (syrk B alpha A beta C uplo trans).trace) := by
  unfold syrk
  split
  · cases hC : C.on_device <;> cases hA : A.on_device <;>
      simp [all_on_cons, all_on_nil, backend_map, backend_vendor, backend_synchronize,
        backend_release, Loc.of, some_on]
  · simp [all_on_nil]

/-- Backend selection of `potrs`: the location of `X`. -/
theorem potrs_backend (E : Ext) (L X : Mat) (uplo : Char) :
    all_on (Loc.of X.on_device) (potrs E L X uplo).trace
    ∧ ((potrs E L X uplo).err ≠ some Err.assert →
        some_on (Loc.of X.on_device) (potrs E L X uplo).trace) := by
  unfold potrs
  split
  · cases hX : X.on_device <;> cases hL : L.on_device <;>
      simp [all_on_cons, all_on_nil, backend_map, backend_vendor, backend_synchronize,
        backend_release, Loc.of, some_on]
  · simp [all_on_nil]

/-- Backend selection of `trsv`: the location of `x`. -/
theorem trsv_backend (B : Blas) (A : Mat) (x : Vec) (uplo trans diag : Char) :
    all_on (Loc.of x.on_device) (trsv B A x uplo trans diag).trace
    ∧ ((trsv B A x uplo trans diag).err ≠ some Err.assert →
        some_on (Loc.of x.on_device) (trsv B A x uplo trans diag).trace) := by
  unfold trsv
  split
  · cases hx : x.on_device <;> cases hA : A.on_device <;>
      simp [all_on_cons, all_on_nil, backend_map, backend_vendor, backend_synchronize,
        backend_release, Loc.of, some_on]
  · simp [all_on_nil]

/-- Backend selection of `trsm`: the location of `B`. -/
theorem trsm_backend (B : Blas) (alpha : real) (A Bm : Mat) (side uplo trans diag : Char) :
    all_on (Loc.of Bm.on_device) (trsm B alpha A Bm side uplo trans diag).trace
    ∧ ((trsm B alpha A Bm side uplo trans diag).err ≠ some Err.assert →
        some_on (Loc.of Bm.on_device) (trsm B alpha A Bm side uplo trans diag).trace) := by
  unfold trsm
  split
  · cases hy : Bm.on_device <;> cases hA : A.on_device <;>
      simp [all_on_cons, all_on_nil, backend_map, backend_vendor, backend_synchronize,
        backend_release, Loc.of, some_on]
  · simp [all_on_nil]

/-! ### Loops over columns -/

theorem next_of_err {α : Type} (r : Run α) (f : α → Run α) (e : Err) (h : r.err = some e) :
    r.next f = r := by
  unfold Run.next; rw [h]

theorem next_of_ok {α : Type} (r : Run α) (f : α → Run α) (h : r.err = none) :
    r.next f
      = { trace := r.trace ++ (f r.out).trace, out := (f r.out).out, err := (f r.out).err } := by
  unfold Run.next; rw [h]

theorem finish_of_err {α : Type} (r : Run α) (t : List Event) (e : Err) (h : r.err = some e) :
    r.finish t = r := by
  unfold Run.finish; rw [h]

theorem finish_of_ok {α : Type} (r : Run α) (t : List Event) (h : r.err = none) :
    r.finish t = { trace := r.trace ++ t, out := r.out, err := none } := by
  unfold Run.finish; rw [h]

theorem finish_err {α : Type} (r : Run α) (t : List Event) : (r.finish t).err = r.err := by
  cases h : r.err with
  | none => rw [finish_of_ok r t h]
  | some e => rw [finish_of_err r t e h, h]

theorem finish_all_on {α : Type} (b : Loc) (r : Run α) (t : List Event)
    (hr : all_on b r.trace) (ht : all_on b t) : all_on b (r.finish t).trace := by
  cases h : r.err with
  | none => rw [finish_of_ok r t h]; exact (all_on_append b _ _).mpr ⟨hr, ht⟩
  | some e => rw [finish_of_err r t e h]; exact hr

theorem finish_some_on {α : Type} (b : Loc) (r : Run α) (t : List Event)
    (hr : some_on b r.trace) : some_on b (r.finish t).trace := by
  cases h : r.err with
  | none => rw [finish_of_ok r t h]; exact some_on_append_left b _ _ hr
  | some e => rw [finish_of_err r t e h]; exact hr

/-- A loop keeps an invariant of the output operand and sends every vendor
call to `b`, if each iteration does. -/
theorem foldl_next_all_on {α : Type} (inv : α → Prop) (b : Loc) (body : Nat → α → Run α)
    (hbody : ∀ j Y, inv Y → inv (body j Y).out ∧ all_on b (body j Y).trace) :
    ∀ (l : List Nat) (init : Run α), inv init.out → all_on b init.trace →
      inv (l.foldl (fun r j => r.next (body j)) init).out
      ∧ all_on b (l.foldl (fun r j => r.next (body j)) init).trace := by
  intro l
  induction l with
  | nil => intro init h1 h2; exact ⟨h1, h2⟩
  | cons j t ih =>
    intro init h1 h2
    rw [List.foldl_cons]
    cases he : init.err with
    | some e => rw [next_of_err init _ e he]; exact ih init h1 h2
    | none =>
      rw [next_of_ok init _ he]
      exact ih _ (hbody j init.out h1).1
        ((all_on_append b _ _).mpr ⟨h2, (hbody j init.out h1).2⟩)

theorem foldl_next_sticky {α : Type} (body : Nat → α → Run α) (e : Err) :
    ∀ (l : List Nat) (init : Run α), init.err = some e →
      l.foldl (fun r j => r.next (body j)) init = init := by
  intro l
  induction l with
  | nil => intro init _; rfl
  | cons j t ih =>
    intro init h
    rw [List.foldl_cons, next_of_err init _ e h]
    exact ih init h

theorem foldl_next_some_on {α : Type} (b : Loc) (body : Nat → α → Run α) :
    ∀ (l : List Nat) (init : Run α), some_on b init.trace →
      some_on b (l.foldl (fun r j => r.next (body j)) init).trace := by
  intro l
  induction l with
  | nil => intro init h; exact h
  | cons j t ih =>
    intro init h
    rw [List.foldl_cons]
    cases he : init.err with
    | some e => rw [next_of_err init _ e he]; exact ih init h
    | none =>
      rw [next_of_ok init _ he]
      exact ih _ (some_on_append_left b _ _ h)

theorem foldl_next_ok {α : Type} (body : Nat → α → Run α)
    (hbody : ∀ j Y, (body j Y).err = none) :
    ∀ (l : List Nat) (init : Run α), init.err = none →
      (l.foldl (fun r j => r.next (body j)) init).err = none := by
  intro l
  induction l with
  | nil => intro init h; exact h
  | cons j t ih =>
    intro init h
    rw [List.foldl_cons, next_of_ok init _ h]
    exact ih _ (hbody j init.out)

/-- A loop with at least one iteration that does not end on a failed assertion
has made a vendor call on `b`, if each iteration that passes its assertion
makes one. -/
theorem for_loop_some_on {α : Type} (inv : α → Prop) (b : Loc) (body : Nat → α → Run α)
    (hbody : ∀ j Y, inv Y →
      ((body j Y).err = none ∨ (body j Y).err = some Err.assert)
      ∧ ((body j Y).err ≠ some Err.assert → some_on b (body j Y).trace))
    (n : Nat) (hn : 0 < n) (init : Run α) (hinv : inv init.out) (hok : init.err = none)
    (hne : (for_loop n body init).err ≠ some Err.assert) :
    some_on b (for_loop n body init).trace := by
  obtain ⟨m, rfl⟩ : ∃ m, n = m + 1 := ⟨n - 1, by omega⟩
  unfold for_loop at hne ⊢
  rw [List.range_succ_eq_map, List.foldl_cons, next_of_ok init _ hok] at hne ⊢
  rcases (hbody 0 init.out hinv).1 with h0 | h0
  · apply foldl_next_some_on
    apply some_on_append_right
    exact (hbody 0 init.out hinv).2 (by rw [h0]; simp)
  · exfalso
    apply hne
    rw [foldl_next_sticky body Err.assert _
      { trace := init.trace ++ (body 0 init.out).trace, out := (body 0 init.out).out,
        err := (body 0 init.out).err } h0]
    exact h0

theorem for_loop_all_on {α : Type} (inv : α → Prop) (b : Loc) (body : Nat → α → Run α)
    (hbody : ∀ j Y, inv Y → inv (body j Y).out ∧ all_on b (body j Y).trace)
    (n : Nat) (init : Run α) (h1 : inv init.out) (h2 : all_on b init.trace) :
    inv (for_loop n body init).out ∧ all_on b (for_loop n body init).trace :=
  foldl_next_all_on inv b body hbody (List.range n) init h1 h2

/-- Backend selection of `matrix_scal`: the location of `X`. -/
theorem matrix_scal_backend (alpha : real) (X : Mat) :
    all_on (Loc.of X.on_device) (matrix_scal alpha X).trace
    ∧ (matrix_scal alpha X).err = none
    ∧ (matrix_scal alpha X).out.on_device = X.on_device := by
  unfold matrix_scal
  split
  · exact ⟨(scal_backend alpha (vec X)).1, (scal_backend alpha (vec X)).2.1, rfl⟩
  · have hb : ∀ j (Y : Mat), Y.on_device = X.on_device →
        (on_column Y j (scal alpha (column Y j))).out.on_device = X.on_device
        ∧ all_on (Loc.of X.on_device) (on_column Y j (scal alpha (column Y j))).trace := by
      intro j Y hY
      refine ⟨hY, ?_⟩
      have h := (scal_backend alpha (column Y j)).1
      rw [show (column Y j).on_device = X.on_device from hY] at h
      exact h
    have h := for_loop_all_on (fun Y : Mat => Y.on_device = X.on_device) (Loc.of X.on_device)
      _ hb X.size2 { trace := [], out := X, err := none } rfl (all_on_nil _)
    refine ⟨h.2, ?_, h.1⟩
    exact foldl_next_ok _ (fun j Y => (scal_backend alpha (column Y j)).2.1) _ _ rfl

theorem gpu_map_matrix_size2 (X : Mat) : (gpu_map_matrix X).size2 = X.size2 := by
  unfold gpu_map_matrix; split <;> rfl

theorem host_map_matrix_size2 (X : Mat) : (host_map_matrix X).size2 = X.size2 := by
  unfold host_map_matrix; split <;> rfl

/-- One column step of `gdmm` through `gdmv`. -/
theorem gdmm_gdmv_step (alpha : real) (A1 : Vec) (X1 : Mat) (beta : real) (d : Bool)
    (j : Nat) (Y : Mat) (hY : Y.on_device = d) :
    ((on_column Y j (gdmv alpha A1 (column X1 j) beta (column Y j))).out.on_device = d
      ∧ all_on (Loc.of d) (on_column Y j (gdmv alpha A1 (column X1 j) beta (column Y j))).trace)
    ∧ ((on_column Y j (gdmv alpha A1 (column X1 j) beta (column Y j))).err = none
        ∨ (on_column Y j (gdmv alpha A1 (column X1 j) beta (column Y j))).err
            = some Err.assert)
    ∧ ((on_column Y j (gdmv alpha A1 (column X1 j) beta (column Y j))).err ≠ some Err.assert →
        some_on (Loc.of d)
          (on_column Y j (gdmv alpha A1 (column X1 j) beta (column Y j))).trace) := by
  have h := gdmv_backend alpha A1 (column X1 j) beta (column Y j)
  rw [show (column Y j).on_device = d from hY] at h
  exact ⟨⟨hY, h.1⟩, h.2.1, h.2.2.1⟩

/-- One column step of `gdmm` through `axpy`. -/
theorem gdmm_axpy_step (a : Nat → real) (X1 : Mat) (d : Bool)
    (j : Nat) (Y : Mat) (hY : Y.on_device = d) :
    ((on_column Y j (axpy (a j) (column X1 j) (column Y j) false)).out.on_device = d
      ∧ all_on (Loc.of d) (on_column Y j (axpy (a j) (column X1 j) (column Y j) false)).trace)
    ∧ ((on_column Y j (axpy (a j) (column X1 j) (column Y j) false)).err = none
        ∨ (on_column Y j (axpy (a j) (column X1 j) (column Y j) false)).err
            = some Err.assert)
    ∧ ((on_column Y j (axpy (a j) (column X1 j) (column Y j) false)).err ≠ some Err.assert →
        some_on (Loc.of d)
          (on_column Y j (axpy (a j) (column X1 j) (column Y j) false)).trace) := by
  have h := axpy_backend (a j) (column X1 j) (column Y j) false
  rw [show (column Y j).on_device = d from hY] at h
  exact ⟨⟨hY, h.1⟩, h.2.1, h.2.2.1⟩

theorem gdmm_scale_backend (pre : List Event) (beta : real) (Y : Mat)
    (hpre : all_on (Loc.of Y.on_device) pre) :
    all_on (Loc.of Y.on_device) (gdmm_scale pre beta Y).trace
    ∧ (gdmm_scale pre beta Y).err = none
    ∧ (gdmm_scale pre beta Y).out.on_device = Y.on_device := by
  unfold gdmm_scale
  split
  · exact ⟨hpre, rfl, rfl⟩
  · obtain ⟨h1, h2, h3⟩ := matrix_scal_backend beta Y
    exact ⟨(all_on_append _ _ _).mpr ⟨hpre, h1⟩, h2, h3⟩

/-- A column loop of `gdmm` followed by its closing events. -/
theorem gdmm_loop_backend (d : Bool) (body : Nat → Mat → Run Mat)
    (hbody : ∀ j (Y : Mat), Y.on_device = d →
      ((body j Y).out.on_device = d ∧ all_on (Loc.of d) (body j Y).trace)
      ∧ ((body j Y).err = none ∨ (body j Y).err = some Err.assert)
      ∧ ((body j Y).err ≠ some Err.assert → some_on (Loc.of d) (body j Y).trace))
    (n : Nat) (init : Run Mat) (tail : List Event)
    (hd : init.out.on_device = d) (hok : init.err = none)
    (hinit : all_on (Loc.of d) init.trace) (htail : all_on (Loc.of d) tail) :
    all_on (Loc.of d) ((for_loop n body init).finish tail).trace
    ∧ (((for_loop n body init).finish tail).err ≠ some Err.assert → 0 < n →
        some_on (Loc.of d) ((for_loop n body init).finish tail).trace) := by
  constructor
  · apply finish_all_on _ _ _ _ htail
    exact (for_loop_all_on (fun Y : Mat => Y.on_device = d) (Loc.of d) body
      (fun j Y hY => (hbody j Y hY).1) n init hd hinit).2
  · intro hne hn
    rw [finish_err] at hne
    apply finish_some_on
    exact for_loop_some_on (fun Y : Mat => Y.on_device = d) (Loc.of d) body
      (fun j Y hY => (hbody j Y hY).2) n hn init hd hok hne

/-- Backend selection of `gdmm`: the location of `Y`, on every path. -/
theorem gdmm_backend (alpha : real) (A : Vec) (X : Mat) (beta : real) (Y : Mat)
    (side : Char) :
    all_on (Loc.of Y.on_device) (gdmm alpha A X beta Y side).trace
    ∧ ((gdmm alpha A X beta Y side).err ≠ some Err.assert → 0 < X.size2 →
        some_on (Loc.of Y.on_device) (gdmm alpha A X beta Y side).trace) := by
  unfold gdmm
  split
  · by_cases hY : Y.on_device = true
    swap
    · rw [if_neg hY]
      dsimp only
      by_cases hs : side = 'L'
      · rw [if_pos hs]
        have h := gdmm_loop_backend Y.on_device _
          (gdmm_gdmv_step alpha (host_map_vector A) (host_map_matrix X) beta Y.on_device)
          (host_map_matrix X).size2
          { trace := [Event.map Loc.host Operand.A, Event.map Loc.host Operand.X]
              ++ (if A.on_device ∨ X.on_device then [Event.synchronize] else []),
            out := Y, err := none }
          [Event.release Operand.A, Event.release Operand.X] rfl rfl
          (by split <;> simp [all_on_cons, all_on_nil, backend_map, backend_synchronize])
          (by simp [all_on_cons, all_on_nil, backend_release])
        exact ⟨h.1, fun hne hn => h.2 hne (by rw [host_map_matrix_size2]; exact hn)⟩
      · rw [if_neg hs]
        obtain ⟨h1, h2, h3⟩ := gdmm_scale_backend
          ([Event.map Loc.host Operand.A, Event.map Loc.host Operand.X]
            ++ (if A.on_device ∨ X.on_device then [Event.synchronize] else [])) beta Y
          (by split <;> simp [all_on_cons, all_on_nil, backend_map, backend_synchronize])
        have h := gdmm_loop_backend Y.on_device _
          (gdmm_axpy_step (fun j => alpha * (host_map_vector A).elem j) (host_map_matrix X)
            Y.on_device)
          (host_map_matrix X).size2 _
          [Event.release Operand.A, Event.release Operand.X] h3 h2 h1
          (by simp [all_on_cons, all_on_nil, backend_release])
        exact ⟨h.1, fun hne hn => h.2 hne (by rw [host_map_matrix_size2]; exact hn)⟩
    · rw [if_pos hY]
      dsimp only
      by_cases hs : side = 'L'
      · rw [if_pos hs]
        have h := gdmm_loop_backend Y.on_device _
          (gdmm_gdmv_step alpha (gpu_map_vector A) (gpu_map_matrix X) beta Y.on_device)
          (gpu_map_matrix X).size2
          { trace := [Event.map Loc.device Operand.X, Event.map Loc.device Operand.A],
            out := Y, err := none }
          [Event.synchronize, Event.release Operand.A, Event.release Operand.X] rfl rfl
          (by simp [all_on_cons, all_on_nil, backend_map])
          (by simp [all_on_cons, all_on_nil, backend_release, backend_synchronize])
        exact ⟨h.1, fun hne hn => h.2 hne (by rw [gpu_map_matrix_size2]; exact hn)⟩
      · rw [if_neg hs]
        obtain ⟨h1, h2, h3⟩ := gdmm_scale_backend
          ([Event.map Loc.device Operand.X, Event.map Loc.host Operand.A]
            ++ (if A.on_device then [Event.synchronize] else [])) beta Y
          (by split <;> simp [all_on_cons, all_on_nil, backend_map, backend_synchronize])
        have h := gdmm_loop_backend Y.on_device _
          (gdmm_axpy_step (fun j => alpha * (host_map_vector A).elem j) (gpu_map_matrix X)
            Y.on_device)
          (gpu_map_matrix X).size2 _
          [Event.synchronize, Event.release Operand.A, Event.release Operand.X] h3 h2 h1
          (by simp [all_on_cons, all_on_nil, backend_release, backend_synchronize])
        exact ⟨h.1, fun hne hn => h.2 hne (by rw [gpu_map_matrix_size2]; exact hn)⟩
  · simp [all_on_nil]

theorem chol_first_backend (E : Ext) (A L : Mat) (uplo : Char) (N : Nat) :
    all_on (Loc.of L.on_device) (chol_first E A L uplo N).trace
    ∧ some_on (Loc.of L.on_device) (chol_first E A L uplo N).trace := by
  unfold chol_first
  cases hL : L.on_device <;> cases hA : A.on_device <;>
    simp [all_on_cons, all_on_nil, backend_potrf, backend_synchronize, Loc.of, some_on]

theorem chol_body_trace (E : Ext) (A L : Mat) (uplo : Char) (N : Nat) (eps : Vec)
    (s : CholState) :
    ∃ M : Mat, (chol_body E A L uplo N eps s).trace
      = s.trace
        ++ (axpy s.factor eps (diagonal (({ L with elem := s.buf } : Mat).assign A)) false).trace
        ++ (if L.on_device then [Event.potrf Loc.device uplo N M, Event.synchronize]
            else [Event.potrf Loc.host uplo N M]) := by
  unfold chol_body
  dsimp only
  split
  · exact ⟨_, rfl⟩
  · exact ⟨_, rfl⟩

theorem chol_body_backend (E : Ext) (A L : Mat) (uplo : Char) (N : Nat) (eps : Vec)
    (s : CholState) :
    (all_on (Loc.of L.on_device) s.trace →
      all_on (Loc.of L.on_device) (chol_body E A L uplo N eps s).trace)
    ∧ (some_on (Loc.of L.on_device) s.trace →
      some_on (Loc.of L.on_device) (chol_body E A L uplo N eps s).trace) := by
  have hax : all_on (Loc.of L.on_device) (axpy s.factor eps
      (diagonal (({ L with elem := s.buf } : Mat).assign A)) false).trace :=
    (axpy_backend s.factor eps (diagonal (({ L with elem := s.buf } : Mat).assign A)) false).1
  obtain ⟨M, hM⟩ := chol_body_trace E A L uplo N eps s
  rw [hM]
  constructor
  · intro h
    refine (all_on_append _ _ _).mpr ⟨(all_on_append _ _ _).mpr ⟨h, hax⟩, ?_⟩
    cases hL : L.on_device <;>
      simp [all_on_cons, all_on_nil, backend_potrf, backend_synchronize, Loc.of]
  · intro h
    exact some_on_append_left _ _ _ (some_on_append_left _ _ _ h)

theorem chol_loop_backend (E : Ext) (A L : Mat) (uplo : Char) (N : Nat) (eps : Vec)
    (largest : real) (fuel : Nat) : ∀ s : CholState,
    (all_on (Loc.of L.on_device) s.trace →
      all_on (Loc.of L.on_device) (chol_loop E A L uplo N eps largest fuel s).trace)
    ∧ (some_on (Loc.of L.on_device) s.trace →
      some_on (Loc.of L.on_device) (chol_loop E A L uplo N eps largest fuel s).trace) := by
  induction fuel with
  | zero => intro s; exact ⟨fun h => h, fun h => h⟩
  | succ fuel ih =>
    intro s
    by_cases h : s.info ≠ 0 ∧ s.factor < largest
    · simp only [chol_loop, if_pos h]
      exact ⟨fun hs => (ih _).1 ((chol_body_backend E A L uplo N eps s).1 hs),
        fun hs => (ih _).2 ((chol_body_backend E A L uplo N eps s).2 hs)⟩
    · simp only [chol_loop, if_neg h]
      exact ⟨fun hs => hs, fun hs => hs⟩

/-- Backend selection of `chol`: the location of `L`, for the decomposition and
for the loading calls alike. -/
theorem chol_backend (E : Ext) (A L : Mat) (uplo : Char) (strat : CholeskyStrategy) :
    all_on (Loc.of L.on_device) (chol E A L uplo strat).trace
    ∧ ((chol E A L uplo strat).err ≠ some Err.assert →
        some_on (Loc.of L.on_device) (chol E A L uplo strat).trace) := by
  obtain ⟨h1, h2⟩ := chol_first_backend E A L uplo A.size1
  unfold chol
  by_cases hpre : chol_pre A L uplo
  · rw [if_pos hpre]
    dsimp only
    split
    · unfold chol_adjust
      exact ⟨(chol_loop_backend E A L uplo A.size1 _ _ _ _).1 h1,
        fun _ => (chol_loop_backend E A L uplo A.size1 _ _ _ _).2 h2⟩
    · exact ⟨h1, fun _ => h2⟩
  · rw [if_neg hpre]
    exact ⟨all_on_nil _, fun h => absurd rfl h⟩

theorem place_inputs_output (f : Operand → Bool) (c : Call) :
    (c.place_inputs f).output_on_device = c.output_on_device := by
  cases c <;> rfl

/-- Backend selection of every primitive with an output operand. -/
theorem call_backend (E : Ext) (B : Blas) (c : Call) :
    all_on (Loc.of c.output_on_device) (c.trace E B)
    ∧ (c.err E B ≠ some Err.assert → c.has_work →
        some_on (Loc.of c.output_on_device) (c.trace E B)) := by
  cases c with
  | axpy a x y clear =>
    exact ⟨(axpy_backend a x y clear).1, fun h _ => (axpy_backend a x y clear).2.2.1 h⟩
  | gemv alpha A x beta y transA =>
    exact ⟨(gemv_backend alpha A x beta y transA).1,
      fun h _ => (gemv_backend alpha A x beta y transA).2 h⟩
  | symv alpha A x beta y uplo =>
    exact ⟨(symv_backend B alpha A x beta y uplo).1,
      fun h _ => (symv_backend B alpha A x beta y uplo).2 h⟩
  | trmv A x uplo transA =>
    exact ⟨(trmv_backend B A x uplo transA).1, fun h _ => (trmv_backend B A x uplo transA).2 h⟩
  | gdmv alpha A x beta y =>
    exact ⟨(gdmv_backend alpha A x beta y).1, fun h _ => (gdmv_backend alpha A x beta y).2.2.1 h⟩
  | gemm alpha A X beta Y transA transX =>
    exact ⟨(gemm_backend B alpha A X beta Y transA transX).1,
      fun h _ => (gemm_backend B alpha A X beta Y transA transX).2 h⟩
  | symm alpha A X beta Y side uplo =>
    exact ⟨(symm_backend B alpha A X beta Y side uplo).1,
      fun h _ => (symm_backend B alpha A X beta Y side uplo).2 h⟩
  | trmm alpha A Bm side uplo transA =>
    exact ⟨(trmm_backend B alpha A Bm side uplo transA).1,
      fun h _ => (trmm_backend B alpha A Bm side uplo transA).2 h⟩
  | gdmm alpha A X beta Y side =>
    exact ⟨(gdmm_backend alpha A X beta Y side).1,
      fun h hw => (gdmm_backend alpha A X beta Y side).2 h hw⟩
  | ger alpha x y A clear =>
    exact ⟨(ger_backend B alpha x y A clear).1, fun h _ => (ger_backend B alpha x y A clear).2 h⟩
  | syr alpha x A uplo clear =>
    exact ⟨(syr_backend B alpha x A uplo clear).1,
      fun h _ => (syr_backend B alpha x A uplo clear).2 h⟩
  | syr2 alpha x y A uplo clear =>
    exact ⟨(syr2_backend B alpha x y A uplo clear).1,
      fun h _ => (syr2_backend B alpha x y A uplo clear).2 h⟩
  | syrk alpha A beta C uplo t =>
    exact ⟨(syrk_backend B alpha A beta C uplo t).1,
      fun h _ => (syrk_backend B alpha A beta C uplo t).2 h⟩
  | potrs L X uplo =>
    exact ⟨(potrs_backend E L X uplo).1, fun h _ => (potrs_backend E L X uplo).2 h⟩
  | trsv A x uplo t diag =>
    exact ⟨(trsv_backend B A x uplo t diag).1, fun h _ => (trsv_backend B A x uplo t diag).2 h⟩
  | trsm alpha A Bm side uplo t diag =>
    exact ⟨(trsm_backend B alpha A Bm side uplo t diag).1,
      fun h _ => (trsm_backend B alpha A Bm side uplo t diag).2 h⟩
  | chol A L uplo strat =>
    exact ⟨(chol_backend E A L uplo strat).1, fun h _ => (chol_backend E A L uplo strat).2 h⟩

/-- C9: for each of `axpy`, `gemv`, `symv`, `trmv`, `gdmv`, `gemm`, `symm`, `trmm`,
`gdmm`, `ger`, `syr`, `syr2`, `syrk`, `potrs`, `trsv`, `trsm`, `chol` and every
placement `f` of its input operands, every vendor routine the call invokes
belongs to the backend of the output operand's location (device if the output
is device-resident, host otherwise), and when the call passes its assertions
and has work to do such a routine is invoked. Placing the inputs elsewhere
leaves the output location, hence the backend, as it was. -/
theorem backend_follows_output (E : Ext) (B : Blas) (c : Call) (f : Operand → Bool) :
    (c.place_inputs f).output_on_device = c.output_on_device
    ∧ all_on (Loc.of c.output_on_device) ((c.place_inputs f).trace E B)
    ∧ ((c.place_inputs f).err E B ≠ some Err.assert → (c.place_inputs f).has_work →
        some_on (Loc.of c.output_on_device) ((c.place_inputs f).trace E B))
    ∧ all_on (Loc.of c.output_on_device) (c.trace E B)
    ∧ (c.err E B ≠ some Err.assert → c.has_work →
        some_on (Loc.of c.output_on_device) (c.trace E B)) := by
  have h := call_backend E B (c.place_inputs f)
  rw [place_inputs_output] at h
  exact ⟨place_inputs_output f c, h.1, h.2, (call_backend E B c).1, (call_backend E B c).2⟩

/-- Witness of C9: `gemm` with both inputs on the device and the output on
the host passes its assertions and calls the host routine, and only it. -/
theorem backend_follows_output_witness :
    (Call.gemm 1 (spd2.at_loc true) (spd2.at_loc true) 0 zeros2 'N' 'N').err diag_ext zero_blas
        ≠ some Err.assert
    ∧ some_on Loc.host
        ((Call.gemm 1 (spd2.at_loc true) (spd2.at_loc true) 0 zeros2 'N' 'N').trace
          diag_ext zero_blas)
    ∧ all_on Loc.host
        ((Call.gemm 1 (spd2.at_loc true) (spd2.at_loc true) 0 zeros2 'N' 'N').trace
          diag_ext zero_blas) :=
  have h := backend_follows_output diag_ext zero_blas
    (Call.gemm 1 spd2 spd2 0 zeros2 'N' 'N') (fun _ => true)
  ⟨by decide, h.2.2.1 (by decide) trivial, h.2.1⟩

/-! ## Claims on `axpy` pairs, `gemm`, `gemv` and `syr2` -/

/-- C11 (amended): for conformant `x`, `y`, `axpy(a, x, y, clear=true)`
followed by `axpy(-a, x, y)` passes its assertions and leaves in `y` what the
pair computes from a vector of zeros: element `i` is `(-a)·x[i] + (a·x[i] + 0)`,
whatever `y` held before the first call. Two runs that differ only in the prior
contents of `y` end with the same elements: the first call discards those
contents, and the pair does not restore them. -/
theorem axpy_then_cancel (a : real) (x y : Vec) (h : x.size = y.size) :
    (axpy a x y true).err = none
    ∧ (axpy (-a) x (axpy a x y true).out false).err = none
    ∧ (∀ i, i < y.size → (axpy a x y true).out.elem i = a * x.elem i + 0)
    ∧ (∀ i, i < y.size →
        (axpy (-a) x (axpy a x y true).out false).out.elem i
          = -a * x.elem i + (a * x.elem i + 0))
    ∧ ∀ y' : Vec, y'.size = y.size → ∀ i, i < y.size →
        (axpy (-a) x (axpy a x y' true).out false).out.elem i
          = (axpy (-a) x (axpy a x y true).out false).out.elem i := by
  have h1 : x.size = (axpy a x y true).out.size := by rw [axpy_out a x y true h]; exact h
  refine ⟨axpy_err _ _ _ _ h, axpy_err _ _ _ _ h1, ?_, ?_, ?_⟩
  · intro i hi
    rw [axpy_out a x y true h]
    simp [blas_axpy, hi, Vec.clear]
  · intro i hi
    rw [axpy_out _ _ _ _ h1, axpy_out a x y true h]
    simp [blas_axpy, hi, Vec.clear]
  · intro y' hy' i hi
    have h' : x.size = y'.size := by rw [hy']; exact h
    have h2 : x.size = (axpy a x y' true).out.size := by
      rw [axpy_out a x y' true h']; exact h'
    rw [axpy_out _ _ _ _ h1, axpy_out a x y true h, axpy_out _ _ _ _ h2,
      axpy_out a x y' true h']
    simp [blas_axpy, hi, Vec.clear, hy']

/-- Witness of C11 (amended): `x = [1]`, `a = 2`; from `y = [5]` and from
`y = [7]` the pair ends with the same element, `-2·1 + (2·1 + 0)`. -/
theorem axpy_then_cancel_witness :
    (host_vec 1 (fun _ => 1)).size = (host_vec 1 (fun _ => 5)).size
    ∧ (axpy (-2) (host_vec 1 (fun _ => 1))
        (axpy 2 (host_vec 1 (fun _ => 1)) (host_vec 1 (fun _ => 5)) true).out false).out.elem 0
        = -2 * 1 + (2 * 1 + 0)
    ∧ (axpy (-2) (host_vec 1 (fun _ => 1))
        (axpy 2 (host_vec 1 (fun _ => 1)) (host_vec 1 (fun _ => 7)) true).out false).out.elem 0
        = (axpy (-2) (host_vec 1 (fun _ => 1))
            (axpy 2 (host_vec 1 (fun _ => 1)) (host_vec 1 (fun _ => 5)) true).out false).out.elem 0 :=
  have h := axpy_then_cancel 2 (host_vec 1 (fun _ => 1)) (host_vec 1 (fun _ => 5)) rfl
  ⟨rfl, h.2.2.2.1 0 (by decide), h.2.2.2.2 (host_vec 1 (fun _ => 7)) rfl 0 (by decide)⟩

/-- C11, counterexample: with `x = [1]`, `y = [5]` and `a = 2`, the first call
leaves `y = [2]` and the second `y = [0]`, not `[5]`. -/
theorem axpy_clear_loses_y :
    (axpy 2 (host_vec 1 (fun _ => 1)) (host_vec 1 (fun _ => 5)) true).out.elem 0 = 2
    ∧ (axpy (-2) (host_vec 1 (fun _ => 1))
        (axpy 2 (host_vec 1 (fun _ => 1)) (host_vec 1 (fun _ => 5)) true).out false).out.elem 0
        = 0
    ∧ (host_vec 1 (fun _ => 5)).elem 0 = 5 := by
  have h0 : (host_vec 1 (fun _ => 1)).size = (host_vec 1 (fun _ => 5)).size := rfl
  have e1 := axpy_out 2 (host_vec 1 (fun _ => 1)) (host_vec 1 (fun _ => 5)) true h0
  have h1 : (host_vec 1 (fun _ => 1)).size
      = (axpy 2 (host_vec 1 (fun _ => 1)) (host_vec 1 (fun _ => 5)) true).out.size := by
    rw [e1]; rfl
  have e2 := axpy_out (-2) (host_vec 1 (fun _ => 1))
    (axpy 2 (host_vec 1 (fun _ => 1)) (host_vec 1 (fun _ => 5)) true).out false h1
  refine ⟨?_, ?_, rfl⟩
  · rw [e1]
    norm_num [blas_axpy, host_vec, Vec.clear]
  · rw [e2, e1]
    norm_num [blas_axpy, host_vec, Vec.clear]

theorem gemm_pre_iff (A X Y : Mat) (transA transX : Char) :
    gemm_pre A X Y transA transX ↔
      (transA = 'N' ∨ transA = 'T') ∧ (transX = 'N' ∨ transX = 'T')
      ∧ op_cols A transA = op_rows X transX
      ∧ Y.size1 = op_rows A transA ∧ Y.size2 = op_cols X transX := by
  have hNT : ('N' : Char) ≠ 'T' := by decide
  have hTN : ('T' : Char) ≠ 'N' := by decide
  unfold gemm_pre op_rows op_cols
  constructor
  · rintro ⟨hA, hX, h1, h2, h3, h4, h5, h6⟩
    refine ⟨hA, hX, ?_, h5.symm, h6.symm⟩
    rcases hA with rfl | rfl <;> rcases hX with rfl | rfl <;>
      simp [hNT, hTN] at h1 h2 h3 h4 ⊢
    · exact h1.1
    · exact h3.1
    · exact h4.1
    · exact h2.1
  · rintro ⟨hA, hX, hk, hm, hn⟩
    rcases hA with rfl | rfl <;> rcases hX with rfl | rfl <;>
      simp [hNT, hTN] at hk hm hn ⊢ <;> simp [hk, hm, hn]

/-- C16: the assertions of `gemm` all pass exactly when both flags are `'N'` or
`'T'` and the operands conform, `op(A)` being `m×k`, `op(X)` `k×n` and `Y`
`m×n`; a call either passes or ends on a failed assertion; and a call that
passes hands the vendor routine of the backend of `Y` the dimensions
`m = rows of op(A)`, `n = columns of op(X)`, `k = columns of op(A)`. -/
theorem gemm_conformance (B : Blas) (alpha : real) (A X : Mat) (beta : real) (Y : Mat)
    (transA transX : Char) :
    ((gemm B alpha A X beta Y transA transX).err = none ↔
      (transA = 'N' ∨ transA = 'T') ∧ (transX = 'N' ∨ transX = 'T')
      ∧ op_cols A transA = op_rows X transX
      ∧ Y.size1 = op_rows A transA ∧ Y.size2 = op_cols X transX)
    ∧ ((gemm B alpha A X beta Y transA transX).err = none
        ∨ (gemm B alpha A X beta Y transA transX).err = some Err.assert)
    ∧ ((gemm B alpha A X beta Y transA transX).err = none →
        ∃ lds : List Nat,
          Event.vendor (Loc.of Y.on_device) Routine.gemm
              ([op_rows A transA, op_cols X transX, op_cols A transA] ++ lds)
            ∈ (gemm B alpha A X beta Y transA transX).trace) := by
  rw [← gemm_pre_iff]
  unfold gemm
  by_cases hpre : gemm_pre A X Y transA transX
  · rw [if_pos hpre]
    dsimp only
    refine ⟨?_, ?_, ?_⟩
    · cases Y.on_device <;> simp [hpre]
    · cases Y.on_device <;> simp
    · intro _
      cases hY : Y.on_device
      · exact ⟨[(host_map_matrix A).lead, (host_map_matrix X).lead, Y.lead], by
          simp [Loc.of, op_rows, op_cols]⟩
      · exact ⟨[(gpu_map_matrix A).lead, (gpu_map_matrix X).lead, Y.lead], by
          simp [Loc.of, op_rows, op_cols]⟩
  · rw [if_neg hpre]
    simp [hpre]

/-- Witness of C16: `Aᵗ·X` with `A` of shape 3×2, `X` of shape 3×4 and `Y` of
shape 2×4 passes, with `m = 2`, `n = 4`, `k = 3`. -/
theorem gemm_conformance_witness :
    (gemm zero_blas 1 (host_zeros 3 2) (host_zeros 3 4) 0 (host_zeros 2 4) 'T' 'N').err = none
    ∧ ∃ lds : List Nat,
        Event.vendor Loc.host Routine.gemm ([2, 4, 3] ++ lds)
          ∈ (gemm zero_blas 1 (host_zeros 3 2) (host_zeros 3 4) 0 (host_zeros 2 4) 'T' 'N').trace :=
  have h := gemm_conformance zero_blas 1 (host_zeros 3 2) (host_zeros 3 4) 0 (host_zeros 2 4)
    'T' 'N'
  have he : (gemm zero_blas 1 (host_zeros 3 2) (host_zeros 3 4) 0 (host_zeros 2 4)
      'T' 'N').err = none := h.1.mpr (by decide)
  ⟨he, h.2.2 he⟩

theorem gpu_map_matrix_fields (A : Mat) :
    (gpu_map_matrix A).elem = A.elem ∧ (gpu_map_matrix A).size1 = A.size1
    ∧ (gpu_map_matrix A).size2 = A.size2 := by
  unfold gpu_map_matrix; split <;> exact ⟨rfl, rfl, rfl⟩

theorem host_map_matrix_fields (A : Mat) :
    (host_map_matrix A).elem = A.elem ∧ (host_map_matrix A).size1 = A.size1
    ∧ (host_map_matrix A).size2 = A.size2 := by
  unfold host_map_matrix; split <;> exact ⟨rfl, rfl, rfl⟩

/-- Output and status of `gemv` when its assertions pass. -/
theorem gemv_out (alpha : real) (A : Mat) (x : Vec) (beta : real) (y : Vec) (transA : Char)
    (hpre : (transA = 'N' ∨ transA = 'T')
      ∧ (transA ≠ 'N' ∨ (A.size2 = x.size ∧ A.size1 = y.size))
      ∧ (transA ≠ 'T' ∨ (A.size1 = x.size ∧ A.size2 = y.size))) :
    (gemv alpha A x beta y transA).err = none
    ∧ (gemv alpha A x beta y transA).out
        = { y with elem := blas_gemv transA A.size1 A.size2 alpha A.elem x.elem beta y.elem } := by
  unfold gemv
  rw [if_pos hpre]
  cases hy : y.on_device
  · simp [(host_map_matrix_fields A).1, (host_map_matrix_fields A).2.1,
      (host_map_matrix_fields A).2.2, host_map_vector_elem]
  · simp [(gpu_map_matrix_fields A).1, (gpu_map_matrix_fields A).2.1,
      (gpu_map_matrix_fields A).2.2, gpu_map_vector_elem]

/-- A call of `gemv` whose assertions fail. -/
theorem gemv_fails (alpha : real) (A : Mat) (x : Vec) (beta : real) (y : Vec) (transA : Char)
    (hpre : ¬ ((transA = 'N' ∨ transA = 'T')
      ∧ (transA ≠ 'N' ∨ (A.size2 = x.size ∧ A.size1 = y.size))
      ∧ (transA ≠ 'T' ∨ (A.size1 = x.size ∧ A.size2 = y.size)))) :
    (gemv alpha A x beta y transA).err = some Err.assert
    ∧ (gemv alpha A x beta y transA).out = y
    ∧ (gemv alpha A x beta y transA).trace = [] := by
  unfold gemv
  rw [if_neg hpre]
  exact ⟨rfl, rfl, rfl⟩

/-- C17: for an `m×n` matrix `A`, `gemv(alpha, A, x, beta, y, 'N')` with
`|x| = n`, `|y| = m` leaves `y = alpha·A·x + beta·y_old`, and
`gemv(.., 'T')` with `|x| = m`, `|y| = n` leaves `y = alpha·Aᵗ·x + beta·y_old`;
with a flag other than `'N'` and `'T'`, or with sizes that do not conform for
the flag, the call fails an assertion and leaves `y` as it was. -/
theorem gemv_spec (alpha : real) (A : Mat) (x : Vec) (beta : real) (y : Vec) :
    (A.size2 = x.size → A.size1 = y.size →
      (gemv alpha A x beta y 'N').err = none
      ∧ ∀ i, i < A.size1 → (gemv alpha A x beta y 'N').out.elem i
          = alpha * (∑ j ∈ Finset.range A.size2, A.elem i j * x.elem j) + beta * y.elem i)
    ∧ (A.size1 = x.size → A.size2 = y.size →
      (gemv alpha A x beta y 'T').err = none
      ∧ ∀ j, j < A.size2 → (gemv alpha A x beta y 'T').out.elem j
          = alpha * (∑ i ∈ Finset.range A.size1, A.elem i j * x.elem i) + beta * y.elem j)
    ∧ (∀ t : Char, t ≠ 'N' → t ≠ 'T' →
      (gemv alpha A x beta y t).err = some Err.assert ∧ (gemv alpha A x beta y t).out = y)
    ∧ (¬ (A.size2 = x.size ∧ A.size1 = y.size) →
      (gemv alpha A x beta y 'N').err = some Err.assert ∧ (gemv alpha A x beta y 'N').out = y)
    ∧ (¬ (A.size1 = x.size ∧ A.size2 = y.size) →
      (gemv alpha A x beta y 'T').err = some Err.assert
      ∧ (gemv alpha A x beta y 'T').out = y) := by
  have hNT : ('N' : Char) ≠ 'T' := by decide
  have hTN : ('T' : Char) ≠ 'N' := by decide
  refine ⟨?_, ?_, ?_, ?_, ?_⟩
  · intro h1 h2
    obtain ⟨he, ho⟩ := gemv_out alpha A x beta y 'N'
      ⟨Or.inl rfl, Or.inr ⟨h1, h2⟩, Or.inl hNT⟩
    refine ⟨he, fun i hi => ?_⟩
    rw [ho]
    simp [blas_gemv, hi]
  · intro h1 h2
    obtain ⟨he, ho⟩ := gemv_out alpha A x beta y 'T'
      ⟨Or.inr rfl, Or.inl hTN, Or.inr ⟨h1, h2⟩⟩
    refine ⟨he, fun j hj => ?_⟩
    rw [ho]
    simp [blas_gemv, hj, hTN]
  · intro t h1 h2
    have h := gemv_fails alpha A x beta y t (fun hp => hp.1.elim h1 h2)
    exact ⟨h.1, h.2.1⟩
  · intro hs
    have h := gemv_fails alpha A x beta y 'N'
      (fun hp => hp.2.1.elim (fun hn => hn rfl) hs)
    exact ⟨h.1, h.2.1⟩
  · intro hs
    have h := gemv_fails alpha A x beta y 'T'
      (fun hp => hp.2.2.elim (fun hn => hn rfl) hs)
    exact ⟨h.1, h.2.1⟩

/-- Witness of C17: `gemv(1, [[4,2],[2,3]], [1,1], 0, y)` leaves `y = [6,5]`. -/
theorem gemv_spec_witness :
    (gemv 1 m4223 (host_vec 2 (fun _ => 1)) 0 (host_vec 2 (fun _ => 7)) 'N').err = none
    ∧ (gemv 1 m4223 (host_vec 2 (fun _ => 1)) 0 (host_vec 2 (fun _ => 7)) 'N').out.elem 0 = 6
    ∧ (gemv 1 m4223 (host_vec 2 (fun _ => 1)) 0 (host_vec 2 (fun _ => 7)) 'N').out.elem 1 = 5
    ∧ (gemv 1 m4223 (host_vec 3 (fun _ => 1)) 0 (host_vec 2 (fun _ => 7)) 'N').err
        = some Err.assert := by
  have h := (gemv_spec 1 m4223 (host_vec 2 (fun _ => 1)) 0 (host_vec 2 (fun _ => 7))).1
    rfl rfl
  have h3 := (gemv_spec 1 m4223 (host_vec 3 (fun _ => 1)) 0
    (host_vec 2 (fun _ => 7))).2.2.2.1 (by decide)
  refine ⟨h.1, ?_, ?_, h3.1⟩
  · rw [h.2 0 (by decide)]
    norm_num [Finset.sum_range_succ, m4223, host_vec]
  · rw [h.2 1 (by decide)]
    norm_num [Finset.sum_range_succ, m4223, host_vec]

/-- Whatever the shapes, `syr2` with a valid `uplo` reaches the vendor routine. -/
theorem syr2_any_shape (B : Blas) (alpha : real) (x y : Vec) (A : Mat) (uplo : Char)
    (clear : Bool) (hu : uplo = 'U' ∨ uplo = 'L') :
    (syr2 B alpha x y A uplo clear).err = none
    ∧ blas_calls (syr2 B alpha x y A uplo clear).trace = [Routine.syr2] := by
  unfold syr2
  rw [if_pos hu]
  cases hA : A.on_device <;> cases hx : x.on_device <;> cases hy : y.on_device <;>
    simp [blas_calls]

/-- C18, the code at a failing input: `A` of shape 2×3 (not square), `|x| = 5`,
`|y| = 1`, `clear` set. `syr2` passes its assertions, clears `A` and calls the
vendor rank-2 routine with `n = 2`; `syr` and `ger` on operands of these
shapes fail their shape assertions with no vendor call. -/
theorem syr2_mismatch_reaches_vendor :
    (syr2 zero_blas 1 (host_vec 5 (fun _ => 1)) (host_vec 1 (fun _ => 1)) (host_zeros 2 3)
        'L' true).err = none
    ∧ (syr2 zero_blas 1 (host_vec 5 (fun _ => 1)) (host_vec 1 (fun _ => 1)) (host_zeros 2 3)
        'L' true).trace
        = [Event.map Loc.host Operand.x, Event.map Loc.host Operand.y,
           Event.vendor Loc.host Routine.syr2 [2, 1, 1, 2],
           Event.release Operand.x, Event.release Operand.y]
    ∧ (syr zero_blas 1 (host_vec 5 (fun _ => 1)) (host_zeros 2 3) 'L' true).err
        = some Err.assert
    ∧ (syr zero_blas 1 (host_vec 5 (fun _ => 1)) (host_zeros 2 3) 'L' true).trace = []
    ∧ (ger zero_blas 1 (host_vec 5 (fun _ => 1)) (host_vec 1 (fun _ => 1)) (host_zeros 2 3)
        true).err = some Err.assert
    ∧ (ger zero_blas 1 (host_vec 5 (fun _ => 1)) (host_vec 1 (fun _ => 1)) (host_zeros 2 3)
        true).trace = [] := by
  refine ⟨?_, ?_, ?_, ?_, ?_, ?_⟩ <;>
    simp [syr2, syr, ger, host_vec, host_zeros, host_map_vector, Mat.clear]

/-! ## Loops with an invariant -/

theorem for_loop_zero {α : Type} (body : Nat → α → Run α) (init : Run α) :
    for_loop 0 body init = init := rfl

theorem for_loop_succ {α : Type} (n : Nat) (body : Nat → α → Run α) (init : Run α) :
    for_loop (n + 1) body init = (for_loop n body init).next (body n) := by
  unfold for_loop
  rw [List.range_succ, List.foldl_append]
  rfl

/-- Induction over the iterations of a loop. -/
theorem for_loop_induct {α : Type} (P : Nat → Run α → Prop) (n : Nat)
    (body : Nat → α → Run α) (init : Run α) (h0 : P 0 init)
    (hs : ∀ t r, t < n → P t r → P (t + 1) (r.next (body t))) :
    P n (for_loop n body init) := by
  induction n with
  | zero => exact h0
  | succ n ih =>
    rw [for_loop_succ]
    exact hs n _ (Nat.lt_succ_self n)
      (ih (fun t r ht hp => hs t r (Nat.lt_succ_of_lt ht) hp))

/-! ## Claims on `transpose` -/

/-- State of `B` after the first `t` iterations of `transpose`. -/
theorem transpose_loop (A B : Mat) (n : Nat) :
    (for_loop n (fun i Y => ({ trace := [], out := Y.set_column i (row A i), err := none } : Run Mat))
        { trace := [], out := B, err := none }).err = none
    ∧ (for_loop n (fun i Y => ({ trace := [], out := Y.set_column i (row A i), err := none } : Run Mat))
        { trace := [], out := B, err := none }).out.size1 = B.size1
    ∧ (for_loop n (fun i Y => ({ trace := [], out := Y.set_column i (row A i), err := none } : Run Mat))
        { trace := [], out := B, err := none }).out.size2 = B.size2
    ∧ ∀ j i, (for_loop n
        (fun i Y => ({ trace := [], out := Y.set_column i (row A i), err := none } : Run Mat))
        { trace := [], out := B, err := none }).out.elem j i
        = if i < n ∧ j < A.size2 then A.elem i j else B.elem j i := by
  apply for_loop_induct
    (fun t (r : Run Mat) => r.err = none ∧ r.out.size1 = B.size1 ∧ r.out.size2 = B.size2
      ∧ ∀ j i, r.out.elem j i = if i < t ∧ j < A.size2 then A.elem i j else B.elem j i)
  · exact ⟨rfl, rfl, rfl, fun j i => by simp⟩
  · rintro t r - ⟨he, h1, h2, hel⟩
    rw [next_of_ok r _ he]
    refine ⟨rfl, h1, h2, fun j i => ?_⟩
    simp only [Mat.set_column, row, hel]
    by_cases hi : i = t
    · subst hi
      by_cases hj : j < A.size2
      · simp [hj]
      · simp [hj]
    · have h3 : (i < t + 1) ↔ (i < t) := by omega
      simp [hi, h3]

/-- C20: for `A` of shape `m×n` and `B` of shape `n×m`, `transpose(A, B)`
returns normally with `B(j,i) = A(i,j)` for all `i < m`, `j < n`, the shape of
`B` kept; `A` is an input value of the call. When `B` is not `n×m` the call
fails its assertion and `B` is as it was. Hence, for `C` of shape `m×n`,
`transpose(A, B)` followed by `transpose(B, C)` leaves `C(i,j) = A(i,j)`. -/
theorem transpose_spec (A B C : Mat) :
    (A.size1 = B.size2 ∧ A.size2 = B.size1 →
      (transpose A B).err = none
      ∧ (transpose A B).out.size1 = B.size1 ∧ (transpose A B).out.size2 = B.size2
      ∧ ∀ i j, i < A.size1 → j < A.size2 → (transpose A B).out.elem j i = A.elem i j)
    ∧ (¬ (A.size1 = B.size2 ∧ A.size2 = B.size1) →
      (transpose A B).err = some Err.assert ∧ (transpose A B).out = B)
    ∧ (A.size1 = B.size2 ∧ A.size2 = B.size1 → C.size1 = A.size1 ∧ C.size2 = A.size2 →
      (transpose (transpose A B).out C).err = none
      ∧ ∀ i j, i < A.size1 → j < A.size2 →
          (transpose (transpose A B).out C).out.elem i j = A.elem i j) := by
  have key : ∀ A B : Mat, A.size1 = B.size2 ∧ A.size2 = B.size1 →
      (transpose A B).err = none
      ∧ (transpose A B).out.size1 = B.size1 ∧ (transpose A B).out.size2 = B.size2
      ∧ ∀ i j, i < A.size1 → j < A.size2 → (transpose A B).out.elem j i = A.elem i j := by
    intro A B h
    obtain ⟨he, h1, h2, hel⟩ := transpose_loop A B A.size1
    unfold transpose
    rw [if_pos h]
    refine ⟨he, h1, h2, fun i j hi hj => ?_⟩
    rw [hel j i, if_pos ⟨hi, hj⟩]
  refine ⟨key A B, ?_, ?_⟩
  · intro h
    unfold transpose
    rw [if_neg h]
    exact ⟨rfl, rfl⟩
  · intro h hc
    obtain ⟨-, h1, h2, hel⟩ := key A B h
    have hpre2 : (transpose A B).out.size1 = C.size2 ∧ (transpose A B).out.size2 = C.size1 := by
      rw [h1, h2]
      exact ⟨h.2.symm.trans hc.2.symm, h.1.symm.trans hc.1.symm⟩
    obtain ⟨he2, -, -, hel2⟩ := key (transpose A B).out C hpre2
    refine ⟨he2, fun i j hi hj => ?_⟩
    rw [hel2 j i (by rw [h1, ← h.2]; exact hj) (by rw [h2, ← h.1]; exact hi)]
    exact hel i j hi hj

/-- Witness of C20: the 2×3 matrix `[[0,1,2],[10,11,12]]` into a 3×2 matrix
and back into a 2×3 one; a 2×2 target is refused. -/
theorem transpose_spec_witness :
    (transpose m23 (host_zeros 3 2)).err = none
    ∧ (transpose m23 (host_zeros 3 2)).out.elem 2 1 = 12
    ∧ (transpose m23 (host_zeros 2 2)).err = some Err.assert
    ∧ (transpose (transpose m23 (host_zeros 3 2)).out (host_zeros 2 3)).out.elem 1 2 = 12 := by
  have h := transpose_spec m23 (host_zeros 3 2) (host_zeros 2 3)
  have h3 := (transpose_spec m23 (host_zeros 2 2) (host_zeros 2 3)).2.1 (by decide)
  refine ⟨(h.1 ⟨rfl, rfl⟩).1, ?_, h3.1, ?_⟩
  · rw [(h.1 ⟨rfl, rfl⟩).2.2.2 1 2 (by decide) (by decide)]
    norm_num [m23]
  · rw [(h.2.2 ⟨rfl, rfl⟩ ⟨rfl, rfl⟩).2 1 2 (by decide) (by decide)]
    norm_num [m23]

/-! ## Broadcasts -/

theorem col_index (i j m : Nat) (hi : i < m) : (j * m + i) % m = i ∧ (j * m + i) / m = j := by
  have hm : 0 < m := Nat.lt_of_le_of_lt (Nat.zero_le i) hi
  constructor
  · rw [Nat.add_comm, Nat.add_mul_mod_self_right, Nat.mod_eq_of_lt hi]
  · rw [Nat.add_comm, Nat.add_mul_div_right _ _ hm, Nat.div_eq_of_lt hi, Nat.zero_add]

theorem index_lt (i j m n : Nat) (hi : i < m) (hj : j < n) : j * m + i < m * n := by
  have h1 : j * m + i < (j + 1) * m := by rw [Nat.succ_mul]; omega
  have h2 : (j + 1) * m ≤ n * m := Nat.mul_le_mul_right m hj
  rw [Nat.mul_comm m n]
  omega

theorem map_vector_fields (A : Mat) (x : Vec) :
    (map_vector A x).elem = x.elem ∧ (map_vector A x).size = x.size := by
  unfold map_vector gpu_map_vector host_map_vector
  split <;> split <;> exact ⟨rfl, rfl⟩

theorem fast_iter_unit (x : Vec) (h : x.inc = 1) : x.fast_iter = x.iter := by
  unfold Vec.fast_iter Vec.iter
  simp [h, Nat.mod_one]

/-- Element written by `Mat.put` at an entry covered by the range. -/
theorem put_elem (A : Mat) (s : IterRange real) (i j : Nat) (hi : i < A.size1)
    (hj : j < A.size2) (hs : A.size1 * A.size2 ≤ s.len) :
    (A.put s).elem i j = s.get (j * A.size1 + i) := by
  unfold Mat.put
  have h := index_lt i j A.size1 A.size2 hi hj
  have h2 : j * A.size1 + i < s.len := Nat.lt_of_lt_of_le h hs
  simp [hi, hj, h2]

/-- Element written by `Mat.transform`. -/
theorem transform_elem (A : Mat) (s : IterRange real) (op : real → real → real) (i j : Nat)
    (hi : i < A.size1) (hj : j < A.size2) :
    (A.transform s op).elem i j = op (A.elem i j) (s.get (j * A.size1 + i)) := by
  unfold Mat.transform
  rw [put_elem A _ i j hi hj (Nat.le_refl _)]
  simp only [Mat.iter]
  rw [(col_index i j A.size1 hi).1, (col_index i j A.size1 hi).2]

/-- Position `j·m + i` of the range repeated over the columns holds `x[i]`. -/
theorem repeated_get (x : Vec) (reps i j : Nat) (hi : i < x.size) :
    (make_repeated_range x.iter reps).get (j * x.size + i) = x.elem i := by
  simp only [make_repeated_range, Vec.iter]
  rw [(col_index i j x.size hi).1]

/-- Position `j·m + i` of the range stuttered `m` times holds `x[j]`. -/
theorem stuttered_get (x : Vec) (m i j : Nat) (hi : i < m) :
    (make_stuttered_range x.iter m).get (j * m + i) = x.elem j := by
  simp only [make_stuttered_range, Vec.iter]
  rw [(col_index i j m hi).2]

/-- State of `A` after the first `t` iterations of the host loop of `set_rows`. -/
theorem set_rows_loop (A : Mat) (c : Nat → real) (n : Nat) :
    ∀ i k, (for_loop n
        (fun j Y => ({ trace := [], out := Y.fill_column j (c j), err := none } : Run Mat))
        { trace := [], out := A, err := none }).out.elem i k
      = if k < n ∧ i < A.size1 then c k else A.elem i k := by
  have h := for_loop_induct
    (fun t (r : Run Mat) => r.err = none ∧ r.out.size1 = A.size1
      ∧ ∀ i k, r.out.elem i k = if k < t ∧ i < A.size1 then c k else A.elem i k)
    n (fun j Y => ({ trace := [], out := Y.fill_column j (c j), err := none } : Run Mat))
    { trace := [], out := A, err := none }
    ⟨rfl, rfl, fun i k => by simp⟩
    (by
      rintro t r - ⟨he, h1, hel⟩
      rw [next_of_ok r _ he]
      refine ⟨rfl, h1, fun i k => ?_⟩
      simp only [Mat.fill_column, hel, h1]
      by_cases hk : k = t
      · subst hk
        by_cases hi : i < A.size1
        · simp [hi]
        · simp [hi]
      · have h3 : (k < t + 1) ↔ (k < t) := by omega
        simp [hk, h3])
  exact h.2.2

theorem put_repeated (A : Mat) (x1 : Vec) (h : A.size1 = x1.size) (i j : Nat)
    (hi : i < A.size1) (hj : j < A.size2) :
    (A.put (make_repeated_range x1.iter A.size2)).elem i j = x1.elem i := by
  rw [put_elem A _ i j hi hj (by simp [make_repeated_range, Vec.iter, h]), h]
  exact repeated_get x1 A.size2 i j (h ▸ hi)

theorem put_stuttered (A : Mat) (x1 : Vec) (h : A.size2 = x1.size) (i j : Nat)
    (hi : i < A.size1) (hj : j < A.size2) :
    (A.put (make_stuttered_range x1.iter A.size1)).elem i j = x1.elem j := by
  rw [put_elem A _ i j hi hj
    (by simp [make_stuttered_range, Vec.iter, ← h, Nat.mul_comm])]
  exact stuttered_get x1 A.size1 i j hi

theorem transform_repeated (A : Mat) (x1 : Vec) (op : real → real → real)
    (h : A.size1 = x1.size) (i j : Nat) (hi : i < A.size1) (hj : j < A.size2) :
    (A.transform (make_repeated_range x1.iter A.size2) op).elem i j
      = op (A.elem i j) (x1.elem i) := by
  rw [transform_elem A _ op i j hi hj, h]
  rw [repeated_get x1 A.size2 i j (h ▸ hi)]

theorem transform_stuttered (A : Mat) (x1 : Vec) (op : real → real → real)
    (i j : Nat) (hi : i < A.size1) (hj : j < A.size2) :
    (A.transform (make_stuttered_range x1.iter A.size1) op).elem i j
      = op (A.elem i j) (x1.elem j) := by
  rw [transform_elem A _ op i j hi hj, stuttered_get x1 A.size1 i j hi]

/-- Entries of `A` after `set_columns`, on either branch. -/
theorem set_columns_elem (A : Mat) (x : Vec) (h : A.size1 = x.size) (i j : Nat)
    (hi : i < A.size1) (hj : j < A.size2) :
    (set_columns A x).err = none ∧ (set_columns A x).out.elem i j = x.elem i := by
  have hs : A.size1 = (map_vector A x).size := by rw [(map_vector_fields A x).2]; exact h
  unfold set_columns
  rw [if_pos h]
  dsimp only
  split
  · rename_i hinc
    refine ⟨rfl, ?_⟩
    rw [fast_iter_unit _ hinc]
    show (A.put (make_repeated_range (map_vector A x).iter A.size2)).elem i j = x.elem i
    rw [put_repeated A _ hs i j hi hj, (map_vector_fields A x).1]
  · refine ⟨rfl, ?_⟩
    show (A.put (make_repeated_range (map_vector A x).iter A.size2)).elem i j = x.elem i
    rw [put_repeated A _ hs i j hi hj, (map_vector_fields A x).1]

/-- Entries of `A` after `set_rows`, on the device copy and on the host loop. -/
theorem set_rows_elem (A : Mat) (x : Vec) (h : A.size2 = x.size) (i j : Nat)
    (hi : i < A.size1) (hj : j < A.size2) :
    (set_rows A x).err = none ∧ (set_rows A x).out.elem i j = x.elem j := by
  have hs : A.size2 = (map_vector A x).size := by rw [(map_vector_fields A x).2]; exact h
  unfold set_rows
  rw [if_pos h]
  dsimp only
  split
  · refine ⟨rfl, ?_⟩
    show (A.put (make_stuttered_range (map_vector A x).iter A.size1)).elem i j = x.elem j
    rw [put_stuttered A _ hs i j hi hj, (map_vector_fields A x).1]
  · refine ⟨rfl, ?_⟩
    dsimp only
    rw [set_rows_loop A (fun j => (map_vector A x).elem j) A.size2 i j, if_pos ⟨hj, hi⟩,
      (map_vector_fields A x).1]

/-- Entries of `A` after `add_columns` and `sub_columns`. -/
theorem add_sub_columns_elem (A : Mat) (x : Vec) (h : A.size1 = x.size) (i j : Nat)
    (hi : i < A.size1) (hj : j < A.size2) :
    (add_columns A x).err = none ∧ (add_columns A x).out.elem i j = A.elem i j + x.elem i
    ∧ (sub_columns A x).err = none
    ∧ (sub_columns A x).out.elem i j = A.elem i j - x.elem i := by
  have hs : A.size1 = (map_vector A x).size := by rw [(map_vector_fields A x).2]; exact h
  have hadd : (add_columns A x).err = none
      ∧ (add_columns A x).out.elem i j = A.elem i j + x.elem i := by
    unfold add_columns
    rw [if_pos h]
    dsimp only
    refine ⟨rfl, ?_⟩
    rw [transform_repeated A _ _ hs i j hi hj, (map_vector_fields A x).1]
  have hsub : (sub_columns A x).err = none
      ∧ (sub_columns A x).out.elem i j = A.elem i j - x.elem i := by
    unfold sub_columns
    rw [if_pos h]
    dsimp only
    refine ⟨rfl, ?_⟩
    rw [transform_repeated A _ _ hs i j hi hj, (map_vector_fields A x).1]
  exact ⟨hadd.1, hadd.2, hsub.1, hsub.2⟩

/-- Entries of `A` after `add_rows` and `sub_rows`, on either branch. -/
theorem add_sub_rows_elem (A : Mat) (x : Vec) (h : A.size2 = x.size) (i j : Nat)
    (hi : i < A.size1) (hj : j < A.size2) :
    (add_rows A x).err = none ∧ (add_rows A x).out.elem i j = A.elem i j + x.elem j
    ∧ (sub_rows A x).err = none
    ∧ (sub_rows A x).out.elem i j = A.elem i j - x.elem j := by
  have hadd : (add_rows A x).err = none
      ∧ (add_rows A x).out.elem i j = A.elem i j + x.elem j := by
    unfold add_rows
    rw [if_pos h]
    dsimp only
    refine ⟨rfl, ?_⟩
    rw [transform_stuttered A _ _ i j hi hj, (map_vector_fields A x).1]
  have hsub : (sub_rows A x).err = none
      ∧ (sub_rows A x).out.elem i j = A.elem i j - x.elem j := by
    unfold sub_rows
    rw [if_pos h]
    dsimp only
    split
    · rename_i hinc
      refine ⟨rfl, ?_⟩
      rw [fast_iter_unit _ hinc]
      show (A.transform (make_stuttered_range (map_vector A x).iter A.size1)
        (fun a b => a - b)).elem i j = A.elem i j - x.elem j
      rw [transform_stuttered A _ _ i j hi hj, (map_vector_fields A x).1]
    · refine ⟨rfl, ?_⟩
      show (A.transform (make_stuttered_range (map_vector A x).iter A.size1)
        (fun a b => a - b)).elem i j = A.elem i j - x.elem j
      rw [transform_stuttered A _ _ i j hi hj, (map_vector_fields A x).1]
  exact ⟨hadd.1, hadd.2, hsub.1, hsub.2⟩

/-- C15: for a matrix `A` of shape `m×n` and `|x| = m`, `set_columns`,
`add_columns` and `sub_columns` return normally and leave `A(i,j)` equal to
`x[i]`, `A(i,j) + x[i]` and `A(i,j) − x[i]`; for `|x| = n`, `set_rows`,
`add_rows` and `sub_rows` leave `x[j]`, `A(i,j) + x[j]` and `A(i,j) − x[j]`;
for all `i < m`, `j < n`. This holds for every location of `A` and every
increment and location of `x`, hence on each internal branch. With the other
size of `x` each call fails its assertion and leaves `A` as it was. -/
theorem broadcast_spec (A : Mat) (x : Vec) :
    (A.size1 = x.size → ∀ i j, i < A.size1 → j < A.size2 →
      (set_columns A x).err = none ∧ (set_columns A x).out.elem i j = x.elem i
      ∧ (add_columns A x).err = none ∧ (add_columns A x).out.elem i j = A.elem i j + x.elem i
      ∧ (sub_columns A x).err = none
      ∧ (sub_columns A x).out.elem i j = A.elem i j - x.elem i)
    ∧ (A.size2 = x.size → ∀ i j, i < A.size1 → j < A.size2 →
      (set_rows A x).err = none ∧ (set_rows A x).out.elem i j = x.elem j
      ∧ (add_rows A x).err = none ∧ (add_rows A x).out.elem i j = A.elem i j + x.elem j
      ∧ (sub_rows A x).err = none ∧ (sub_rows A x).out.elem i j = A.elem i j - x.elem j)
    ∧ (A.size1 ≠ x.size →
      (set_columns A x).err = some Err.assert ∧ (set_columns A x).out = A
      ∧ (add_columns A x).err = some Err.assert ∧ (add_columns A x).out = A
      ∧ (sub_columns A x).err = some Err.assert ∧ (sub_columns A x).out = A)
    ∧ (A.size2 ≠ x.size →
      (set_rows A x).err = some Err.assert ∧ (set_rows A x).out = A
      ∧ (add_rows A x).err = some Err.assert ∧ (add_rows A x).out = A
      ∧ (sub_rows A x).err = some Err.assert ∧ (sub_rows A x).out = A) := by
  refine ⟨?_, ?_, ?_, ?_⟩
  · intro h i j hi hj
    obtain ⟨h1, h2⟩ := set_columns_elem A x h i j hi hj
    obtain ⟨h3, h4, h5, h6⟩ := add_sub_columns_elem A x h i j hi hj
    exact ⟨h1, h2, h3, h4, h5, h6⟩
  · intro h i j hi hj
    obtain ⟨h1, h2⟩ := set_rows_elem A x h i j hi hj
    obtain ⟨h3, h4, h5, h6⟩ := add_sub_rows_elem A x h i j hi hj
    exact ⟨h1, h2, h3, h4, h5, h6⟩
  · intro h
    unfold set_columns add_columns sub_columns
    simp only [if_neg h, and_self]
  · intro h
    unfold set_rows add_rows sub_rows
    simp only [if_neg h, and_self]

/-- Witness of C15, with `A = [[0,1,2],[10,11,12]]`, a vector of increment 2
for the columns and one of increment 1 for the rows. -/
theorem broadcast_spec_witness :
    (set_columns m23 strided2).out.elem 1 2 = 200
    ∧ (sub_rows m23 (host_vec 3 (fun j => j + 1))).out.elem 1 2 = 9
    ∧ (add_rows m23 (host_vec 2 (fun j => j + 1))).err = some Err.assert := by
  have h1 := (broadcast_spec m23 strided2).1 rfl 1 2 (by decide) (by decide)
  have h2 := (broadcast_spec m23 (host_vec 3 (fun j => j + 1))).2.1 rfl 1 2
    (by decide) (by decide)
  have h3 := (broadcast_spec m23 (host_vec 2 (fun j => j + 1))).2.2.2 (by decide)
  refine ⟨?_, ?_, h3.2.2.1⟩
  · rw [h1.2.1]; norm_num [strided2]
  · rw [h2.2.2.2.2.2]; norm_num [m23, host_vec]

/-! ## Reduction by key -/

theorem reduce_runs_same (k : Nat) : ∀ (l : List real) (acc : real),
    reduce_runs k acc (l.map (fun v => (k, v))) = [acc + l.sum] := by
  intro l
  induction l with
  | nil => intro acc; simp [reduce_runs]
  | cons v t ih =>
    intro acc
    simp only [List.map_cons, reduce_runs, if_true, List.sum_cons]
    rw [ih, add_assoc]

theorem reduce_runs_switch (k j : Nat) (hjk : j ≠ k) (v0 : real) (rest : List (Nat × real)) :
    ∀ (l : List real) (acc : real),
    reduce_runs k acc (l.map (fun v => (k, v)) ++ (j, v0) :: rest)
      = (acc + l.sum) :: reduce_runs j v0 rest := by
  intro l
  induction l with
  | nil => intro acc; simp [reduce_runs, hjk]
  | cons v t ih =>
    intro acc
    rw [List.map_cons, List.cons_append, List.sum_cons, reduce_runs, if_pos rfl, ih,
      add_assoc]

theorem range_map_succ {α : Type} (m : Nat) (g : Nat → α) :
    (List.range (m + 1)).map g = g 0 :: (List.range m).map (fun i => g (i + 1)) := by
  rw [List.range_succ_eq_map, List.map_cons, List.map_map]
  rfl

/-- Reduction of consecutive blocks, each of `m + 1` values under one key, the
keys increasing from block to block: one sum for each block. -/
theorem reduce_runs_blocks (m : Nat) (w : Nat → Nat → real) :
    ∀ (n s k : Nat) (acc : real) (l : List real), k < s →
    reduce_runs k acc (l.map (fun v => (k, v))
        ++ (List.range' s n).flatMap
            (fun j => (List.range (m + 1)).map (fun i => (j, w j i))))
      = (acc + l.sum)
        :: (List.range' s n).map (fun j => ((List.range (m + 1)).map (w j)).sum) := by
  intro n
  induction n with
  | zero =>
    intro s k acc l _
    simp [reduce_runs_same]
  | succ n ih =>
    intro s k acc l hks
    rw [List.range'_succ, List.flatMap_cons, List.map_cons, range_map_succ m,
      List.cons_append]
    rw [reduce_runs_switch k s (Nat.ne_of_gt hks)]
    have hmap : (List.range m).map (fun i => (s, w s (i + 1)))
        = ((List.range m).map (fun i => w s (i + 1))).map (fun v => (s, v)) := by
      rw [List.map_map]; rfl
    rw [hmap, ih (s + 1) s (w s 0) _ (Nat.lt_succ_self s)]
    rw [range_map_succ m (w s), List.sum_cons]

theorem list_sum_range (m : Nat) (f : Nat → real) :
    ((List.range m).map f).sum = ∑ i ∈ Finset.range m, f i := by
  induction m with
  | zero => simp
  | succ m ih =>
    rw [List.range_succ, List.map_append, List.sum_append, ih, Finset.sum_range_succ]
    simp

/-- The pairs handed to `reduce_by_key` under stuttered counting keys, block
by block. -/
theorem keyed_blocks (n m : Nat) (vals : IterRange real) :
    keyed (make_stuttered_range (counting n) m) vals
      = (List.range n).flatMap
          (fun j => (List.range m).map (fun i => (j, vals.get (j * m + i)))) := by
  unfold keyed make_stuttered_range counting
  dsimp only
  induction n with
  | zero => simp
  | succ n ih =>
    rw [Nat.succ_mul, List.range_add, List.map_append, ih, List.range_succ,
      List.flatMap_append, List.map_map]
    congr 1
    simp only [List.flatMap_cons, List.flatMap_nil, List.append_nil]
    apply List.map_congr_left
    intro i hi
    have hi' : i < m := List.mem_range.mp hi
    simp only [Function.comp]
    rw [Nat.add_comm (n * m) i, Nat.add_comm i (n * m), (col_index i n m hi').2]

/-- What `reduce_by_key` writes under stuttered counting keys with at least
one element per key: for key `j`, the sum of positions `j·m .. j·m + m - 1`. -/
theorem reduce_by_key_stuttered (n m : Nat) (hm : 0 < m) (vals : IterRange real) :
    reduce_by_key (make_stuttered_range (counting n) m) vals
      = (List.range n).map (fun j => ∑ i ∈ Finset.range m, vals.get (j * m + i)) := by
  obtain ⟨m', rfl⟩ : ∃ m', m = m' + 1 := ⟨m - 1, by omega⟩
  unfold reduce_by_key
  rw [keyed_blocks]
  cases n with
  | zero => simp
  | succ n =>
    rw [List.range_eq_range', List.range'_succ, List.flatMap_cons, range_map_succ m',
      List.cons_append]
    dsimp only
    have hmap : (List.range m').map (fun i => (0, vals.get (0 * (m' + 1) + (i + 1))))
        = ((List.range m').map (fun i => vals.get (0 * (m' + 1) + (i + 1)))).map
            (fun v => ((0 : Nat), v)) := by
      rw [List.map_map]; rfl
    rw [hmap]
    have h := reduce_runs_blocks m' (fun j i => vals.get (j * (m' + 1) + i)) n 1 0
      (vals.get (0 * (m' + 1) + 0))
      ((List.range m').map (fun i => vals.get (0 * (m' + 1) + (i + 1)))) Nat.zero_lt_one
    have htail : (List.range' 1 n).map
          (fun j => ((List.range (m' + 1)).map (fun i => vals.get (j * (m' + 1) + i))).sum)
        = (List.range' 1 n).map
          (fun j => ∑ i ∈ Finset.range (m' + 1), vals.get (j * (m' + 1) + i)) := by
      apply List.map_congr_left
      intro j _
      rw [list_sum_range]
    have hhead : vals.get (0 * (m' + 1) + 0)
          + ((List.range m').map (fun i => vals.get (0 * (m' + 1) + (i + 1)))).sum
        = ∑ i ∈ Finset.range (m' + 1), vals.get (0 * (m' + 1) + i) := by
      rw [← list_sum_range, range_map_succ m' (fun i => vals.get (0 * (m' + 1) + i)),
        List.sum_cons]
    rw [h, List.map_cons, htail, hhead]

theorem put_map (y : Vec) (n : Nat) (S : Nat → real) (j : Nat) (hj : j < n) :
    (y.put ((List.range n).map S)).elem j = S j := by
  simp [Vec.put, List.getElem?_map, List.getElem?_range hj]

theorem fast_put_unit (y : Vec) (l : List real) (h : y.inc = 1) : y.fast_put l = y.put l := by
  unfold Vec.fast_put Vec.put
  simp [h]

/-- `dot_columns` on a matrix with at least one row. -/
theorem dot_columns_spec (X : Mat) (y : Vec) (hm : 0 < X.size1) (h : X.size2 = y.size) :
    (dot_columns X y).err = none
    ∧ (dot_columns X y).out.size = y.size
    ∧ ∀ j, j < X.size2 →
        (dot_columns X y).out.elem j = ∑ i ∈ Finset.range X.size1, X.elem i j * X.elem i j := by
  unfold dot_columns
  rw [if_pos h]
  dsimp only
  refine ⟨rfl, rfl, fun j hj => ?_⟩
  rw [reduce_by_key_stuttered X.size2 X.size1 hm, put_map y _ _ j hj]
  apply Finset.sum_congr rfl
  intro i hi
  have hi' : i < X.size1 := Finset.mem_range.mp hi
  simp only [make_transform_iterator, Mat.iter, square_functor]
  rw [(col_index i j X.size1 hi').1, (col_index i j X.size1 hi').2]

/-- `dot_rows` on a matrix with at least one column, on either branch. -/
theorem dot_rows_spec (X : Mat) (y : Vec) (hn : 0 < X.size2) (h : X.size1 = y.size) :
    (dot_rows X y).err = none
    ∧ (dot_rows X y).out.size = y.size
    ∧ ∀ i, i < X.size1 →
        (dot_rows X y).out.elem i = ∑ j ∈ Finset.range X.size2, X.elem i j * X.elem i j := by
  have key : ∀ i, i < X.size1 →
      (y.put (reduce_by_key (make_stuttered_range (counting X.size1) X.size2)
        (make_transform_iterator X.row_iter square_functor))).elem i
        = ∑ j ∈ Finset.range X.size2, X.elem i j * X.elem i j := by
    intro i hi
    rw [reduce_by_key_stuttered X.size1 X.size2 hn, put_map y _ _ i hi]
    apply Finset.sum_congr rfl
    intro j hj
    have hj' : j < X.size2 := Finset.mem_range.mp hj
    simp only [make_transform_iterator, Mat.row_iter, square_functor]
    rw [(col_index j i X.size2 hj').1, (col_index j i X.size2 hj').2]
  unfold dot_rows
  rw [if_pos h]
  dsimp only
  split
  · rename_i hinc
    rw [fast_put_unit _ _ hinc]
    exact ⟨rfl, rfl, key⟩
  · exact ⟨rfl, rfl, key⟩

/-- `sum_columns` on a matrix with at least one column: the sum of its columns. -/
theorem sum_columns_spec (X : Mat) (y : Vec) (hn : 0 < X.size2) (h : X.size1 = y.size) :
    (sum_columns X y).err = none
    ∧ ∀ i, i < X.size1 →
        (sum_columns X y).out.elem i = ∑ j ∈ Finset.range X.size2, X.elem i j := by
  unfold sum_columns
  rw [if_pos h]
  dsimp only
  refine ⟨rfl, fun i hi => ?_⟩
  rw [reduce_by_key_stuttered X.size1 X.size2 hn, put_map y _ _ i hi]
  apply Finset.sum_congr rfl
  intro j hj
  have hj' : j < X.size2 := Finset.mem_range.mp hj
  simp only [Mat.row_iter]
  rw [(col_index j i X.size2 hj').1, (col_index j i X.size2 hj').2]

/-- `sum_rows` on a matrix with at least one row: the sum of its rows. -/
theorem sum_rows_spec (X : Mat) (y : Vec) (hm : 0 < X.size1) (h : X.size2 = y.size) :
    (sum_rows X y).err = none
    ∧ ∀ j, j < X.size2 →
        (sum_rows X y).out.elem j = ∑ i ∈ Finset.range X.size1, X.elem i j := by
  unfold sum_rows
  rw [if_pos h]
  dsimp only
  refine ⟨rfl, fun j hj => ?_⟩
  rw [reduce_by_key_stuttered X.size2 X.size1 hm, put_map y _ _ j hj]
  apply Finset.sum_congr rfl
  intro i hi
  have hi' : i < X.size1 := Finset.mem_range.mp hi
  simp only [Mat.iter]
  rw [(col_index i j X.size1 hi').1, (col_index i j X.size1 hi').2]

theorem set_columns_shape (A : Mat) (x : Vec) :
    (set_columns A x).out.size1 = A.size1 ∧ (set_columns A x).out.size2 = A.size2 := by
  unfold set_columns
  split
  · dsimp only
    split <;> exact ⟨rfl, rfl⟩
  · exact ⟨rfl, rfl⟩

/-! ## Claims on the reductions -/

/-- C12: for a matrix `A` of shape `m×n` with `m ≥ 1`, `|x| = m` and `|y| = n`,
`set_columns(A, x)` followed by `dot_columns(A, y)` returns normally and
leaves `y[j] = Σ_i x[i]²`, the dot product of `x` with itself, for every column
`j`; this for every increment of `x` and every location of `A`, `x` and `y`. -/
theorem set_then_dot_columns (A : Mat) (x y : Vec) (hm : 0 < A.size1)
    (hx : A.size1 = x.size) (hy : A.size2 = y.size) :
    (set_columns A x).err = none
    ∧ (dot_columns (set_columns A x).out y).err = none
    ∧ ∀ j, j < A.size2 →
        (dot_columns (set_columns A x).out y).out.elem j
          = ∑ i ∈ Finset.range x.size, x.elem i * x.elem i := by
  obtain ⟨h1, h2⟩ := set_columns_shape A x
  have he : (set_columns A x).err = none := by
    unfold set_columns
    rw [if_pos hx]
    dsimp only
    split <;> rfl
  obtain ⟨hd, -, hel⟩ := dot_columns_spec (set_columns A x).out y (by rw [h1]; exact hm)
    (by rw [h2]; exact hy)
  refine ⟨he, hd, fun j hj => ?_⟩
  rw [hel j (by rw [h2]; exact hj), h1, hx]
  apply Finset.sum_congr rfl
  intro i hi
  have hi' : i < A.size1 := by rw [hx]; exact Finset.mem_range.mp hi
  rw [(set_columns_elem A x hx i j hi' hj).2]

/-- Witness of C12: the columns of a 2×3 matrix set to `[100, 200]` (stored with
increment 2); every column then has dot product `100² + 200² = 50000`. -/
theorem set_then_dot_columns_witness :
    0 < m23.size1 ∧ m23.size1 = strided2.size
    ∧ (dot_columns (set_columns m23 strided2).out (host_vec 3 (fun _ => 0))).out.elem 2
        = 50000 := by
  have h := set_then_dot_columns m23 strided2 (host_vec 3 (fun _ => 0)) (by decide) rfl rfl
  refine ⟨by decide, rfl, ?_⟩
  rw [h.2.2 2 (by decide)]
  norm_num [Finset.sum_range_succ, strided2]

/-- C13: for a matrix `X` of shape `m×n`: with `m ≥ 1` and `|y| = n`,
`dot_columns(X, y)` writes `y[j] = Σ_i X(i,j)²` for every column `j`, and with
another size of `y` it fails its assertion; with `n ≥ 1` and `|y| = m`,
`dot_rows(X, y)` writes `y[i] = Σ_j X(i,j)²` for every row `i`, on either
branch, and with another size of `y` it fails. In `dot_columns` position
`j·m + i` of the key range holds key `j` and that position of the traversal
holds `X(i,j)`; in `dot_rows` position `i·n + j` holds key `i` and `X(i,j)`:
the run of key `k` is column (row) `k`, in traversal order. -/
theorem dot_reductions_spec (X : Mat) (y : Vec) :
    (0 < X.size1 → X.size2 = y.size →
      (dot_columns X y).err = none
      ∧ ∀ j, j < X.size2 → (dot_columns X y).out.elem j
          = ∑ i ∈ Finset.range X.size1, X.elem i j * X.elem i j)
    ∧ (X.size2 ≠ y.size →
      (dot_columns X y).err = some Err.assert ∧ (dot_columns X y).out = y)
    ∧ (0 < X.size2 → X.size1 = y.size →
      (dot_rows X y).err = none
      ∧ ∀ i, i < X.size1 → (dot_rows X y).out.elem i
          = ∑ j ∈ Finset.range X.size2, X.elem i j * X.elem i j)
    ∧ (X.size1 ≠ y.size →
      (dot_rows X y).err = some Err.assert ∧ (dot_rows X y).out = y)
    ∧ (∀ i j, i < X.size1 → j < X.size2 →
      (make_stuttered_range (counting X.size2) X.size1).get (j * X.size1 + i) = j
      ∧ X.iter.get (j * X.size1 + i) = X.elem i j
      ∧ (make_stuttered_range (counting X.size1) X.size2).get (i * X.size2 + j) = i
      ∧ X.row_iter.get (i * X.size2 + j) = X.elem i j) := by
  refine ⟨?_, ?_, ?_, ?_, ?_⟩
  · intro hm h
    exact ⟨(dot_columns_spec X y hm h).1, (dot_columns_spec X y hm h).2.2⟩
  · intro h
    unfold dot_columns
    rw [if_neg h]
    exact ⟨rfl, rfl⟩
  · intro hn h
    exact ⟨(dot_rows_spec X y hn h).1, (dot_rows_spec X y hn h).2.2⟩
  · intro h
    unfold dot_rows
    rw [if_neg h]
    exact ⟨rfl, rfl⟩
  · intro i j hi hj
    simp only [make_stuttered_range, counting, Mat.iter, Mat.row_iter]
    rw [(col_index i j X.size1 hi).1, (col_index i j X.size1 hi).2,
      (col_index j i X.size2 hj).1, (col_index j i X.size2 hj).2]
    exact ⟨rfl, rfl, rfl, rfl⟩

/-- Witness of C13, on `[[0,1,2],[10,11,12]]`: column 2 has `2² + 12² = 148`,
row 1 has `10² + 11² + 12² = 365`. -/
theorem dot_reductions_spec_witness :
    (dot_columns m23 (host_vec 3 (fun _ => 0))).out.elem 2 = 148
    ∧ (dot_rows m23 (host_vec 2 (fun _ => 0))).out.elem 1 = 365
    ∧ (dot_columns m23 (host_vec 2 (fun _ => 0))).err = some Err.assert := by
  have h1 := (dot_reductions_spec m23 (host_vec 3 (fun _ => 0))).1 (by decide) rfl
  have h2 := (dot_reductions_spec m23 (host_vec 2 (fun _ => 0))).2.2.1 (by decide) rfl
  have h3 := (dot_reductions_spec m23 (host_vec 2 (fun _ => 0))).2.1 (by decide)
  refine ⟨?_, ?_, h3.1⟩
  · rw [h1.2 2 (by decide)]
    norm_num [Finset.sum_range_succ, m23]
  · rw [h2.2 1 (by decide)]
    norm_num [Finset.sum_range_succ, m23]

/-- C14 (amended): `sum_columns` and `sum_rows` follow the convention opposite
to that of `dot_columns` and `dot_rows`. For a matrix `X` of shape `m×n`:
with `n ≥ 1`, `sum_columns(X, y)` requires `|y| = m` and writes the sum of the
columns of `X`, `y[i] = Σ_j X(i,j)`; with `m ≥ 1`, `sum_rows(X, y)` requires
`|y| = n` and writes the sum of the rows, `y[j] = Σ_i X(i,j)`; with another
size of `y` each call fails its assertion. -/
theorem sum_reductions_spec (X : Mat) (y : Vec) :
    (0 < X.size2 → X.size1 = y.size →
      (sum_columns X y).err = none
      ∧ ∀ i, i < X.size1 → (sum_columns X y).out.elem i
          = ∑ j ∈ Finset.range X.size2, X.elem i j)
    ∧ (X.size1 ≠ y.size →
      (sum_columns X y).err = some Err.assert ∧ (sum_columns X y).out = y)
    ∧ (0 < X.size1 → X.size2 = y.size →
      (sum_rows X y).err = none
      ∧ ∀ j, j < X.size2 → (sum_rows X y).out.elem j
          = ∑ i ∈ Finset.range X.size1, X.elem i j)
    ∧ (X.size2 ≠ y.size →
      (sum_rows X y).err = some Err.assert ∧ (sum_rows X y).out = y) := by
  refine ⟨?_, ?_, ?_, ?_⟩
  · intro hn h
    exact sum_columns_spec X y hn h
  · intro h
    unfold sum_columns
    rw [if_neg h]
    exact ⟨rfl, rfl⟩
  · intro hm h
    exact sum_rows_spec X y hm h
  · intro h
    unfold sum_rows
    rw [if_neg h]
    exact ⟨rfl, rfl⟩

/-- Witness of C14 (amended), on `[[0,1,2],[10,11,12]]`: the sum of the
columns is `[3, 33]`, the sum of the rows `[10, 12, 14]`. -/
theorem sum_reductions_spec_witness :
    (sum_columns m23 (host_vec 2 (fun _ => 0))).out.elem 1 = 33
    ∧ (sum_rows m23 (host_vec 3 (fun _ => 0))).out.elem 2 = 14 := by
  have h1 := (sum_reductions_spec m23 (host_vec 2 (fun _ => 0))).1 (by decide) rfl
  have h2 := (sum_reductions_spec m23 (host_vec 3 (fun _ => 0))).2.2.1 (by decide) rfl
  refine ⟨?_, ?_⟩
  · rw [h1.2 1 (by decide)]
    norm_num [Finset.sum_range_succ, m23]
  · rw [h2.2 2 (by decide)]
    norm_num [Finset.sum_range_succ, m23]

/-- C14, counterexample: for the 2×3 matrix `[[0,1,2],[10,11,12]]`,
`sum_columns` with `|y| = 3` (one scalar per column) fails its assertion, and
so does `sum_rows` with `|y| = 2` (one scalar per row); with `|y| = 2`,
`sum_columns` writes the row sum `33` at index 1, where the sum of column 1
is `12`. -/
theorem sum_columns_is_row_sum :
    (sum_columns m23 (host_vec 3 (fun _ => 0))).err = some Err.assert
    ∧ (sum_rows m23 (host_vec 2 (fun _ => 0))).err = some Err.assert
    ∧ (sum_columns m23 (host_vec 2 (fun _ => 0))).err = none
    ∧ (sum_columns m23 (host_vec 2 (fun _ => 0))).out.elem 1 = 33
    ∧ (∑ i ∈ Finset.range m23.size1, m23.elem i 1) = 12 := by
  have h1 := sum_columns_spec m23 (host_vec 2 (fun _ => 0)) (by decide) rfl
  refine ⟨?_, ?_, h1.1, ?_, ?_⟩
  · simp [sum_columns, m23, host_vec]
  · simp [sum_rows, m23, host_vec]
  · rw [h1.2 1 (by decide)]
    norm_num [Finset.sum_range_succ, m23]
  · norm_num [Finset.sum_range_succ, m23]

/-! ## Column loops -/

theorem blas_calls_replicate_succ (n : Nat) (rt : Routine) (l : List Routine) :
    (l ++ List.replicate n rt) ++ [rt] = l ++ List.replicate (n + 1) rt := by
  rw [List.append_assoc, List.replicate_succ']

/-- State after a loop that applies `step j` to column `j` in iteration `j`,
when every step succeeds on a column of `m` elements, calls routine `rt` once
and leaves `g j i v` where element `i` held `v`. -/
theorem column_loop (m : Nat) (rt : Routine) (g : Nat → Nat → real → real)
    (step : Nat → Vec → Run Vec)
    (hstep : ∀ j y, y.size = m → (step j y).err = none ∧ (step j y).out.size = m
      ∧ (∀ i, i < m → (step j y).out.elem i = g j i (y.elem i))
      ∧ blas_calls (step j y).trace = [rt])
    (init : Run Mat) (he : init.err = none) (hm : init.out.size1 = m) (n : Nat) :
    (for_loop n (fun j Y => on_column Y j (step j (column Y j))) init).err = none
    ∧ (for_loop n (fun j Y => on_column Y j (step j (column Y j))) init).out.size1 = m
    ∧ (∀ i k, (for_loop n (fun j Y => on_column Y j (step j (column Y j))) init).out.elem i k
        = if k < n ∧ i < m then g k i (init.out.elem i k) else init.out.elem i k)
    ∧ blas_calls (for_loop n (fun j Y => on_column Y j (step j (column Y j))) init).trace
        = blas_calls init.trace ++ List.replicate n rt := by
  refine for_loop_induct (fun t r => r.err = none ∧ r.out.size1 = m
    ∧ (∀ i k, r.out.elem i k
        = if k < t ∧ i < m then g k i (init.out.elem i k) else init.out.elem i k)
    ∧ blas_calls r.trace = blas_calls init.trace ++ List.replicate t rt) n
    (fun j Y => on_column Y j (step j (column Y j))) init ?_ ?_
  · refine ⟨he, hm, fun i k => ?_, ?_⟩
    · rw [if_neg (fun h => Nat.not_lt_zero k h.1)]
    · simp
  · intro t r _ hr
    obtain ⟨hre, hrm, hrel, hrt⟩ := hr
    obtain ⟨hs1, hs2, hs3, hs4⟩ := hstep t (column r.out t) hrm
    rw [next_of_ok r _ hre]
    refine ⟨hs1, hrm, fun i k => ?_, ?_⟩
    · show (if k = t ∧ i < (step t (column r.out t)).out.size
          then (step t (column r.out t)).out.elem i else r.out.elem i k) = _
      rw [hs2]
      by_cases hk : k = t
      · by_cases hi : i < m
        · subst hk
          rw [if_pos ⟨rfl, hi⟩, if_pos ⟨Nat.lt_succ_self k, hi⟩, hs3 i hi]
          show g k i (r.out.elem i k) = _
          rw [hrel i k, if_neg (fun h => Nat.lt_irrefl k h.1)]
        · rw [if_neg (fun h => hi h.2), if_neg (fun h => hi h.2), hrel i k,
            if_neg (fun h => hi h.2)]
      · rw [if_neg (fun h => hk h.1), hrel i k]
        by_cases hlt : k < t
        · by_cases hi : i < m
          · rw [if_pos ⟨hlt, hi⟩, if_pos ⟨Nat.lt_succ_of_lt hlt, hi⟩]
          · rw [if_neg (fun h => hi h.2), if_neg (fun h => hi h.2)]
        · rw [if_neg (fun h => hlt h.1), if_neg (fun h => by omega)]
    · show blas_calls (r.trace ++ (step t (column r.out t)).trace) = _
      rw [blas_calls_append, hrt, hs4, blas_calls_replicate_succ]

theorem gpu_map_vector_size (x : Vec) : (gpu_map_vector x).size = x.size := by
  unfold gpu_map_vector; split <;> rfl

theorem host_map_vector_size (x : Vec) : (host_map_vector x).size = x.size := by
  unfold host_map_vector; split <;> rfl

/-- One call of `gdmv` on operands of one size `m`. -/
theorem gdmv_step (alpha : real) (A x : Vec) (beta : real) (y : Vec) (m : Nat)
    (hA : A.size = m) (hx : x.size = m) (hy : y.size = m) :
    (gdmv alpha A x beta y).err = none ∧ (gdmv alpha A x beta y).out.size = m
    ∧ (∀ i, i < m →
        (gdmv alpha A x beta y).out.elem i = alpha * (A.elem i * x.elem i) + beta * y.elem i)
    ∧ blas_calls (gdmv alpha A x beta y).trace = [Routine.gbmv] := by
  have hpre : A.size = x.size ∧ x.size = y.size := ⟨by rw [hA, hx], by rw [hx, hy]⟩
  unfold gdmv
  rw [if_pos hpre]
  by_cases hd : y.on_device = true
  · rw [if_pos hd]
    refine ⟨rfl, hy, fun i hi => ?_, by simp [blas_calls]⟩
    show blas_gbmv (gpu_map_vector A).size alpha (gpu_map_vector A).elem
      (gpu_map_vector x).elem beta y.elem i = _
    rw [gpu_map_vector_size, gpu_map_vector_elem, gpu_map_vector_elem, hA]
    unfold blas_gbmv
    rw [if_pos hi]
  · rw [if_neg hd]
    refine ⟨rfl, hy, fun i hi => ?_, ?_⟩
    · show blas_gbmv (host_map_vector A).size alpha (host_map_vector A).elem
        (host_map_vector x).elem beta y.elem i = _
      rw [host_map_vector_size, host_map_vector_elem, host_map_vector_elem, hA]
      unfold blas_gbmv
      rw [if_pos hi]
    · by_cases hs : A.on_device = true ∨ x.on_device = true
      · simp [blas_calls, hs]
      · simp [blas_calls, hs]

/-- One call of `axpy` without clearing, on operands of one size `m`. -/
theorem axpy_step (a : real) (x y : Vec) (m : Nat) (hx : x.size = m) (hy : y.size = m) :
    (axpy a x y false).err = none ∧ (axpy a x y false).out.size = m
    ∧ (∀ i, i < m → (axpy a x y false).out.elem i = a * x.elem i + y.elem i)
    ∧ blas_calls (axpy a x y false).trace = [Routine.axpy] := by
  have hpre : x.size = y.size := by rw [hx, hy]
  refine ⟨axpy_err a x y false hpre, ?_, fun i hi => ?_, ?_⟩
  · rw [axpy_out a x y false hpre]
    exact hy
  · rw [axpy_out a x y false hpre]
    show blas_axpy y.size a x.elem y.elem i = _
    unfold blas_axpy
    rw [if_pos (by rw [hy]; exact hi)]
  · unfold axpy
    rw [if_pos hpre]
    by_cases hd : y.on_device = true
    · rw [if_pos hd]
      simp [blas_calls]
    · rw [if_neg hd]
      by_cases hs : x.on_device = true
      · simp [blas_calls, hs]
      · simp [blas_calls, hs]

/-- One call of `scal` on a vector of size `m`. -/
theorem scal_step (alpha : real) (y : Vec) (m : Nat) (hy : y.size = m) :
    (scal alpha y).err = none ∧ (scal alpha y).out.size = m
    ∧ (∀ i, i < m → (scal alpha y).out.elem i = alpha * y.elem i)
    ∧ blas_calls (scal alpha y).trace = [Routine.scal] := by
  unfold scal
  by_cases hd : y.on_device = true
  · rw [if_pos hd]
    refine ⟨rfl, hy, fun i hi => ?_, by simp [blas_calls]⟩
    show blas_scal y.size alpha y.elem i = _
    unfold blas_scal
    rw [if_pos (by rw [hy]; exact hi)]
  · rw [if_neg hd]
    refine ⟨rfl, hy, fun i hi => ?_, by simp [blas_calls]⟩
    show blas_scal y.size alpha y.elem i = _
    unfold blas_scal
    rw [if_pos (by rw [hy]; exact hi)]

/-- Result of `matrix_scal`: every element of the matrix multiplied by `alpha`,
through one vendor call on a matrix without padding, else one per column. -/
theorem matrix_scal_spec (alpha : real) (X : Mat) :
    (matrix_scal alpha X).err = none ∧ (matrix_scal alpha X).out.size1 = X.size1
    ∧ (∀ i j, i < X.size1 → j < X.size2 →
        (matrix_scal alpha X).out.elem i j = alpha * X.elem i j)
    ∧ blas_calls (matrix_scal alpha X).trace
        = if X.size1 = X.lead then [Routine.scal]
          else List.replicate X.size2 Routine.scal := by
  by_cases hl : X.size1 = X.lead
  · obtain ⟨h1, -, h3, h4⟩ := scal_step alpha (vec X) (X.size1 * X.size2) rfl
    unfold matrix_scal
    rw [if_pos hl, if_pos hl]
    refine ⟨h1, rfl, fun i j hi hj => ?_, h4⟩
    show (if i < X.size1 ∧ j < X.size2 then (scal alpha (vec X)).out.elem (j * X.size1 + i)
      else X.elem i j) = _
    rw [if_pos ⟨hi, hj⟩, h3 _ (index_lt i j X.size1 X.size2 hi hj)]
    show alpha * X.elem ((j * X.size1 + i) % X.size1) ((j * X.size1 + i) / X.size1) = _
    rw [(col_index i j X.size1 hi).1, (col_index i j X.size1 hi).2]
  · obtain ⟨h1, h2, h3, h4⟩ := column_loop X.size1 Routine.scal (fun _ _ v => alpha * v)
      (fun _ y => scal alpha y) (fun _ y hy => scal_step alpha y X.size1 hy)
      { trace := [], out := X, err := none } rfl rfl X.size2
    unfold matrix_scal
    rw [if_neg hl, if_neg hl]
    refine ⟨h1, h2, fun i j hi hj => ?_, ?_⟩
    · rw [h3 i j, if_pos ⟨hj, hi⟩]
    · rw [h4]
      rfl

/-- Result of the scaling step of `gdmm`. -/
theorem gdmm_scale_spec (pre : List Event) (beta : real) (Y : Mat) :
    (gdmm_scale pre beta Y).err = none ∧ (gdmm_scale pre beta Y).out.size1 = Y.size1
    ∧ (∀ i j, i < Y.size1 → j < Y.size2 →
        (gdmm_scale pre beta Y).out.elem i j = beta * Y.elem i j)
    ∧ blas_calls (gdmm_scale pre beta Y).trace
        = blas_calls pre ++ (if beta = 0 then []
            else if Y.size1 = Y.lead then [Routine.scal]
            else List.replicate Y.size2 Routine.scal) := by
  obtain ⟨h1, h2, h3, h4⟩ := matrix_scal_spec beta Y
  unfold gdmm_scale
  by_cases hb : beta = 0
  · rw [if_pos hb, if_pos hb]
    refine ⟨rfl, rfl, fun i j _ _ => ?_, ?_⟩
    · show (0 : real) = _
      rw [hb, zero_mul]
    · show blas_calls pre = _
      rw [List.append_nil]
  · rw [if_neg hb, if_neg hb]
    refine ⟨h1, h2, h3, ?_⟩
    show blas_calls (pre ++ (matrix_scal beta Y).trace) = _
    rw [blas_calls_append, h4]

/-- The column loop of `gdmm` for side `'L'`, with its closing events. -/
theorem gdmm_left_loop (alpha : real) (A1 : Vec) (X1 : Mat) (beta : real) (Y : Mat)
    (pre tail : List Event) (hA : A1.size = Y.size1) (hX : X1.size1 = Y.size1)
    (hpre : blas_calls pre = []) (htail : blas_calls tail = []) :
    ((for_loop X1.size2
        (fun j Y => on_column Y j (gdmv alpha A1 (column X1 j) beta (column Y j)))
        { trace := pre, out := Y, err := none }).finish tail).err = none
    ∧ (∀ i j, i < Y.size1 → j < X1.size2 →
        ((for_loop X1.size2
          (fun j Y => on_column Y j (gdmv alpha A1 (column X1 j) beta (column Y j)))
          { trace := pre, out := Y, err := none }).finish tail).out.elem i j
          = alpha * (A1.elem i * X1.elem i j) + beta * Y.elem i j)
    ∧ blas_calls ((for_loop X1.size2
          (fun j Y => on_column Y j (gdmv alpha A1 (column X1 j) beta (column Y j)))
          { trace := pre, out := Y, err := none }).finish tail).trace
        = List.replicate X1.size2 Routine.gbmv := by
  obtain ⟨h1, -, h3, h4⟩ := column_loop Y.size1 Routine.gbmv
    (fun k i v => alpha * (A1.elem i * X1.elem i k) + beta * v)
    (fun j y => gdmv alpha A1 (column X1 j) beta y)
    (fun j y hy => gdmv_step alpha A1 (column X1 j) beta y Y.size1 hA hX hy)
    { trace := pre, out := Y, err := none } rfl rfl X1.size2
  rw [finish_of_ok _ tail h1]
  refine ⟨rfl, fun i j hi hj => ?_, ?_⟩
  · show (for_loop X1.size2 _ _ : Run Mat).out.elem i j = _
    rw [h3 i j, if_pos ⟨hj, hi⟩]
  · show blas_calls ((for_loop X1.size2 _ _ : Run Mat).trace ++ tail) = _
    rw [blas_calls_append, h4, htail, List.append_nil]
    show blas_calls pre ++ _ = _
    rw [hpre, List.nil_append]

/-- The column loop of `gdmm` for side `'R'`, with its closing events. -/
theorem gdmm_right_loop (a : Nat → real) (X1 : Mat) (init : Run Mat) (tail : List Event)
    (he : init.err = none) (hX : X1.size1 = init.out.size1)
    (htail : blas_calls tail = []) :
    ((for_loop X1.size2
        (fun j Y => on_column Y j (axpy (a j) (column X1 j) (column Y j) false))
        init).finish tail).err = none
    ∧ (∀ i j, i < init.out.size1 → j < X1.size2 →
        ((for_loop X1.size2
          (fun j Y => on_column Y j (axpy (a j) (column X1 j) (column Y j) false))
          init).finish tail).out.elem i j
          = a j * X1.elem i j + init.out.elem i j)
    ∧ blas_calls ((for_loop X1.size2
          (fun j Y => on_column Y j (axpy (a j) (column X1 j) (column Y j) false))
          init).finish tail).trace
        = blas_calls init.trace ++ List.replicate X1.size2 Routine.axpy := by
  obtain ⟨h1, -, h3, h4⟩ := column_loop init.out.size1 Routine.axpy
    (fun k i v => a k * X1.elem i k + v)
    (fun j y => axpy (a j) (column X1 j) y false)
    (fun j y hy => axpy_step (a j) (column X1 j) y init.out.size1 hX hy)
    init he rfl X1.size2
  rw [finish_of_ok _ tail h1]
  refine ⟨rfl, fun i j hi hj => ?_, ?_⟩
  · show (for_loop X1.size2 _ _ : Run Mat).out.elem i j = _
    rw [h3 i j, if_pos ⟨hj, hi⟩]
  · show blas_calls ((for_loop X1.size2 _ _ : Run Mat).trace ++ tail) = _
    rw [blas_calls_append, h4, htail, List.append_nil]

theorem blas_calls_guard (l : List Event) (c : Prop) [Decidable c]
    (h : blas_calls l = []) :
    blas_calls (l ++ (if c then [Event.synchronize] else [])) = [] := by
  rw [blas_calls_append, h]
  by_cases hc : c
  · rw [if_pos hc]; rfl
  · rw [if_neg hc]; rfl

/-- Result of `gdmm` for side `'L'` on conforming operands. -/
theorem gdmm_left (alpha : real) (A : Vec) (X : Mat) (beta : real) (Y : Mat)
    (hA : A.size = X.size1) (hX : X.size1 = Y.size1) (hn : X.size2 = Y.size2) :
    (gdmm alpha A X beta Y 'L').err = none
    ∧ (∀ i j, i < Y.size1 → j < Y.size2 →
        (gdmm alpha A X beta Y 'L').out.elem i j
          = alpha * A.elem i * X.elem i j + beta * Y.elem i j)
    ∧ blas_calls (gdmm alpha A X beta Y 'L').trace
        = List.replicate X.size2 Routine.gbmv := by
  have hAY : A.size = Y.size1 := by rw [hA, hX]
  have hpre : ('L' = 'L' ∨ 'L' = 'R')
      ∧ ('L' ≠ 'L' ∨ (A.size = Y.size1 ∧ Y.size1 = A.size ∧ Y.size2 = X.size2))
      ∧ ('L' ≠ 'R' ∨ (X.size2 = A.size ∧ Y.size1 = X.size1 ∧ Y.size2 = A.size)) :=
    ⟨Or.inl rfl, Or.inr ⟨hAY, hAY.symm, hn.symm⟩, Or.inl (by decide)⟩
  by_cases hd : Y.on_device = true
  · obtain ⟨hg1, hg2, hg3⟩ := gpu_map_matrix_fields X
    have h := gdmm_left_loop alpha (gpu_map_vector A) (gpu_map_matrix X) beta Y
      [Event.map Loc.device Operand.X, Event.map Loc.device Operand.A]
      [Event.synchronize, Event.release Operand.A, Event.release Operand.X]
      (by rw [gpu_map_vector_size, hAY]) (by rw [hg2, hX]) rfl rfl
    have e : gdmm alpha A X beta Y 'L' = (for_loop (gpu_map_matrix X).size2
        (fun j Y => on_column Y j
          (gdmv alpha (gpu_map_vector A) (column (gpu_map_matrix X) j) beta (column Y j)))
        { trace := [Event.map Loc.device Operand.X, Event.map Loc.device Operand.A],
          out := Y, err := none }).finish
        [Event.synchronize, Event.release Operand.A, Event.release Operand.X] := by
      unfold gdmm
      rw [if_pos hpre, if_pos hd]
      exact if_pos rfl
    rw [e]
    refine ⟨h.1, fun i j hi hj => ?_, ?_⟩
    · rw [h.2.1 i j hi (by rw [hg3, hn]; exact hj), gpu_map_vector_elem, hg1, mul_assoc]
    · rw [h.2.2, hg3]
  · obtain ⟨hg1, hg2, hg3⟩ := host_map_matrix_fields X
    have h := gdmm_left_loop alpha (host_map_vector A) (host_map_matrix X) beta Y
      ([Event.map Loc.host Operand.A, Event.map Loc.host Operand.X]
        ++ (if A.on_device ∨ X.on_device then [Event.synchronize] else []))
      [Event.release Operand.A, Event.release Operand.X]
      (by rw [host_map_vector_size, hAY]) (by rw [hg2, hX])
      (blas_calls_guard _ _ rfl) rfl
    have e : gdmm alpha A X beta Y 'L' = (for_loop (host_map_matrix X).size2
        (fun j Y => on_column Y j
          (gdmv alpha (host_map_vector A) (column (host_map_matrix X) j) beta (column Y j)))
        { trace := [Event.map Loc.host Operand.A, Event.map Loc.host Operand.X]
            ++ (if A.on_device ∨ X.on_device then [Event.synchronize] else []),
          out := Y, err := none }).finish
        [Event.release Operand.A, Event.release Operand.X] := by
      unfold gdmm
      rw [if_pos hpre, if_neg hd]
      exact if_pos rfl
    rw [e]
    refine ⟨h.1, fun i j hi hj => ?_, ?_⟩
    · rw [h.2.1 i j hi (by rw [hg3, hn]; exact hj), host_map_vector_elem, hg1, mul_assoc]
    · rw [h.2.2, hg3]

/-- Result of `gdmm` for side `'R'` on conforming operands. -/
theorem gdmm_right (alpha : real) (A : Vec) (X : Mat) (beta : real) (Y : Mat)
    (hA : A.size = X.size2) (hn : X.size2 = Y.size2) (hX : X.size1 = Y.size1) :
    (gdmm alpha A X beta Y 'R').err = none
    ∧ (∀ i j, i < Y.size1 → j < Y.size2 →
        (gdmm alpha A X beta Y 'R').out.elem i j
          = alpha * A.elem j * X.elem i j + beta * Y.elem i j)
    ∧ blas_calls (gdmm alpha A X beta Y 'R').trace
        = (if beta = 0 then []
            else if Y.size1 = Y.lead then [Routine.scal]
            else List.replicate Y.size2 Routine.scal)
          ++ List.replicate X.size2 Routine.axpy := by
  have hpre : ('R' = 'L' ∨ 'R' = 'R')
      ∧ ('R' ≠ 'L' ∨ (A.size = Y.size1 ∧ Y.size1 = A.size ∧ Y.size2 = X.size2))
      ∧ ('R' ≠ 'R' ∨ (X.size2 = A.size ∧ Y.size1 = X.size1 ∧ Y.size2 = A.size)) :=
    ⟨Or.inr rfl, Or.inl (by decide), Or.inr ⟨hA.symm, hX.symm, by rw [← hn, hA]⟩⟩
  by_cases hd : Y.on_device = true
  · obtain ⟨hg1, hg2, hg3⟩ := gpu_map_matrix_fields X
    obtain ⟨hs1, hs2, hs3, hs4⟩ := gdmm_scale_spec
      ([Event.map Loc.device Operand.X, Event.map Loc.host Operand.A]
        ++ (if A.on_device then [Event.synchronize] else [])) beta Y
    have h := gdmm_right_loop (fun j => alpha * (host_map_vector A).elem j)
      (gpu_map_matrix X)
      (gdmm_scale ([Event.map Loc.device Operand.X, Event.map Loc.host Operand.A]
        ++ (if A.on_device then [Event.synchronize] else [])) beta Y)
      [Event.synchronize, Event.release Operand.A, Event.release Operand.X]
      hs1 (by rw [hg2, hs2, hX]) rfl
    have e : gdmm alpha A X beta Y 'R' = (for_loop (gpu_map_matrix X).size2
        (fun j Y => on_column Y j
          (axpy (alpha * (host_map_vector A).elem j) (column (gpu_map_matrix X) j)
            (column Y j) false))
        (gdmm_scale ([Event.map Loc.device Operand.X, Event.map Loc.host Operand.A]
          ++ (if A.on_device then [Event.synchronize] else [])) beta Y)).finish
        [Event.synchronize, Event.release Operand.A, Event.release Operand.X] := by
      unfold gdmm
      rw [if_pos hpre, if_pos hd]
      exact if_neg (by decide)
    rw [e]
    refine ⟨h.1, fun i j hi hj => ?_, ?_⟩
    · rw [h.2.1 i j (by rw [hs2]; exact hi) (by rw [hg3, hn]; exact hj), hs3 i j hi hj,
        host_map_vector_elem, hg1]
    · rw [h.2.2, hs4, blas_calls_guard
        [Event.map Loc.device Operand.X, Event.map Loc.host Operand.A] _ rfl,
        List.nil_append, hg3]
  · obtain ⟨hg1, hg2, hg3⟩ := host_map_matrix_fields X
    obtain ⟨hs1, hs2, hs3, hs4⟩ := gdmm_scale_spec
      ([Event.map Loc.host Operand.A, Event.map Loc.host Operand.X]
        ++ (if A.on_device ∨ X.on_device then [Event.synchronize] else [])) beta Y
    have h := gdmm_right_loop (fun j => alpha * (host_map_vector A).elem j)
      (host_map_matrix X)
      (gdmm_scale ([Event.map Loc.host Operand.A, Event.map Loc.host Operand.X]
        ++ (if A.on_device ∨ X.on_device then [Event.synchronize] else [])) beta Y)
      [Event.release Operand.A, Event.release Operand.X]
      hs1 (by rw [hg2, hs2, hX]) rfl
    have e : gdmm alpha A X beta Y 'R' = (for_loop (host_map_matrix X).size2
        (fun j Y => on_column Y j
          (axpy (alpha * (host_map_vector A).elem j) (column (host_map_matrix X) j)
            (column Y j) false))
        (gdmm_scale ([Event.map Loc.host Operand.A, Event.map Loc.host Operand.X]
          ++ (if A.on_device ∨ X.on_device then [Event.synchronize] else [])) beta Y)).finish
        [Event.release Operand.A, Event.release Operand.X] := by
      unfold gdmm
      rw [if_pos hpre, if_neg hd]
      exact if_neg (by decide)
    rw [e]
    refine ⟨h.1, fun i j hi hj => ?_, ?_⟩
    · rw [h.2.1 i j (by rw [hs2]; exact hi) (by rw [hg3, hn]; exact hj), hs3 i j hi hj,
        host_map_vector_elem, hg1]
    · rw [h.2.2, hs4, blas_calls_guard
        [Event.map Loc.host Operand.A, Event.map Loc.host Operand.X] _ rfl,
        List.nil_append, hg3]

/-- A loop whose first iteration ends abnormally ends the same way. -/
theorem for_loop_first_fails {α : Type} (n : Nat) (body : Nat → α → Run α) (init : Run α)
    (e : Err) (hn : 0 < n) (he : init.err = none) (hb : (body 0 init.out).err = some e) :
    (for_loop n body init).err = some e := by
  obtain ⟨k, rfl⟩ : ∃ k, n = k + 1 := ⟨n - 1, by omega⟩
  unfold for_loop
  rw [List.range_succ_eq_map, List.foldl_cons,
    foldl_next_sticky body e _ (init.next (body 0)) (by rw [next_of_ok init _ he]; exact hb),
    next_of_ok init _ he]
  exact hb

/-- The column step of `gdmm` for side `'L'` fails the assertion of `gdmv` when
`A` and the column of `X` differ in size. -/
theorem gdmm_left_step_fails (alpha : real) (A1 : Vec) (X1 : Mat) (beta : real) (Y : Mat)
    (j : Nat) (h : A1.size ≠ X1.size1) :
    (on_column Y j (gdmv alpha A1 (column X1 j) beta (column Y j))).err
      = some Err.assert := by
  show (gdmv alpha A1 (column X1 j) beta (column Y j)).err = some Err.assert
  unfold gdmv
  rw [if_neg (fun hc => h hc.1)]

/-- For side `'L'` the rows of `X` are checked by the nested `gdmv` only: with
at least one column and `|A| ≠ rows of X` the call fails there, and a matrix
`X` without columns is accepted whatever its number of rows. -/
theorem gdmm_left_rows (alpha : real) (A : Vec) (X : Mat) (beta : real) (Y : Mat)
    (hA : A.size = Y.size1) (hn : Y.size2 = X.size2) (hX : X.size1 ≠ A.size) :
    (0 < X.size2 → (gdmm alpha A X beta Y 'L').err = some Err.assert)
    ∧ (X.size2 = 0 → (gdmm alpha A X beta Y 'L').err = none
        ∧ (gdmm alpha A X beta Y 'L').out = Y) := by
  have hpre : ('L' = 'L' ∨ 'L' = 'R')
      ∧ ('L' ≠ 'L' ∨ (A.size = Y.size1 ∧ Y.size1 = A.size ∧ Y.size2 = X.size2))
      ∧ ('L' ≠ 'R' ∨ (X.size2 = A.size ∧ Y.size1 = X.size1 ∧ Y.size2 = A.size)) :=
    ⟨Or.inl rfl, Or.inr ⟨hA, hA.symm, hn⟩, Or.inl (by decide)⟩
  by_cases hd : Y.on_device = true
  · obtain ⟨-, hg2, hg3⟩ := gpu_map_matrix_fields X
    have e : gdmm alpha A X beta Y 'L' = (for_loop (gpu_map_matrix X).size2
        (fun j Y => on_column Y j
          (gdmv alpha (gpu_map_vector A) (column (gpu_map_matrix X) j) beta (column Y j)))
        { trace := [Event.map Loc.device Operand.X, Event.map Loc.device Operand.A],
          out := Y, err := none }).finish
        [Event.synchronize, Event.release Operand.A, Event.release Operand.X] := by
      unfold gdmm
      rw [if_pos hpre, if_pos hd]
      exact if_pos rfl
    rw [e, hg3]
    refine ⟨fun h0 => ?_, fun h0 => ?_⟩
    · rw [finish_err]
      exact for_loop_first_fails _ _ _ Err.assert h0 rfl
        (gdmm_left_step_fails alpha _ _ beta Y 0
          (by rw [gpu_map_vector_size, hg2]; exact fun hc => hX hc.symm))
    · rw [h0]
      exact ⟨rfl, rfl⟩
  · obtain ⟨-, hg2, hg3⟩ := host_map_matrix_fields X
    have e : gdmm alpha A X beta Y 'L' = (for_loop (host_map_matrix X).size2
        (fun j Y => on_column Y j
          (gdmv alpha (host_map_vector A) (column (host_map_matrix X) j) beta (column Y j)))
        { trace := [Event.map Loc.host Operand.A, Event.map Loc.host Operand.X]
            ++ (if A.on_device ∨ X.on_device then [Event.synchronize] else []),
          out := Y, err := none }).finish
        [Event.release Operand.A, Event.release Operand.X] := by
      unfold gdmm
      rw [if_pos hpre, if_neg hd]
      exact if_pos rfl
    rw [e, hg3]
    refine ⟨fun h0 => ?_, fun h0 => ?_⟩
    · rw [finish_err]
      exact for_loop_first_fails _ _ _ Err.assert h0 rfl
        (gdmm_left_step_fails alpha _ _ beta Y 0
          (by rw [host_map_vector_size, hg2]; exact fun hc => hX hc.symm))
    · rw [h0]
      exact ⟨rfl, rfl⟩

/-- The assertions of `gdmm` itself. -/
theorem gdmm_rejects (alpha : real) (A : Vec) (X : Mat) (beta : real) (Y : Mat) :
    ((A.size ≠ Y.size1 ∨ Y.size2 ≠ X.size2) →
      (gdmm alpha A X beta Y 'L').err = some Err.assert
      ∧ (gdmm alpha A X beta Y 'L').trace = [] ∧ (gdmm alpha A X beta Y 'L').out = Y)
    ∧ ((X.size2 ≠ A.size ∨ Y.size1 ≠ X.size1 ∨ Y.size2 ≠ A.size) →
      (gdmm alpha A X beta Y 'R').err = some Err.assert
      ∧ (gdmm alpha A X beta Y 'R').trace = [] ∧ (gdmm alpha A X beta Y 'R').out = Y) := by
  constructor
  · intro h
    have hn : ¬ (('L' = 'L' ∨ 'L' = 'R')
        ∧ ('L' ≠ 'L' ∨ (A.size = Y.size1 ∧ Y.size1 = A.size ∧ Y.size2 = X.size2))
        ∧ ('L' ≠ 'R' ∨ (X.size2 = A.size ∧ Y.size1 = X.size1 ∧ Y.size2 = A.size))) := by
      rintro ⟨-, h2, -⟩
      rcases h2 with h2 | h2
      · exact h2 rfl
      · rcases h with h | h
        · exact h h2.1
        · exact h h2.2.2
    unfold gdmm
    rw [if_neg hn]
    exact ⟨rfl, rfl, rfl⟩
  · intro h
    have hn : ¬ (('R' = 'L' ∨ 'R' = 'R')
        ∧ ('R' ≠ 'L' ∨ (A.size = Y.size1 ∧ Y.size1 = A.size ∧ Y.size2 = X.size2))
        ∧ ('R' ≠ 'R' ∨ (X.size2 = A.size ∧ Y.size1 = X.size1 ∧ Y.size2 = A.size))) := by
      rintro ⟨-, -, h3⟩
      rcases h3 with h3 | h3
      · exact h3 rfl
      · rcases h with h | h | h
        · exact h h3.1
        · exact h h3.2.1
        · exact h h3.2.2
    unfold gdmm
    rw [if_neg hn]
    exact ⟨rfl, rfl, rfl⟩

/-! ## Claims on `gdmm` -/

/-- C19: `gdmm` multiplies by the diagonal matrix given as vector `A`. For side
`'L'`, with `|A| = rows of X = rows of Y` and `columns of X = columns of Y`, it
returns normally and leaves `Y(i,j) = alpha·A[i]·X(i,j) + beta·Y_old(i,j)`, by
one `gbmv` per column of `X`. For side `'R'`, with `|A| = columns of X = columns
of Y` and `rows of X = rows of Y`, it leaves
`Y(i,j) = alpha·A[j]·X(i,j) + beta·Y_old(i,j)`, by the scaling of `Y` (none for
`beta = 0`) and then one `axpy` per column of `X`. With `beta = 0` the result is
`alpha·A·X`, whatever `Y` held. With `Y` on the host and with `Y` on the device
the vendor routines are called in the same order and the same elements result.
A mismatch among `|A|`, `Y` and the columns of `X` fails the assertion of
`gdmm`; for side `'L'` a mismatch in the rows of `X` fails the assertion of the
first nested `gdmv`. -/
theorem gdmm_spec (alpha : real) (A : Vec) (X : Mat) (beta : real) (Y : Mat) :
    (A.size = X.size1 → X.size1 = Y.size1 → X.size2 = Y.size2 →
      (gdmm alpha A X beta Y 'L').err = none
      ∧ (∀ i j, i < Y.size1 → j < Y.size2 →
          (gdmm alpha A X beta Y 'L').out.elem i j
            = alpha * A.elem i * X.elem i j + beta * Y.elem i j)
      ∧ (beta = 0 → ∀ i j, i < Y.size1 → j < Y.size2 →
          (gdmm alpha A X beta Y 'L').out.elem i j = alpha * A.elem i * X.elem i j)
      ∧ blas_calls (gdmm alpha A X beta Y 'L').trace
          = List.replicate X.size2 Routine.gbmv
      ∧ blas_calls (gdmm alpha A X beta (Y.resident false) 'L').trace
          = blas_calls (gdmm alpha A X beta (Y.resident true) 'L').trace
      ∧ (∀ i j, i < Y.size1 → j < Y.size2 →
          (gdmm alpha A X beta (Y.resident false) 'L').out.elem i j
            = (gdmm alpha A X beta (Y.resident true) 'L').out.elem i j))
    ∧ (A.size = X.size2 → X.size2 = Y.size2 → X.size1 = Y.size1 →
      (gdmm alpha A X beta Y 'R').err = none
      ∧ (∀ i j, i < Y.size1 → j < Y.size2 →
          (gdmm alpha A X beta Y 'R').out.elem i j
            = alpha * A.elem j * X.elem i j + beta * Y.elem i j)
      ∧ (beta = 0 → ∀ i j, i < Y.size1 → j < Y.size2 →
          (gdmm alpha A X beta Y 'R').out.elem i j = alpha * A.elem j * X.elem i j)
      ∧ blas_calls (gdmm alpha A X beta Y 'R').trace
          = (if beta = 0 then []
              else if Y.size1 = Y.lead then [Routine.scal]
              else List.replicate Y.size2 Routine.scal)
            ++ List.replicate X.size2 Routine.axpy
      ∧ blas_calls (gdmm alpha A X beta (Y.resident false) 'R').trace
          = blas_calls (gdmm alpha A X beta (Y.resident true) 'R').trace
      ∧ (∀ i j, i < Y.size1 → j < Y.size2 →
          (gdmm alpha A X beta (Y.resident false) 'R').out.elem i j
            = (gdmm alpha A X beta (Y.resident true) 'R').out.elem i j))
    ∧ ((A.size ≠ Y.size1 ∨ Y.size2 ≠ X.size2) →
      (gdmm alpha A X beta Y 'L').err = some Err.assert
      ∧ (gdmm alpha A X beta Y 'L').trace = [])
    ∧ ((X.size2 ≠ A.size ∨ Y.size1 ≠ X.size1 ∨ Y.size2 ≠ A.size) →
      (gdmm alpha A X beta Y 'R').err = some Err.assert
      ∧ (gdmm alpha A X beta Y 'R').trace = [])
    ∧ (A.size = Y.size1 → Y.size2 = X.size2 → X.size1 ≠ A.size → 0 < X.size2 →
      (gdmm alpha A X beta Y 'L').err = some Err.assert) := by
  refine ⟨fun hA hX hn => ?_, fun hA hn hX => ?_, fun h => ?_, fun h => ?_,
    fun hA hn hX h0 => ?_⟩
  · obtain ⟨h1, h2, h3⟩ := gdmm_left alpha A X beta Y hA hX hn
    obtain ⟨-, a2, a3⟩ := gdmm_left alpha A X beta (Y.resident false) hA hX hn
    obtain ⟨-, b2, b3⟩ := gdmm_left alpha A X beta (Y.resident true) hA hX hn
    refine ⟨h1, h2, fun hb i j hi hj => ?_, h3, by rw [a3, b3], fun i j hi hj => ?_⟩
    · rw [h2 i j hi hj, hb, zero_mul, add_zero]
    · rw [a2 i j hi hj, b2 i j hi hj]
      rfl
  · obtain ⟨h1, h2, h3⟩ := gdmm_right alpha A X beta Y hA hn hX
    obtain ⟨-, a2, a3⟩ := gdmm_right alpha A X beta (Y.resident false) hA hn hX
    obtain ⟨-, b2, b3⟩ := gdmm_right alpha A X beta (Y.resident true) hA hn hX
    refine ⟨h1, h2, fun hb i j hi hj => ?_, h3, by rw [a3, b3]; rfl, fun i j hi hj => ?_⟩
    · rw [h2 i j hi hj, hb, zero_mul, add_zero]
    · rw [a2 i j hi hj, b2 i j hi hj]
      rfl
  · exact ⟨((gdmm_rejects alpha A X beta Y).1 h).1, ((gdmm_rejects alpha A X beta Y).1 h).2.1⟩
  · exact ⟨((gdmm_rejects alpha A X beta Y).2 h).1, ((gdmm_rejects alpha A X beta Y).2 h).2.1⟩
  · exact (gdmm_left_rows alpha A X beta Y hA hn hX).1 h0

/-- Witness of C19, with `alpha = 2`, `A = [1, 2]`, `X = Y = [[4,2],[2,3]]` and
`beta = 3`: entry `(0,1)` becomes `2·1·2 + 3·2 = 10` for side `'L'` and
`2·2·2 + 3·2 = 14` for side `'R'`; a 2×3 matrix `X` is refused. -/
theorem gdmm_spec_witness :
    (gdmm 2 v12 m4223 3 m4223 'L').out.elem 0 1 = 10
    ∧ (gdmm 2 v12 m4223 3 m4223 'R').out.elem 0 1 = 14
    ∧ (gdmm 2 v12 m23 3 m4223 'L').err = some Err.assert := by
  have h := gdmm_spec 2 v12 m4223 3 m4223
  have h3 := (gdmm_spec 2 v12 m23 3 m4223).2.2.1 (Or.inr (by decide))
  refine ⟨?_, ?_, h3.1⟩
  · rw [(h.1 rfl rfl rfl).2.1 0 1 (by decide) (by decide)]
    norm_num [v12, m4223]
  · rw [(h.2.1 rfl rfl rfl).2.1 0 1 (by decide) (by decide)]
    norm_num [v12, m4223]

/-! ## Termination and frame of `chol` -/

/-- Once the loop condition is false, more fuel changes neither the final state
nor the number of iterations. -/
theorem chol_loop_stable (E : Ext) (A L : Mat) (uplo : Char) (N : Nat) (eps : Vec)
    (largest : real) (fuel : Nat) : ∀ (s : CholState) (extra : Nat),
    ¬ ((chol_loop E A L uplo N eps largest fuel s).info ≠ 0
        ∧ (chol_loop E A L uplo N eps largest fuel s).factor < largest) →
    chol_loop E A L uplo N eps largest (fuel + extra) s
        = chol_loop E A L uplo N eps largest fuel s
    ∧ chol_iters E A L uplo N eps largest (fuel + extra) s
        = chol_iters E A L uplo N eps largest fuel s := by
  induction fuel with
  | zero =>
    intro s extra h
    simp only [chol_loop] at h
    cases extra with
    | zero => exact ⟨rfl, rfl⟩
    | succ extra =>
      rw [Nat.zero_add]
      simp only [chol_loop, chol_iters, if_neg h]
      exact ⟨trivial, trivial⟩
  | succ fuel ih =>
    intro s extra h
    rw [Nat.succ_add]
    by_cases hc : s.info ≠ 0 ∧ s.factor < largest
    · simp only [chol_loop, chol_iters, if_pos hc] at h ⊢
      obtain ⟨h1, h2⟩ := ih (chol_body E A L uplo N eps s) extra h
      exact ⟨h1, by rw [h2]⟩
    · simp only [chol_loop, chol_iters, if_neg hc]
      exact ⟨trivial, trivial⟩

/-- The retry loop of `chol` ends within the fuel it is given: with any larger
fuel it ends in the same state after the same number of iterations. -/
theorem chol_final_total (E : Ext) (A L : Mat) (uplo : Char) (hpos : 0 < eps0 E A L uplo)
    (extra : Nat) :
    chol_loop E A L uplo A.size1 (chol_eps L) (largest E A L uplo)
        (chol_fuel (eps0 E A L uplo) (largest E A L uplo) + extra) (chol_start E A L uplo)
      = chol_final E A L uplo
    ∧ chol_iters E A L uplo A.size1 (chol_eps L) (largest E A L uplo)
        (chol_fuel (eps0 E A L uplo) (largest E A L uplo) + extra) (chol_start E A L uplo)
      = chol_retries E A L uplo :=
  chol_loop_stable E A L uplo A.size1 (chol_eps L) (largest E A L uplo) _
    (chol_start E A L uplo) extra
    (chol_loop_done E A L uplo A.size1 (chol_eps L) (largest E A L uplo) _
      (chol_start E A L uplo) hpos (chol_fuel_enough _ _ hpos))

/-- The number of retries when every attempt fails: the least `n` whose
loading `eps0·2^n` has reached `largest`. -/
theorem chol_retries_least (E : Ext) (A L : Mat) (uplo : Char)
    (hfail : (first_attempt E A L uplo).2 ≠ 0) (hpos : 0 < eps0 E A L uplo)
    (hall : ∀ k : Nat, eps0 E A L uplo * 2 ^ k < largest E A L uplo →
      (attempt E A L uplo (eps0 E A L uplo * 2 ^ k)).2 ≠ 0)
    (n : Nat) (hn : largest E A L uplo ≤ eps0 E A L uplo * 2 ^ n)
    (hlt : ∀ k, k < n → eps0 E A L uplo * 2 ^ k < largest E A L uplo) :
    chol_retries E A L uplo = n := by
  have hinfo : (chol_final E A L uplo).info ≠ 0 :=
    (chol_final_info_iff E A L uplo hfail hpos).mpr hall
  have hge : largest E A L uplo ≤ eps0 E A L uplo * 2 ^ chol_retries E A L uplo := by
    rcases chol_final_done E A L uplo hpos with h | h
    · exact absurd h hinfo
    · exact h
  have hbelow := chol_iters_below E A L uplo A.size1 (largest E A L uplo)
    (chol_fuel (eps0 E A L uplo) (largest E A L uplo)) (chol_start E A L uplo)
  rcases Nat.lt_trichotomy (chol_retries E A L uplo) n with h | h | h
  · exact absurd (hlt _ h) (not_lt.mpr hge)
  · exact h
  · exact absurd (hbelow n h) (not_lt.mpr hn)

/-- When every attempt fails, `chol` makes the unloaded attempt and `n`
retries, `n` the least exponent whose loading has reached `largest`, and throws. -/
theorem chol_all_fail (E : Ext) (A L : Mat) (uplo : Char) (hpre : chol_pre A L uplo)
    (hfail : (first_attempt E A L uplo).2 ≠ 0) (hpos : 0 < eps0 E A L uplo)
    (hall : ∀ k : Nat, eps0 E A L uplo * 2 ^ k < largest E A L uplo →
      (attempt E A L uplo (eps0 E A L uplo * 2 ^ k)).2 ≠ 0)
    (n : Nat) (hn : largest E A L uplo ≤ eps0 E A L uplo * 2 ^ n)
    (hlt : ∀ k, k < n → eps0 E A L uplo * 2 ^ k < largest E A L uplo) :
    attempts (chol E A L uplo CholeskyStrategy.ADJUST_DIAGONAL).trace
        = L.assign A :: (List.range n).map (fun k => loaded A L (eps0 E A L uplo * 2 ^ k))
    ∧ (chol E A L uplo CholeskyStrategy.ADJUST_DIAGONAL).err
        = some (Err.CholeskyException (chol_final E A L uplo).info)
    ∧ (chol_final E A L uplo).info ≠ 0 := by
  have hr := chol_retries_least E A L uplo hfail hpos hall n hn hlt
  have hinfo : (chol_final E A L uplo).info ≠ 0 :=
    (chol_final_info_iff E A L uplo hfail hpos).mpr hall
  obtain ⟨-, -, he⟩ := chol_retry_run E A L uplo hpre hfail
  refine ⟨?_, by rw [he, if_pos hinfo], hinfo⟩
  rw [(chol_retry_attempts E A L uplo hpre hfail).1, hr]

/-- With `largest ≤ eps0` no loading is tried and `chol` throws the status of
the unloaded attempt. -/
theorem chol_no_loading (E : Ext) (A L : Mat) (uplo : Char) (hpre : chol_pre A L uplo)
    (hfail : (first_attempt E A L uplo).2 ≠ 0) (hpos : 0 < eps0 E A L uplo)
    (hle : largest E A L uplo ≤ eps0 E A L uplo) :
    attempts (chol E A L uplo CholeskyStrategy.ADJUST_DIAGONAL).trace = [L.assign A]
    ∧ (chol E A L uplo CholeskyStrategy.ADJUST_DIAGONAL).err
        = some (Err.CholeskyException (first_attempt E A L uplo).2) := by
  have hall : ∀ k : Nat, eps0 E A L uplo * 2 ^ k < largest E A L uplo →
      (attempt E A L uplo (eps0 E A L uplo * 2 ^ k)).2 ≠ 0 := by
    intro k hk
    exact absurd (lt_of_le_of_lt (mul_two_pow_mono _ hpos k) hk)
      (not_lt.mpr hle)
  have hr : chol_retries E A L uplo = 0 :=
    chol_retries_least E A L uplo hfail hpos hall 0 (by rw [pow_zero, mul_one]; exact hle)
      (fun k hk => absurd hk (Nat.not_lt_zero k))
  obtain ⟨h1, h2, -⟩ := chol_all_fail E A L uplo hpre hfail hpos hall 0
    (by rw [pow_zero, mul_one]; exact hle) (fun k hk => absurd hk (Nat.not_lt_zero k))
  have hi : (chol_final E A L uplo).info = (first_attempt E A L uplo).2 := by
    rcases chol_loop_last E A L uplo A.size1 (largest E A L uplo)
      (chol_fuel (eps0 E A L uplo) (largest E A L uplo)) (chol_start E A L uplo) with
      ⟨-, -, hi⟩ | ⟨m, hm, -, -⟩
    · exact hi.trans (chol_first_result E A L uplo).2.1
    · have : chol_retries E A L uplo = m + 1 := hm
      omega
  refine ⟨by rw [h1]; rfl, by rw [h2, hi]⟩

/-- Entries outside the diagonal of every matrix `chol` hands to the
decomposition are those of `A`. -/
theorem chol_attempts_off_diagonal (E : Ext) (A L : Mat) (uplo : Char)
    (strat : CholeskyStrategy) (hpre : chol_pre A L uplo) :
    ∀ M ∈ attempts (chol E A L uplo strat).trace, ∀ i j, i ≠ j → M.elem i j = A.elem i j := by
  intro M hM i j hij
  by_cases h : (first_attempt E A L uplo).2 = 0 ∨ strat = CholeskyStrategy.FAIL
  · rw [(chol_no_retry E A L uplo strat hpre h).1,
      (chol_first_result E A L uplo).2.2.1] at hM
    rw [List.mem_singleton.mp hM]
    rfl
  · have h1 : (first_attempt E A L uplo).2 ≠ 0 := fun h0 => h (Or.inl h0)
    have h2 : strat = CholeskyStrategy.ADJUST_DIAGONAL := by
      cases strat
      · rfl
      · exact absurd (Or.inr rfl) h
    subst h2
    rw [(chol_retry_attempts E A L uplo hpre h1).1] at hM
    rcases List.mem_cons.mp hM with hM | hM
    · rw [hM]; rfl
    · obtain ⟨k, -, rfl⟩ := List.mem_map.mp hM
      show (if i = j ∧ i < min L.size1 L.size2 then _ else A.elem i j) = _
      rw [if_neg (fun hc => hij hc.1)]

/-- The buffer `chol` leaves in `L` is what the decomposition wrote for the
last matrix it was handed. -/
theorem chol_out_last (E : Ext) (A L : Mat) (uplo : Char) (strat : CholeskyStrategy)
    (hpre : chol_pre A L uplo) :
    ∃ M : Mat, M ∈ attempts (chol E A L uplo strat).trace
      ∧ (chol E A L uplo strat).out.elem
          = (E.potrf (Loc.of L.on_device) uplo A.size1 M).1 := by
  by_cases h : (first_attempt E A L uplo).2 = 0 ∨ strat = CholeskyStrategy.FAIL
  · obtain ⟨ht, ho, -⟩ := chol_no_retry E A L uplo strat hpre h
    refine ⟨L.assign A, ?_, ?_⟩
    · rw [ht, (chol_first_result E A L uplo).2.2.1]
      exact List.mem_singleton.mpr rfl
    · rw [ho]; rfl
  · have h1 : (first_attempt E A L uplo).2 ≠ 0 := fun h0 => h (Or.inl h0)
    have h2 : strat = CholeskyStrategy.ADJUST_DIAGONAL := by
      cases strat
      · rfl
      · exact absurd (Or.inr rfl) h
    subst h2
    obtain ⟨ht, ho, -⟩ := chol_retry_run E A L uplo hpre h1
    obtain ⟨M, hM, -, hb⟩ := chol_final_last E A L uplo
    refine ⟨M, ?_, ?_⟩
    · rw [ht]
      exact List.mem_of_mem_getLast? hM
    · rw [ho]; exact hb

/-- C23: `chol` never zeroes the triangle opposite to `uplo`. If the
decomposition routine writes only the `uplo` triangle (it leaves every entry
strictly above the diagonal as found for `'L'`, strictly below for `'U'`), then
on return from `chol(A, L, uplo)` every entry of `L` in the opposite triangle
equals the entry of `A` there: after a success of the first attempt and after
a retry with a loading alike, the loading touching the diagonal only. -/
theorem chol_keeps_opposite_triangle (E : Ext) (A L : Mat) (uplo : Char)
    (strat : CholeskyStrategy) (hpre : chol_pre A L uplo)
    (hframe : ∀ (loc : Loc) (N : Nat) (M : Mat) (i j : Nat),
      (uplo = 'L' ∧ i < j) ∨ (uplo = 'U' ∧ j < i) →
        (E.potrf loc uplo N M).1 i j = M.elem i j) :
    (∀ i j, (uplo = 'L' ∧ i < j) ∨ (uplo = 'U' ∧ j < i) →
      (chol E A L uplo strat).out.elem i j = A.elem i j)
    ∧ (∀ M ∈ attempts (chol E A L uplo strat).trace, ∀ i j, i ≠ j →
        M.elem i j = A.elem i j)
    ∧ ((first_attempt E A L uplo).2 = 0 → (chol E A L uplo strat).err = none) := by
  refine ⟨fun i j hij => ?_, chol_attempts_off_diagonal E A L uplo strat hpre, fun h0 => ?_⟩
  · obtain ⟨M, hM, ho⟩ := chol_out_last E A L uplo strat hpre
    rw [ho, hframe _ _ M i j hij]
    apply chol_attempts_off_diagonal E A L uplo strat hpre M hM
    rcases hij with ⟨-, h⟩ | ⟨-, h⟩
    · exact Nat.ne_of_lt h
    · exact Nat.ne_of_gt h
  · rw [(chol_no_retry E A L uplo strat hpre (Or.inl h0)).2.2]
    simp [h0]

/-- Witness of C23: `[[4,2],[2,5]]` decomposed at the first attempt, the entry
above the diagonal of the returned `L` being the 2 of `A`; and `diag(1, -2^-53)`,
decomposed after loading, with the 0 of `A` above the diagonal. -/
theorem chol_keeps_opposite_triangle_witness :
    chol_pre spd2 zeros2 'L'
    ∧ (chol spd_ext spd2 zeros2 'L' CholeskyStrategy.ADJUST_DIAGONAL).err = none
    ∧ (chol spd_ext spd2 zeros2 'L' CholeskyStrategy.ADJUST_DIAGONAL).out.elem 0 1 = 2
    ∧ (chol diag_ext (diag2 1 (-1 / 2 ^ 53)) zeros2 'L'
        CholeskyStrategy.ADJUST_DIAGONAL).out.elem 0 1 = 0 := by
  have h1 := chol_keeps_opposite_triangle spd_ext spd2 zeros2 'L'
    CholeskyStrategy.ADJUST_DIAGONAL (by decide)
    (by
      intro loc N M i j hij
      rcases hij with ⟨-, h⟩ | ⟨hu, -⟩
      · simp [spd_ext, Nat.not_le.mpr h]
      · exact absurd hu (by decide))
  have h2 := chol_keeps_opposite_triangle diag_ext (diag2 1 (-1 / 2 ^ 53)) zeros2 'L'
    CholeskyStrategy.ADJUST_DIAGONAL (by decide) (fun _ _ _ _ _ _ => rfl)
  refine ⟨by decide, h1.2.2 (by rw [spd_first_attempt]), ?_, ?_⟩
  · rw [h1.1 0 1 (Or.inl ⟨rfl, by decide⟩)]
    simp [spd2]
  · rw [h2.1 0 1 (Or.inl ⟨rfl, by decide⟩)]
    simp [diag2]

/-- With a positive first loading the diagonal-loading loop of `chol`
terminates: run with the fuel of the model or with any larger fuel it ends in
the same state after the same number of iterations, its condition
`info != 0 && factor < largest` being false there. If the unloaded attempt and
every loading below `largest` fail,
the retries made are those with loadings `eps0·2^k` for `k < n`, where `n` is
the least exponent with `eps0·2^n ≥ largest`, and `chol` throws
`CholeskyException`. With `largest ≤ eps0` (in particular with `largest ≤ 0`)
no retry is made and the exception carries the status of the unloaded attempt. -/
theorem chol_loop_exits_of_pos (E : Ext) (A L : Mat) (uplo : Char)
    (hpre : chol_pre A L uplo) (hfail : (first_attempt E A L uplo).2 ≠ 0)
    (hpos : 0 < eps0 E A L uplo) :
    (∀ extra : Nat,
      chol_loop E A L uplo A.size1 (chol_eps L) (largest E A L uplo)
          (chol_fuel (eps0 E A L uplo) (largest E A L uplo) + extra) (chol_start E A L uplo)
        = chol_final E A L uplo
      ∧ chol_iters E A L uplo A.size1 (chol_eps L) (largest E A L uplo)
          (chol_fuel (eps0 E A L uplo) (largest E A L uplo) + extra) (chol_start E A L uplo)
        = chol_retries E A L uplo)
    ∧ ¬ ((chol_final E A L uplo).info ≠ 0
        ∧ (chol_final E A L uplo).factor < largest E A L uplo)
    ∧ (chol E A L uplo CholeskyStrategy.ADJUST_DIAGONAL).trace = (chol_final E A L uplo).trace
    ∧ ((∀ k : Nat, eps0 E A L uplo * 2 ^ k < largest E A L uplo →
          (attempt E A L uplo (eps0 E A L uplo * 2 ^ k)).2 ≠ 0) →
        (∃ n : Nat, largest E A L uplo ≤ eps0 E A L uplo * 2 ^ n
          ∧ ∀ k, k < n → eps0 E A L uplo * 2 ^ k < largest E A L uplo)
        ∧ ∀ n : Nat, largest E A L uplo ≤ eps0 E A L uplo * 2 ^ n →
          (∀ k, k < n → eps0 E A L uplo * 2 ^ k < largest E A L uplo) →
          attempts (chol E A L uplo CholeskyStrategy.ADJUST_DIAGONAL).trace
            = L.assign A ::
                (List.range n).map (fun k => loaded A L (eps0 E A L uplo * 2 ^ k))
          ∧ ∃ info, info ≠ 0 ∧ (chol E A L uplo CholeskyStrategy.ADJUST_DIAGONAL).err
              = some (Err.CholeskyException info))
    ∧ ((largest E A L uplo ≤ eps0 E A L uplo ∨ largest E A L uplo ≤ 0) →
        attempts (chol E A L uplo CholeskyStrategy.ADJUST_DIAGONAL).trace = [L.assign A]
        ∧ (chol E A L uplo CholeskyStrategy.ADJUST_DIAGONAL).err
            = some (Err.CholeskyException (first_attempt E A L uplo).2)) := by
  refine ⟨fun extra => chol_final_total E A L uplo hpos extra, ?_,
    (chol_retry_run E A L uplo hpre hfail).1, fun hall => ⟨?_, fun n hn hlt => ?_⟩,
    fun hle => ?_⟩
  · exact chol_loop_done E A L uplo A.size1 (chol_eps L) (largest E A L uplo) _
      (chol_start E A L uplo) hpos (chol_fuel_enough _ _ hpos)
  · refine ⟨chol_retries E A L uplo, ?_, (chol_retry_attempts E A L uplo hpre hfail).2⟩
    rcases chol_final_done E A L uplo hpos with h | h
    · exact absurd h ((chol_final_info_iff E A L uplo hfail hpos).mpr hall)
    · exact h
  · obtain ⟨h1, h2, h3⟩ := chol_all_fail E A L uplo hpre hfail hpos hall n hn hlt
    exact ⟨h1, _, h3, h2⟩
  · apply chol_no_loading E A L uplo hpre hfail hpos
    rcases hle with h | h
    · exact h
    · exact le_trans h (le_of_lt hpos)

/-- Two runs with a positive first loading: `diag(1, -1/2)`, where every
loading below `largest = 1` fails and the 53 retries `2^-53·2^k`, `k < 53`, are
made; and `-(1/1000)·I`, where `largest` is negative, no retry is made and
status 1 is thrown. -/
theorem chol_loop_exits_examples :
    chol_pre (diag2 1 (-1 / 2)) zeros2 'L'
    ∧ (first_attempt diag_ext (diag2 1 (-1 / 2)) zeros2 'L').2 ≠ 0
    ∧ attempts (chol diag_ext (diag2 1 (-1 / 2)) zeros2 'L'
        CholeskyStrategy.ADJUST_DIAGONAL).trace
        = zeros2.assign (diag2 1 (-1 / 2)) ::
            (List.range 53).map (fun k => loaded (diag2 1 (-1 / 2)) zeros2
              (eps0 diag_ext (diag2 1 (-1 / 2)) zeros2 'L' * 2 ^ k))
    ∧ attempts (chol diag_ext (diag2 (-1 / 1000) (-1 / 1000)) zeros2 'L'
        CholeskyStrategy.ADJUST_DIAGONAL).trace
        = [zeros2.assign (diag2 (-1 / 1000) (-1 / 1000))]
    ∧ (chol diag_ext (diag2 (-1 / 1000) (-1 / 1000)) zeros2 'L'
        CholeskyStrategy.ADJUST_DIAGONAL).err = some (Err.CholeskyException 1) := by
  have hl : largest diag_ext (diag2 1 (-1 / 2)) zeros2 'L' = 1 := by
    rw [diag_largest]; norm_num
  have he : eps0 diag_ext (diag2 1 (-1 / 2)) zeros2 'L' = 1 / 2 ^ 53 := by
    rw [diag_eps0]; norm_num
  have hf : (first_attempt diag_ext (diag2 1 (-1 / 2)) zeros2 'L').2 ≠ 0 := by
    rw [diag_first_attempt]; norm_num
  have hall : ∀ k : Nat, eps0 diag_ext (diag2 1 (-1 / 2)) zeros2 'L' * 2 ^ k
      < largest diag_ext (diag2 1 (-1 / 2)) zeros2 'L' →
      (attempt diag_ext (diag2 1 (-1 / 2)) zeros2 'L'
        (eps0 diag_ext (diag2 1 (-1 / 2)) zeros2 'L' * 2 ^ k)).2 ≠ 0 := by
    intro k hk
    rw [he, hl] at hk
    rw [he, diag_attempt]
    have hg := half_gap k hk
    have hp : (0 : real) < 1 / 2 ^ 53 * 2 ^ k := by positivity
    rw [if_neg (by linarith), if_pos (by linarith)]
    norm_num
  have h := chol_loop_exits_of_pos diag_ext (diag2 1 (-1 / 2)) zeros2 'L' (by decide) hf
    (diag_eps0_pos _ _)
  have hg2 : (first_attempt diag_ext (diag2 (-1 / 1000) (-1 / 1000)) zeros2 'L').2 = 1 := by
    rw [diag_first_attempt]; norm_num
  have h' := chol_loop_exits_of_pos diag_ext (diag2 (-1 / 1000) (-1 / 1000)) zeros2 'L'
    (by decide) (by rw [hg2]; norm_num) (diag_eps0_pos _ _)
  have hneg := h'.2.2.2.2 (Or.inr (by rw [diag_largest]; norm_num))
  rw [hg2] at hneg
  refine ⟨by decide, hf, ?_, hneg.1, hneg.2⟩
  refine ((h.2.2.2.1 hall).2 53 (by rw [he, hl]; norm_num) ?_).1
  intro k hk
  rw [he, hl]
  have h1 : (2 : real) ^ k ≤ 2 ^ 52 := pow_le_pow_right₀ (by norm_num) (by omega)
  calc (1 / 2 ^ 53 : real) * 2 ^ k ≤ 1 / 2 ^ 53 * 2 ^ 52 := by
        apply mul_le_mul_of_nonneg_left h1; positivity
    _ < 1 := by norm_num

/-- C24: the diagonal-loading loop of `chol` does not always terminate. For
`A = diag(1, -1/2, 2^-1040)` in double precision (53 digits, `amin` and `amax`
by magnitude) the decomposition fails at the second pivot and leaves the
diagonal `(1, -1/2, 2^-1040)`; the smallest value is `2^-1040 > 0`, so the
first loading is the product `2^-53·2^-1040`, which underflows to zero, while
`largest = 1`. The loop condition `info != 0 && factor < largest` then holds
after any number of iterations: every iteration is made, `factor` stays zero,
and each iteration decomposes the unloaded matrix again. -/
theorem chol_loop_never_exits :
    chol_pre (diag3 1 (-1 / 2) (1 / 2 ^ 1040)) zeros3 'L'
    ∧ (first_attempt underflow_ext (diag3 1 (-1 / 2) (1 / 2 ^ 1040)) zeros3 'L').2 = 2
    ∧ (failed_diag underflow_ext (diag3 1 (-1 / 2) (1 / 2 ^ 1040)) zeros3 'L').range
        = [1, -1 / 2, 1 / 2 ^ 1040]
    ∧ eps0 underflow_ext (diag3 1 (-1 / 2) (1 / 2 ^ 1040)) zeros3 'L' = 0
    ∧ largest underflow_ext (diag3 1 (-1 / 2) (1 / 2 ^ 1040)) zeros3 'L' = 1
    ∧ ∀ fuel : Nat,
      ((chol_loop underflow_ext (diag3 1 (-1 / 2) (1 / 2 ^ 1040)) zeros3 'L' 3
            (chol_eps zeros3)
            (largest underflow_ext (diag3 1 (-1 / 2) (1 / 2 ^ 1040)) zeros3 'L') fuel
            (chol_start underflow_ext (diag3 1 (-1 / 2) (1 / 2 ^ 1040)) zeros3 'L')).info ≠ 0
        ∧ (chol_loop underflow_ext (diag3 1 (-1 / 2) (1 / 2 ^ 1040)) zeros3 'L' 3
            (chol_eps zeros3)
            (largest underflow_ext (diag3 1 (-1 / 2) (1 / 2 ^ 1040)) zeros3 'L') fuel
            (chol_start underflow_ext (diag3 1 (-1 / 2) (1 / 2 ^ 1040)) zeros3 'L')).factor
            < largest underflow_ext (diag3 1 (-1 / 2) (1 / 2 ^ 1040)) zeros3 'L')
      ∧ chol_iters underflow_ext (diag3 1 (-1 / 2) (1 / 2 ^ 1040)) zeros3 'L' 3
          (chol_eps zeros3)
          (largest underflow_ext (diag3 1 (-1 / 2) (1 / 2 ^ 1040)) zeros3 'L') fuel
          (chol_start underflow_ext (diag3 1 (-1 / 2) (1 / 2 ^ 1040)) zeros3 'L') = fuel
      ∧ attempts (chol_loop underflow_ext (diag3 1 (-1 / 2) (1 / 2 ^ 1040)) zeros3 'L' 3
          (chol_eps zeros3)
          (largest underflow_ext (diag3 1 (-1 / 2) (1 / 2 ^ 1040)) zeros3 'L') fuel
          (chol_start underflow_ext (diag3 1 (-1 / 2) (1 / 2 ^ 1040)) zeros3 'L')).trace
          = List.replicate (fuel + 1) (zeros3.assign (diag3 1 (-1 / 2) (1 / 2 ^ 1040))) :=
  ⟨by decide, underflow_values.1, underflow_failed_range _ _ _, underflow_values.2.1,
    underflow_values.2.2, underflow_never_exits⟩

/-! ## The two paths of `matrix_axpy` and `matrix_scal` -/

/-- One call of `axpy`, with or without clearing, on operands of one size `m`. -/
theorem axpy_step_clear (a : real) (x y : Vec) (clear : Bool) (m : Nat)
    (hx : x.size = m) (hy : y.size = m) :
    (axpy a x y clear).err = none ∧ (axpy a x y clear).out.size = m
    ∧ (∀ i, i < m →
        (axpy a x y clear).out.elem i = a * x.elem i + (if clear then 0 else y.elem i))
    ∧ blas_calls (axpy a x y clear).trace = [Routine.axpy] := by
  have hpre : x.size = y.size := by rw [hx, hy]
  refine ⟨axpy_err a x y clear hpre, ?_, fun i hi => ?_, ?_⟩
  · rw [axpy_out a x y clear hpre]
    cases clear
    · exact hy
    · exact hy
  · rw [axpy_out a x y clear hpre]
    have hi' : i < y.size := by rw [hy]; exact hi
    cases clear
    · show blas_axpy y.size a x.elem y.elem i = _
      unfold blas_axpy
      rw [if_pos hi']
      rfl
    · show blas_axpy y.size a x.elem y.clear.elem i = _
      unfold blas_axpy
      rw [if_pos hi']
      rfl
  · unfold axpy
    rw [if_pos hpre]
    by_cases hd : y.on_device = true
    · rw [if_pos hd]
      simp [blas_calls]
    · rw [if_neg hd]
      by_cases hs : x.on_device = true
      · simp [blas_calls, hs]
      · simp [blas_calls, hs]

/-- Result of `matrix_axpy` on matrices of equal shape, on either path. -/
theorem matrix_axpy_spec (a : real) (X Y : Mat) (clear : Bool)
    (h1 : X.size1 = Y.size1) (h2 : X.size2 = Y.size2) :
    (matrix_axpy a X Y clear).err = none
    ∧ (∀ i j, i < Y.size1 → j < Y.size2 →
        (matrix_axpy a X Y clear).out.elem i j
          = a * X.elem i j + (if clear then 0 else Y.elem i j))
    ∧ blas_calls (matrix_axpy a X Y clear).trace
        = if X.size1 = X.lead ∧ Y.size1 = Y.lead then [Routine.axpy]
          else List.replicate X.size2 Routine.axpy := by
  by_cases hl : X.size1 = X.lead ∧ Y.size1 = Y.lead
  · obtain ⟨s1, -, s3, s4⟩ := axpy_step_clear a (vec X) (vec Y) clear (Y.size1 * Y.size2)
      (by show X.size1 * X.size2 = _; rw [h1, h2]) rfl
    unfold matrix_axpy
    rw [if_pos ⟨h1, h2⟩, if_pos hl, if_pos hl]
    refine ⟨s1, fun i j hi hj => ?_, s4⟩
    show (if i < Y.size1 ∧ j < Y.size2
      then (axpy a (vec X) (vec Y) clear).out.elem (j * Y.size1 + i) else Y.elem i j) = _
    rw [if_pos ⟨hi, hj⟩, s3 _ (index_lt i j Y.size1 Y.size2 hi hj)]
    show a * X.elem ((j * Y.size1 + i) % X.size1) ((j * Y.size1 + i) / X.size1)
      + (if clear then 0
          else Y.elem ((j * Y.size1 + i) % Y.size1) ((j * Y.size1 + i) / Y.size1)) = _
    rw [h1, (col_index i j Y.size1 hi).1, (col_index i j Y.size1 hi).2]
  · obtain ⟨c1, -, c3, c4⟩ := column_loop Y.size1 Routine.axpy
      (fun k i v => a * X.elem i k + (if clear then 0 else v))
      (fun j y => axpy a (column X j) y clear)
      (fun j y hy => axpy_step_clear a (column X j) y clear Y.size1 h1 hy)
      { trace := [], out := Y, err := none } rfl rfl X.size2
    unfold matrix_axpy
    rw [if_pos ⟨h1, h2⟩, if_neg hl, if_neg hl]
    refine ⟨c1, fun i j hi hj => ?_, ?_⟩
    · rw [c3 i j, if_pos ⟨by rw [h2]; exact hj, hi⟩]
    · rw [c4]
      rfl

/-- C25: the two paths of `matrix_axpy` agree. For matrices `X`, `Y` of equal
shape, whatever their leading dimensions, the call returns normally with
`Y(i,j) = a·X(i,j) + Y_old(i,j)` when `clear` is false and `Y(i,j) = a·X(i,j)`
when it is true; one vendor `axpy` is called when both leading dimensions
equal the row count and one per column otherwise; operands with the same
shape and elements but other leading dimensions give the same elements.
Likewise `matrix_scal` leaves `X(i,j) = alpha·X_old(i,j)` on both of its paths. -/
theorem matrix_axpy_paths_agree (a : real) (X Y : Mat) (clear : Bool)
    (h1 : X.size1 = Y.size1) (h2 : X.size2 = Y.size2) :
    (matrix_axpy a X Y clear).err = none
    ∧ (∀ i j, i < Y.size1 → j < Y.size2 →
        (matrix_axpy a X Y clear).out.elem i j
          = if clear then a * X.elem i j else a * X.elem i j + Y.elem i j)
    ∧ blas_calls (matrix_axpy a X Y clear).trace
        = (if X.size1 = X.lead ∧ Y.size1 = Y.lead then [Routine.axpy]
          else List.replicate X.size2 Routine.axpy)
    ∧ (∀ X' Y' : Mat, X'.size1 = X.size1 → X'.size2 = X.size2 → X'.elem = X.elem →
        Y'.size1 = Y.size1 → Y'.size2 = Y.size2 → Y'.elem = Y.elem →
        ∀ i j, i < Y.size1 → j < Y.size2 →
          (matrix_axpy a X' Y' clear).out.elem i j = (matrix_axpy a X Y clear).out.elem i j)
    ∧ (∀ alpha : real, (matrix_scal alpha X).err = none
        ∧ (∀ i j, i < X.size1 → j < X.size2 →
            (matrix_scal alpha X).out.elem i j = alpha * X.elem i j)
        ∧ blas_calls (matrix_scal alpha X).trace
            = if X.size1 = X.lead then [Routine.scal]
              else List.replicate X.size2 Routine.scal) := by
  obtain ⟨m1, m2, m3⟩ := matrix_axpy_spec a X Y clear h1 h2
  refine ⟨m1, fun i j hi hj => ?_, m3, ?_, fun alpha => ?_⟩
  · rw [m2 i j hi hj]
    cases clear
    · rfl
    · simp
  · intro X' Y' x1 x2 x3 y1 y2 y3 i j hi hj
    obtain ⟨-, n2, -⟩ := matrix_axpy_spec a X' Y' clear (by rw [x1, y1, h1])
      (by rw [x2, y2, h2])
    rw [n2 i j (by rw [y1]; exact hi) (by rw [y2]; exact hj), m2 i j hi hj, x3, y3]
  · obtain ⟨s1, -, s3, s4⟩ := matrix_scal_spec alpha X
    exact ⟨s1, s3, s4⟩

/-- Witness of C25: `[[4,2],[2,3]]` added twice to itself, held without
padding (one vendor call) and with leading dimension 3 (one call per column):
entry `(1,0)` becomes `2·2 + 2 = 6` on both paths. -/
theorem matrix_axpy_paths_agree_witness :
    (matrix_axpy 2 m4223 m4223 false).out.elem 1 0 = 6
    ∧ (matrix_axpy 2 m4223_padded m4223_padded false).out.elem 1 0 = 6
    ∧ blas_calls (matrix_axpy 2 m4223 m4223 false).trace = [Routine.axpy]
    ∧ blas_calls (matrix_axpy 2 m4223_padded m4223_padded false).trace
        = [Routine.axpy, Routine.axpy] := by
  have h := matrix_axpy_paths_agree 2 m4223 m4223 false rfl rfl
  have h' := matrix_axpy_paths_agree 2 m4223_padded m4223_padded false rfl rfl
  refine ⟨?_, ?_, ?_, ?_⟩
  · rw [h.2.1 1 0 (by decide) (by decide)]
    norm_num [m4223]
  · rw [h'.2.1 1 0 (by decide) (by decide)]
    norm_num [m4223_padded, m4223]
  · rw [h.2.2.1]
    rfl
  · rw [h'.2.2.1]
    rfl

/-! ## Leading dimension in `potrs` and barriers in `chol` -/

/-- C26, the code at a failing input: the factor `L` is a device-resident 2×2
view with leading dimension 3 and `X` is a 2×1 host matrix. `potrs` stages `L`
into a host temporary `L1`, whose leading dimension is 2, and passes the
solver the buffer of `L1` with `ldL = 3`, the leading dimension of `L`;
`trsv` with the same matrix passes 2, the leading dimension of its temporary. -/
theorem potrs_passes_lead_of_unstaged :
    (potrs diag_ext spd2_dev_padded (host_zeros 2 1) 'L').err = none
    ∧ (potrs diag_ext spd2_dev_padded (host_zeros 2 1) 'L').trace
        = [Event.map Loc.host Operand.L, Event.synchronize,
           Event.vendor Loc.host Routine.potrs [2, 1, 3, 2],
           Event.release Operand.L]
    ∧ (potrs_staged spd2_dev_padded (host_zeros 2 1)).lead = 2
    ∧ (potrs_staged spd2_dev_padded (host_zeros 2 1)).on_device = false
    ∧ spd2_dev_padded.lead = 3
    ∧ (trsv zero_blas spd2_dev_padded (host_vec 2 (fun _ => 1)) 'L' 'N' 'N').trace
        = [Event.map Loc.host Operand.A, Event.synchronize,
           Event.vendor Loc.host Routine.trsv [2, 2, 1],
           Event.release Operand.A] := by
  refine ⟨?_, ?_, ?_, ?_, rfl, ?_⟩
  · simp [potrs, diag_ext, spd2_dev_padded, host_zeros]
  · simp [potrs, spd2_dev_padded, host_zeros]
  · simp [potrs_staged, host_map_matrix, spd2_dev_padded, host_zeros]
  · simp [potrs_staged, host_map_matrix, spd2_dev_padded, host_zeros]
  · simp [trsv, host_map_matrix, spd2_dev_padded, host_vec]

theorem chol_loop_of_zero (E : Ext) (A L : Mat) (uplo : Char) (N : Nat) (eps : Vec)
    (largest : real) (fuel : Nat) (s : CholState) (h : s.info = 0) :
    chol_loop E A L uplo N eps largest fuel s = s := by
  cases fuel with
  | zero => rfl
  | succ fuel => simp [chol_loop, h]

/-- A loop whose first iteration succeeds ends after that iteration. -/
theorem chol_loop_one (E : Ext) (A L : Mat) (uplo : Char) (N : Nat) (eps : Vec)
    (largest : real) (fuel : Nat) (s : CholState) (hfuel : 0 < fuel)
    (hc : s.info ≠ 0 ∧ s.factor < largest)
    (h0 : (chol_body E A L uplo N eps s).info = 0) :
    chol_loop E A L uplo N eps largest fuel s = chol_body E A L uplo N eps s := by
  obtain ⟨k, rfl⟩ : ∃ k, fuel = k + 1 := ⟨fuel - 1, by omega⟩
  simp only [chol_loop, if_pos hc]
  exact chol_loop_of_zero E A L uplo N eps largest k _ h0

/-- The events one retry adds on the host path: the loading `axpy` and the
decomposition, with no barrier. -/
theorem chol_body_host_trace (E : Ext) (A L : Mat) (uplo : Char) (N : Nat)
    (s : CholState) (hL : L.on_device = false) :
    (chol_body E A L uplo N (chol_eps L) s).trace
      = s.trace ++ [Event.map Loc.host Operand.x,
          Event.vendor Loc.host Routine.axpy [min L.size1 L.size2, 1, L.lead + 1],
          Event.release Operand.x,
          Event.potrf Loc.host uplo N (loaded A L s.factor)] := by
  simp only [chol_body]
  rw [chol_body_matrix]
  simp [hL, axpy, chol_eps, fill, temp_vector, diagonal, Mat.assign, host_map_vector]

/-- C22, the code at a failing input: `A = diag(1, -2^-54)` device-resident,
`L` on the host, strategy `ADJUST_DIAGONAL`. The unloaded attempt fails and the
first retry succeeds. The log of the call holds one barrier, issued after the
first `L = A` and before the first host decomposition; the retry executes
`L = A` again, loads the diagonal and calls the host decomposition with no
barrier in between. -/
theorem chol_retry_without_barrier :
    diag_dev.on_device = true ∧ zeros2.on_device = false
    ∧ (chol diag_ext diag_dev zeros2 'L' CholeskyStrategy.ADJUST_DIAGONAL).err = none
    ∧ (chol diag_ext diag_dev zeros2 'L' CholeskyStrategy.ADJUST_DIAGONAL).trace
        = [Event.synchronize,
           Event.potrf Loc.host 'L' 2 (zeros2.assign diag_dev),
           Event.map Loc.host Operand.x,
           Event.vendor Loc.host Routine.axpy [2, 1, 3],
           Event.release Operand.x,
           Event.potrf Loc.host 'L' 2 (loaded diag_dev zeros2 (1 / 2 ^ 53))]
    ∧ barriers_before_attempts
        (chol diag_ext diag_dev zeros2 'L' CholeskyStrategy.ADJUST_DIAGONAL).trace
        = [1, 0] := by
  have hpre : chol_pre diag_dev zeros2 'L' := by decide
  have hf : (first_attempt diag_ext diag_dev zeros2 'L').2 = 2 := by
    show (first_attempt diag_ext (diag2 1 (-1 / 2 ^ 54)) zeros2 'L').2 = 2
    rw [diag_first_attempt]; norm_num
  have hf0 : (first_attempt diag_ext diag_dev zeros2 'L').2 ≠ 0 := by rw [hf]; norm_num
  have he : eps0 diag_ext diag_dev zeros2 'L' = 1 / 2 ^ 53 := by
    show eps0 diag_ext (diag2 1 (-1 / 2 ^ 54)) zeros2 'L' = _
    rw [diag_eps0]; norm_num
  have hl : largest diag_ext diag_dev zeros2 'L' = 1 := by
    show largest diag_ext (diag2 1 (-1 / 2 ^ 54)) zeros2 'L' = _
    rw [diag_largest]; norm_num
  have hs : (chol_start diag_ext diag_dev zeros2 'L').factor = 1 / 2 ^ 53 := he
  have hc : (chol_start diag_ext diag_dev zeros2 'L').info ≠ 0
      ∧ (chol_start diag_ext diag_dev zeros2 'L').factor
          < largest diag_ext diag_dev zeros2 'L' := by
    refine ⟨?_, by rw [hs, hl]; norm_num⟩
    rw [show (chol_start diag_ext diag_dev zeros2 'L').info
      = (first_attempt diag_ext diag_dev zeros2 'L').2 from
        (chol_first_result diag_ext diag_dev zeros2 'L').2.1]
    exact hf0
  have h0 : (chol_body diag_ext diag_dev zeros2 'L' diag_dev.size1 (chol_eps zeros2)
      (chol_start diag_ext diag_dev zeros2 'L')).info = 0 := by
    rw [(chol_body_result diag_ext diag_dev zeros2 'L' diag_dev.size1 _).2, hs]
    show (attempt diag_ext (diag2 1 (-1 / 2 ^ 54)) zeros2 'L' (1 / 2 ^ 53)).2 = 0
    rw [diag_attempt]; norm_num
  have hfuel : 0 < chol_fuel (eps0 diag_ext diag_dev zeros2 'L')
      (largest diag_ext diag_dev zeros2 'L') := by
    unfold chol_fuel
    rw [he, hl]
    exact Nat.ceil_pos.mpr (by norm_num)
  have hfin : chol_final diag_ext diag_dev zeros2 'L'
      = chol_body diag_ext diag_dev zeros2 'L' diag_dev.size1 (chol_eps zeros2)
          (chol_start diag_ext diag_dev zeros2 'L') :=
    chol_loop_one diag_ext diag_dev zeros2 'L' diag_dev.size1 (chol_eps zeros2) _ _ _
      hfuel hc h0
  obtain ⟨ht, -, herr⟩ := chol_retry_run diag_ext diag_dev zeros2 'L' hpre hf0
  have htrace : (chol diag_ext diag_dev zeros2 'L' CholeskyStrategy.ADJUST_DIAGONAL).trace
      = [Event.synchronize,
         Event.potrf Loc.host 'L' 2 (zeros2.assign diag_dev),
         Event.map Loc.host Operand.x,
         Event.vendor Loc.host Routine.axpy [2, 1, 3],
         Event.release Operand.x,
         Event.potrf Loc.host 'L' 2 (loaded diag_dev zeros2 (1 / 2 ^ 53))] := by
    rw [ht, hfin, chol_body_host_trace _ _ _ _ _ _ rfl, hs]
    rfl
  refine ⟨rfl, rfl, ?_, htrace, ?_⟩
  · rw [herr, hfin, h0]
    rfl
  · rw [htrace]
    rfl

/-! ## Staging of the input operands -/

theorem before_calls_append_left (p : Event → Bool) (s t : List Event)
    (h : before_calls p s = true) : before_calls p (s ++ t) = true := by
  induction s with
  | nil => simp [before_calls] at h
  | cons e s ih =>
    rw [List.cons_append]
    unfold before_calls at h ⊢
    cases hb : e.backend with
    | some b => rw [hb] at h; simp at h
    | none =>
      rw [hb] at h
      simp only [Bool.or_eq_true] at h ⊢
      rcases h with h | h
      · exact Or.inl h
      · exact Or.inr (ih h)

theorem released_append (o : Operand) (s t : List Event)
    (h : released_after_calls o t = true) : released_after_calls o (s ++ t) = true := by
  unfold released_after_calls at h ⊢
  rw [List.reverse_append]
  exact before_calls_append_left _ _ _ h

theorem mapped_append (l : Loc) (o : Operand) (s t : List Event)
    (h : mapped_before_call l o s = true) : mapped_before_call l o (s ++ t) = true :=
  before_calls_append_left _ _ _ h

/-- Staging in `axpy`. -/
theorem axpy_staging (a : real) (x y : Vec) (clear : Bool)
    (hne : (axpy a x y clear).err ≠ some Err.assert) :
    mapped_before_call (Loc.of y.on_device) Operand.x (axpy a x y clear).trace = true
    ∧ released_after_calls Operand.x (axpy a x y clear).trace = true := by
  unfold axpy at hne ⊢
  split at hne
  · rename_i hpre
    rw [if_pos hpre]
    cases hy : y.on_device <;> cases hx : x.on_device <;>
      simp [mapped_before_call, released_after_calls, before_calls, Event.backend,
        Event.is_map, Event.is_release, Loc.of]
  · exact absurd rfl hne

/-- Staging in `gemv`. -/
theorem gemv_staging (alpha : real) (A : Mat) (x : Vec) (beta : real) (y : Vec)
    (transA : Char) (hne : (gemv alpha A x beta y transA).err ≠ some Err.assert) :
    (mapped_before_call (Loc.of y.on_device) Operand.A
        (gemv alpha A x beta y transA).trace = true
      ∧ released_after_calls Operand.A (gemv alpha A x beta y transA).trace = true)
    ∧ (mapped_before_call (Loc.of y.on_device) Operand.x
        (gemv alpha A x beta y transA).trace = true
      ∧ released_after_calls Operand.x (gemv alpha A x beta y transA).trace = true) := by
  unfold gemv at hne ⊢
  split at hne
  · rename_i hpre
    rw [if_pos hpre]
    cases hy : y.on_device <;> cases hx : x.on_device <;> cases hA : A.on_device <;>
      simp [mapped_before_call, released_after_calls, before_calls, Event.backend,
        Event.is_map, Event.is_release, Loc.of]
  · exact absurd rfl hne

/-- Staging in `symv`. -/
theorem symv_staging (B : Blas) (alpha : real) (A : Mat) (x : Vec) (beta : real) (y : Vec)
    (uplo : Char)
    (hne : (symv B alpha A x beta y uplo).err ≠ some Err.assert) :
    (mapped_before_call (Loc.of y.on_device) Operand.A
        (symv B alpha A x beta y uplo).trace = true
      ∧ released_after_calls Operand.A (symv B alpha A x beta y uplo).trace = true)
    ∧ (mapped_before_call (Loc.of y.on_device) Operand.x
        (symv B alpha A x beta y uplo).trace = true
      ∧ released_after_calls Operand.x (symv B alpha A x beta y uplo).trace = true) := by
  unfold symv at hne ⊢
  split at hne
  · rename_i hpre
    rw [if_pos hpre]
    cases hy : y.on_device <;> cases hx : x.on_device <;> cases hA : A.on_device <;>
      simp [mapped_before_call, released_after_calls, before_calls, Event.backend,
        Event.is_map, Event.is_release, Loc.of]
  · exact absurd rfl hne

/-- Staging in `trmv`. -/
theorem trmv_staging (B : Blas) (A : Mat) (x : Vec) (uplo transA : Char)
    (hne : (trmv B A x uplo transA).err ≠ some Err.assert) :
    (mapped_before_call (Loc.of x.on_device) Operand.A
        (trmv B A x uplo transA).trace = true
      ∧ released_after_calls Operand.A (trmv B A x uplo transA).trace = true) := by
  unfold trmv at hne ⊢
  split at hne
  · rename_i hpre
    rw [if_pos hpre]
    cases hx : x.on_device <;> cases hA : A.on_device <;>
      simp [mapped_before_call, released_after_calls, before_calls, Event.backend,
        Event.is_map, Event.is_release, Loc.of]
  · exact absurd rfl hne

/-- Staging in `gdmv`. -/
theorem gdmv_staging (alpha : real) (A x : Vec) (beta : real) (y : Vec)
    (hne : (gdmv alpha A x beta y).err ≠ some Err.assert) :
    (mapped_before_call (Loc.of y.on_device) Operand.A
        (gdmv alpha A x beta y).trace = true
      ∧ released_after_calls Operand.A (gdmv alpha A x beta y).trace = true)
    ∧ (mapped_before_call (Loc.of y.on_device) Operand.x
        (gdmv alpha A x beta y).trace = true
      ∧ released_after_calls Operand.x (gdmv alpha A x beta y).trace = true) := by
  unfold gdmv at hne ⊢
  split at hne
  · rename_i hpre
    rw [if_pos hpre]
    cases hy : y.on_device <;> cases hx : x.on_device <;> cases hA : A.on_device <;>
      simp [mapped_before_call, released_after_calls, before_calls, Event.backend,
        Event.is_map, Event.is_release, Loc.of]
  · exact absurd rfl hne

/-- Staging in `gemm`. -/
theorem gemm_staging (B : Blas) (alpha : real) (A X : Mat) (beta : real) (Y : Mat)
    (transA transX : Char)
    (hne : (gemm B alpha A X beta Y transA transX).err ≠ some Err.assert) :
    (mapped_before_call (Loc.of Y.on_device) Operand.A
        (gemm B alpha A X beta Y transA transX).trace = true
      ∧ released_after_calls Operand.A (gemm B alpha A X beta Y transA transX).trace = true)
    ∧ (mapped_before_call (Loc.of Y.on_device) Operand.X
        (gemm B alpha A X beta Y transA transX).trace = true
      ∧ released_after_calls Operand.X (gemm B alpha A X beta Y transA transX).trace = true) := by
  unfold gemm at hne ⊢
  split at hne
  · rename_i hpre
    rw [if_pos hpre]
    cases hY : Y.on_device <;> cases hX : X.on_device <;> cases hA : A.on_device <;>
      simp [mapped_before_call, released_after_calls, before_calls, Event.backend,
        Event.is_map, Event.is_release, Loc.of]
  · exact absurd rfl hne

/-- Staging in `symm`. -/
theorem symm_staging (B : Blas) (alpha : real) (A X : Mat) (beta : real) (Y : Mat)
    (side uplo : Char)
    (hne : (symm B alpha A X beta Y side uplo).err ≠ some Err.assert) :
    (mapped_before_call (Loc.of Y.on_device) Operand.A
        (symm B alpha A X beta Y side uplo).trace = true
      ∧ released_after_calls Operand.A (symm B alpha A X beta Y side uplo).trace = true)
    ∧ (mapped_before_call (Loc.of Y.on_device) Operand.X
        (symm B alpha A X beta Y side uplo).trace = true
      ∧ released_after_calls Operand.X (symm B alpha A X beta Y side uplo).trace = true) := by
  unfold symm at hne ⊢
  split at hne
  · rename_i hpre
    rw [if_pos hpre]
    cases hY : Y.on_device <;> cases hX : X.on_device <;> cases hA : A.on_device <;>
      simp [mapped_before_call, released_after_calls, before_calls, Event.backend,
        Event.is_map, Event.is_release, Loc.of]
  · exact absurd rfl hne

/-- Staging in `trmm`. -/
theorem trmm_staging (B : Blas) (alpha : real) (A Bm : Mat) (side uplo transA : Char)
    (hne : (trmm B alpha A Bm side uplo transA).err ≠ some Err.assert) :
    (mapped_before_call (Loc.of Bm.on_device) Operand.A
        (trmm B alpha A Bm side uplo transA).trace = true
      ∧ released_after_calls Operand.A (trmm B alpha A Bm side uplo transA).trace = true) := by
  unfold trmm at hne ⊢
  split at hne
  · rename_i hpre
    rw [if_pos hpre]
    cases hBm : Bm.on_device <;> cases hA : A.on_device <;>
      simp [mapped_before_call, released_after_calls, before_calls, Event.backend,
        Event.is_map, Event.is_release, Loc.of]
  · exact absurd rfl hne

/-- Staging in `ger`. -/
theorem ger_staging (B : Blas) (alpha : real) (x y : Vec) (A : Mat) (clear : Bool)
    (hne : (ger B alpha x y A clear).err ≠ some Err.assert) :
    (mapped_before_call (Loc.of A.on_device) Operand.x
        (ger B alpha x y A clear).trace = true
      ∧ released_after_calls Operand.x (ger B alpha x y A clear).trace = true)
    ∧ (mapped_before_call (Loc.of A.on_device) Operand.y
        (ger B alpha x y A clear).trace = true
      ∧ released_after_calls Operand.y (ger B alpha x y A clear).trace = true) := by
  unfold ger at hne ⊢
  split at hne
  · rename_i hpre
    rw [if_pos hpre]
    cases hA : A.on_device <;> cases hx : x.on_device <;> cases hy : y.on_device <;>
      simp [mapped_before_call, released_after_calls, before_calls, Event.backend,
        Event.is_map, Event.is_release, Loc.of]
  · exact absurd rfl hne

/-- Staging in `syr`. -/
theorem syr_staging (B : Blas) (alpha : real) (x : Vec) (A : Mat) (uplo : Char) (clear : Bool)
    (hne : (syr B alpha x A uplo clear).err ≠ some Err.assert) :
    (mapped_before_call (Loc.of A.on_device) Operand.x
        (syr B alpha x A uplo clear).trace = true
      ∧ released_after_calls Operand.x (syr B alpha x A uplo clear).trace = true) := by
  unfold syr at hne ⊢
  split at hne
  · rename_i hpre
    rw [if_pos hpre]
    cases hA : A.on_device <;> cases hx : x.on_device <;>
      simp [mapped_before_call, released_after_calls, before_calls, Event.backend,
        Event.is_map, Event.is_release, Loc.of]
  · exact absurd rfl hne

/-- Staging in `syr2`. -/
theorem syr2_staging (B : Blas) (alpha : real) (x y : Vec) (A : Mat) (uplo : Char)
    (clear : Bool)
    (hne : (syr2 B alpha x y A uplo clear).err ≠ some Err.assert) :
    (mapped_before_call (Loc.of A.on_device) Operand.x
        (syr2 B alpha x y A uplo clear).trace = true
      ∧ released_after_calls Operand.x (syr2 B alpha x y A uplo clear).trace = true)
    ∧ (mapped_before_call (Loc.of A.on_device) Operand.y
        (syr2 B alpha x y A uplo clear).trace = true
      ∧ released_after_calls Operand.y (syr2 B alpha x y A uplo clear).trace = true) := by
  unfold syr2 at hne ⊢
  split at hne
  · rename_i hpre
    rw [if_pos hpre]
    cases hA : A.on_device <;> cases hx : x.on_device <;> cases hy : y.on_device <;>
      simp [mapped_before_call, released_after_calls, before_calls, Event.backend,
        Event.is_map, Event.is_release, Loc.of]
  · exact absurd rfl hne

/-- Staging in `syrk`. -/
theorem syrk_staging (B : Blas) (alpha : real) (A : Mat) (beta : real) (C : Mat)
    (uplo trans : Char)
    (hne : (syrk B alpha A beta C uplo trans).err ≠ some Err.assert) :
    (mapped_before_call (Loc.of C.on_device) Operand.A
        (syrk B alpha A beta C uplo trans).trace = true
      ∧ released_after_calls Operand.A (syrk B alpha A beta C uplo trans).trace = true) := by
  unfold syrk at hne ⊢
  split at hne
  · rename_i hpre
    rw [if_pos hpre]
    cases hC : C.on_device <;> cases hA : A.on_device <;>
      simp [mapped_before_call, released_after_calls, before_calls, Event.backend,
        Event.is_map, Event.is_release, Loc.of]
  · exact absurd rfl hne

/-- Staging in `potrs`. -/
theorem potrs_staging (E : Ext) (L X : Mat) (uplo : Char)
    (hne : (potrs E L X uplo).err ≠ some Err.assert) :
    (mapped_before_call (Loc.of X.on_device) Operand.L
        (potrs E L X uplo).trace = true
      ∧ released_after_calls Operand.L (potrs E L X uplo).trace = true) := by
  unfold potrs at hne ⊢
  split at hne
  · rename_i hpre
    rw [if_pos hpre]
    cases hX : X.on_device <;> cases hL : L.on_device <;>
      simp [mapped_before_call, released_after_calls, before_calls, Event.backend,
        Event.is_map, Event.is_release, Loc.of]
  · exact absurd rfl hne

/-- Staging in `trsv`. -/
theorem trsv_staging (B : Blas) (A : Mat) (x : Vec) (uplo trans diag : Char)
    (hne : (trsv B A x uplo trans diag).err ≠ some Err.assert) :
    (mapped_before_call (Loc.of x.on_device) Operand.A
        (trsv B A x uplo trans diag).trace = true
      ∧ released_after_calls Operand.A (trsv B A x uplo trans diag).trace = true) := by
  unfold trsv at hne ⊢
  split at hne
  · rename_i hpre
    rw [if_pos hpre]
    cases hx : x.on_device <;> cases hA : A.on_device <;>
      simp [mapped_before_call, released_after_calls, before_calls, Event.backend,
        Event.is_map, Event.is_release, Loc.of]
  · exact absurd rfl hne

/-- Staging in `trsm`. -/
theorem trsm_staging (B : Blas) (alpha : real) (A Bm : Mat) (side uplo trans diag : Char)
    (hne : (trsm B alpha A Bm side uplo trans diag).err ≠ some Err.assert) :
    (mapped_before_call (Loc.of Bm.on_device) Operand.A
        (trsm B alpha A Bm side uplo trans diag).trace = true
      ∧ released_after_calls Operand.A (trsm B alpha A Bm side uplo trans diag).trace = true) := by
  unfold trsm at hne ⊢
  split at hne
  · rename_i hpre
    rw [if_pos hpre]
    cases hBm : Bm.on_device <;> cases hA : A.on_device <;>
      simp [mapped_before_call, released_after_calls, before_calls, Event.backend,
        Event.is_map, Event.is_release, Loc.of]
  · exact absurd rfl hne

/-- Staging in `dot`. -/
theorem dot_staging (a b : Vec)
    (hne : (dot a b).err ≠ some Err.assert) :
    (mapped_before_call (Loc.of a.on_device) Operand.a
        (dot a b).trace = true
      ∧ released_after_calls Operand.a (dot a b).trace = true)
    ∧ (mapped_before_call (Loc.of a.on_device) Operand.b
        (dot a b).trace = true
      ∧ released_after_calls Operand.b (dot a b).trace = true) := by
  unfold dot at hne ⊢
  split at hne
  · rename_i hpre
    rw [if_pos hpre]
    cases ha : a.on_device <;> cases hb : b.on_device <;>
      simp [mapped_before_call, released_after_calls, before_calls, Event.backend,
        Event.is_map, Event.is_release, Loc.of]
  · exact absurd rfl hne

/-- The log of a loop starts with the log of its initial state. -/
theorem for_loop_trace_opening {α : Type} (n : Nat) (body : Nat → α → Run α) (init : Run α) :
    ∃ rest, (for_loop n body init).trace = init.trace ++ rest := by
  refine for_loop_induct (fun _ r => ∃ rest, r.trace = init.trace ++ rest) n body init
    ⟨[], (List.append_nil _).symm⟩ ?_
  intro t r _ hr
  obtain ⟨rest, hrest⟩ := hr
  cases he : r.err with
  | some e => rw [next_of_err r _ e he]; exact ⟨rest, hrest⟩
  | none =>
    rw [next_of_ok r _ he]
    exact ⟨rest ++ (body t r.out).trace, by
      show r.trace ++ _ = _
      rw [hrest, List.append_assoc]⟩

/-- A loop whose iterations can only fail an assertion ends normally or on a
failed assertion. -/
theorem for_loop_err_cases {α : Type} (n : Nat) (body : Nat → α → Run α) (init : Run α)
    (hbody : ∀ j Y, (body j Y).err = none ∨ (body j Y).err = some Err.assert)
    (hinit : init.err = none) :
    (for_loop n body init).err = none ∨ (for_loop n body init).err = some Err.assert := by
  refine for_loop_induct (fun _ r => r.err = none ∨ r.err = some Err.assert) n body init
    (Or.inl hinit) ?_
  intro t r _ hr
  cases he : r.err with
  | some e => rw [next_of_err r _ e he]; exact hr
  | none =>
    rw [next_of_ok r _ he]
    exact hbody t r.out

/-- Staging around a column loop: what is staged in the opening events is
staged before the first vendor call, and what the closing events release is
released after the last one. -/
theorem loop_staging (p q : Event → Bool) (n : Nat) (body : Nat → Mat → Run Mat)
    (init : Run Mat) (tail : List Event)
    (hbody : ∀ j Y, (body j Y).err = none ∨ (body j Y).err = some Err.assert)
    (hinit : init.err = none)
    (hp : before_calls p init.trace = true) (hq : before_calls q tail.reverse = true)
    (hne : ((for_loop n body init).finish tail).err ≠ some Err.assert) :
    before_calls p ((for_loop n body init).finish tail).trace = true
    ∧ before_calls q ((for_loop n body init).finish tail).trace.reverse = true := by
  rw [finish_err] at hne
  have hok : (for_loop n body init).err = none := by
    rcases for_loop_err_cases n body init hbody hinit with h | h
    · exact h
    · exact absurd h hne
  obtain ⟨rest, hrest⟩ := for_loop_trace_opening n body init
  rw [finish_of_ok _ tail hok]
  constructor
  · show before_calls p ((for_loop n body init).trace ++ tail) = true
    rw [hrest, List.append_assoc]
    exact before_calls_append_left _ _ _ hp
  · show before_calls q ((for_loop n body init).trace ++ tail).reverse = true
    rw [List.reverse_append]
    exact before_calls_append_left _ _ _ hq

theorem gdmm_scale_opening (pre : List Event) (beta : real) (Y : Mat) :
    (gdmm_scale pre beta Y).err = none
    ∧ ∃ rest, (gdmm_scale pre beta Y).trace = pre ++ rest := by
  unfold gdmm_scale
  split
  · exact ⟨rfl, [], (List.append_nil _).symm⟩
  · exact ⟨(matrix_scal_spec beta Y).1, _, rfl⟩

/-- Staging in `gdmm`: `X` is staged at the location of `Y`; so is `A`, except
on the device path with the diagonal matrix on the right, where `A` is staged
on the host. -/
theorem gdmm_staging (alpha : real) (A : Vec) (X : Mat) (beta : real) (Y : Mat)
    (side : Char) :
    (gdmm alpha A X beta Y side).err ≠ some Err.assert →
    (mapped_before_call (Loc.of Y.on_device) Operand.X
        (gdmm alpha A X beta Y side).trace = true
      ∧ released_after_calls Operand.X (gdmm alpha A X beta Y side).trace = true)
    ∧ (mapped_before_call
        (if Y.on_device = true ∧ side ≠ 'L' then Loc.host else Loc.of Y.on_device) Operand.A
        (gdmm alpha A X beta Y side).trace = true
      ∧ released_after_calls Operand.A (gdmm alpha A X beta Y side).trace = true) := by
  unfold gdmm
  split
  · by_cases hY : Y.on_device = true
    · have hLoc : Loc.of Y.on_device = Loc.device := by simp [Loc.of, hY]
      rw [if_pos hY, hLoc]
      dsimp only
      by_cases hs : side = 'L'
      · rw [if_pos hs,
          if_neg (show ¬ (Y.on_device = true ∧ side ≠ 'L') from fun h => h.2 hs)]
        intro hne
        have hX := loop_staging (Event.is_map Loc.device Operand.X) (Event.is_release Operand.X)
          (gpu_map_matrix X).size2 _ (Run.mk ([Event.map Loc.device Operand.X, Event.map Loc.device Operand.A]) Y none)
          [Event.synchronize, Event.release Operand.A, Event.release Operand.X]
          (fun j Y => (gdmm_gdmv_step alpha (gpu_map_vector A) (gpu_map_matrix X) beta Y.on_device j Y rfl).2.1)
          rfl
          (by simp [before_calls, Event.backend, Event.is_map])
          (by simp [before_calls, Event.backend, Event.is_release]) hne
        have hA := loop_staging (Event.is_map Loc.device Operand.A) (Event.is_release Operand.A)
          (gpu_map_matrix X).size2 _ (Run.mk ([Event.map Loc.device Operand.X, Event.map Loc.device Operand.A]) Y none)
          [Event.synchronize, Event.release Operand.A, Event.release Operand.X]
          (fun j Y => (gdmm_gdmv_step alpha (gpu_map_vector A) (gpu_map_matrix X) beta Y.on_device j Y rfl).2.1)
          rfl
          (by simp [before_calls, Event.backend, Event.is_map])
          (by simp [before_calls, Event.backend, Event.is_release]) hne
        exact ⟨hX, hA⟩
      · rw [if_neg hs, if_pos (show Y.on_device = true ∧ side ≠ 'L' from ⟨hY, hs⟩)]
        intro hne
        have hX := loop_staging (Event.is_map Loc.device Operand.X) (Event.is_release Operand.X)
          (gpu_map_matrix X).size2 _ (gdmm_scale ([Event.map Loc.device Operand.X, Event.map Loc.host Operand.A]
            ++ (if A.on_device then [Event.synchronize] else [])) beta Y)
          [Event.synchronize, Event.release Operand.A, Event.release Operand.X]
          (fun j Y => (gdmm_axpy_step (fun j => alpha * (host_map_vector A).elem j) (gpu_map_matrix X)
            Y.on_device j Y rfl).2.1)
          (gdmm_scale_opening _ beta Y).1
          (by
            obtain ⟨rest, hrest⟩ := (gdmm_scale_opening ([Event.map Loc.device Operand.X, Event.map Loc.host Operand.A]
            ++ (if A.on_device then [Event.synchronize] else [])) beta Y).2
            rw [hrest]
            exact before_calls_append_left _ _ _ (before_calls_append_left _ [Event.map Loc.device Operand.X, Event.map Loc.host Operand.A] _ (by simp [before_calls, Event.backend, Event.is_map])))
          (by simp [before_calls, Event.backend, Event.is_release]) hne
        have hA := loop_staging (Event.is_map Loc.host Operand.A) (Event.is_release Operand.A)
          (gpu_map_matrix X).size2 _ (gdmm_scale ([Event.map Loc.device Operand.X, Event.map Loc.host Operand.A]
            ++ (if A.on_device then [Event.synchronize] else [])) beta Y)
          [Event.synchronize, Event.release Operand.A, Event.release Operand.X]
          (fun j Y => (gdmm_axpy_step (fun j => alpha * (host_map_vector A).elem j) (gpu_map_matrix X)
            Y.on_device j Y rfl).2.1)
          (gdmm_scale_opening _ beta Y).1
          (by
            obtain ⟨rest, hrest⟩ := (gdmm_scale_opening ([Event.map Loc.device Operand.X, Event.map Loc.host Operand.A]
            ++ (if A.on_device then [Event.synchronize] else [])) beta Y).2
            rw [hrest]
            exact before_calls_append_left _ _ _ (before_calls_append_left _ [Event.map Loc.device Operand.X, Event.map Loc.host Operand.A] _ (by simp [before_calls, Event.backend, Event.is_map])))
          (by simp [before_calls, Event.backend, Event.is_release]) hne
        exact ⟨hX, hA⟩
    · have hLoc : Loc.of Y.on_device = Loc.host := by simp [Loc.of, hY]
      rw [if_neg hY, hLoc,
        if_neg (show ¬ (Y.on_device = true ∧ side ≠ 'L') from fun h => hY h.1)]
      dsimp only
      by_cases hs : side = 'L'
      · rw [if_pos hs]
        intro hne
        have hX := loop_staging (Event.is_map Loc.host Operand.X) (Event.is_release Operand.X)
          (host_map_matrix X).size2 _ (Run.mk ([Event.map Loc.host Operand.A, Event.map Loc.host Operand.X]
            ++ (if A.on_device ∨ X.on_device then [Event.synchronize] else [])) Y none)
          [Event.release Operand.A, Event.release Operand.X]
          (fun j Y => (gdmm_gdmv_step alpha (host_map_vector A) (host_map_matrix X) beta Y.on_device j Y rfl).2.1)
          rfl
          (before_calls_append_left _ [Event.map Loc.host Operand.A, Event.map Loc.host Operand.X] _ (by simp [before_calls, Event.backend, Event.is_map]))
          (by simp [before_calls, Event.backend, Event.is_release]) hne
        have hA := loop_staging (Event.is_map Loc.host Operand.A) (Event.is_release Operand.A)
          (host_map_matrix X).size2 _ (Run.mk ([Event.map Loc.host Operand.A, Event.map Loc.host Operand.X]
            ++ (if A.on_device ∨ X.on_device then [Event.synchronize] else [])) Y none)
          [Event.release Operand.A, Event.release Operand.X]
          (fun j Y => (gdmm_gdmv_step alpha (host_map_vector A) (host_map_matrix X) beta Y.on_device j Y rfl).2.1)
          rfl
          (before_calls_append_left _ [Event.map Loc.host Operand.A, Event.map Loc.host Operand.X] _ (by simp [before_calls, Event.backend, Event.is_map]))
          (by simp [before_calls, Event.backend, Event.is_release]) hne
        exact ⟨hX, hA⟩
      · rw [if_neg hs]
        intro hne
        have hX := loop_staging (Event.is_map Loc.host Operand.X) (Event.is_release Operand.X)
          (host_map_matrix X).size2 _ (gdmm_scale ([Event.map Loc.host Operand.A, Event.map Loc.host Operand.X]
            ++ (if A.on_device ∨ X.on_device then [Event.synchronize] else [])) beta Y)
          [Event.release Operand.A, Event.release Operand.X]
          (fun j Y => (gdmm_axpy_step (fun j => alpha * (host_map_vector A).elem j) (host_map_matrix X)
            Y.on_device j Y rfl).2.1)
          (gdmm_scale_opening _ beta Y).1
          (by
            obtain ⟨rest, hrest⟩ := (gdmm_scale_opening ([Event.map Loc.host Operand.A, Event.map Loc.host Operand.X]
            ++ (if A.on_device ∨ X.on_device then [Event.synchronize] else [])) beta Y).2
            rw [hrest]
            exact before_calls_append_left _ _ _ (before_calls_append_left _ [Event.map Loc.host Operand.A, Event.map Loc.host Operand.X] _ (by simp [before_calls, Event.backend, Event.is_map])))
          (by simp [before_calls, Event.backend, Event.is_release]) hne
        have hA := loop_staging (Event.is_map Loc.host Operand.A) (Event.is_release Operand.A)
          (host_map_matrix X).size2 _ (gdmm_scale ([Event.map Loc.host Operand.A, Event.map Loc.host Operand.X]
            ++ (if A.on_device ∨ X.on_device then [Event.synchronize] else [])) beta Y)
          [Event.release Operand.A, Event.release Operand.X]
          (fun j Y => (gdmm_axpy_step (fun j => alpha * (host_map_vector A).elem j) (host_map_matrix X)
            Y.on_device j Y rfl).2.1)
          (gdmm_scale_opening _ beta Y).1
          (by
            obtain ⟨rest, hrest⟩ := (gdmm_scale_opening ([Event.map Loc.host Operand.A, Event.map Loc.host Operand.X]
            ++ (if A.on_device ∨ X.on_device then [Event.synchronize] else [])) beta Y).2
            rw [hrest]
            exact before_calls_append_left _ _ _ (before_calls_append_left _ [Event.map Loc.host Operand.A, Event.map Loc.host Operand.X] _ (by simp [before_calls, Event.backend, Event.is_map])))
          (by simp [before_calls, Event.backend, Event.is_release]) hne
        exact ⟨hX, hA⟩
  · intro hne
    exact absurd rfl hne

theorem stagings_append (o : Operand) (s t : List Event) :
    stagings o (s ++ t) = stagings o s ++ stagings o t := by
  induction s with
  | nil => rfl
  | cons e s ih =>
    cases e with
    | map l o' =>
      by_cases h : o' = o
      · simp [stagings, h, ih]
      · simp [stagings, h, ih]
    | release o' => simpa [stagings] using ih
    | synchronize => simpa [stagings] using ih
    | vendor b r d => simpa [stagings] using ih
    | potrf b u n M => simpa [stagings] using ih

/-- An operand staged at `l` before the first vendor call is staged at `l`. -/
theorem mapped_mem_stagings (l : Loc) (o : Operand) (tr : List Event)
    (h : mapped_before_call l o tr = true) : l ∈ stagings o tr := by
  unfold mapped_before_call at h
  induction tr with
  | nil => simp [before_calls] at h
  | cons e t ih =>
    cases e with
    | map l' o' =>
      simp only [before_calls, Event.backend, Event.is_map, Bool.or_eq_true,
        Bool.and_eq_true, decide_eq_true_eq] at h
      rcases h with ⟨h1, h2⟩ | h
      · simp [stagings, h1, h2]
      · by_cases ho : o' = o
        · simp [stagings, ho, ih h]
        · simp [stagings, ho, ih h]
    | release o' =>
      simp only [before_calls, Event.backend, Event.is_map, Bool.false_or] at h
      simpa [stagings] using ih h
    | synchronize =>
      simp only [before_calls, Event.backend, Event.is_map, Bool.false_or] at h
      simpa [stagings] using ih h
    | vendor b r d => simp [before_calls, Event.backend] at h
    | potrf b u n M => simp [before_calls, Event.backend] at h

/-- `axpy` stages its operand `x` only. -/
theorem axpy_stagings (a : real) (x y : Vec) (clear : Bool) (o : Operand)
    (ho : o ≠ Operand.x) : stagings o (axpy a x y clear).trace = [] := by
  have ho' : ¬ Operand.x = o := fun h => ho h.symm
  unfold axpy
  split
  · cases hy : y.on_device <;> cases hx : x.on_device <;> simp [stagings, ho']
  · rfl

/-- `scal` stages nothing. -/
theorem scal_stagings (alpha : real) (x : Vec) (o : Operand) :
    stagings o (scal alpha x).trace = [] := by
  unfold scal
  split <;> rfl

/-- A loop whose iterations do not stage `o` stages what its initial log does. -/
theorem loop_stagings {α : Type} (o : Operand) (n : Nat) (body : Nat → α → Run α)
    (init : Run α) (hbody : ∀ j Y, stagings o (body j Y).trace = []) :
    stagings o (for_loop n body init).trace = stagings o init.trace := by
  refine for_loop_induct (fun _ r => stagings o r.trace = stagings o init.trace) n body init
    rfl ?_
  intro t r _ hr
  cases he : r.err with
  | some e => rw [next_of_err r _ e he]; exact hr
  | none =>
    rw [next_of_ok r _ he]
    show stagings o (r.trace ++ (body t r.out).trace) = _
    rw [stagings_append, hbody, List.append_nil, hr]

theorem matrix_scal_stagings (alpha : real) (X : Mat) (o : Operand) :
    stagings o (matrix_scal alpha X).trace = [] := by
  unfold matrix_scal
  split
  · exact scal_stagings alpha (vec X) o
  · exact loop_stagings o X.size2 _ _ (fun j Y => scal_stagings alpha (column Y j) o)

theorem finish_stagings {α : Type} (o : Operand) (r : Run α) (tail : List Event)
    (ht : stagings o tail = []) : stagings o (r.finish tail).trace = stagings o r.trace := by
  cases he : r.err with
  | some e => rw [finish_of_err r tail e he]
  | none =>
    rw [finish_of_ok r tail he]
    show stagings o (r.trace ++ tail) = _
    rw [stagings_append, ht, List.append_nil]

/-- On the device path of `gdmm` with the diagonal matrix on the right, `A` is
staged once, on the host. -/
theorem gdmm_right_device_stagings (alpha : real) (A : Vec) (X : Mat) (beta : real)
    (Y : Mat) (hY : Y.on_device = true)
    (hpre : X.size2 = A.size ∧ Y.size1 = X.size1 ∧ Y.size2 = A.size) :
    stagings Operand.A (gdmm alpha A X beta Y 'R').trace = [Loc.host] := by
  have hp : ('R' = 'L' ∨ 'R' = 'R')
      ∧ ('R' ≠ 'L' ∨ (A.size = Y.size1 ∧ Y.size1 = A.size ∧ Y.size2 = X.size2))
      ∧ ('R' ≠ 'R' ∨ (X.size2 = A.size ∧ Y.size1 = X.size1 ∧ Y.size2 = A.size)) :=
    ⟨Or.inr rfl, Or.inl (by decide), Or.inr hpre⟩
  have e : gdmm alpha A X beta Y 'R' = (for_loop (gpu_map_matrix X).size2
      (fun j Y => on_column Y j
        (axpy (alpha * (host_map_vector A).elem j) (column (gpu_map_matrix X) j)
          (column Y j) false))
      (gdmm_scale ([Event.map Loc.device Operand.X, Event.map Loc.host Operand.A]
        ++ (if A.on_device then [Event.synchronize] else [])) beta Y)).finish
      [Event.synchronize, Event.release Operand.A, Event.release Operand.X] := by
    unfold gdmm
    rw [if_pos hp, if_pos hY]
    exact if_neg (by decide)
  have hinit : stagings Operand.A
      (gdmm_scale ([Event.map Loc.device Operand.X, Event.map Loc.host Operand.A]
        ++ (if A.on_device then [Event.synchronize] else [])) beta Y).trace = [Loc.host] := by
    have hpre' : stagings Operand.A
        ([Event.map Loc.device Operand.X, Event.map Loc.host Operand.A]
          ++ (if A.on_device then [Event.synchronize] else [])) = [Loc.host] := by
      cases A.on_device <;> simp [stagings]
    unfold gdmm_scale
    split
    · exact hpre'
    · show stagings Operand.A (_ ++ (matrix_scal beta Y).trace) = _
      rw [stagings_append, matrix_scal_stagings, List.append_nil, hpre']
  have hloop := loop_stagings Operand.A (gpu_map_matrix X).size2
    (fun j Y => on_column Y j
      (axpy (alpha * (host_map_vector A).elem j) (column (gpu_map_matrix X) j)
        (column Y j) false))
    (gdmm_scale ([Event.map Loc.device Operand.X, Event.map Loc.host Operand.A]
      ++ (if A.on_device then [Event.synchronize] else [])) beta Y)
    (fun j Y => axpy_stagings (alpha * (host_map_vector A).elem j)
      (column (gpu_map_matrix X) j) (column Y j) false Operand.A (by decide))
  rw [e, finish_stagings Operand.A _
    [Event.synchronize, Event.release Operand.A, Event.release Operand.X] rfl, hloop, hinit]

theorem chol_first_stagings (E : Ext) (A L : Mat) (uplo : Char) (N : Nat) (o : Operand) :
    stagings o (chol_first E A L uplo N).trace = [] := by
  unfold chol_first
  cases L.on_device <;> cases A.on_device <;> simp [stagings]

theorem chol_body_stagings (E : Ext) (A L : Mat) (uplo : Char) (N : Nat) (eps : Vec)
    (s : CholState) (o : Operand) (ho : o ≠ Operand.x) (hs : stagings o s.trace = []) :
    stagings o (chol_body E A L uplo N eps s).trace = [] := by
  obtain ⟨M, hM⟩ := chol_body_trace E A L uplo N eps s
  rw [hM, stagings_append, stagings_append, hs, axpy_stagings _ _ _ _ o ho]
  cases L.on_device <;> simp [stagings]

theorem chol_loop_stagings (E : Ext) (A L : Mat) (uplo : Char) (N : Nat) (eps : Vec)
    (largest : real) (o : Operand) (ho : o ≠ Operand.x) (fuel : Nat) :
    ∀ s : CholState, stagings o s.trace = [] →
      stagings o (chol_loop E A L uplo N eps largest fuel s).trace = [] := by
  induction fuel with
  | zero => intro s hs; exact hs
  | succ fuel ih =>
    intro s hs
    by_cases h : s.info ≠ 0 ∧ s.factor < largest
    · simp only [chol_loop, if_pos h]
      exact ih _ (chol_body_stagings E A L uplo N eps s o ho hs)
    · simp only [chol_loop, if_neg h]
      exact hs

/-- `chol` stages none of its operands: `A` reaches the buffer of `L` by the
assignment `L = A`. -/
theorem chol_stagings (E : Ext) (A L : Mat) (uplo : Char) (strat : CholeskyStrategy)
    (o : Operand) (ho : o ≠ Operand.x) :
    stagings o (chol E A L uplo strat).trace = [] := by
  unfold chol
  split
  · dsimp only
    split
    · unfold chol_adjust
      exact chol_loop_stagings E A L uplo A.size1 _ _ o ho _ _
        (chol_first_stagings E A L uplo A.size1 o)
    · exact chol_first_stagings E A L uplo A.size1 o
  · rfl

/-- The outer assertion of `gdmm` holds in every run that does not end on a
failed assertion. -/
theorem gdmm_pre_of_ok (alpha : real) (A : Vec) (X : Mat) (beta : real) (Y : Mat)
    (side : Char) (hne : (gdmm alpha A X beta Y side).err ≠ some Err.assert) :
    (side = 'L' ∨ side = 'R')
    ∧ (side ≠ 'L' ∨ (A.size = Y.size1 ∧ Y.size1 = A.size ∧ Y.size2 = X.size2))
    ∧ (side ≠ 'R' ∨ (X.size2 = A.size ∧ Y.size1 = X.size1 ∧ Y.size2 = A.size)) := by
  by_contra hc
  apply hne
  unfold gdmm
  rw [if_neg hc]

/-- Staging in every primitive with an output operand, `chol` and the device
path of `gdmm` with the diagonal matrix on the right apart. -/
theorem call_staging (E : Ext) (B : Blas) (c : Call)
    (hne : c.err E B ≠ some Err.assert)
    (hchol : ∀ A L uplo strat, c ≠ Call.chol A L uplo strat)
    (hgdmm : ∀ alpha A X beta Y side, c = Call.gdmm alpha A X beta Y side →
      Y.on_device = true → side = 'L') :
    ∀ o ∈ c.inputs,
      mapped_before_call (Loc.of c.output_on_device) o (c.trace E B) = true
      ∧ released_after_calls o (c.trace E B) = true := by
  intro o ho
  cases c with
  | axpy a x y clear =>
    simp only [Call.inputs, List.mem_singleton] at ho
    subst ho
    exact axpy_staging a x y clear hne
  | gemv alpha A x beta y transA =>
    simp only [Call.inputs, List.mem_cons, List.mem_singleton, List.not_mem_nil,
      or_false] at ho
    rcases ho with rfl | rfl
    · exact (gemv_staging alpha A x beta y transA hne).1
    · exact (gemv_staging alpha A x beta y transA hne).2
  | symv alpha A x beta y uplo =>
    simp only [Call.inputs, List.mem_cons, List.mem_singleton, List.not_mem_nil,
      or_false] at ho
    rcases ho with rfl | rfl
    · exact (symv_staging B alpha A x beta y uplo hne).1
    · exact (symv_staging B alpha A x beta y uplo hne).2
  | trmv A x uplo transA =>
    simp only [Call.inputs, List.mem_singleton] at ho
    subst ho
    exact trmv_staging B A x uplo transA hne
  | gdmv alpha A x beta y =>
    simp only [Call.inputs, List.mem_cons, List.mem_singleton, List.not_mem_nil,
      or_false] at ho
    rcases ho with rfl | rfl
    · exact (gdmv_staging alpha A x beta y hne).1
    · exact (gdmv_staging alpha A x beta y hne).2
  | gemm alpha A X beta Y transA transX =>
    simp only [Call.inputs, List.mem_cons, List.mem_singleton, List.not_mem_nil,
      or_false] at ho
    rcases ho with rfl | rfl
    · exact (gemm_staging B alpha A X beta Y transA transX hne).1
    · exact (gemm_staging B alpha A X beta Y transA transX hne).2
  | symm alpha A X beta Y side uplo =>
    simp only [Call.inputs, List.mem_cons, List.mem_singleton, List.not_mem_nil,
      or_false] at ho
    rcases ho with rfl | rfl
    · exact (symm_staging B alpha A X beta Y side uplo hne).1
    · exact (symm_staging B alpha A X beta Y side uplo hne).2
  | trmm alpha A Bm side uplo transA =>
    simp only [Call.inputs, List.mem_singleton] at ho
    subst ho
    exact trmm_staging B alpha A Bm side uplo transA hne
  | gdmm alpha A X beta Y side =>
    have hs := gdmm_staging alpha A X beta Y side hne
    have hloc : (if Y.on_device = true ∧ side ≠ 'L' then Loc.host else Loc.of Y.on_device)
        = Loc.of Y.on_device := by
      rw [if_neg (fun h => h.2 (hgdmm alpha A X beta Y side rfl h.1))]
    rw [hloc] at hs
    simp only [Call.inputs, List.mem_cons, List.mem_singleton, List.not_mem_nil,
      or_false] at ho
    rcases ho with rfl | rfl
    · exact hs.2
    · exact hs.1
  | ger alpha x y A clear =>
    simp only [Call.inputs, List.mem_cons, List.mem_singleton, List.not_mem_nil,
      or_false] at ho
    rcases ho with rfl | rfl
    · exact (ger_staging B alpha x y A clear hne).1
    · exact (ger_staging B alpha x y A clear hne).2
  | syr alpha x A uplo clear =>
    simp only [Call.inputs, List.mem_singleton] at ho
    subst ho
    exact syr_staging B alpha x A uplo clear hne
  | syr2 alpha x y A uplo clear =>
    simp only [Call.inputs, List.mem_cons, List.mem_singleton, List.not_mem_nil,
      or_false] at ho
    rcases ho with rfl | rfl
    · exact (syr2_staging B alpha x y A uplo clear hne).1
    · exact (syr2_staging B alpha x y A uplo clear hne).2
  | syrk alpha A beta C uplo t =>
    simp only [Call.inputs, List.mem_singleton] at ho
    subst ho
    exact syrk_staging B alpha A beta C uplo t hne
  | potrs L X uplo =>
    simp only [Call.inputs, List.mem_singleton] at ho
    subst ho
    exact potrs_staging E L X uplo hne
  | trsv A x uplo t diag =>
    simp only [Call.inputs, List.mem_singleton] at ho
    subst ho
    exact trsv_staging B A x uplo t diag hne
  | trsm alpha A Bm side uplo t diag =>
    simp only [Call.inputs, List.mem_singleton] at ho
    subst ho
    exact trsm_staging B alpha A Bm side uplo t diag hne
  | chol A L uplo strat => exact absurd rfl (hchol A L uplo strat)

/-- The first matrix `chol` decomposes is the copy of `A` held in `L`. -/
theorem chol_first_on_copy (E : Ext) (A L : Mat) (uplo : Char) (strat : CholeskyStrategy)
    (hpre : chol_pre A L uplo) :
    (attempts (chol E A L uplo strat).trace).head? = some (L.assign A) := by
  by_cases h : (first_attempt E A L uplo).2 = 0 ∨ strat = CholeskyStrategy.FAIL
  · rw [(chol_no_retry E A L uplo strat hpre h).1, (chol_first_result E A L uplo).2.2.1]
    rfl
  · have h1 : (first_attempt E A L uplo).2 ≠ 0 := fun h0 => h (Or.inl h0)
    have h2 : strat = CholeskyStrategy.ADJUST_DIAGONAL := by
      cases strat
      · rfl
      · exact absurd (Or.inr rfl) h
    subst h2
    rw [(chol_retry_attempts E A L uplo hpre h1).1]
    rfl

/-- C21 (amended): in each of `axpy`, `gemv`, `symv`, `trmv`, `gdmv`, `gemm`,
`symm`, `trmm`, `gdmm`, `ger`, `syr`, `syr2`, `syrk`, `potrs`, `trsv`, `trsm`
that passes its assertions, every non-output operand is staged at the location
of the output operand before the first vendor call and released after the
last one, except that `gdmm` on the device path with the diagonal matrix on
the right stages `A` on the host, once, and releases it at the end; `dot`
stages both operands at the location of its first operand; `chol` stages
nothing: the first matrix it decomposes is the copy of `A` made by `L = A`. -/
theorem staging_spec (E : Ext) (B : Blas) :
    (∀ c : Call, c.err E B ≠ some Err.assert →
      (∀ A L uplo strat, c ≠ Call.chol A L uplo strat) →
      (∀ alpha A X beta Y side, c = Call.gdmm alpha A X beta Y side →
        Y.on_device = true → side = 'L') →
      ∀ o ∈ c.inputs,
        mapped_before_call (Loc.of c.output_on_device) o (c.trace E B) = true
        ∧ released_after_calls o (c.trace E B) = true)
    ∧ (∀ alpha A X beta Y, Y.on_device = true →
        (gdmm alpha A X beta Y 'R').err ≠ some Err.assert →
        mapped_before_call Loc.host Operand.A (gdmm alpha A X beta Y 'R').trace = true
        ∧ released_after_calls Operand.A (gdmm alpha A X beta Y 'R').trace = true
        ∧ stagings Operand.A (gdmm alpha A X beta Y 'R').trace = [Loc.host]
        ∧ mapped_before_call Loc.device Operand.X (gdmm alpha A X beta Y 'R').trace = true
        ∧ released_after_calls Operand.X (gdmm alpha A X beta Y 'R').trace = true)
    ∧ (∀ a b : Vec, (dot a b).err ≠ some Err.assert →
        (mapped_before_call (Loc.of a.on_device) Operand.a (dot a b).trace = true
          ∧ released_after_calls Operand.a (dot a b).trace = true)
        ∧ (mapped_before_call (Loc.of a.on_device) Operand.b (dot a b).trace = true
          ∧ released_after_calls Operand.b (dot a b).trace = true))
    ∧ (∀ A L uplo strat, stagings Operand.A (chol E A L uplo strat).trace = []
        ∧ (chol_pre A L uplo →
            (attempts (chol E A L uplo strat).trace).head? = some (L.assign A))) := by
  refine ⟨fun c hne hchol hgdmm => call_staging E B c hne hchol hgdmm, ?_,
    fun a b hne => dot_staging a b hne, fun A L uplo strat =>
      ⟨chol_stagings E A L uplo strat Operand.A (by decide),
        chol_first_on_copy E A L uplo strat⟩⟩
  intro alpha A X beta Y hY hne
  have hs := gdmm_staging alpha A X beta Y 'R' hne
  have hloc : (if Y.on_device = true ∧ 'R' ≠ 'L' then Loc.host else Loc.of Y.on_device)
      = Loc.host := by
    rw [if_pos ⟨hY, by decide⟩]
  have hdev : Loc.of Y.on_device = Loc.device := by simp [Loc.of, hY]
  rw [hloc, hdev] at hs
  have hpre := (gdmm_pre_of_ok alpha A X beta Y 'R' hne).2.2
  rcases hpre with hpre | hpre
  · exact absurd rfl hpre
  · exact ⟨hs.2.1, hs.2.2, gdmm_right_device_stagings alpha A X beta Y hY hpre,
      hs.1.1, hs.1.2⟩

/-- Witness of C21 (amended): `gemm` with both inputs on the device and the
output on the host stages `A` on the host and releases it; `gdmm` with `Y` on
the device and the diagonal matrix on the right stages `A` on the host. -/
theorem staging_spec_witness :
    mapped_before_call Loc.host Operand.A
        (gemm zero_blas 1 (spd2.at_loc true) (spd2.at_loc true) 0 zeros2 'N' 'N').trace = true
    ∧ released_after_calls Operand.A
        (gemm zero_blas 1 (spd2.at_loc true) (spd2.at_loc true) 0 zeros2 'N' 'N').trace = true
    ∧ stagings Operand.A (gdmm 1 v12 m4223 0 (m4223.resident true) 'R').trace = [Loc.host] := by
  have h := staging_spec diag_ext zero_blas
  have h1 := h.1 (Call.gemm 1 (spd2.at_loc true) (spd2.at_loc true) 0 zeros2 'N' 'N')
    (by decide) (fun _ _ _ _ hc => by cases hc) (fun _ _ _ _ _ _ hc => by cases hc)
    Operand.A (by simp [Call.inputs])
  have hok : (gdmm 1 v12 m4223 0 (m4223.resident true) 'R').err ≠ some Err.assert := by
    rw [(gdmm_right 1 v12 m4223 0 (m4223.resident true) rfl rfl rfl).1]
    simp
  have h2 := h.2.1 1 v12 m4223 0 (m4223.resident true) rfl hok
  exact ⟨h1.1, h1.2, h2.2.2.1⟩

/-- C21, counterexample: `gdmm(1, A, X, 0, Y, 'R')` with `A = [1, 2]` and `X` on
the host and `Y` on the device returns normally; its output is on the device,
`A` is one of its inputs, and the only staging of `A` in the log is on the
host. And `chol(A, L, 'L', FAIL)` with `A = [[4,2],[2,5]]` returns normally
with no staging of `A` in its log. -/
theorem gdmm_right_stages_on_host :
    (Call.gdmm 1 v12 m4223 0 (m4223.resident true) 'R').output_on_device = true
    ∧ Operand.A ∈ (Call.gdmm 1 v12 m4223 0 (m4223.resident true) 'R').inputs
    ∧ (gdmm 1 v12 m4223 0 (m4223.resident true) 'R').err = none
    ∧ stagings Operand.A (gdmm 1 v12 m4223 0 (m4223.resident true) 'R').trace = [Loc.host]
    ∧ mapped_before_call Loc.device Operand.A
        (gdmm 1 v12 m4223 0 (m4223.resident true) 'R').trace = false
    ∧ (chol spd_ext spd2 zeros2 'L' CholeskyStrategy.FAIL).err = none
    ∧ Operand.A ∈ (Call.chol spd2 zeros2 'L' CholeskyStrategy.FAIL).inputs
    ∧ stagings Operand.A (chol spd_ext spd2 zeros2 'L' CholeskyStrategy.FAIL).trace = [] := by
  have hst := gdmm_right_device_stagings 1 v12 m4223 0 (m4223.resident true) rfl
    ⟨rfl, rfl, rfl⟩
  refine ⟨rfl, by simp [Call.inputs],
    (gdmm_right 1 v12 m4223 0 (m4223.resident true) rfl rfl rfl).1, hst, ?_, ?_,
    by simp [Call.inputs], chol_stagings _ _ _ _ _ _ (by decide)⟩
  · cases hm : mapped_before_call Loc.device Operand.A
        (gdmm 1 v12 m4223 0 (m4223.resident true) 'R').trace with
    | false => rfl
    | true =>
      have hmem := mapped_mem_stagings _ _ _ hm
      rw [hst] at hmem
      simp at hmem
  · rw [(chol_no_retry spd_ext spd2 zeros2 'L' CholeskyStrategy.FAIL (by decide)
      (Or.inr rfl)).2.2, spd_first_attempt]
    simp

/-! ## Claims on `Loop` -/

/-- C27: for a `Loop` `l` and an `Expression` `o`. If `o` is not a `Loop`, then
`l == o`, `l < o`, `l <= o`, `l > o` and `l >= o` are false and `l != o` is
true. If `o` is a `Loop`, then `l == o` holds exactly when the conditions
compare `==` and the braces compare `==`; and if `!=` is the negation of `==`
on the two conditions and on the two braces, `l != o` is the negation of
`l == o`. -/
theorem loop_compare_spec {ε : Type} (V : ExprOps ε) (l : Loop ε) (o : Expression ε) :
    (∀ e, o = Expression.other e →
      l.eq V o = false ∧ l.lt V o = false ∧ l.le V o = false ∧ l.gt V o = false
      ∧ l.ge V o = false ∧ l.ne V o = true)
    ∧ (∀ expr, o = Expression.loop expr →
      (l.eq V o = true ↔
        V.eq l.cond expr.cond = true ∧ V.eq l.braces expr.braces = true)
      ∧ (V.ne l.cond expr.cond = !V.eq l.cond expr.cond →
          V.ne l.braces expr.braces = !V.eq l.braces expr.braces →
          l.ne V o = !l.eq V o)) := by
  constructor
  · intro e he
    subst he
    exact ⟨rfl, rfl, rfl, rfl, rfl, rfl⟩
  · intro expr he
    subst he
    constructor
    · show (V.eq l.cond expr.cond && V.eq l.braces expr.braces) = true ↔ _
      rw [Bool.and_eq_true]
    · intro h1 h2
      show (V.ne l.cond expr.cond || V.ne l.braces expr.braces)
        = !(V.eq l.cond expr.cond && V.eq l.braces expr.braces)
      rw [h1, h2, Bool.not_and]

/-- Witness of C27, with numbers for the sub-expressions: the loop `(1, 2)`
equals the loop `(1, 2)`, differs from the loop `(1, 3)` and from an
expression that is not a loop. -/
theorem loop_compare_spec_witness :
    Loop.eq nat_ops { cond := 1, braces := 2 } (Expression.loop { cond := 1, braces := 2 }) = true
    ∧ Loop.ne nat_ops { cond := 1, braces := 2 }
        (Expression.loop { cond := 1, braces := 3 })
        = !Loop.eq nat_ops { cond := 1, braces := 2 }
            (Expression.loop { cond := 1, braces := 3 })
    ∧ Loop.ne nat_ops { cond := 1, braces := 2 } (Expression.other 7) = true := by
  have h1 := (loop_compare_spec nat_ops { cond := 1, braces := 2 }
    (Expression.loop { cond := 1, braces := 2 })).2 { cond := 1, braces := 2 } rfl
  have h2 := (loop_compare_spec nat_ops { cond := 1, braces := 2 }
    (Expression.loop { cond := 1, braces := 3 })).2 { cond := 1, braces := 3 } rfl
  have h3 := (loop_compare_spec nat_ops { cond := 1, braces := 2 }
    (Expression.other 7)).1 7 rfl
  exact ⟨h1.1.mpr ⟨rfl, rfl⟩, h2.2 rfl rfl, h3.2.2.2.2.2⟩

end bi
